import Mathlib

/-!
DoViBakerVS: frame reconstruction and resampling pipeline.

A shallow embedding of `src/DoViBakerVS/DoViBakerVS.cpp`.

* A plane is a rectangle of 16-bit samples.  A row pointer of the source is
  modelled by the row it points at (pointers only ever move by whole
  pitches), and `p[w]` by `Plane.get row w`, which is `none` as soon as the
  sample lies outside the plane.
* Every pixel routine is first translated into the list of stores it
  performs, in program order (the `Stores` definitions).  The value of a
  store is `none` when computing it needs a sample outside a plane; the
  store itself is `none` when its address needs an element outside a
  row-pointer array.
* `Frame.exec` replays the stores on the destination frame and fails on the
  first such `none` and on the first store outside the destination.
* The mapping engine (`DoViProcessor`) is an external collaborator: its
  sample functions are parameters.
-/

set_option autoImplicit false

namespace DoViBaker

/-! ## Planes, frames and stores -/

/-- A plane of 16-bit samples; `px r c` is the sample of row `r` and column
`c`, meaningful for `r < height` and `c < width`. -/
structure Plane where
  height : Nat
  width : Nat
  px : Nat → Nat → Nat

/-- The read `p[col]` through a pointer `p` to row `row` of the plane:
`none` when the sample is not inside the plane. -/
def Plane.get (p : Plane) (row col : Int) : Option Nat :=
  if 0 ≤ row ∧ row < p.height ∧ 0 ≤ col ∧ col < p.width then
    some (p.px row.toNat col.toNat)
  else none

/-- The write `p[col] = v` through a pointer `p` to row `row`: `none` when
the position is not inside the plane. -/
def Plane.set (p : Plane) (row col : Int) (v : Nat) : Option Plane :=
  if 0 ≤ row ∧ row < p.height ∧ 0 ≤ col ∧ col < p.width then
    some ⟨p.height, p.width, fun r c => if r = row.toNat ∧ c = col.toNat then v else p.px r c⟩
  else none

/-- The samples of the plane are `uint16_t` values. -/
def Plane.Is16 (p : Plane) : Prop := ∀ r c, r < p.height → c < p.width → p.px r c < 65536

/-- Colour families of `VSVideoFormat` used by the filter. -/
inductive ColorFamily where
  | cfUndefined
  | cfGray
  | cfRGB
  | cfYUV
  deriving DecidableEq, Repr

/-- The fields of `VSVideoFormat` the filter looks at. -/
structure VSVideoFormat where
  colorFamily : ColorFamily
  bitsPerSample : Nat
  subSamplingW : Nat
  subSamplingH : Nat
  deriving DecidableEq, Repr

/-- The result of `core.query_video_format(family, stInteger, bits, ssW, ssH)`. -/
def query_video_format (cf : ColorFamily) (bits ssW ssH : Nat) : VSVideoFormat :=
  ⟨cf, bits, ssW, ssH⟩

/-- The fields of `VSVideoInfo` the filter looks at. -/
structure VSVideoInfo where
  format : VSVideoFormat
  width : Nat
  height : Nat
  numFrames : Nat
  deriving DecidableEq, Repr

/-- A value of a frame property. -/
inductive PropValue where
  | int (v : Int)
  | data (bytes : List Nat)
  deriving DecidableEq, Repr

/-- A video frame: its format, its three planes (`planes 0`, `planes 1`,
`planes 2`) and its property map (key, values). -/
structure Frame where
  format : VSVideoFormat
  planes : Nat → Plane
  props : List (String × List PropValue)

/-- The frame `core.new_video_frame(format, width, height, propSrc)`: plane 0
has the frame size, planes 1 and 2 are shifted by the format's subsampling,
and the properties are those of `propSrc`.  The content of a new frame is
unspecified; the model fills it with zeros. -/
def new_video_frame (format : VSVideoFormat) (width height : Nat) (propSrc : Option Frame) :
    Frame where
  format := format
  planes := fun p =>
    if p = 0 then ⟨height, width, fun _ _ => 0⟩
    else ⟨height >>> format.subSamplingH, width >>> format.subSamplingW, fun _ _ => 0⟩
  props := match propSrc with
    | some f => f.props
    | none => []

/-- The call `frame_props_rw().set_prop(key, value)` with an integer value:
the values of `key` are replaced by the single value. -/
def Frame.set_prop (f : Frame) (key : String) (value : Int) : Frame :=
  { f with props := f.props.filter (fun kv => kv.1 != key) ++ [(key, [PropValue.int value])] }

/-- The values stored under `key`, if the map contains the key. -/
def Frame.prop (f : Frame) (key : String) : Option (List PropValue) :=
  (f.props.find? (fun kv => kv.1 == key)).map (fun kv => kv.2)

/-- One store `dst.plane[row][col] = val`; `val` is `none` when the value
depends on a sample read outside a plane. -/
structure Store where
  plane : Nat
  row : Int
  col : Int
  val : Option Nat
  deriving DecidableEq, Repr

/-- Perform one store on a frame; `none` when it falls outside the plane or
its value is undefined. -/
def Frame.store (f : Frame) (s : Store) : Option Frame :=
  match s.val with
  | none => none
  | some v =>
    match (f.planes s.plane).set s.row s.col v with
    | some p => some ⟨f.format, fun k => if k = s.plane then p else f.planes k, f.props⟩
    | none => none

/-- Replay a routine's stores in program order.  The result is `none` when
some store could not be computed (`none`) or falls outside the frame. -/
def Frame.exec (f : Frame) : List (Option Store) → Option Frame
  | [] => some f
  | none :: _ => none
  | some s :: rest =>
    match f.store s with
    | some f1 => f1.exec rest
    | none => none

/-- The store lands inside plane `s.plane` of the frame. -/
def Frame.InBounds (f : Frame) (s : Store) : Prop :=
  0 ≤ s.row ∧ s.row < (f.planes s.plane).height ∧ 0 ≤ s.col ∧ s.col < (f.planes s.plane).width

/-- The store writes sample `(r, c)` of plane `p`. -/
def Store.At (s : Store) (p r c : Nat) : Prop :=
  s.plane = p ∧ s.row = r ∧ s.col = c

/-- The positions `(plane, row, col)` a list of stores writes, in order. -/
def positions (tr : List (Option Store)) : List (Option (Nat × Int × Int)) :=
  tr.map (fun e => e.map (fun s => (s.plane, s.row, s.col)))

/-- All elements of a list of optional values, when none is missing. -/
def allSome {α : Type} : List (Option α) → Option (List α)
  | [] => some []
  | none :: _ => none
  | some a :: rest =>
    match allSome rest with
    | some as => some (a :: as)
    | none => none

/-- The values `lo, lo+1, …, hi-1` of a loop `for (int w = lo; w < hi; w++)`. -/
def forRange (lo hi : Int) : List Int :=
  (List.range (hi - lo).toNat).map (fun (k : Nat) => lo + (k : Int))

/-- A loop over `n` rows whose body works through row pointers `st` that are
advanced by `adv` at the end of every iteration; `h` is the loop counter. -/
def rowLoop {σ ε : Type} (adv : σ → σ) (body : Nat → σ → List ε) : Nat → Nat → σ → List ε
  | 0, _, _ => []
  | n + 1, h, st => body h st ++ rowLoop adv body n (h + 1) (adv st)

/-! ## The mapping engine (external) -/

/-- The type `upscaler_t`: an interpolation kernel called with a pointer to
the samples of the neighbourhood and the index of its centre.  The kernels
of `DoViProcessor` are external; as in the interface
`upsampleLumaEven/Odd(neighborhood, centerIndex)` a kernel is a function of
the `vertLen` samples it is pointed at. -/
abbrev upscaler_t := List Nat → Nat → Nat

/-- The static interpolation kernels of `DoViProcessor`. -/
structure Kernels where
  upsampleLumaEven : upscaler_t
  upsampleLumaOdd : upscaler_t
  upsampleChromaEven : upscaler_t
  upsampleChromaOdd : upscaler_t

/-- The interface of a leased `DoViProcessor` after `intializeFrame`
succeeded for the current frame. -/
structure DoViProcessor where
  processSampleY : Nat → Nat → Nat
  processSampleU : Nat → Nat → Nat → Nat → Nat → Nat
  processSampleV : Nat → Nat → Nat → Nat → Nat → Nat
  sample2rgb : Nat → Nat → Nat → Nat × Nat × Nat
  processTrim : Nat → Nat → Nat → Nat × Nat × Nat
  elProcessingEnabled : Bool
  trimProcessingEnabled : Bool
  isLimitedRangeOutput : Bool
  isSceneChange : Bool
  getDynamicMinPq : Int
  getDynamicMaxPq : Int
  getDynamicMaxContentLightLevel : Int
  getStaticMaxPq : Int
  getStaticMaxContentLightLevel : Int
  getStaticMaxAvgContentLightLevel : Int
  getStaticMasterDisplayMaxLuminance : Int
  getStaticMasterDisplayMinLuminance : Int

/-! ## Separable upsampler -/

/-- The samples `p[col], …, p[col + n - 1]` read through a pointer to row
`row` (`std::copy_n(&srcP[col], n, …)`, or the window a kernel is pointed
at). -/
def copy_n (src : Plane) (row col : Int) (n : Nat) : List (Option Nat) :=
  (List.range n).map (fun (k : Nat) => src.get row (col + (k : Int)))

/-- The row pointers `srcP[0 .. vertLen)` of `upsampleVert` for source row
`h0`: look-back taps are clamped at row 0, look-ahead taps at the last
row. -/
def vertRows (nD : Nat) (Dn0p : List Int) (srcHeight : Int) (h0 : Int) : List Int :=
  (List.range nD).map (fun i => max (h0 + Dn0p.getD i 0) 0)
    ++ [h0]
    ++ (List.range' (nD + 1) (Dn0p.length - (nD + 1))).map
        (fun i => min (h0 + Dn0p.getD i 0) (srcHeight - 1))

/-- The body of the row loop of `upsampleVert`; `st = (dstPeven, dstPodd)`. -/
def upsampleVertRow (nD : Nat) (Dn0p : List Int) (evenUpscaler oddUpscaler : upscaler_t)
    (src : Plane) (plane : Nat) (h0 : Nat) (st : Int × Int) : List (Option Store) :=
  let srcP := vertRows nD Dn0p src.height h0
  (List.range src.width).flatMap fun w =>
    let value := allSome (srcP.map (fun r => src.get r w))
    [ some ⟨plane, st.1, w, value.map (fun v => evenUpscaler v nD)⟩,
      some ⟨plane, st.2, w, value.map (fun v => oddUpscaler v nD)⟩ ]

/-- The stores of `upsampleVert<vertLen, nD>(dst, src, plane, Dn0p, even, odd)`
with `vertLen = Dn0p.length`; `src` is plane `plane` of the source frame. -/
def upsampleVertStores (nD : Nat) (Dn0p : List Int) (evenUpscaler oddUpscaler : upscaler_t)
    (src : Plane) (plane : Nat) : List (Option Store) :=
  rowLoop (fun st : Int × Int => (st.1 + 2, st.2 + 2))
    (upsampleVertRow nD Dn0p evenUpscaler oddUpscaler src plane) src.height 0 (0, 0 + 1)

/-- The routine `upsampleVert<vertLen, nD>`. -/
def upsampleVert (nD : Nat) (Dn0p : List Int) (evenUpscaler oddUpscaler : upscaler_t)
    (dst : Frame) (src : Frame) (plane : Nat) : Option Frame :=
  dst.exec (upsampleVertStores nD Dn0p evenUpscaler oddUpscaler (src.planes plane) plane)

/-- The two stores `dstP[2 * w]`, `dstP[2 * w + 1]` of one source column. -/
def horzPair (nD : Nat) (evenUpscaler oddUpscaler : upscaler_t) (plane : Nat) (dstP w : Int)
    (value : Option (List Nat)) : List (Option Store) :=
  [ some ⟨plane, dstP, 2 * w, value.map (fun v => evenUpscaler v nD)⟩,
    some ⟨plane, dstP, 2 * w + 1, value.map (fun v => oddUpscaler v nD)⟩ ]

/-- The body of the row loop of `upsampleHorz`; `st = (srcP, dstP)`. -/
def upsampleHorzRow (nD : Nat) (Dn0p : List Int) (evenUpscaler oddUpscaler : upscaler_t)
    (src : Plane) (plane : Nat) (_h : Nat) (st : Int × Int) : List (Option Store) :=
  let vertLen := Dn0p.length
  let srcWidth : Int := src.width
  let pD : Int := (vertLen : Int) - nD - 1
  -- Center region
  ((forRange nD (srcWidth - pD)).flatMap fun w =>
      horzPair nD evenUpscaler oddUpscaler plane st.2 w
        (allSome (copy_n src st.1 (w - nD) vertLen)))
  -- Left edge
  ++ ((forRange 0 nD).flatMap fun w =>
      horzPair nD evenUpscaler oddUpscaler plane st.2 w
        (allSome ((List.range nD).map (fun i => src.get st.1 (max (w + Dn0p.getD i 0) 0))
          ++ copy_n src st.1 w (pD + 1).toNat)))
  -- Right edge
  ++ ((forRange (srcWidth - pD) srcWidth).flatMap fun w =>
      horzPair nD evenUpscaler oddUpscaler plane st.2 w
        (allSome (copy_n src st.1 (w - nD) (nD + 1)
          ++ (List.range' (nD + 1) (vertLen - (nD + 1))).map
              (fun i => src.get st.1 (min (w + Dn0p.getD i 0) (srcWidth - 1))))))

/-- The stores of `upsampleHorz<vertLen, nD>(dst, src, plane, Dn0p, even, odd)`. -/
def upsampleHorzStores (nD : Nat) (Dn0p : List Int) (evenUpscaler oddUpscaler : upscaler_t)
    (src : Plane) (plane : Nat) : List (Option Store) :=
  rowLoop (fun st : Int × Int => (st.1 + 1, st.2 + 1))
    (upsampleHorzRow nD Dn0p evenUpscaler oddUpscaler src plane) src.height 0 (0, 0)

/-- The routine `upsampleHorz<vertLen, nD>`. -/
def upsampleHorz (nD : Nat) (Dn0p : List Int) (evenUpscaler oddUpscaler : upscaler_t)
    (dst : Frame) (src : Frame) (plane : Nat) : Option Frame :=
  dst.exec (upsampleHorzStores nD Dn0p evenUpscaler oddUpscaler (src.planes plane) plane)

/-- Tap offsets of the 5-tap luma instantiation `<5, 2>`. -/
def lumaTaps : List Int := [-2, -1, 0, 1, 2]

/-- Tap offsets of the 4-tap chroma instantiation `<4, 1>`. -/
def chromaTaps : List Int := [-1, 0, 1, 2]

/-- The frame after a store of `v` that is inside the frame. -/
def Frame.stored (f : Frame) (s : Store) (v : Nat) : Frame :=
  ⟨f.format, fun k =>
    if k = s.plane then
      ⟨(f.planes s.plane).height, (f.planes s.plane).width, fun r c =>
        if r = s.row.toNat ∧ c = s.col.toNat then v else (f.planes s.plane).px r c⟩
    else f.planes k, f.props⟩

/-! ## Replicate-edge reference of the upsampler -/

/-- The index `x` clamped to `[lo, hi]`. -/
def clamp (x lo hi : Int) : Int := max lo (min x hi)

/-- The neighbourhood `n[i] = src[clamp(h + D[i], 0, H-1)][w]` of the
replicate-edge reference of a vertical pass. -/
def vertNeighbors (Dn0p : List Int) (src : Plane) (h w : Nat) : List Nat :=
  Dn0p.map (fun d => src.px (clamp (h + d) 0 (src.height - 1)).toNat w)

/-- The neighbourhood `n[i] = src[h][clamp(w + D[i], 0, W-1)]` of the
replicate-edge reference of a horizontal pass. -/
def horzNeighbors (Dn0p : List Int) (src : Plane) (h w : Nat) : List Nat :=
  Dn0p.map (fun d => src.px h (clamp (w + d) 0 (src.width - 1)).toNat)

/-- The stores of the replicate-edge reference of a vertical pass, row by
row and column by column. -/
def vertRefStores (nD : Nat) (Dn0p : List Int) (evenUpscaler oddUpscaler : upscaler_t)
    (src : Plane) (plane : Nat) : List (Option Store) :=
  (List.range src.height).flatMap fun h0 =>
    (List.range src.width).flatMap fun w =>
      [ some ⟨plane, 2 * (h0 : Int), w, some (evenUpscaler (vertNeighbors Dn0p src h0 w) nD)⟩,
        some ⟨plane, 2 * (h0 : Int) + 1, w, some (oddUpscaler (vertNeighbors Dn0p src h0 w) nD)⟩ ]

/-- The order in which `upsampleHorz` visits the source columns of a row:
centre region, left edge, right edge. -/
def horzColumns (nD : Nat) (Dn0p : List Int) (srcWidth : Int) : List Int :=
  forRange nD (srcWidth - ((Dn0p.length : Int) - nD - 1))
    ++ forRange 0 nD
    ++ forRange (srcWidth - ((Dn0p.length : Int) - nD - 1)) srcWidth

/-- The stores of the replicate-edge reference of a horizontal pass, in the
column order of `upsampleHorz`. -/
def horzRefStores (nD : Nat) (Dn0p : List Int) (evenUpscaler oddUpscaler : upscaler_t)
    (src : Plane) (plane : Nat) : List (Option Store) :=
  (List.range src.height).flatMap fun h =>
    (horzColumns nD Dn0p src.width).flatMap fun w =>
      horzPair nD evenUpscaler oddUpscaler plane h w (some (horzNeighbors Dn0p src h w.toNat))

/-- Two planes have the same size and the same samples. -/
def Plane.Same (p q : Plane) : Prop :=
  p.height = q.height ∧ p.width = q.width ∧ ∀ r c, r < p.height → c < p.width → p.px r c = q.px r c

/-- The plane a replicate-edge vertical pass produces from `src`: twice the
height, row `2h` from the even kernel and row `2h+1` from the odd kernel. -/
def vertRefPlane (nD : Nat) (Dn0p : List Int) (evenUpscaler oddUpscaler : upscaler_t)
    (src : Plane) : Plane where
  height := 2 * src.height
  width := src.width
  px := fun r c =>
    if r % 2 = 0 then evenUpscaler (vertNeighbors Dn0p src (r / 2) c) nD
    else oddUpscaler (vertNeighbors Dn0p src (r / 2) c) nD

/-- The plane a replicate-edge horizontal pass produces from `src`: twice the
width, column `2w` from the even kernel and column `2w+1` from the odd
kernel. -/
def horzRefPlane (nD : Nat) (Dn0p : List Int) (evenUpscaler oddUpscaler : upscaler_t)
    (src : Plane) : Plane where
  height := src.height
  width := 2 * src.width
  px := fun r c =>
    if c % 2 = 0 then evenUpscaler (horzNeighbors Dn0p src r (c / 2)) nD
    else oddUpscaler (horzNeighbors Dn0p src r (c / 2)) nD

/-- The 5-tap luma upsampling, vertical pass first. -/
def lumaUp (k : Kernels) (src : Plane) : Plane :=
  horzRefPlane 2 lumaTaps k.upsampleLumaEven k.upsampleLumaOdd
    (vertRefPlane 2 lumaTaps k.upsampleLumaEven k.upsampleLumaOdd src)

/-- The 4-tap chroma upsampling, vertical pass first. -/
def chromaUp (k : Kernels) (src : Plane) : Plane :=
  horzRefPlane 1 chromaTaps k.upsampleChromaEven k.upsampleChromaOdd
    (vertRefPlane 1 chromaTaps k.upsampleChromaEven k.upsampleChromaOdd src)

/-! ## applyDovi -/

/-- The value `(flag ? 1 : 0)`. -/
def b2n (flag : Bool) : Nat := if flag then 1 else 0

/-- The row pointers of `applyDovi`. -/
structure ApplyPtrs where
  blSrcYp : List Int
  elSrcYp : List Int
  dstYp : List Int
  blSrcUp : Int
  elSrcUp : Int
  dstUp : Int
  blSrcVp : Int
  elSrcVp : Int
  dstVp : Int

/-- The row pointers before the first row: `…Yp[0]` at row 0 and, when
`chromaSubsampling`, `…Yp[1]` one pitch further. -/
def ApplyPtrs.init (chromaSubsampling : Bool) : ApplyPtrs where
  blSrcYp := if chromaSubsampling then [0, 0 + 1] else [0]
  elSrcYp := if chromaSubsampling then [0, 0 + 1] else [0]
  dstYp := if chromaSubsampling then [0, 0 + 1] else [0]
  blSrcUp := 0
  elSrcUp := 0
  dstUp := 0
  blSrcVp := 0
  elSrcVp := 0
  dstVp := 0

/-- The block "Advance row pointers" at the end of a row of `applyDovi`. -/
def ApplyPtrs.advance (chromaSubsampling : Bool) (st : ApplyPtrs) : ApplyPtrs where
  blSrcYp := st.blSrcYp.map (fun p => p + 1 * (if chromaSubsampling then 2 else 1))
  elSrcYp := st.elSrcYp.map (fun p => p + 1 * (if chromaSubsampling then 2 else 1))
  dstYp := st.dstYp.map (fun p => p + 1 * (if chromaSubsampling then 2 else 1))
  blSrcUp := st.blSrcUp + 1
  elSrcUp := st.elSrcUp + 1
  dstUp := st.dstUp + 1
  blSrcVp := st.blSrcVp + 1
  elSrcVp := st.elSrcVp + 1
  dstVp := st.dstVp + 1

/-- The store `dstYp[j][w] = proc.processSampleY(blSrcYp[j][w], elSrcYp[j][w])`. -/
def applyLumaStore (proc : DoViProcessor) (blY elY : Plane) (st : ApplyPtrs) (j : Nat)
    (w : Int) : Option Store := do
  let b ← st.blSrcYp[j]?
  let e ← st.elSrcYp[j]?
  let d ← st.dstYp[j]?
  pure ⟨0, d, w, do
    let x ← blY.get b w
    let y ← elY.get e w
    pure (proc.processSampleY x y)⟩

/-- The loops over `j` and `i` that combine the luma samples belonging to
chroma column `wuv`; `n` is the number of luma rows and columns per chroma
sample. -/
def applyLumaBlock (proc : DoViProcessor) (blY elY : Plane) (st : ApplyPtrs) (n : Nat)
    (wuv : Int) : List (Option Store) :=
  (List.range n).flatMap fun (j : Nat) =>
    (List.range n).map fun (i : Nat) =>
      applyLumaStore proc blY elY st j ((n : Int) * wuv + (i : Int))

/-- The narrowing `uint16_t mmrBlY = ((mmrBlY1 >> 2) + (mmrBlY2 >> 2) + 1) >> 1`. -/
def mmrNarrow (mmrBlY1 mmrBlY2 : Nat) : Nat :=
  (((mmrBlY1 >>> 2) + (mmrBlY2 >>> 2) + 1) >>> 1) % 65536

/-- The sum `mmrBlY1` (row `j = 0`) or `mmrBlY2` (row `j = 1`) at the left edge. -/
def mmrLeft (blY : Plane) (st : ApplyPtrs) (j : Nat) (wuv : Int) : Option Nat := do
  let r ← st.blSrcYp[j]?
  let a ← blY.get r (2 * wuv)
  let b ← blY.get r (2 * wuv + 1)
  pure (3 * a + b + 2)

/-- The sum `mmrBlY1` or `mmrBlY2` in the centre region. -/
def mmrCentre (blY : Plane) (st : ApplyPtrs) (j : Nat) (wuv : Int) : Option Nat := do
  let r ← st.blSrcYp[j]?
  let a ← blY.get r (2 * wuv - 1)
  let b ← blY.get r (2 * wuv)
  let c ← blY.get r (2 * wuv + 1)
  pure (a + 2 * b + c + 2)

/-- The sum `mmrBlY1` or `mmrBlY2` at the right edge. -/
def mmrRight (blY : Plane) (st : ApplyPtrs) (j : Nat) (wuv : Int) : Option Nat := do
  let r ← st.blSrcYp[j]?
  let a ← blY.get r (2 * wuv - 1)
  let b ← blY.get r (2 * wuv)
  pure (a + 3 * b + 2)

/-- The two stores `dstUp[wuv] = processSampleU(…)`, `dstVp[wuv] =
processSampleV(…)` with luma proxy `mmrBlY`. -/
def applyChromaStores (proc : DoViProcessor) (blU blV elU elV : Plane) (st : ApplyPtrs)
    (wuv : Int) (mmrBlY : Option Nat) : List (Option Store) :=
  [ some ⟨1, st.dstUp, wuv, do
      let bu ← blU.get st.blSrcUp wuv
      let eu ← elU.get st.elSrcUp wuv
      let m ← mmrBlY
      let bv ← blV.get st.blSrcVp wuv
      pure (proc.processSampleU bu eu m bu bv)⟩,
    some ⟨2, st.dstVp, wuv, do
      let bv ← blV.get st.blSrcVp wuv
      let ev ← elV.get st.elSrcVp wuv
      let m ← mmrBlY
      let bu ← blU.get st.blSrcUp wuv
      pure (proc.processSampleV bv ev m bu bv)⟩ ]

/-- The body of the row loop of `applyDovi<chromaSubsampling>`. -/
def applyDoviRow (chromaSubsampling : Bool) (proc : DoViProcessor)
    (blSrcY blSrcUV elSrcY elSrcUV : Frame) (_huv : Nat) (st : ApplyPtrs) :
    List (Option Store) :=
  let blY := blSrcY.planes 0
  let elY := elSrcY.planes 0
  let blU := blSrcUV.planes 1
  let blV := blSrcUV.planes 2
  let elU := elSrcUV.planes 1
  let elV := elSrcUV.planes 2
  let blSrcWidthUV : Int := (blSrcUV.planes 1).width
  let csVal : Int := if chromaSubsampling then 1 else 0
  let n : Nat := if chromaSubsampling then 2 else 1
  -- Left edge
  (if chromaSubsampling then
      let wuv : Int := 0
      applyLumaBlock proc blY elY st 2 wuv
        ++ applyChromaStores proc blU blV elU elV st wuv
            (do let m1 ← mmrLeft blY st 0 wuv
                let m2 ← mmrLeft blY st 1 wuv
                pure (mmrNarrow m1 m2))
    else [])
  -- Center region
  ++ ((forRange csVal (blSrcWidthUV - csVal)).flatMap fun wuv =>
      applyLumaBlock proc blY elY st n wuv
        ++ applyChromaStores proc blU blV elU elV st wuv
            (if chromaSubsampling then do
                let m1 ← mmrCentre blY st 0 wuv
                let m2 ← mmrCentre blY st 1 wuv
                pure (mmrNarrow m1 m2)
              else do
                let r ← st.blSrcYp[0]?
                blY.get r wuv))
  -- Right edge
  ++ (if chromaSubsampling then
      let wuv : Int := blSrcWidthUV - 1
      applyLumaBlock proc blY elY st 2 wuv
        ++ applyChromaStores proc blU blV elU elV st wuv
            (do let m1 ← mmrRight blY st 0 wuv
                let m2 ← mmrRight blY st 1 wuv
                pure (mmrNarrow m1 m2))
    else [])

/-- The stores of `applyDovi<chromaSubsampling>(dst, blSrcY, blSrcUV, elSrcY,
elSrcUV, proc)`. -/
def applyDoviStores (chromaSubsampling : Bool) (proc : DoViProcessor)
    (blSrcY blSrcUV elSrcY elSrcUV : Frame) : List (Option Store) :=
  rowLoop (ApplyPtrs.advance chromaSubsampling)
    (applyDoviRow chromaSubsampling proc blSrcY blSrcUV elSrcY elSrcUV)
    (blSrcUV.planes 1).height 0 (ApplyPtrs.init chromaSubsampling)

/-- The routine `applyDovi<chromaSubsampling>`. -/
def applyDovi (chromaSubsampling : Bool) (proc : DoViProcessor) (dst : Frame)
    (blSrcY blSrcUV elSrcY elSrcUV : Frame) : Option Frame :=
  dst.exec (applyDoviStores chromaSubsampling proc blSrcY blSrcUV elSrcY elSrcUV)

/-- The luma proxy of chroma sample `(i, j)` as the specification describes
it: the co-located luma sample without subsampling; with subsampling the
rounded mean `(ra + rb + 1) >> 1` of the two luma rows `2i`, `2i+1`, each
filtered with the weights 3:1 at the first column, 1:3 at the last column and
1:2:1 in between. -/
def lumaProxy (chromaSubsampling : Bool) (blY : Plane) (widthUV : Nat) (i j : Nat) : Nat :=
  if chromaSubsampling then
    let rowTerm : Nat → Nat := fun r =>
      if j = 0 then (3 * blY.px r 0 + blY.px r 1 + 2) >>> 2
      else if j = widthUV - 1 then (blY.px r (2 * j - 1) + 3 * blY.px r (2 * j) + 2) >>> 2
      else (blY.px r (2 * j - 1) + 2 * blY.px r (2 * j) + blY.px r (2 * j + 1) + 2) >>> 2
    (rowTerm (2 * i) + rowTerm (2 * i + 1) + 1) >>> 1
  else blY.px i j

/-- The order in which `applyDovi` visits the chroma columns of a row: left
edge, centre region, right edge. -/
def applyColumns (chromaSubsampling : Bool) (widthUV : Int) : List Int :=
  (if chromaSubsampling then [0] else [])
    ++ forRange (if chromaSubsampling then 1 else 0)
        (widthUV - (if chromaSubsampling then 1 else 0))
    ++ (if chromaSubsampling then [widthUV - 1] else [])

/-- The stores that combine chroma sample `(huv, wuv)` and the luma samples
that belong to it, as the specification describes them. -/
def applyRefBlock (chromaSubsampling : Bool) (proc : DoViProcessor)
    (blY elY blU blV elU elV : Plane) (huv wuv : Nat) : List (Option Store) :=
  let n : Nat := if chromaSubsampling then 2 else 1
  ((List.range n).flatMap fun j =>
    (List.range n).map fun i =>
      some ⟨0, ((n * huv + j : Nat) : Int), ((n * wuv + i : Nat) : Int),
        some (proc.processSampleY (blY.px (n * huv + j) (n * wuv + i))
          (elY.px (n * huv + j) (n * wuv + i)))⟩)
  ++ [ some ⟨1, (huv : Int), (wuv : Int),
          some (proc.processSampleU (blU.px huv wuv) (elU.px huv wuv)
            (lumaProxy chromaSubsampling blY blU.width huv wuv) (blU.px huv wuv)
            (blV.px huv wuv))⟩,
       some ⟨2, (huv : Int), (wuv : Int),
          some (proc.processSampleV (blV.px huv wuv) (elV.px huv wuv)
            (lumaProxy chromaSubsampling blY blU.width huv wuv) (blU.px huv wuv)
            (blV.px huv wuv))⟩ ]

/-- The stores of the sample-by-sample combination as the specification
describes them, in the column order of `applyDovi`. -/
def applyDoviRefStores (chromaSubsampling : Bool) (proc : DoViProcessor)
    (blSrcY blSrcUV elSrcY elSrcUV : Frame) : List (Option Store) :=
  (List.range (blSrcUV.planes 1).height).flatMap fun huv =>
    (applyColumns chromaSubsampling (blSrcUV.planes 1).width).flatMap fun wuv =>
      applyRefBlock chromaSubsampling proc (blSrcY.planes 0) (elSrcY.planes 0)
        (blSrcUV.planes 1) (blSrcUV.planes 2) (elSrcUV.planes 1) (elSrcUV.planes 2)
        huv wuv.toNat

/-- The plane sizes `applyDovi<chromaSubsampling>` is called with: chroma
planes of `heightUV` rows and `widthUV` columns, luma planes `n` times as
large in each direction (`n = 2` with subsampling, else 1). -/
structure ApplyShapes (chromaSubsampling : Bool) (dst blSrcY blSrcUV elSrcY elSrcUV : Frame)
    (heightUV widthUV : Nat) : Prop where
  blY_h : (blSrcY.planes 0).height = (if chromaSubsampling then 2 else 1) * heightUV
  blY_w : (blSrcY.planes 0).width = (if chromaSubsampling then 2 else 1) * widthUV
  elY_h : (elSrcY.planes 0).height = (if chromaSubsampling then 2 else 1) * heightUV
  elY_w : (elSrcY.planes 0).width = (if chromaSubsampling then 2 else 1) * widthUV
  dstY_h : (dst.planes 0).height = (if chromaSubsampling then 2 else 1) * heightUV
  dstY_w : (dst.planes 0).width = (if chromaSubsampling then 2 else 1) * widthUV
  blU_h : (blSrcUV.planes 1).height = heightUV
  blU_w : (blSrcUV.planes 1).width = widthUV
  blV_h : (blSrcUV.planes 2).height = heightUV
  blV_w : (blSrcUV.planes 2).width = widthUV
  elU_h : (elSrcUV.planes 1).height = heightUV
  elU_w : (elSrcUV.planes 1).width = widthUV
  elV_h : (elSrcUV.planes 2).height = heightUV
  elV_w : (elSrcUV.planes 2).width = widthUV
  dstU_h : (dst.planes 1).height = heightUV
  dstU_w : (dst.planes 1).width = widthUV
  dstV_h : (dst.planes 2).height = heightUV
  dstV_w : (dst.planes 2).width = widthUV

/-- The row pointers of `applyDovi<true>` in chroma row `huv`. -/
def ptrsTrue (huv : Nat) : ApplyPtrs :=
  ⟨[2 * (huv : Int), 2 * (huv : Int) + 1], [2 * (huv : Int), 2 * (huv : Int) + 1],
    [2 * (huv : Int), 2 * (huv : Int) + 1], huv, huv, huv, huv, huv, huv⟩

/-! ## The filter object and doAllQuickAndDirty -/

/-- The members of `DoViBakerVS` that the frame routines read. -/
structure DoViBakerVS where
  m_vi : VSVideoInfo
  m_blVi : VSVideoInfo
  m_elVi : VSVideoInfo
  m_qnd : Bool
  m_outYUV : Bool
  m_rgbProof : Bool
  m_blChromaSubSampled : Bool
  m_elChromaSubSampled : Bool
  m_quarterResolutionEl : Bool
  m_hasEl : Bool

/-- The constant `blYvsElUVshifts`. -/
def blYvsElUVshifts (elChromaSubsampling quarterResolutionEl : Bool) : Nat :=
  b2n elChromaSubsampling + b2n quarterResolutionEl

/-- The constant `blUVvsElUVshifts`, a `std::max` with 0 of an `int`. -/
def blUVvsElUVshifts (blChromaSubsampling elChromaSubsampling quarterResolutionEl : Bool) : Nat :=
  (max ((b2n quarterResolutionEl : Int) + (b2n elChromaSubsampling : Int)
    - (b2n blChromaSubsampling : Int)) 0).toNat

/-- The row-pointer arrays of `doAllQuickAndDirty`; the length of a list is
the size of the `std::array`. -/
structure QndPtrs where
  blSrcYp : List Int
  elSrcYp : List Int
  dstRp : List Int
  blSrcUp : List Int
  elSrcUp : List Int
  dstGp : List Int
  blSrcVp : List Int
  elSrcVp : List Int
  dstBp : List Int

/-- An array of `n` row pointers after "Initialize pointer arrays": element 0
points at row 0 and element `i` lies one pitch after element `i - 1`. -/
def initRows (n : Nat) : List Int := (List.range n).map (fun (i : Nat) => (i : Int))

/-- The row-pointer arrays before the first row. -/
def QndPtrs.init (blCs elCs qEl : Bool) : QndPtrs where
  blSrcYp := initRows (1 <<< blYvsElUVshifts elCs qEl)
  elSrcYp := initRows (1 <<< b2n elCs)
  dstRp := initRows (1 <<< blYvsElUVshifts elCs qEl)
  blSrcUp := initRows (1 <<< blUVvsElUVshifts blCs elCs qEl)
  elSrcUp := initRows 1
  dstGp := initRows (1 <<< blYvsElUVshifts elCs qEl)
  blSrcVp := initRows (1 <<< blUVvsElUVshifts blCs elCs qEl)
  elSrcVp := initRows 1
  dstBp := initRows (1 <<< blYvsElUVshifts elCs qEl)

/-- The block "Advance pointers" at the end of a row of EL chroma samples. -/
def QndPtrs.advance (st : QndPtrs) : QndPtrs where
  elSrcVp := st.elSrcVp.map (fun p => p + 1)
  elSrcUp := st.elSrcUp.map (fun p => p + 1)
  elSrcYp := st.elSrcYp.map (fun p => p + 1 * (st.elSrcYp.length : Int))
  blSrcVp := st.blSrcVp.map (fun p => p + 1 * (st.blSrcVp.length : Int))
  blSrcUp := st.blSrcUp.map (fun p => p + 1 * (st.blSrcVp.length : Int))
  blSrcYp := st.blSrcYp.map (fun p => p + 1 * (st.blSrcYp.length : Int))
  dstRp := st.dstRp.map (fun p => p + 1 * (st.blSrcYp.length : Int))
  dstGp := st.dstGp.map (fun p => p + 1 * (st.blSrcYp.length : Int))
  dstBp := st.dstBp.map (fun p => p + 1 * (st.blSrcYp.length : Int))

/-- The read `arr[i][col]` through element `i` of a row-pointer array: `none`
when `i` is not below the size of the array or the sample is outside the
plane. -/
def readAt (p : Plane) (arr : List Int) (i : Nat) (col : Nat) : Option Nat := do
  let r ← arr[i]?
  p.get r (col : Int)

/-- The store of component `pick (r, g, b)` to `arr[i][col]` of plane `plane`:
`none` when `i` is not below the size of the array. -/
def storeAt (plane : Nat) (arr : List Int) (i : Nat) (col : Nat)
    (rgb : Option (Nat × Nat × Nat)) (pick : Nat × Nat × Nat → Nat) : Option Store := do
  let r ← arr[i]?
  pure ⟨plane, r, (col : Int), rgb.map pick⟩

/-- The body of the loop over `weluv` of `doAllQuickAndDirty`. -/
def qndSample (blCs elCs qEl : Bool) (proc : DoViProcessor) (blSrc elSrc : Frame)
    (st : QndPtrs) (weluv : Nat) : List (Option Store) :=
  let elu := readAt (elSrc.planes 1) st.elSrcUp 0 weluv
  let elv := readAt (elSrc.planes 2) st.elSrcVp 0 weluv
  (List.range (1 <<< blUVvsElUVshifts blCs elCs qEl)).flatMap fun hDbluv =>
    (List.range (1 <<< blUVvsElUVshifts blCs elCs qEl)).flatMap fun wDbluv =>
      let wbluv := (weluv <<< blUVvsElUVshifts blCs elCs qEl) + wDbluv
      let blu := readAt (blSrc.planes 1) st.blSrcUp hDbluv wbluv
      let blv := readAt (blSrc.planes 2) st.blSrcVp hDbluv wbluv
      let hDbluvy := hDbluv <<< b2n blCs
      let wbluvy := wbluv <<< b2n blCs
      let mmrbly := readAt (blSrc.planes 0) st.blSrcYp hDbluvy wbluvy
      let u : Option Nat := do
        let blu ← blu; let elu ← elu; let mmrbly ← mmrbly; let blv ← blv
        pure (proc.processSampleU blu elu mmrbly blu blv)
      let v : Option Nat := do
        let blv ← blv; let elv ← elv; let mmrbly ← mmrbly; let blu ← blu
        pure (proc.processSampleV blv elv mmrbly blu blv)
      (List.range (if blCs then 2 else 1)).flatMap fun hDbly =>
        (List.range (if blCs then 2 else 1)).flatMap fun wDbly =>
          let hDDbly := hDbluvy + hDbly
          let wbly := wbluvy + wDbly
          let bly := readAt (blSrc.planes 0) st.blSrcYp hDDbly wbly
          let hDely := hDDbly >>> b2n qEl
          let wely := wbly >>> b2n qEl
          let ely := readAt (elSrc.planes 0) st.elSrcYp hDely wely
          let rgb : Option (Nat × Nat × Nat) := do
            let bly ← bly; let ely ← ely; let u ← u; let v ← v
            pure (proc.sample2rgb (proc.processSampleY bly ely) u v)
          [ storeAt 0 st.dstRp hDDbly wbly rgb (fun c => c.1),
            storeAt 1 st.dstGp hDDbly wbly rgb (fun c => c.2.1),
            storeAt 2 st.dstBp hDDbly wbly rgb (fun c => c.2.2) ]

/-- The member `elSrcWidthUV` of `doAllQuickAndDirty`. -/
def elSrcWidthUV (self : DoViBakerVS) (blCs elCs : Bool) : Nat :=
  if self.m_hasEl then self.m_elVi.width >>> b2n elCs else self.m_blVi.width >>> b2n blCs

/-- The stores of `doAllQuickAndDirty<blCs, elCs, qEl>(dst, blSrc, elSrc, proc)`. -/
def doAllQuickAndDirtyStores (self : DoViBakerVS) (blCs elCs qEl : Bool) (proc : DoViProcessor)
    (blSrc elSrc : Frame) : List (Option Store) :=
  rowLoop QndPtrs.advance
    (fun _heluv st =>
      (List.range (elSrcWidthUV self blCs elCs)).flatMap fun weluv =>
        qndSample blCs elCs qEl proc blSrc elSrc st weluv)
    (elSrc.planes 1).height 0 (QndPtrs.init blCs elCs qEl)

/-- The routine `doAllQuickAndDirty<blCs, elCs, qEl>`. -/
def doAllQuickAndDirty (self : DoViBakerVS) (blCs elCs qEl : Bool) (proc : DoViProcessor)
    (dst blSrc elSrc : Frame) : Option Frame :=
  dst.exec (doAllQuickAndDirtyStores self blCs elCs qEl proc blSrc elSrc)

/-- The triple `sample2rgb (y, u, v)` combined from the BL luma sample at
`(r1, c1)`, the EL luma sample at `(r2, c2)`, the BL chroma samples at
`(r3, c3)`, the EL chroma samples at `(r4, c4)` and the BL luma sample at
`(r5, c5)` as luma proxy. -/
def qndValue (proc : DoViProcessor) (blSrc elSrc : Frame)
    (r1 c1 r2 c2 r3 c3 r4 c4 r5 c5 : Nat) : Nat × Nat × Nat :=
  proc.sample2rgb
    (proc.processSampleY ((blSrc.planes 0).px r1 c1) ((elSrc.planes 0).px r2 c2))
    (proc.processSampleU ((blSrc.planes 1).px r3 c3) ((elSrc.planes 1).px r4 c4)
      ((blSrc.planes 0).px r5 c5) ((blSrc.planes 1).px r3 c3) ((blSrc.planes 2).px r3 c3))
    (proc.processSampleV ((blSrc.planes 2).px r3 c3) ((elSrc.planes 2).px r4 c4)
      ((blSrc.planes 0).px r5 c5) ((blSrc.planes 1).px r3 c3) ((blSrc.planes 2).px r3 c3))

/-- The triple `doAllQuickAndDirty` is specified to write at destination
pixel `(h, w)`: `sample2rgb (y, u, v)` with `y` from the BL luma sample and
the EL luma sample at `(h >> q, w >> q)`, `u` and `v` from the BL chroma
samples at `(h >> bl, w >> bl)`, the EL chroma samples at
`(h >> (el + q), w >> (el + q))` and the luma proxy
`blY[(h >> bl) << bl][(w >> bl) << bl]`. -/
def qndPixel (blCs elCs qEl : Bool) (proc : DoViProcessor) (blSrc elSrc : Frame) (h w : Nat) :
    Nat × Nat × Nat :=
  qndValue proc blSrc elSrc h w (h >>> b2n qEl) (w >>> b2n qEl)
    (h >>> b2n blCs) (w >>> b2n blCs)
    (h >>> (b2n elCs + b2n qEl)) (w >>> (b2n elCs + b2n qEl))
    ((h >>> b2n blCs) <<< b2n blCs) ((w >>> b2n blCs) <<< b2n blCs)

/-- The three stores of the specified triple at pixel `(h, w)`. -/
def qndRefPixelStores (blCs elCs qEl : Bool) (proc : DoViProcessor) (blSrc elSrc : Frame)
    (h w : Nat) : List (Option Store) :=
  [ some ⟨0, (h : Int), (w : Int), some (qndPixel blCs elCs qEl proc blSrc elSrc h w).1⟩,
    some ⟨1, (h : Int), (w : Int), some (qndPixel blCs elCs qEl proc blSrc elSrc h w).2.1⟩,
    some ⟨2, (h : Int), (w : Int), some (qndPixel blCs elCs qEl proc blSrc elSrc h w).2.2⟩ ]

/-- The stores of the specified triples, in the order in which
`doAllQuickAndDirty` visits the pixels of an EL chroma grid of `hUV` rows and
`wUV` columns. -/
def qndRefStores (blCs elCs qEl : Bool) (proc : DoViProcessor) (blSrc elSrc : Frame)
    (hUV wUV : Nat) : List (Option Store) :=
  let s := blYvsElUVshifts elCs qEl
  let t := blUVvsElUVshifts blCs elCs qEl
  let bl := b2n blCs
  (List.range hUV).flatMap fun heluv =>
    (List.range wUV).flatMap fun weluv =>
      (List.range (1 <<< t)).flatMap fun hDbluv =>
        (List.range (1 <<< t)).flatMap fun wDbluv =>
          (List.range (1 <<< bl)).flatMap fun hDbly =>
            (List.range (1 <<< bl)).flatMap fun wDbly =>
              qndRefPixelStores blCs elCs qEl proc blSrc elSrc
                ((heluv <<< s) + (hDbluv <<< bl) + hDbly)
                ((weluv <<< s) + (wDbluv <<< bl) + wDbly)

/-- The plane sizes a geometry implies for `doAllQuickAndDirty`: an EL chroma
grid of `hUV` rows and `wUV` columns, a BL of `2^(el+q)` times that size, BL
chroma shifted by `bl`, EL luma shifted by `q`, and a destination of the BL
size; `elSrcWidthUV` is the EL chroma width. -/
structure QndShapes (flt : DoViBakerVS) (blCs elCs qEl : Bool) (dst blSrc elSrc : Frame)
    (hUV wUV : Nat) : Prop where
  widthUV : elSrcWidthUV flt blCs elCs = wUV
  elU_h : (elSrc.planes 1).height = hUV
  elU_w : (elSrc.planes 1).width = wUV
  elV_h : (elSrc.planes 2).height = hUV
  elV_w : (elSrc.planes 2).width = wUV
  blY_h : (blSrc.planes 0).height = hUV <<< blYvsElUVshifts elCs qEl
  blY_w : (blSrc.planes 0).width = wUV <<< blYvsElUVshifts elCs qEl
  blU_h : (blSrc.planes 1).height = (hUV <<< blYvsElUVshifts elCs qEl) >>> b2n blCs
  blU_w : (blSrc.planes 1).width = (wUV <<< blYvsElUVshifts elCs qEl) >>> b2n blCs
  blV_h : (blSrc.planes 2).height = (hUV <<< blYvsElUVshifts elCs qEl) >>> b2n blCs
  blV_w : (blSrc.planes 2).width = (wUV <<< blYvsElUVshifts elCs qEl) >>> b2n blCs
  elY_h : (elSrc.planes 0).height = (hUV <<< blYvsElUVshifts elCs qEl) >>> b2n qEl
  elY_w : (elSrc.planes 0).width = (wUV <<< blYvsElUVshifts elCs qEl) >>> b2n qEl
  dst_h : ∀ p, p < 3 → (dst.planes p).height = hUV <<< blYvsElUVshifts elCs qEl
  dst_w : ∀ p, p < 3 → (dst.planes p).width = wUV <<< blYvsElUVshifts elCs qEl

/-- An array of `n` row pointers whose element `i` points at row `i + m`. -/
def rowsFrom (n m : Nat) : List Int :=
  (List.range n).map (fun (j : Nat) => (j : Int) + ((m : Nat) : Int))

/-- The row-pointer arrays of `doAllQuickAndDirty` in EL chroma row `k`. -/
def qndPtrsAt (blCs elCs qEl : Bool) (k : Nat) : QndPtrs :=
  { blSrcYp := rowsFrom (1 <<< blYvsElUVshifts elCs qEl) (k * (1 <<< blYvsElUVshifts elCs qEl))
    elSrcYp := rowsFrom (1 <<< b2n elCs) (k * (1 <<< b2n elCs))
    dstRp := rowsFrom (1 <<< blYvsElUVshifts elCs qEl) (k * (1 <<< blYvsElUVshifts elCs qEl))
    blSrcUp := rowsFrom (1 <<< blUVvsElUVshifts blCs elCs qEl)
      (k * (1 <<< blUVvsElUVshifts blCs elCs qEl))
    elSrcUp := rowsFrom 1 k
    dstGp := rowsFrom (1 <<< blYvsElUVshifts elCs qEl) (k * (1 <<< blYvsElUVshifts elCs qEl))
    blSrcVp := rowsFrom (1 <<< blUVvsElUVshifts blCs elCs qEl)
      (k * (1 <<< blUVvsElUVshifts blCs elCs qEl))
    elSrcVp := rowsFrom 1 k
    dstBp := rowsFrom (1 <<< blYvsElUVshifts elCs qEl) (k * (1 <<< blYvsElUVshifts elCs qEl)) }

/-- The accesses of one innermost iteration of `doAllQuickAndDirty` are
valid: the indices into the row-pointer arrays are below the sizes of the
arrays, and the samples read lie inside the planes they are read from;
`k` is the EL chroma row, the other arguments are the loop counters. -/
structure QndIterOk (blCs elCs qEl : Bool) (blSrc elSrc : Frame)
    (k weluv hDbluv wDbluv hDbly wDbly : Nat) : Prop where
  idx_blSrcUp : hDbluv < 1 <<< blUVvsElUVshifts blCs elCs qEl
  idx_blSrcYp_proxy : hDbluv <<< b2n blCs < 1 <<< blYvsElUVshifts elCs qEl
  idx_blSrcYp : (hDbluv <<< b2n blCs) + hDbly < 1 <<< blYvsElUVshifts elCs qEl
  idx_elSrcYp : ((hDbluv <<< b2n blCs) + hDbly) >>> b2n qEl < 1 <<< b2n elCs
  elU_row : 0 + k < (elSrc.planes 1).height
  elU_col : weluv < (elSrc.planes 1).width
  elV_row : 0 + k < (elSrc.planes 2).height
  elV_col : weluv < (elSrc.planes 2).width
  blU_row : hDbluv + k * (1 <<< blUVvsElUVshifts blCs elCs qEl) < (blSrc.planes 1).height
  blU_col : (weluv <<< blUVvsElUVshifts blCs elCs qEl) + wDbluv < (blSrc.planes 1).width
  blV_row : hDbluv + k * (1 <<< blUVvsElUVshifts blCs elCs qEl) < (blSrc.planes 2).height
  blV_col : (weluv <<< blUVvsElUVshifts blCs elCs qEl) + wDbluv < (blSrc.planes 2).width
  proxy_row : (hDbluv <<< b2n blCs) + k * (1 <<< blYvsElUVshifts elCs qEl)
    < (blSrc.planes 0).height
  proxy_col : ((weluv <<< blUVvsElUVshifts blCs elCs qEl) + wDbluv) <<< b2n blCs
    < (blSrc.planes 0).width
  blY_row : (hDbluv <<< b2n blCs) + hDbly + k * (1 <<< blYvsElUVshifts elCs qEl)
    < (blSrc.planes 0).height
  blY_col : (((weluv <<< blUVvsElUVshifts blCs elCs qEl) + wDbluv) <<< b2n blCs) + wDbly
    < (blSrc.planes 0).width
  elY_row : (((hDbluv <<< b2n blCs) + hDbly) >>> b2n qEl) + k * (1 <<< b2n elCs)
    < (elSrc.planes 0).height
  elY_col : ((((weluv <<< blUVvsElUVshifts blCs elCs qEl) + wDbluv) <<< b2n blCs) + wDbly)
    >>> b2n qEl < (elSrc.planes 0).width

/-- The three stores of one innermost iteration of `doAllQuickAndDirty` when
its accesses are valid, with the rows and columns the code computes. -/
def qndIterStores (blCs elCs qEl : Bool) (proc : DoViProcessor) (blSrc elSrc : Frame)
    (k weluv hDbluv wDbluv hDbly wDbly : Nat) : List (Option Store) :=
  let nY := 1 <<< blYvsElUVshifts elCs qEl
  let t := blUVvsElUVshifts blCs elCs qEl
  let wbluv := (weluv <<< t) + wDbluv
  let hDbluvy := hDbluv <<< b2n blCs
  let wbluvy := wbluv <<< b2n blCs
  let hDDbly := hDbluvy + hDbly
  let wbly := wbluvy + wDbly
  let rgb := qndValue proc blSrc elSrc (hDDbly + k * nY) wbly
    ((hDDbly >>> b2n qEl) + k * (1 <<< b2n elCs)) (wbly >>> b2n qEl)
    (hDbluv + k * (1 <<< t)) wbluv (0 + k) weluv (hDbluvy + k * nY) wbluvy
  [ some ⟨0, ((hDDbly + k * nY : Nat) : Int), (wbly : Int), some rgb.1⟩,
    some ⟨1, ((hDDbly + k * nY : Nat) : Int), (wbly : Int), some rgb.2.1⟩,
    some ⟨2, ((hDDbly + k * nY : Nat) : Int), (wbly : Int), some rgb.2.2⟩ ]

/-- The positions of the three stores at pixel `(h, w)`. -/
def pixelPositions (h w : Nat) : List (Option (Nat × Int × Int)) :=
  [some (0, (h : Int), (w : Int)), some (1, (h : Int), (w : Int)), some (2, (h : Int), (w : Int))]

/-- The row of a position (0 for a missing one). -/
def posRow : Option (Nat × Int × Int) → Nat
  | some (_, r, _) => r.toNat
  | none => 0

/-- The column of a position (0 for a missing one). -/
def posCol : Option (Nat × Int × Int) → Nat
  | some (_, _, c) => c.toNat
  | none => 0

/-! ## RGB conversion, trim pass, EL upscaling and chroma upsampling -/

/-- The row pointers of `convert2rgb`. -/
structure RgbPtrs where
  srcYp : Int
  srcUp : Int
  srcVp : Int
  dstRp : Int
  dstGp : Int
  dstBp : Int

/-- The stores of `convert2rgb(dst, srcY, srcUV, proc)`. -/
def convert2rgbStores (proc : DoViProcessor) (srcY srcUV : Frame) : List (Option Store) :=
  rowLoop
    (fun (st : RgbPtrs) =>
      (⟨st.srcYp + 1, st.srcUp + 1, st.srcVp + 1, st.dstRp + 1, st.dstGp + 1, st.dstBp + 1⟩ :
        RgbPtrs))
    (fun _huv st =>
      (List.range (srcUV.planes 1).width).flatMap fun (wuv : Nat) =>
        let rgb : Option (Nat × Nat × Nat) := do
          let y ← (srcY.planes 0).get st.srcYp wuv
          let u ← (srcUV.planes 1).get st.srcUp wuv
          let v ← (srcUV.planes 2).get st.srcVp wuv
          pure (proc.sample2rgb y u v)
        [ some ⟨0, st.dstRp, wuv, rgb.map (fun c => c.1)⟩,
          some ⟨1, st.dstGp, wuv, rgb.map (fun c => c.2.1)⟩,
          some ⟨2, st.dstBp, wuv, rgb.map (fun c => c.2.2)⟩ ])
    (srcUV.planes 1).height 0 ⟨0, 0, 0, 0, 0, 0⟩

/-- The routine `convert2rgb`. -/
def convert2rgb (proc : DoViProcessor) (dst srcY srcUV : Frame) : Option Frame :=
  dst.exec (convert2rgbStores proc srcY srcUV)

/-- One call `proc.processTrim(dstP[0][w], dstP[1][w], dstP[2][w], srcP[0][w],
srcP[1][w], srcP[2][w])` of `applyTrim(dst, dst, proc)`: source and
destination are the same frame, so the samples are read from the frame as it
is at this point; `rows` are the rows the six pointers point at. -/
def applyTrimPixel (proc : DoViProcessor) (rows : Int) (f : Frame) (w : Nat) : Option Frame := do
  let r ← (f.planes 0).get rows w
  let g ← (f.planes 1).get rows w
  let b ← (f.planes 2).get rows w
  let c := proc.processTrim r g b
  let f ← f.store ⟨0, rows, w, some c.1⟩
  let f ← f.store ⟨1, rows, w, some c.2.1⟩
  f.store ⟨2, rows, w, some c.2.2⟩

/-- The row loop of `applyTrim(dst, dst, proc)`: `n` rows are left, the
pointers point at row `rows`. -/
def applyTrimRows (proc : DoViProcessor) (width : Nat) : Nat → Int → Frame → Option Frame
  | 0, _, f => some f
  | n + 1, rows, f =>
    match (List.range width).foldlM (applyTrimPixel proc rows) f with
    | some f1 => applyTrimRows proc width n (rows + 1) f1
    | none => none

/-- The call `applyTrim(dst, dst, proc)` of `get_frame`. -/
def applyTrim (self : DoViBakerVS) (proc : DoViProcessor) (dst : Frame) : Option Frame :=
  applyTrimRows proc self.m_vi.width self.m_vi.height 0 dst

/-- The routine `upscaleEl(src, dstVi, core)`: vertical pass into an
intermediate frame of half the target width, then horizontal pass. -/
def upscaleEl (self : DoViBakerVS) (k : Kernels) (src : Frame) (dstVi : VSVideoInfo) :
    Option Frame := do
  let mezFormat := query_video_format ColorFamily.cfYUV 16
    (if self.m_elChromaSubSampled then 1 else 0) (if self.m_elChromaSubSampled then 1 else 0)
  let mez := new_video_frame mezFormat (dstVi.width / 2) dstVi.height (some src)
  let mez ← upsampleVert 2 lumaTaps k.upsampleLumaEven k.upsampleLumaOdd mez src 0
  let mez ← upsampleVert 1 chromaTaps k.upsampleChromaEven k.upsampleChromaOdd mez src 1
  let mez ← upsampleVert 1 chromaTaps k.upsampleChromaEven k.upsampleChromaOdd mez src 2
  let dst := new_video_frame mezFormat dstVi.width dstVi.height (some src)
  let dst ← upsampleHorz 2 lumaTaps k.upsampleLumaEven k.upsampleLumaOdd dst mez 0
  let dst ← upsampleHorz 1 chromaTaps k.upsampleChromaEven k.upsampleChromaOdd dst mez 1
  upsampleHorz 1 chromaTaps k.upsampleChromaEven k.upsampleChromaOdd dst mez 2

/-- The stores of the loop "Copy luma directly": `height` calls
`memcpy(dstY, srcY, width * sizeof(uint16_t))`; `st = (srcY, dstY)`. -/
def copyLumaStores (src : Plane) (width height : Nat) : List (Option Store) :=
  rowLoop (fun st : Int × Int => (st.1 + 1, st.2 + 1))
    (fun _h st => (List.range width).map fun (w : Nat) => some ⟨0, st.2, w, src.get st.1 w⟩)
    height 0 (0, 0)

/-- The routine `upsampleChroma(src, dstVi, core)`: luma is copied, chroma is
upsampled vertically into an intermediate frame and then horizontally. -/
def upsampleChroma (k : Kernels) (src : Frame) (dstVi : VSVideoInfo) : Option Frame := do
  let mezFormat := query_video_format ColorFamily.cfYUV 16 1 0
  let mez := new_video_frame mezFormat dstVi.width dstVi.height (some src)
  let mez ← mez.exec (copyLumaStores (src.planes 0) dstVi.width dstVi.height)
  let mez ← upsampleVert 1 chromaTaps k.upsampleChromaEven k.upsampleChromaOdd mez src 1
  let mez ← upsampleVert 1 chromaTaps k.upsampleChromaEven k.upsampleChromaOdd mez src 2
  let dstFormat := query_video_format ColorFamily.cfYUV 16 0 0
  let dst := new_video_frame dstFormat dstVi.width dstVi.height (some src)
  let dst ← dst.exec (copyLumaStores (mez.planes 0) dstVi.width dstVi.height)
  let dst ← upsampleHorz 1 chromaTaps k.upsampleChromaEven k.upsampleChromaOdd dst mez 1
  upsampleHorz 1 chromaTaps k.upsampleChromaEven k.upsampleChromaOdd dst mez 2

/-! ## get_frame -/

/-- A pool member as `get_frame` uses it: `intializeFrame n rpubuf` is `none`
when the metadata of frame `n` cannot be set up, else the engine configured
for the frame. -/
structure PoolProcessor where
  isIntegratedRpu : Bool
  getClipLength : Nat
  intializeFrame : Int → Option (List Nat) → Option DoViProcessor

/-- The bytes of element 0 of the property `DolbyVisionRPU` of a frame, when
the property has at least one element. -/
def rpuOf (f : Frame) : Option (List Nat) :=
  match f.prop "DolbyVisionRPU" with
  | some (PropValue.data bytes :: _) => some bytes
  | _ => none

/-- The block "Extract RPU from frame properties if integrated". -/
def extractRpu (self : DoViBakerVS) (proc : PoolProcessor) (blSrc elSrc : Frame) :
    Option (List Nat) :=
  if proc.isIntegratedRpu then
    if (blSrc.prop "DolbyVisionRPU").isSome then rpuOf blSrc
    else if self.m_hasEl && (elSrc.prop "DolbyVisionRPU").isSome then rpuOf elSrc
    else none
  else none

/-- The block "Set frame properties". -/
def setFrameProps (self : DoViBakerVS) (proc : DoViProcessor) (dst : Frame) : Frame :=
  let dst :=
    if self.m_outYUV then
      (((dst.set_prop "_Matrix" 9).set_prop "_ColorRange" 1).set_prop "_Primaries" 9).set_prop
        "_Transfer" 16
    else
      (dst.set_prop "_Matrix" 0).set_prop "_ColorRange"
        (if proc.isLimitedRangeOutput then 1 else 0)
  let dst := dst.set_prop "_SceneChangePrev" (if proc.isSceneChange then 1 else 0)
  let dst := dst.set_prop "_dovi_dynamic_min_pq" proc.getDynamicMinPq
  let dst := dst.set_prop "_dovi_dynamic_max_pq" proc.getDynamicMaxPq
  let dst := dst.set_prop "_dovi_dynamic_max_content_light_level"
    proc.getDynamicMaxContentLightLevel
  let dst := dst.set_prop "_dovi_static_max_pq" proc.getStaticMaxPq
  let dst := dst.set_prop "_dovi_static_max_content_light_level"
    proc.getStaticMaxContentLightLevel
  let dst := dst.set_prop "_dovi_static_max_avg_content_light_level"
    proc.getStaticMaxAvgContentLightLevel
  let dst := dst.set_prop "_dovi_static_master_display_max_luminance"
    proc.getStaticMasterDisplayMaxLuminance
  dst.set_prop "_dovi_static_master_display_min_luminance"
    proc.getStaticMasterDisplayMinLuminance

/-- The branch `if (m_qnd)` of `get_frame`: the dispatch to the eight
specializations of `doAllQuickAndDirty`. -/
def quickPath (self : DoViBakerVS) (proc : DoViProcessor) (dst blSrc elSrc : Frame) :
    Option Frame :=
  if self.m_blChromaSubSampled && self.m_elChromaSubSampled then
    if self.m_quarterResolutionEl then
      doAllQuickAndDirty self true true true proc dst blSrc elSrc
    else
      doAllQuickAndDirty self true true false proc dst blSrc elSrc
  else if self.m_blChromaSubSampled && !self.m_elChromaSubSampled then
    if self.m_quarterResolutionEl then
      doAllQuickAndDirty self true false true proc dst blSrc elSrc
    else
      doAllQuickAndDirty self true false false proc dst blSrc elSrc
  else if !self.m_blChromaSubSampled && self.m_elChromaSubSampled then
    if self.m_quarterResolutionEl then
      doAllQuickAndDirty self false true true proc dst blSrc elSrc
    else
      doAllQuickAndDirty self false true false proc dst blSrc elSrc
  else
    if self.m_quarterResolutionEl then
      doAllQuickAndDirty self false false true proc dst blSrc elSrc
    else
      doAllQuickAndDirty self false false false proc dst blSrc elSrc

/-- The frames the full-quality path prepares before the combination. -/
structure Prepared where
  elSrcR : Frame
  blSrc444 : Option Frame
  elSrc444 : Option Frame
  frameChromaSubSampled : Bool

/-- The first part of the full-quality path of `get_frame`: EL upscaling and
the reconciliation of the chroma formats. -/
def prepareLayers (self : DoViBakerVS) (k : Kernels) (proc : DoViProcessor)
    (blSrc elSrc : Frame) : Option Prepared := do
  if proc.elProcessingEnabled then
    let elSrcR ← if self.m_quarterResolutionEl then upscaleEl self k elSrc self.m_blVi
      else pure elSrc
    if !self.m_outYUV then
      let p1 : Prepared ←
        if !self.m_blChromaSubSampled && self.m_elChromaSubSampled then do
          let elUp ← upsampleChroma k elSrcR self.m_blVi
          pure ⟨elSrcR, none, some elUp, false⟩
        else pure ⟨elSrcR, none, none, self.m_blChromaSubSampled⟩
      if self.m_blChromaSubSampled && !self.m_elChromaSubSampled then do
        let blUp ← upsampleChroma k blSrc self.m_blVi
        pure { p1 with blSrc444 := some blUp, frameChromaSubSampled := false }
      else pure p1
    else pure ⟨elSrcR, none, none, self.m_blChromaSubSampled⟩
  else pure ⟨blSrc, none, none, self.m_blChromaSubSampled⟩

/-- The format of the intermediate frame `mez` of the RGB branch. -/
def mezFormatOf (self : DoViBakerVS) : VSVideoFormat :=
  if self.m_blChromaSubSampled && !self.m_elChromaSubSampled then
    query_video_format ColorFamily.cfYUV 16 0 0
  else
    query_video_format ColorFamily.cfYUV 16 (if self.m_blChromaSubSampled then 1 else 0)
      (if self.m_blChromaSubSampled then 1 else 0)

/-- The branch "Full quality mode with proper upsampling" of `get_frame`. -/
def fullQualityPath (self : DoViBakerVS) (k : Kernels) (proc : DoViProcessor)
    (dst blSrc elSrc : Frame) : Option Frame := do
  let p ← prepareLayers self k proc blSrc elSrc
  if self.m_outYUV then
    if self.m_blChromaSubSampled then applyDovi true proc dst blSrc blSrc p.elSrcR p.elSrcR
    else applyDovi false proc dst blSrc blSrc p.elSrcR p.elSrcR
  else
    let mez := new_video_frame (mezFormatOf self) self.m_blVi.width self.m_blVi.height
      (some blSrc)
    let mez ←
      if p.frameChromaSubSampled then
        applyDovi true proc mez blSrc (p.blSrc444.getD blSrc) p.elSrcR
          (p.elSrc444.getD p.elSrcR)
      else
        applyDovi false proc mez blSrc (p.blSrc444.getD blSrc) p.elSrcR
          (p.elSrc444.getD p.elSrcR)
    let mez444 ← if p.frameChromaSubSampled then upsampleChroma k mez self.m_blVi else pure mez
    convert2rgb proc dst mez444 mez444

/-- The routine `get_frame(n, ...)` for the BL frame `blFrame`, the frame
`elFrame` of the EL clip (looked at only when an EL was supplied) and the
leased pool member `lease`.  The result is `none` when a pixel routine has no
defined result. -/
def get_frame (self : DoViBakerVS) (k : Kernels) (lease : PoolProcessor) (n : Int)
    (blFrame elFrame : Frame) : Option Frame :=
  let blSrc := blFrame
  let elSrc := if self.m_hasEl then elFrame else blSrc
  let dst := new_video_frame self.m_vi.format self.m_vi.width self.m_vi.height (some blSrc)
  match lease.intializeFrame n (extractRpu self lease blSrc elSrc) with
  | none => some dst
  | some proc =>
    let dst := setFrameProps self proc dst
    match
      (if self.m_qnd then quickPath self proc dst blSrc elSrc
        else fullQualityPath self k proc dst blSrc elSrc) with
    | none => none
    | some dst =>
      if !self.m_outYUV && proc.trimProcessingEnabled then applyTrim self proc dst
      else some dst

/-! ## Reference stores of the copy and the RGB conversion -/

/-- The stores of a copy of `height` rows of `width` luma samples. -/
def copyLumaRefStores (src : Plane) (width height : Nat) : List (Option Store) :=
  (List.range height).flatMap fun (h : Nat) =>
    (List.range width).map fun (w : Nat) =>
      some ⟨0, (h : Int), (w : Int), some (src.px h w)⟩

/-- The three stores of the sample-by-sample conversion of pixel `(h, w)`. -/
def rgbRefPixelStores (proc : DoViProcessor) (srcY srcUV : Frame) (h w : Nat) :
    List (Option Store) :=
  [ some ⟨0, (h : Int), (w : Int), some (proc.sample2rgb ((srcY.planes 0).px h w)
      ((srcUV.planes 1).px h w) ((srcUV.planes 2).px h w)).1⟩,
    some ⟨1, (h : Int), (w : Int), some (proc.sample2rgb ((srcY.planes 0).px h w)
      ((srcUV.planes 1).px h w) ((srcUV.planes 2).px h w)).2.1⟩,
    some ⟨2, (h : Int), (w : Int), some (proc.sample2rgb ((srcY.planes 0).px h w)
      ((srcUV.planes 1).px h w) ((srcUV.planes 2).px h w)).2.2⟩ ]

/-- The stores of the sample-by-sample conversion of a frame of `height` rows
and `width` columns. -/
def rgbRefStores (proc : DoViProcessor) (srcY srcUV : Frame) (height width : Nat) :
    List (Option Store) :=
  (List.range height).flatMap fun (h : Nat) =>
    (List.range width).flatMap fun (w : Nat) => rgbRefPixelStores proc srcY srcUV h w

/-! ## Reference planes of the combination of a BL frame with itself -/

/-- The plane `processSampleU (blU, blU, proxy, blU, blV)`: the U plane the
combination `applyDovi<true>` of the frame `bl` with itself describes. -/
def combinedU (proc : DoViProcessor) (bl : Frame) : Plane where
  height := (bl.planes 1).height
  width := (bl.planes 1).width
  px := fun i j =>
    proc.processSampleU ((bl.planes 1).px i j) ((bl.planes 1).px i j)
      (lumaProxy true (bl.planes 0) (bl.planes 1).width i j) ((bl.planes 1).px i j)
      ((bl.planes 2).px i j)

/-- The plane `processSampleV (blV, blV, proxy, blU, blV)`: the V plane the
combination `applyDovi<true>` of the frame `bl` with itself describes. -/
def combinedV (proc : DoViProcessor) (bl : Frame) : Plane where
  height := (bl.planes 2).height
  width := (bl.planes 2).width
  px := fun i j =>
    proc.processSampleV ((bl.planes 2).px i j) ((bl.planes 2).px i j)
      (lumaProxy true (bl.planes 0) (bl.planes 1).width i j) ((bl.planes 1).px i j)
      ((bl.planes 2).px i j)

/-! ## The dispatch of the quick path and the trim pass -/

/-- The template arguments `<blChromaSubsampling, elChromaSubsampling,
quarterResolutionEl>` of the specialization of `doAllQuickAndDirty` that the
branch `if (m_qnd)` of `get_frame` calls. -/
def quickPathFlags (self : DoViBakerVS) : Bool × Bool × Bool :=
  if self.m_blChromaSubSampled && self.m_elChromaSubSampled then
    if self.m_quarterResolutionEl then (true, true, true) else (true, true, false)
  else if self.m_blChromaSubSampled && !self.m_elChromaSubSampled then
    if self.m_quarterResolutionEl then (true, false, true) else (true, false, false)
  else if !self.m_blChromaSubSampled && self.m_elChromaSubSampled then
    if self.m_quarterResolutionEl then (false, true, true) else (false, true, false)
  else
    if self.m_quarterResolutionEl then (false, false, true) else (false, false, false)

/-- The triple of samples of the three planes of a frame at `(r, c)`. -/
def Frame.triple (f : Frame) (r c : Nat) : Nat × Nat × Nat :=
  ((f.planes 0).px r c, (f.planes 1).px r c, (f.planes 2).px r c)

/-- The state of a frame during the trim pass over the frame `orig`: the
pixels `done` hold `processTrim` of the triple they held in `orig`, every
other sample is the one of `orig`. -/
structure TrimInv (proc : DoViProcessor) (orig f : Frame) (done : Nat → Nat → Prop) : Prop where
  format_eq : f.format = orig.format
  props_eq : f.props = orig.props
  height_eq : ∀ p, (f.planes p).height = (orig.planes p).height
  width_eq : ∀ p, (f.planes p).width = (orig.planes p).width
  px_done : ∀ r c, done r c →
    f.triple r c = proc.processTrim ((orig.planes 0).px r c) ((orig.planes 1).px r c)
      ((orig.planes 2).px r c)
  px_todo : ∀ r c, ¬ done r c → ∀ p, (f.planes p).px r c = (orig.planes p).px r c

/-! ## init -/

/-- The function `getPoolSize`; `hwThreads` is the value of
`static_cast<int>(std::thread::hardware_concurrency())`. -/
def getPoolSize (hwThreads : Int) : Int :=
  let hwThreads := if hwThreads ≤ 0 then 8 else hwThreads
  min 32 (max 4 hwThreads)

/-- The helper `vsh::isConstantVideoFormat` of the VapourSynth SDK: the clip
has a known size and format. -/
def isConstantVideoFormat (vi : VSVideoInfo) : Bool :=
  decide (0 < vi.height) && decide (0 < vi.width)
    && decide (vi.format.colorFamily ≠ ColorFamily.cfUndefined)

/-- The conversion `static_cast<int>(x)` of an `int64_t` value: the low 32 bits
of `x`, read as a signed number. -/
def toInt32 (x : Int) : Int := (x + 2147483648) % 4294967296 - 2147483648

/-- The arguments of the filter (the map `in` of `init`); an optional
argument that was not given is `none`. -/
structure InitArgs where
  bl : VSVideoInfo
  el : Option VSVideoInfo
  rpu : Option String
  trimPq : Option Int
  qnd : Option Int
  rgbProof : Option Int
  nlqProof : Option Int
  outYUV : Option Int
  sourceProfile : Option Int

/-- A `DoViProcessor` as its constructor leaves it (external).  `configure
rgbProof nlqProof trimPq` is the pool member after `setRgbProof`,
`setNlqProof` and `setTrim`; the two floating-point arguments of `setTrim`
are not modelled. -/
structure RawProcessor where
  wasCreationSuccessful : Bool
  isIntegratedRpu : Bool
  getClipLength : Nat
  configure : Bool → Bool → Nat → PoolProcessor

/-- The two constructors of the external class `DoViProcessor`: from an RPU
path (`create rpuPath blContainerBits elContainerBits sourceProfile`) and
from the RPU list shared by the first processor. -/
structure DoViProcessorClass where
  create : Option String → Nat → Nat → Int → RawProcessor
  createShared : Nat → Nat → Int → RawProcessor

/-- The filter after `init`: its members and the processors of the pool, in
the order in which they were pushed to `m_availableProcessors`. -/
structure InitResult where
  filter : DoViBakerVS
  processors : List PoolProcessor

/-- The zero-initialised `VSVideoInfo` of the constructor (`m_elVi{}`). -/
def VSVideoInfo.zero : VSVideoInfo := ⟨⟨ColorFamily.cfUndefined, 0, 0, 0⟩, 0, 0, 0⟩

/-- The loop "Create additional processors sharing the same RPU data" for
the `count` processors after the first one. -/
def createPool (cls : DoViProcessorClass) (blBits elBits : Nat) (sourceProfile : Int)
    (rgbProof nlqProof : Bool) (trimPq : Nat) : Nat → Except String (List PoolProcessor)
  | 0 => pure []
  | count + 1 => do
    let proc := cls.createShared blBits elBits sourceProfile
    if !proc.wasCreationSuccessful then
      throw "DoViBaker: Cannot create pool DoViProcessor"
    let rest ← createPool cls blBits elBits sourceProfile rgbProof nlqProof trimPq count
    pure (proc.configure rgbProof nlqProof trimPq :: rest)

/-- The routine `init`: `Except.error` is a thrown `std::runtime_error`. -/
def init (cls : DoViProcessorClass) (hwThreads : Int) (args : InitArgs) :
    Except String InitResult := do
  let m_blVi := args.bl
  if !isConstantVideoFormat m_blVi then
    throw "DoViBaker: base layer must have constant format"
  if m_blVi.format.colorFamily ≠ ColorFamily.cfYUV then
    throw "DoViBaker: base layer must be YUV"
  let m_hasEl := args.el.isSome
  let (m_elVi, m_quarterResolutionEl) ← match args.el with
    | some m_elVi => do
      if !isConstantVideoFormat m_elVi then
        throw "DoViBaker: enhancement layer must have constant format"
      if m_elVi.format.colorFamily ≠ ColorFamily.cfYUV then
        throw "DoViBaker: enhancement layer must be YUV"
      if m_blVi.numFrames ≠ m_elVi.numFrames then
        throw "DoViBaker: base layer and enhancement layer must have the same number of frames"
      pure (m_elVi,
        decide (m_elVi.width = m_blVi.width / 2) && decide (m_elVi.height = m_blVi.height / 2))
    | none => pure (VSVideoInfo.zero, false)
  let m_blChromaSubSampled :=
    decide (m_blVi.format.subSamplingW = 1) && decide (m_blVi.format.subSamplingH = 1)
  let m_elChromaSubSampled :=
    if m_hasEl then
      decide (m_elVi.format.subSamplingW = 1) && decide (m_elVi.format.subSamplingH = 1)
    else m_blChromaSubSampled
  let m_trimPq := ((args.trimPq.getD 0) % 65536).toNat
  let m_qnd := decide (args.qnd.getD 0 ≠ 0)
  let m_rgbProof := decide (args.rgbProof.getD 0 ≠ 0)
  let m_nlqProof := decide (args.nlqProof.getD 0 ≠ 0)
  let m_outYUV := decide (args.outYUV.getD 0 ≠ 0)
  let m_sourceProfile := toInt32 (args.sourceProfile.getD 0)
  if m_sourceProfile ≠ 0 ∧ m_sourceProfile ≠ 7 ∧ m_sourceProfile ≠ 8 then
    throw "DoViBaker: sourceProfile must be 0 (auto), 7, or 8"
  if m_outYUV then
    if m_hasEl && (m_blChromaSubSampled != m_elChromaSubSampled) then
      throw "DoViBaker: Both BL and EL must have the same chroma subsampling when outYUV=true"
    if m_qnd then
      throw "DoViBaker: qnd mode cannot be used when outYUV=true"
    if m_rgbProof then
      throw "DoViBaker: rgbProof cannot be used when outYUV=true"
  let m_blContainerBits := m_blVi.format.bitsPerSample
  let m_elContainerBits := if m_hasEl then m_elVi.format.bitsPerSample else 0
  let firstProc := cls.create args.rpu m_blContainerBits m_elContainerBits m_sourceProfile
  if !firstProc.wasCreationSuccessful then
    throw "DoViBaker: Cannot create DoViProcessor"
  if !firstProc.isIntegratedRpu && m_blVi.numFrames ≠ firstProc.getClipLength then
    throw "DoViBaker: Clip length does not match length indicated by RPU file"
  let poolSize := getPoolSize hwThreads
  let pool ← createPool cls m_blContainerBits m_elContainerBits m_sourceProfile m_rgbProof
    m_nlqProof m_trimPq (poolSize - 1).toNat
  let m_viFormat :=
    if m_outYUV then
      query_video_format ColorFamily.cfYUV 16 (if m_blChromaSubSampled then 1 else 0)
        (if m_blChromaSubSampled then 1 else 0)
    else query_video_format ColorFamily.cfRGB 16 0 0
  pure
    { filter :=
        { m_vi := { m_blVi with format := m_viFormat }
          m_blVi := m_blVi
          m_elVi := m_elVi
          m_qnd := m_qnd
          m_outYUV := m_outYUV
          m_rgbProof := m_rgbProof
          m_blChromaSubSampled := m_blChromaSubSampled
          m_elChromaSubSampled := m_elChromaSubSampled
          m_quarterResolutionEl := m_quarterResolutionEl
          m_hasEl := m_hasEl }
      processors := firstProc.configure m_rgbProof m_nlqProof m_trimPq :: pool }

/-! ## The processor pool -/

/-- The routine `acquireProcessor` on the queue `m_availableProcessors` (front
first): `m_poolCV.wait` returns only when the queue is not empty, then the
front is popped and returned.  The result is `none` for an empty queue: the
call does not return in that state. -/
def acquireProcessor {α : Type} (m_availableProcessors : List α) : Option (α × List α) :=
  match m_availableProcessors with
  | [] => none
  | proc :: rest => some (proc, rest)

/-- The routine `releaseProcessor`: the engine is pushed to the back of the
queue. -/
def releaseProcessor {α : Type} (m_availableProcessors : List α) (proc : α) : List α :=
  m_availableProcessors ++ [proc]

/-- The queue `m_availableProcessors` as `init` leaves it for a pool of `n`
engines: engine `i` is element `i` of `m_processors`, pushed in this order. -/
def availableAfterInit (n : Nat) : List Nat := List.range n

/-- The pool and the live `DoViProcessorLease` objects: `leases` holds the
member `m_proc` of every lease that was constructed and not yet destroyed. -/
structure PoolSystem where
  m_availableProcessors : List Nat
  leases : List Nat
  deriving DecidableEq, Repr

/-- A step of the pool: the construction of a lease, or the destruction of
the lease that holds engine `proc`. -/
inductive PoolAction where
  | acquire
  | release (proc : Nat)
  deriving DecidableEq, Repr

/-- One step: the constructor `DoViProcessorLease(filter)` stores the result
of `acquireProcessor`; the destructor calls `releaseProcessor(m_proc)` and is
only possible for a lease that exists.  `none`: the step cannot be taken. -/
def PoolSystem.step (s : PoolSystem) : PoolAction → Option PoolSystem
  | PoolAction.acquire =>
    match acquireProcessor s.m_availableProcessors with
    | some (proc, rest) => some ⟨rest, proc :: s.leases⟩
    | none => none
  | PoolAction.release proc =>
    if proc ∈ s.leases then
      some ⟨releaseProcessor s.m_availableProcessors proc, s.leases.erase proc⟩
    else none

/-- A sequence of steps, from left to right. -/
def PoolSystem.run (s : PoolSystem) : List PoolAction → Option PoolSystem
  | [] => some s
  | a :: rest =>
    match s.step a with
    | some s1 => s1.run rest
    | none => none

/-- The routine `get_frame` with its lease: `DoViProcessorLease proc(*this)`
acquires an engine before the frame is processed, and the destructor of the
lease releases it when `get_frame` is left, on the early return as on the
normal one.  The result is the returned frame and the queue afterwards;
`none` when no engine is available (the call waits). -/
def get_frame_leased (self : DoViBakerVS) (k : Kernels)
    (m_availableProcessors : List PoolProcessor) (n : Int) (blFrame elFrame : Frame) :
    Option (Option Frame × List PoolProcessor) :=
  match acquireProcessor m_availableProcessors with
  | none => none
  | some (proc, rest) =>
    let blSrc := blFrame
    let elSrc := if self.m_hasEl then elFrame else blSrc
    let dst := new_video_frame self.m_vi.format self.m_vi.width self.m_vi.height (some blSrc)
    match proc.intializeFrame n (extractRpu self proc blSrc elSrc) with
    | none => some (some dst, releaseProcessor rest proc)
    | some _ => some (get_frame self k proc n blFrame elFrame, releaseProcessor rest proc)

/-! ## Concrete inputs used by the evaluations below -/

/-- An example kernel: the centre sample of the neighbourhood. -/
def centreKernel : upscaler_t := fun v idx0 => v.getD idx0 0

/-- An example plane of `h` rows and `w` columns with the samples
`10 * row + col + 1`. -/
def rampPlane (h w : Nat) : Plane := ⟨h, w, fun r c => 10 * r + c + 1⟩

/-- An example frame whose three planes are ramps of the sizes the format
implies. -/
def rampFrame (format : VSVideoFormat) (width height : Nat) : Frame where
  format := format
  planes := fun p =>
    if p = 0 then rampPlane height width
    else rampPlane (height >>> format.subSamplingH) (width >>> format.subSamplingW)
  props := []

/-- The format YUV 4:4:4, 16 bit. -/
def yuv444 : VSVideoFormat := query_video_format ColorFamily.cfYUV 16 0 0

/-- The format YUV 4:2:0, 16 bit. -/
def yuv420 : VSVideoFormat := query_video_format ColorFamily.cfYUV 16 1 1

/-- An example engine: luma is the mean of the layers, chroma adds the
proxy, `sample2rgb` and `processTrim` permute their arguments. -/
def sampleEngine : DoViProcessor where
  processSampleY := fun bl el => (bl + el) / 2
  processSampleU := fun bl el mmrBlY _ _ => (bl + el + mmrBlY) % 65536
  processSampleV := fun bl el mmrBlY _ _ => (bl + 2 * el + mmrBlY) % 65536
  sample2rgb := fun y u v => (v, y, u)
  processTrim := fun r g b => (g, b, r)
  elProcessingEnabled := true
  trimProcessingEnabled := false
  isLimitedRangeOutput := false
  isSceneChange := false
  getDynamicMinPq := 0
  getDynamicMaxPq := 0
  getDynamicMaxContentLightLevel := 0
  getStaticMaxPq := 0
  getStaticMaxContentLightLevel := 0
  getStaticMaxAvgContentLightLevel := 0
  getStaticMasterDisplayMaxLuminance := 0
  getStaticMasterDisplayMinLuminance := 0

/-- The format RGB, 16 bit. -/
def rgb48 : VSVideoFormat := query_video_format ColorFamily.cfRGB 16 0 0

/-- An example filter object in quick mode: a BL of format `bl` and size
`blW x blH`, an EL of format `el` and size `elW x elH`, RGB output. -/
def qndFilter (bl el : VSVideoFormat) (blW blH elW elH : Nat) : DoViBakerVS where
  m_vi := ⟨rgb48, blW, blH, 1⟩
  m_blVi := ⟨bl, blW, blH, 1⟩
  m_elVi := ⟨el, elW, elH, 1⟩
  m_qnd := true
  m_outYUV := false
  m_rgbProof := false
  m_blChromaSubSampled := bl.subSamplingW == 1 && bl.subSamplingH == 1
  m_elChromaSubSampled := el.subSamplingW == 1 && el.subSamplingH == 1
  m_quarterResolutionEl := elW == blW / 2 && elH == blH / 2
  m_hasEl := true

/-- An example pool member: the RPU is integrated and every frame is set up
with `sampleEngine`. -/
def sampleLease : PoolProcessor := ⟨true, 0, fun _ _ => some sampleEngine⟩

/-- An example of the external class: every construction succeeds. -/
def sampleClass : DoViProcessorClass where
  create := fun _ _ _ _ => ⟨true, true, 0, fun _ _ _ => sampleLease⟩
  createShared := fun _ _ _ => ⟨true, true, 0, fun _ _ _ => sampleLease⟩

/-- Example arguments: a BL clip of format `bl` and size `w x h`, no EL, all
options left at their defaults. -/
def sampleArgs (bl : VSVideoFormat) (w h : Nat) : InitArgs :=
  ⟨⟨bl, w, h, 1⟩, none, none, none, none, none, none, none, none⟩

/-- An example kernel table: every kernel is `centreKernel`. -/
def sampleKernels : Kernels := ⟨centreKernel, centreKernel, centreKernel, centreKernel⟩

/-- An example engine with trim processing enabled: `processTrim` adds one to
every component. -/
def trimEngine : DoViProcessor :=
  { sampleEngine with
    processTrim := fun r g b => (r + 1, g + 1, b + 1)
    trimProcessingEnabled := true }

/-- An example pool member that sets every frame up with `trimEngine`. -/
def trimLease : PoolProcessor := ⟨true, 0, fun _ _ => some trimEngine⟩

/-- An example of the external class whose engines have trim processing
enabled. -/
def trimClass : DoViProcessorClass where
  create := fun _ _ _ _ => ⟨true, true, 0, fun _ _ _ => trimLease⟩
  createShared := fun _ _ _ => ⟨true, true, 0, fun _ _ _ => trimLease⟩

/-- The filter `init` returns for a BL clip of format 4:2:0 and size `w x h`
without EL and with the default options. -/
def blOnlyFilter (w h : Nat) : DoViBakerVS where
  m_vi := ⟨rgb48, w, h, 1⟩
  m_blVi := ⟨yuv420, w, h, 1⟩
  m_elVi := VSVideoInfo.zero
  m_qnd := false
  m_outYUV := false
  m_rgbProof := false
  m_blChromaSubSampled := true
  m_elChromaSubSampled := true
  m_quarterResolutionEl := false
  m_hasEl := false

/-- The filter `init` returns for a BL clip of format 4:2:0 and size `w x h`
that is given as the EL clip as well, with the default options. -/
def blAsElFilter (w h : Nat) : DoViBakerVS :=
  { blOnlyFilter w h with m_elVi := ⟨yuv420, w, h, 1⟩, m_hasEl := true }

/-- The filter `init` returns for a BL clip of format 4:2:0 and size `w x h`
with an EL clip of format 4:2:0 and size `w/2 x h/2` (`w`, `h` positive) and
the default options. -/
def quarterElFilter (w h : Nat) : DoViBakerVS :=
  { blOnlyFilter w h with
    m_elVi := ⟨yuv420, w / 2, h / 2, 1⟩, m_quarterResolutionEl := true, m_hasEl := true }

/-- An example pool member whose per-frame metadata never initialises. -/
def failingLease : PoolProcessor := ⟨true, 0, fun _ _ => none⟩

/-- An example filter object on the full-quality RGB path: a BL of format
`bl` and size `blW x blH`, an EL of format `el` and size `elW x elH`. -/
def fullFilter (bl el : VSVideoFormat) (blW blH elW elH : Nat) : DoViBakerVS :=
  { qndFilter bl el blW blH elW elH with m_qnd := false }

/-! ## Position keys of applyDovi -/

/-- The chroma row a position of `applyDovi<true>` belongs to. -/
def applyRowKey : Option (Nat × Int × Int) → Nat
  | some (0, r, _) => r.toNat / 2
  | some (_, r, _) => r.toNat
  | none => 0

/-- The chroma column a position of `applyDovi<true>` belongs to. -/
def applyColKey : Option (Nat × Int × Int) → Int
  | some (0, _, c) => ((c.toNat / 2 : Nat) : Int)
  | some (_, _, c) => c
  | none => 0

/-! ## The scene cursor of DoViStatsFileLoaderVS -/

/-- The members `m_currentScene` and `m_previousFrame` of
`DoViStatsFileLoaderVS`, both `mutable uint32_t` and zero after construction. -/
structure SceneCursor where
  m_currentScene : Nat
  m_previousFrame : Nat
  deriving DecidableEq, Repr

/-- The loop `while (std::get<0>(m_sceneMaxSignal.at(m_currentScene)) <= n)
m_currentScene++` of `DoViStatsFileLoaderVS::get_frame`.  The first argument
is the part of the table from index `m_currentScene` on: its head is
`m_sceneMaxSignal.at(m_currentScene)`, and `.at` throws `std::out_of_range`
(`none`) when it is empty.  An entry is `(frame + 1, sceneMaxPq, sceneMinPq)`;
the median scale, a `float`, is not modelled.  The cursor never exceeds the
size of the table, so its increments do not wrap for a table of fewer than
`2^32` entries. -/
def findScene : List (Nat × Nat × Nat) → Nat → Nat → Option Nat
  | [], _, _ => none
  | e :: rest, n, m_currentScene =>
    if e.1 ≤ n then findScene rest n (m_currentScene + 1) else some m_currentScene

/-- The routine `DoViStatsFileLoaderVS::get_frame(n, ...)` on the scene table
`m_sceneMaxSignal`: the cursor after the call and the integer properties
`_dovi_dynamic_min_pq`, `_dovi_dynamic_max_pq`, `_SceneChangeNext` and
`_SceneChangePrev` it sets; `none` when an access `.at(...)` throws.  The
properties computed in floating point are not modelled. -/
def statsGetFrame (m_sceneMaxSignal : List (Nat × Nat × Nat)) (st : SceneCursor) (n : Nat) :
    Option (SceneCursor × List (String × Int)) := do
  -- Reset scene tracking on backwards navigation
  let m_currentScene := if st.m_previousFrame > n then 0 else st.m_currentScene
  let m_previousFrame := n
  -- Find current scene
  let m_currentScene ← findScene (m_sceneMaxSignal.drop m_currentScene) n m_currentScene
  let e ← m_sceneMaxSignal[m_currentScene]?
  let next : Int := if e.1 = n + 1 then 1 else 0
  let prev : Int ←
    if m_currentScene > 0 then
      (m_sceneMaxSignal[m_currentScene - 1]?).map (fun p => if p.1 = n then (1 : Int) else 0)
    else some 0
  pure (⟨m_currentScene, m_previousFrame⟩,
    [("_dovi_dynamic_min_pq", (e.2.2 : Int)), ("_dovi_dynamic_max_pq", (e.2.1 : Int)),
      ("_SceneChangeNext", next), ("_SceneChangePrev", prev)])

/-- A sequence of requests served one after the other, each on the cursor the
previous one left. -/
def statsServe (m_sceneMaxSignal : List (Nat × Nat × Nat)) :
    SceneCursor → List Nat → Option SceneCursor
  | st, [] => some st
  | st, n :: rest =>
    match statsGetFrame m_sceneMaxSignal st n with
    | none => none
    | some (st1, _) => statsServe m_sceneMaxSignal st1 rest

/-- The end frame `end(i)` of scene `i`: the first component of entry `i`. -/
def sceneEnd (m_sceneMaxSignal : List (Nat × Nat × Nat)) (i : Nat) : Option Nat :=
  (m_sceneMaxSignal[i]?).map (fun e => e.1)

/-- The start frame of scene `i`: `end(i - 1)`, with `end(-1) = 0`. -/
def sceneStart (m_sceneMaxSignal : List (Nat × Nat × Nat)) (i : Nat) : Option Nat :=
  if i = 0 then some 0 else sceneEnd m_sceneMaxSignal (i - 1)

/-- Scene `i` contains frame `n`: `end(i-1) <= n < end(i)`. -/
def InScene (m_sceneMaxSignal : List (Nat × Nat × Nat)) (i n : Nat) : Prop :=
  ∃ lo hi, sceneStart m_sceneMaxSignal i = some lo ∧ sceneEnd m_sceneMaxSignal i = some hi ∧
    lo ≤ n ∧ n < hi

/-- The cursor invariant between requests: every entry before the cursor ends
at or before the previous request, which is a frame of the clip. -/
def SceneInv (m_sceneMaxSignal : List (Nat × Nat × Nat)) (numFrames : Nat) (st : SceneCursor) :
    Prop :=
  ∀ j, j < st.m_currentScene →
    ∃ e, m_sceneMaxSignal[j]? = some e ∧ e.1 ≤ st.m_previousFrame ∧
      st.m_previousFrame < numFrames

/-- The cursor `c` is the first entry that ends after frame `n`. -/
def FirstAfter (m_sceneMaxSignal : List (Nat × Nat × Nat)) (c n : Nat) : Prop :=
  (∃ e, m_sceneMaxSignal[c]? = some e ∧ n < e.1) ∧
  ∀ j, j < c → ∃ e, m_sceneMaxSignal[j]? = some e ∧ e.1 ≤ n

/-! ## Teardown -/

/-- Who calls `dovi_rpu_list_free`: the engine at an index of `m_processors`,
or the filter object. -/
inductive Releaser where
  | engine (index : Nat)
  | filterObject
  deriving DecidableEq, Repr

/-- An event of the teardown: the engine at an index of `m_processors` has
been destroyed, or the shared RPU list has been freed. -/
inductive TeardownEvent where
  | engineDestroyed (index : Nat)
  | rpuListFreed (who : Releaser)
  deriving DecidableEq, Repr

/-- Modelled from the spec: the destructor of `DoViProcessor`, whose source
(`DoViProcessor.cpp`) is not under `src/`.  "The first-created engine parses
it [...] and is the sole owner responsible for its release; all pool siblings
are constructed against the already-parsed structure and hold only a
borrowing reference."  In `init` the first-created engine is element 0 of
`m_processors` (`// First processor owns it, we just share`), the engines
constructed with `m_sharedRpus` follow it. -/
def destroyProcessor (index : Nat) : List TeardownEvent :=
  if index = 0 then
    [TeardownEvent.rpuListFreed (Releaser.engine 0), TeardownEvent.engineDestroyed 0]
  else [TeardownEvent.engineDestroyed index]

/-- The call `m_processors.clear()`: every element is destroyed.  The order
is the one of the standard library (`std::vector::clear` fixes none; the
loop of libstdc++ runs from the first element to the last); `order` lists the
indices in the order of their destruction. -/
def clearProcessors (order : List Nat) : List TeardownEvent :=
  order.flatMap destroyProcessor

/-- The destructor `DoViBakerVS::~DoViBakerVS()`; `m_sharedRpus` stands for
`m_sharedRpus != nullptr`. -/
def teardown (m_ownsRpus m_sharedRpus : Bool) (order : List Nat) : List TeardownEvent :=
  -- Clear processors before freeing shared RPU data
  clearProcessors order
  -- Free shared RPU data if we own it
  ++ (if m_ownsRpus && m_sharedRpus then [TeardownEvent.rpuListFreed Releaser.filterObject]
      else [])

/-- The member `m_ownsRpus` when the destructor runs: it is initialised with
`false` in the class, `init` assigns `false`, and nothing else assigns it. -/
def ownsRpusAtTeardown : Bool := false

/-- The release by the owner comes after the destruction of every one of the
`n - 1` non-owning engines. -/
def releasedAfterBorrowers (n : Nat) (tr : List TeardownEvent) : Bool :=
  (List.range n).all fun j =>
    j == 0 ||
      (tr.takeWhile (fun e => e != TeardownEvent.rpuListFreed (Releaser.engine 0))).contains
        (TeardownEvent.engineDestroyed j)

/-! ## Further concrete inputs -/

/-- An example engine for a frame whose metadata disables EL processing. -/
def passEngine : DoViProcessor := { sampleEngine with elProcessingEnabled := false }

/-- An example pool member that sets every frame up with `passEngine`. -/
def passLease : PoolProcessor := ⟨true, 0, fun _ _ => some passEngine⟩

/-- An example of the external class whose engines disable EL processing. -/
def passClass : DoViProcessorClass where
  create := fun _ _ _ _ => ⟨true, true, 0, fun _ _ _ => passLease⟩
  createShared := fun _ _ _ => ⟨true, true, 0, fun _ _ _ => passLease⟩

/-- Example arguments: a BL clip of format `bl` and size `w x h`, an EL clip
of format `el` and size `elW x elH`, all options left at their defaults. -/
def elArgs (bl el : VSVideoFormat) (w h elW elH : Nat) : InitArgs :=
  ⟨⟨bl, w, h, 1⟩, some ⟨el, elW, elH, 1⟩, none, none, none, none, none, none, none⟩

/-- The format YUV 4:2:2, 16 bit. -/
def yuv422 : VSVideoFormat := query_video_format ColorFamily.cfYUV 16 1 0

/-- An example scene table for a clip of six frames: the scenes end before
the frames 2, 5 and 6. -/
def sampleScenes : List (Nat × Nat × Nat) := [(2, 100, 10), (5, 200, 20), (6, 300, 30)]

/-- An example engine whose luma mapping depends on the EL container depth it
was constructed with. -/
def depthEngine (elContainerBits : Nat) : DoViProcessor :=
  { sampleEngine with processSampleY := fun bl el => (bl + el) / 2 + elContainerBits }

/-- An example pool member that sets every frame up with `depthEngine`. -/
def depthLease (elContainerBits : Nat) : PoolProcessor :=
  ⟨true, 0, fun _ _ => some (depthEngine elContainerBits)⟩

/-- An example of the external class whose engines depend on the EL container
depth passed to the constructor. -/
def depthClass : DoViProcessorClass where
  create := fun _ _ elContainerBits _ =>
    ⟨true, true, 0, fun _ _ _ => depthLease elContainerBits⟩
  createShared := fun _ elContainerBits _ =>
    ⟨true, true, 0, fun _ _ _ => depthLease elContainerBits⟩

/-- The arguments `args` with another geometry: the EL clip, when there is
one, gets the size `elW x elH` and the chroma subsampling `elSsW`, `elSsH`,
and the BL clip the chroma subsampling `blSsW`, `blSsH`. -/
def withGeometry (args : InitArgs) (elW elH blSsW blSsH elSsW elSsH : Nat) : InitArgs :=
  { args with
    bl := { args.bl with
      format := { args.bl.format with subSamplingW := blSsW, subSamplingH := blSsH } }
    el := args.el.map fun el =>
      { el with
        width := elW
        height := elH
        format := { el.format with subSamplingW := elSsW, subSamplingH := elSsH } } }

/-! ## General lemmas -/

theorem mem_forRange {lo hi w : Int} : w ∈ forRange lo hi ↔ lo ≤ w ∧ w < hi := by
  unfold forRange
  simp only [List.mem_map, List.mem_range]
  constructor
  · rintro ⟨k, hk, rfl⟩
    omega
  · intro h
    exact ⟨(w - lo).toNat, by omega, by omega⟩

theorem rowLoop_eq_flatMap {σ ε : Type} (adv : σ → σ) (body : Nat → σ → List ε) (n h : Nat)
    (st : σ) :
    rowLoop adv body n h st = (List.range n).flatMap (fun k => body (h + k) (adv^[k] st)) := by
  induction n generalizing h st with
  | zero => simp [rowLoop]
  | succ n ih =>
    rw [rowLoop, ih, List.range_succ_eq_map, List.flatMap_cons, List.flatMap_map]
    simp only [Nat.add_zero, Function.iterate_zero, id_eq, Function.iterate_succ,
      Function.comp_apply]
    congr 1
    apply List.flatMap_congr
    intro k _
    rw [show h + 1 + k = h + (k + 1) by omega]

theorem Plane.get_eq_some {p : Plane} {row col : Int} (h0 : 0 ≤ row) (h1 : row < p.height)
    (h2 : 0 ≤ col) (h3 : col < p.width) : p.get row col = some (p.px row.toNat col.toNat) := by
  simp [Plane.get, h0, h1, h2, h3]

theorem Plane.get_natCast {p : Plane} {r c : Nat} (h1 : r < p.height) (h3 : c < p.width) :
    p.get (r : Int) (c : Int) = some (p.px r c) := by
  rw [Plane.get_eq_some (by omega) (by omega) (by omega) (by omega)]
  simp

theorem Frame.store_eq_some {f : Frame} {s : Store} {v : Nat} (hv : s.val = some v)
    (hb : f.InBounds s) : f.store s = some (f.stored s v) := by
  obtain ⟨h0, h1, h2, h3⟩ := hb
  simp [Frame.store, Frame.stored, hv, Plane.set, h0, h1, h2, h3]

/-- Replaying stores that are all defined and inside the frame succeeds, keeps
the shape of the frame, leaves unwritten samples alone, and a sample all of
whose stores carry the value `v` ends up holding `v`. -/
theorem Frame.exec_spec (tr : List (Option Store)) (f : Frame)
    (hsafe : ∀ e ∈ tr, ∃ s v, e = some s ∧ s.val = some v ∧ f.InBounds s) :
    ∃ f1, f.exec tr = some f1 ∧ f1.format = f.format ∧
      (∀ p, (f1.planes p).height = (f.planes p).height ∧
        (f1.planes p).width = (f.planes p).width) ∧
      (∀ p r c v, (∃ s, some s ∈ tr ∧ s.At p r c) →
        (∀ s, some s ∈ tr → s.At p r c → s.val = some v) → (f1.planes p).px r c = v) ∧
      (∀ p r c, (∀ s, some s ∈ tr → ¬ s.At p r c) →
        (f1.planes p).px r c = (f.planes p).px r c) := by
  induction tr generalizing f with
  | nil => exact ⟨f, rfl, rfl, fun _ => ⟨rfl, rfl⟩, by simp, by simp⟩
  | cons e rest ih =>
    obtain ⟨s, v0, rfl, hv0, hb⟩ := hsafe e (List.mem_cons_self _ _)
    have hst := Frame.store_eq_some hv0 hb
    set f0 : Frame := f.stored s v0 with hf0
    unfold Frame.stored at hf0
    have hdims : ∀ p, (f0.planes p).height = (f.planes p).height ∧
        (f0.planes p).width = (f.planes p).width := by
      intro p
      by_cases hp : p = s.plane
      · subst hp; simp [hf0]
      · simp [hf0, hp]
    have hsafe0 : ∀ e ∈ rest, ∃ s v, e = some s ∧ s.val = some v ∧ f0.InBounds s := by
      intro e he
      obtain ⟨s1, v1, h1, h2, h3⟩ := hsafe e (List.mem_cons_of_mem _ he)
      refine ⟨s1, v1, h1, h2, ?_⟩
      unfold Frame.InBounds at h3 ⊢
      rw [(hdims s1.plane).1, (hdims s1.plane).2]
      exact h3
    obtain ⟨f1, hex, hfmt, hd, hw, hu⟩ := ih f0 hsafe0
    have hpx0 : ∀ p r c, ¬ s.At p r c → (f0.planes p).px r c = (f.planes p).px r c := by
      intro p r c hn
      by_cases hp : p = s.plane
      · subst hp
        have : ¬ (r = s.row.toNat ∧ c = s.col.toNat) := by
          rintro ⟨h1, h2⟩
          apply hn
          obtain ⟨b0, _, b2, _⟩ := hb
          exact ⟨rfl, by omega, by omega⟩
        simp [hf0, this]
      · simp [hf0, hp]
    refine ⟨f1, ?_, hfmt, ?_, ?_, ?_⟩
    · simp only [Frame.exec, hst]
      exact hex
    · intro p
      rw [(hd p).1, (hd p).2]
      exact hdims p
    · intro p r c v hex1 hall
      by_cases hrest : ∃ s1, some s1 ∈ rest ∧ s1.At p r c
      · exact hw p r c v hrest (fun s1 h1 h2 => hall s1 (List.mem_cons_of_mem _ h1) h2)
      · have hno : ∀ s1, some s1 ∈ rest → ¬ s1.At p r c := fun s1 h1 h2 => hrest ⟨s1, h1, h2⟩
        rw [hu p r c hno]
        obtain ⟨s1, hm, hat⟩ := hex1
        rcases List.mem_cons.1 hm with h | h
        · cases h
          have hval := hall s (List.mem_cons_self _ _) hat
          rw [hv0] at hval
          cases hval
          obtain ⟨rfl, h2, h3⟩ := hat
          simp [hf0, h2, h3]
        · exact absurd hat (hno s1 h)
    · intro p r c hno
      rw [hu p r c (fun s1 h1 => hno s1 (List.mem_cons_of_mem _ h1))]
      exact hpx0 p r c (hno s (List.mem_cons_self _ _))

theorem allSome_map_some {α : Type} (l : List α) : allSome (l.map some) = some l := by
  induction l with
  | nil => rfl
  | cons a l ih => simp [allSome, ih]

/-! ## Separable upsampler: lemmas -/

theorem Plane.ext_px {p q : Plane} (h1 : p.height = q.height) (h2 : p.width = q.width)
    (h3 : ∀ r c, p.px r c = q.px r c) : p = q := by
  cases p; cases q
  simp only [Plane.mk.injEq]
  exact ⟨h1, h2, funext fun r => funext fun c => h3 r c⟩

theorem iterate_add_pair (a b : Int) (k : Nat) (x y : Int) :
    (fun st : Int × Int => (st.1 + a, st.2 + b))^[k] (x, y) = (x + a * k, y + b * k) := by
  induction k generalizing x y with
  | zero => simp
  | succ k ih =>
    rw [Function.iterate_succ, Function.comp_apply, ih]
    simp only [Nat.cast_add, Nat.cast_one, Prod.mk.injEq]
    constructor <;> ring

theorem vertRows_luma_value (src : Plane) (h0 w : Nat) (hh : h0 < src.height)
    (hw : w < src.width) :
    allSome ((vertRows 2 lumaTaps src.height h0).map (fun r => src.get r w))
      = some (vertNeighbors lumaTaps src h0 w) := by
  have e : ∀ r : Int, 0 ≤ r → r < src.height → src.get r w = some (src.px r.toNat w) := by
    intro r h1 h2
    rw [Plane.get_eq_some h1 h2 (by omega) (by omega)]
    simp
  simp only [vertRows, lumaTaps, vertNeighbors, clamp]
  simp [List.range_succ, List.range']
  rw [e _ (by omega) (by omega), e _ (by omega) (by omega), e _ (by omega) (by omega),
    e _ (by omega) (by omega), e _ (by omega) (by omega)]
  simp [allSome]
  refine ⟨?_, ?_, ?_, ?_, ?_⟩ <;> congr 1 <;> omega

theorem vertRows_chroma_value (src : Plane) (h0 w : Nat) (hh : h0 < src.height)
    (hw : w < src.width) :
    allSome ((vertRows 1 chromaTaps src.height h0).map (fun r => src.get r w))
      = some (vertNeighbors chromaTaps src h0 w) := by
  have e : ∀ r : Int, 0 ≤ r → r < src.height → src.get r w = some (src.px r.toNat w) := by
    intro r h1 h2
    rw [Plane.get_eq_some h1 h2 (by omega) (by omega)]
    simp
  simp only [vertRows, chromaTaps, vertNeighbors, clamp]
  simp [List.range_succ, List.range']
  rw [e _ (by omega) (by omega), e _ (by omega) (by omega), e _ (by omega) (by omega),
    e _ (by omega) (by omega)]
  simp [allSome]
  refine ⟨?_, ?_, ?_, ?_⟩ <;> congr 1 <;> omega

/-- For both instantiations the stores of `upsampleVert` are those of the
replicate-edge reference, in the same order. -/
theorem upsampleVertStores_eq (nD : Nat) (Dn0p : List Int)
    (hinst : (nD = 2 ∧ Dn0p = lumaTaps) ∨ (nD = 1 ∧ Dn0p = chromaTaps))
    (evenUpscaler oddUpscaler : upscaler_t) (src : Plane) (plane : Nat) :
    upsampleVertStores nD Dn0p evenUpscaler oddUpscaler src plane
      = vertRefStores nD Dn0p evenUpscaler oddUpscaler src plane := by
  unfold upsampleVertStores vertRefStores
  rw [rowLoop_eq_flatMap]
  apply List.flatMap_congr
  intro h0 hh0
  rw [List.mem_range] at hh0
  unfold upsampleVertRow
  apply List.flatMap_congr
  intro w hw
  rw [List.mem_range] at hw
  rw [iterate_add_pair]
  rcases hinst with ⟨rfl, rfl⟩ | ⟨rfl, rfl⟩
  · simp only [Nat.zero_add, vertRows_luma_value src h0 w hh0 hw]
    simp
    ring
  · simp only [Nat.zero_add, vertRows_chroma_value src h0 w hh0 hw]
    simp
    ring

theorem mem_vertRefStores {nD : Nat} {Dn0p : List Int} {evenUpscaler oddUpscaler : upscaler_t}
    {src : Plane} {plane : Nat} {s : Store} :
    some s ∈ vertRefStores nD Dn0p evenUpscaler oddUpscaler src plane ↔
      ∃ h0, h0 < src.height ∧ ∃ w, w < src.width ∧
        (s = ⟨plane, 2 * (h0 : Int), w, some (evenUpscaler (vertNeighbors Dn0p src h0 w) nD)⟩ ∨
         s = ⟨plane, 2 * (h0 : Int) + 1, w,
            some (oddUpscaler (vertNeighbors Dn0p src h0 w) nD)⟩) := by
  simp [vertRefStores, List.mem_flatMap, List.mem_range]

/-- Replaying the vertical reference stores on a destination plane of twice
the height. -/
theorem exec_vertRefStores (nD : Nat) (Dn0p : List Int) (evenUpscaler oddUpscaler : upscaler_t)
    (dst : Frame) (src : Plane) (plane : Nat)
    (hdh : (dst.planes plane).height = 2 * src.height)
    (hdw : (dst.planes plane).width = src.width) :
    ∃ out, dst.exec (vertRefStores nD Dn0p evenUpscaler oddUpscaler src plane) = some out ∧
      out.format = dst.format ∧
      (out.planes plane).height = 2 * src.height ∧ (out.planes plane).width = src.width ∧
      (∀ p, p ≠ plane → out.planes p = dst.planes p) ∧
      ∀ h w, h < src.height → w < src.width →
        (out.planes plane).px (2 * h) w = evenUpscaler (vertNeighbors Dn0p src h w) nD ∧
        (out.planes plane).px (2 * h + 1) w = oddUpscaler (vertNeighbors Dn0p src h w) nD := by
  have hsafe : ∀ e ∈ vertRefStores nD Dn0p evenUpscaler oddUpscaler src plane,
      ∃ s v, e = some s ∧ s.val = some v ∧ dst.InBounds s := by
    intro e he
    simp only [vertRefStores, List.mem_flatMap, List.mem_range, List.mem_cons,
      List.mem_singleton, List.not_mem_nil, or_false] at he
    obtain ⟨h0, hh0, w, hw, rfl | rfl⟩ := he
    · exact ⟨_, _, rfl, rfl, by simp only [Frame.InBounds]; omega⟩
    · exact ⟨_, _, rfl, rfl, by simp only [Frame.InBounds]; omega⟩
  obtain ⟨out, hex, hfmt, hd, hw, hu⟩ := Frame.exec_spec _ dst hsafe
  refine ⟨out, hex, hfmt, by rw [(hd plane).1, hdh], by rw [(hd plane).2, hdw], ?_, ?_⟩
  · intro p hp
    apply Plane.ext_px (hd p).1 (hd p).2
    intro r c
    apply hu
    intro s hs hat
    rw [mem_vertRefStores] at hs
    obtain ⟨h0, _, w, _, rfl | rfl⟩ := hs <;> exact hp hat.1.symm
  · intro h w hh hw1
    constructor
    · apply hw
      · exact ⟨_, mem_vertRefStores.2 ⟨h, hh, w, hw1, Or.inl rfl⟩, rfl, by push_cast; ring, rfl⟩
      · intro s hs hat
        rw [mem_vertRefStores] at hs
        obtain ⟨h0, _, w0, _, rfl | rfl⟩ := hs
        · obtain ⟨_, h2, h3⟩ := hat
          simp only at h2 h3
          have e1 : h0 = h := by omega
          have e2 : w0 = w := by omega
          subst e1 e2
          rfl
        · obtain ⟨_, h2, h3⟩ := hat
          simp only at h2 h3
          omega
    · apply hw
      · exact ⟨_, mem_vertRefStores.2 ⟨h, hh, w, hw1, Or.inr rfl⟩, rfl, by push_cast; ring, rfl⟩
      · intro s hs hat
        rw [mem_vertRefStores] at hs
        obtain ⟨h0, _, w0, _, rfl | rfl⟩ := hs
        · obtain ⟨_, h2, h3⟩ := hat
          simp only at h2 h3
          omega
        · obtain ⟨_, h2, h3⟩ := hat
          simp only at h2 h3
          have e1 : h0 = h := by omega
          have e2 : w0 = w := by omega
          subst e1 e2
          rfl

theorem horz_luma_row (evenUpscaler oddUpscaler : upscaler_t) (src : Plane) (plane : Nat)
    (hW : 4 ≤ src.width) (h : Nat) (hh : h < src.height) (dstP : Int) :
    upsampleHorzRow 2 lumaTaps evenUpscaler oddUpscaler src plane h ((h : Int), dstP)
      = (horzColumns 2 lumaTaps src.width).flatMap fun w =>
          horzPair 2 evenUpscaler oddUpscaler plane dstP w
            (some (horzNeighbors lumaTaps src h w.toNat)) := by
  have e : ∀ c : Int, 0 ≤ c → c < src.width → src.get h c = some (src.px h c.toNat) := by
    intro c h1 h2
    rw [Plane.get_eq_some (by omega) (by omega) h1 h2]
    simp
  unfold upsampleHorzRow horzColumns
  simp only [List.flatMap_append]
  congr 1
  congr 1
  all_goals
    apply List.flatMap_congr
    intro w hw
    rw [mem_forRange] at hw
    try simp only [lumaTaps, List.length_cons, List.length_nil] at hw
    congr 1
    simp only [copy_n, lumaTaps, horzNeighbors, clamp]
    simp [List.range_succ, List.range']
    rw [e _ (by omega) (by omega), e _ (by omega) (by omega), e _ (by omega) (by omega),
      e _ (by omega) (by omega), e _ (by omega) (by omega)]
    simp [allSome]
    refine ⟨?_, ?_, ?_, ?_, ?_⟩ <;> congr 1 <;> omega

theorem horz_chroma_row (evenUpscaler oddUpscaler : upscaler_t) (src : Plane) (plane : Nat)
    (hW : 3 ≤ src.width) (h : Nat) (hh : h < src.height) (dstP : Int) :
    upsampleHorzRow 1 chromaTaps evenUpscaler oddUpscaler src plane h ((h : Int), dstP)
      = (horzColumns 1 chromaTaps src.width).flatMap fun w =>
          horzPair 1 evenUpscaler oddUpscaler plane dstP w
            (some (horzNeighbors chromaTaps src h w.toNat)) := by
  have e : ∀ c : Int, 0 ≤ c → c < src.width → src.get h c = some (src.px h c.toNat) := by
    intro c h1 h2
    rw [Plane.get_eq_some (by omega) (by omega) h1 h2]
    simp
  unfold upsampleHorzRow horzColumns
  simp only [List.flatMap_append]
  congr 1
  congr 1
  all_goals
    apply List.flatMap_congr
    intro w hw
    rw [mem_forRange] at hw
    try simp only [chromaTaps, List.length_cons, List.length_nil] at hw
    congr 1
    simp only [copy_n, chromaTaps, horzNeighbors, clamp]
    simp [List.range_succ, List.range']
    rw [e _ (by omega) (by omega), e _ (by omega) (by omega), e _ (by omega) (by omega),
      e _ (by omega) (by omega)]
    simp [allSome]
    refine ⟨?_, ?_, ?_, ?_⟩ <;> congr 1 <;> omega

theorem mem_horzColumns {nD : Nat} {Dn0p : List Int} {srcWidth w : Int}
    (hnD : (nD : Int) + 1 ≤ Dn0p.length) (hW : (Dn0p.length : Int) - 1 ≤ srcWidth) :
    w ∈ horzColumns nD Dn0p srcWidth ↔ 0 ≤ w ∧ w < srcWidth := by
  simp only [horzColumns, List.mem_append, mem_forRange]
  omega

theorem upsampleHorzStores_eq (nD : Nat) (Dn0p : List Int)
    (hinst : (nD = 2 ∧ Dn0p = lumaTaps) ∨ (nD = 1 ∧ Dn0p = chromaTaps))
    (evenUpscaler oddUpscaler : upscaler_t) (src : Plane) (plane : Nat)
    (hW : Dn0p.length - 1 ≤ src.width) :
    upsampleHorzStores nD Dn0p evenUpscaler oddUpscaler src plane
      = horzRefStores nD Dn0p evenUpscaler oddUpscaler src plane := by
  unfold upsampleHorzStores horzRefStores
  rw [rowLoop_eq_flatMap]
  apply List.flatMap_congr
  intro h hh
  rw [List.mem_range] at hh
  rw [iterate_add_pair]
  simp only [Nat.zero_add, zero_add, one_mul]
  rcases hinst with ⟨rfl, rfl⟩ | ⟨rfl, rfl⟩
  · exact horz_luma_row evenUpscaler oddUpscaler src plane (by simpa [lumaTaps] using hW) h hh h
  · exact horz_chroma_row evenUpscaler oddUpscaler src plane (by simpa [chromaTaps] using hW) h hh h

theorem mem_horzRefStores {nD : Nat} {Dn0p : List Int} {evenUpscaler oddUpscaler : upscaler_t}
    {src : Plane} {plane : Nat} {s : Store}
    (hnD : (nD : Int) + 1 ≤ Dn0p.length) (hW : (Dn0p.length : Int) - 1 ≤ src.width) :
    some s ∈ horzRefStores nD Dn0p evenUpscaler oddUpscaler src plane ↔
      ∃ h, h < src.height ∧ ∃ w : Nat, w < src.width ∧
        (s = ⟨plane, h, 2 * (w : Int), some (evenUpscaler (horzNeighbors Dn0p src h w) nD)⟩ ∨
         s = ⟨plane, h, 2 * (w : Int) + 1,
            some (oddUpscaler (horzNeighbors Dn0p src h w) nD)⟩) := by
  simp only [horzRefStores, List.mem_flatMap, List.mem_range, mem_horzColumns hnD hW, horzPair,
    List.mem_cons, List.mem_singleton, List.not_mem_nil, or_false, Option.some.injEq,
    Option.map_some']
  constructor
  · rintro ⟨h, hh, w, ⟨hw0, hw1⟩, hs⟩
    refine ⟨h, hh, w.toNat, by omega, ?_⟩
    rw [Int.toNat_of_nonneg hw0]
    exact hs
  · rintro ⟨h, hh, w, hw, hs⟩
    refine ⟨h, hh, (w : Int), ⟨by omega, by omega⟩, ?_⟩
    simpa using hs

/-- Replaying the horizontal reference stores on a destination plane of twice
the width. -/
theorem exec_horzRefStores (nD : Nat) (Dn0p : List Int) (evenUpscaler oddUpscaler : upscaler_t)
    (dst : Frame) (src : Plane) (plane : Nat)
    (hnD : (nD : Int) + 1 ≤ Dn0p.length) (hW : (Dn0p.length : Int) - 1 ≤ src.width)
    (hdh : (dst.planes plane).height = src.height)
    (hdw : (dst.planes plane).width = 2 * src.width) :
    ∃ out, dst.exec (horzRefStores nD Dn0p evenUpscaler oddUpscaler src plane) = some out ∧
      out.format = dst.format ∧
      (out.planes plane).height = src.height ∧ (out.planes plane).width = 2 * src.width ∧
      (∀ p, p ≠ plane → out.planes p = dst.planes p) ∧
      ∀ h w, h < src.height → w < src.width →
        (out.planes plane).px h (2 * w) = evenUpscaler (horzNeighbors Dn0p src h w) nD ∧
        (out.planes plane).px h (2 * w + 1) = oddUpscaler (horzNeighbors Dn0p src h w) nD := by
  have hsafe : ∀ e ∈ horzRefStores nD Dn0p evenUpscaler oddUpscaler src plane,
      ∃ s v, e = some s ∧ s.val = some v ∧ dst.InBounds s := by
    intro e he
    have he1 := he
    simp only [horzRefStores, List.mem_flatMap, horzPair, List.mem_cons, List.mem_singleton,
      List.not_mem_nil, or_false] at he1
    obtain ⟨h0, _, w0, _, h1⟩ := he1
    have : ∃ s, e = some s := by rcases h1 with h1 | h1 <;> exact ⟨_, h1⟩
    obtain ⟨s, rfl⟩ := this
    rw [mem_horzRefStores hnD hW] at he
    obtain ⟨h, hh, w, hw, rfl | rfl⟩ := he
    · exact ⟨_, _, rfl, rfl, by simp only [Frame.InBounds]; omega⟩
    · exact ⟨_, _, rfl, rfl, by simp only [Frame.InBounds]; omega⟩
  obtain ⟨out, hex, hfmt, hd, hw, hu⟩ := Frame.exec_spec _ dst hsafe
  refine ⟨out, hex, hfmt, by rw [(hd plane).1, hdh], by rw [(hd plane).2, hdw], ?_, ?_⟩
  · intro p hp
    apply Plane.ext_px (hd p).1 (hd p).2
    intro r c
    apply hu
    intro s hs hat
    rw [mem_horzRefStores hnD hW] at hs
    obtain ⟨h0, _, w, _, rfl | rfl⟩ := hs <;> exact hp hat.1.symm
  · intro h w hh hw1
    constructor
    · apply hw
      · exact ⟨_, (mem_horzRefStores hnD hW).2 ⟨h, hh, w, hw1, Or.inl rfl⟩, rfl, rfl,
          by push_cast; ring⟩
      · intro s hs hat
        rw [mem_horzRefStores hnD hW] at hs
        obtain ⟨h0, _, w0, _, rfl | rfl⟩ := hs
        · obtain ⟨_, h2, h3⟩ := hat
          simp only at h2 h3
          have e1 : h0 = h := by omega
          have e2 : w0 = w := by omega
          subst e1 e2
          rfl
        · obtain ⟨_, h2, h3⟩ := hat
          simp only at h2 h3
          omega
    · apply hw
      · exact ⟨_, (mem_horzRefStores hnD hW).2 ⟨h, hh, w, hw1, Or.inr rfl⟩, rfl, rfl,
          by push_cast; ring⟩
      · intro s hs hat
        rw [mem_horzRefStores hnD hW] at hs
        obtain ⟨h0, _, w0, _, rfl | rfl⟩ := hs
        · obtain ⟨_, h2, h3⟩ := hat
          simp only at h2 h3
          omega
        · obtain ⟨_, h2, h3⟩ := hat
          simp only at h2 h3
          have e1 : h0 = h := by omega
          have e2 : w0 = w := by omega
          subst e1 e2
          rfl

theorem positions_vertRefStores (nD : Nat) (Dn0p : List Int) (evenUpscaler oddUpscaler : upscaler_t)
    (src : Plane) (plane : Nat) :
    positions (vertRefStores nD Dn0p evenUpscaler oddUpscaler src plane)
      = (List.range src.height).flatMap fun h0 =>
          (List.range src.width).flatMap fun w =>
            [some (plane, 2 * (h0 : Int), (w : Int)), some (plane, 2 * (h0 : Int) + 1, (w : Int))] := by
  simp [positions, vertRefStores, List.map_flatMap]

theorem nodup_flatMap_range {α : Type} (n : Nat) (f : Nat → List α)
    (h1 : ∀ i, i < n → (f i).Nodup)
    (h2 : ∀ i j, i < n → j < n → i ≠ j → ∀ x, x ∈ f i → x ∈ f j → False) :
    ((List.range n).flatMap f).Nodup := by
  rw [List.nodup_flatMap]
  refine ⟨fun i hi => h1 i (List.mem_range.1 hi), ?_⟩
  refine List.Pairwise.imp_of_mem ?_ (List.nodup_range n)
  intro i j hi hj hne x hxi hxj
  exact h2 i j (List.mem_range.1 hi) (List.mem_range.1 hj) hne x hxi hxj

theorem vertRef_positions (nD : Nat) (Dn0p : List Int) (evenUpscaler oddUpscaler : upscaler_t)
    (src : Plane) (plane : Nat) :
    (positions (vertRefStores nD Dn0p evenUpscaler oddUpscaler src plane)).Nodup ∧
    ∀ q, q ∈ positions (vertRefStores nD Dn0p evenUpscaler oddUpscaler src plane) ↔
      ∃ r c : Nat, r < 2 * src.height ∧ c < src.width ∧ q = some (plane, (r : Int), (c : Int)) := by
  rw [positions_vertRefStores]
  constructor
  · apply nodup_flatMap_range
    · intro h0 _
      apply nodup_flatMap_range
      · intro w _
        simp
      · intro w1 w2 _ _ hne x hx1 hx2
        simp only [List.mem_cons, List.mem_singleton, List.not_mem_nil, or_false] at hx1 hx2
        rcases hx1 with rfl | rfl <;> rcases hx2 with h | h <;> simp at h <;> omega
    · intro i j _ _ hne x hx1 hx2
      simp only [List.mem_flatMap, List.mem_range, List.mem_cons, List.mem_singleton,
        List.not_mem_nil, or_false] at hx1 hx2
      obtain ⟨w1, _, rfl | rfl⟩ := hx1 <;> obtain ⟨w2, _, h | h⟩ := hx2 <;> simp at h <;> omega
  · intro q
    simp only [List.mem_flatMap, List.mem_range, List.mem_cons, List.mem_singleton,
      List.not_mem_nil, or_false]
    constructor
    · rintro ⟨h0, hh0, w, hw, rfl | rfl⟩
      · exact ⟨2 * h0, w, by omega, hw, by simp⟩
      · exact ⟨2 * h0 + 1, w, by omega, hw, by simp⟩
    · rintro ⟨r, c, hr, hc, rfl⟩
      refine ⟨r / 2, by omega, c, hc, ?_⟩
      rcases Nat.mod_two_eq_zero_or_one r with h | h
      · left
        simp only [Option.some.injEq, Prod.mk.injEq, true_and, and_true]
        omega
      · right
        simp only [Option.some.injEq, Prod.mk.injEq, true_and, and_true]
        omega

/-! ## applyDovi: lemmas -/

theorem applyPtrs_iterate_advance (cs : Bool) (k : Nat) :
    (ApplyPtrs.advance cs)^[k] (ApplyPtrs.init cs)
      = ⟨if cs then [2 * (k : Int), 2 * (k : Int) + 1] else [(k : Int)],
         if cs then [2 * (k : Int), 2 * (k : Int) + 1] else [(k : Int)],
         if cs then [2 * (k : Int), 2 * (k : Int) + 1] else [(k : Int)],
         k, k, k, k, k, k⟩ := by
  induction k with
  | zero => cases cs <;> simp [ApplyPtrs.init]
  | succ k ih =>
    rw [Function.iterate_succ_apply', ih]
    cases cs
    · simp [ApplyPtrs.advance]
    · simp [ApplyPtrs.advance]
      ring_nf
      simp

theorem applyDoviRow_false (proc : DoViProcessor) (blSrcY blSrcUV elSrcY elSrcUV dst : Frame)
    (hUV wUV : Nat) (hs : ApplyShapes false dst blSrcY blSrcUV elSrcY elSrcUV hUV wUV)
    (huv : Nat) (hh : huv < hUV) :
    applyDoviRow false proc blSrcY blSrcUV elSrcY elSrcUV huv
        ⟨[(huv : Int)], [(huv : Int)], [(huv : Int)], huv, huv, huv, huv, huv, huv⟩
      = (applyColumns false (blSrcUV.planes 1).width).flatMap fun wuv =>
          applyRefBlock false proc (blSrcY.planes 0) (elSrcY.planes 0)
            (blSrcUV.planes 1) (blSrcUV.planes 2) (elSrcUV.planes 1) (elSrcUV.planes 2)
            huv wuv.toNat := by
  obtain ⟨h1, h2, h3, h4, h5, h6, h7, h8, h9, h10, h11, h12, h13, h14, h15, h16, h17, h18⟩ := hs
  simp only [Bool.false_eq_true, if_false, one_mul] at h1 h2 h3 h4 h5 h6
  unfold applyDoviRow applyColumns
  simp only [Bool.false_eq_true, if_false, List.nil_append, List.append_nil]
  apply List.flatMap_congr
  intro wuv hw
  rw [mem_forRange] at hw
  simp only [applyLumaBlock, applyLumaStore, applyChromaStores, applyRefBlock, lumaProxy,
    Bool.false_eq_true, if_false]
  simp [List.range_succ, hw.1]
  simp (disch := omega) [Plane.get_eq_some]

theorem mmrNarrow_eq (x y : Nat) (hx : x ≤ 4 * 65535 + 2) (hy : y ≤ 4 * 65535 + 2) :
    mmrNarrow x y = ((x >>> 2) + (y >>> 2) + 1) >>> 1 := by
  unfold mmrNarrow
  apply Nat.mod_eq_of_lt
  simp only [Nat.shiftRight_eq_div_pow]
  omega

theorem toNat_two_mul (k : Nat) : (2 * (k : Int)).toNat = 2 * k := by omega

theorem toNat_two_mul_add_one (k : Nat) : (2 * (k : Int) + 1).toNat = 2 * k + 1 := by omega

theorem toNat_two_mul_sub_one (k : Nat) : (2 * (k : Int) - 1).toNat = 2 * k - 1 := by omega

theorem apply_luma_block_true (proc : DoViProcessor) (blY elY : Plane) (hUV wUV : Nat)
    (h1 : blY.height = 2 * hUV) (h2 : blY.width = 2 * wUV)
    (h3 : elY.height = 2 * hUV) (h4 : elY.width = 2 * wUV)
    (huv j : Nat) (hh : huv < hUV) (hj : j < wUV) :
    applyLumaBlock proc blY elY (ptrsTrue huv) 2 (j : Int)
      = ((List.range 2).flatMap fun jj =>
          (List.range 2).map fun i =>
            some ⟨0, ((2 * huv + jj : Nat) : Int), ((2 * j + i : Nat) : Int),
              some (proc.processSampleY (blY.px (2 * huv + jj) (2 * j + i))
                (elY.px (2 * huv + jj) (2 * j + i)))⟩) := by
  simp only [applyLumaBlock, applyLumaStore, ptrsTrue]
  simp [List.range_succ]
  simp (disch := omega) [Plane.get_eq_some, toNat_two_mul, toNat_two_mul_add_one]

theorem apply_left_block (proc : DoViProcessor) (blY elY blU blV elU elV : Plane) (hUV wUV : Nat)
    (h1 : blY.height = 2 * hUV) (h2 : blY.width = 2 * wUV)
    (h3 : elY.height = 2 * hUV) (h4 : elY.width = 2 * wUV)
    (h7 : blU.height = hUV) (h8 : blU.width = wUV) (h9 : blV.height = hUV) (h10 : blV.width = wUV)
    (h11 : elU.height = hUV) (h12 : elU.width = wUV) (h13 : elV.height = hUV)
    (h14 : elV.width = wUV) (hW : 2 ≤ wUV) (h16 : blY.Is16) (huv : Nat) (hh : huv < hUV) :
    applyLumaBlock proc blY elY (ptrsTrue huv) 2 0
        ++ applyChromaStores proc blU blV elU elV (ptrsTrue huv) 0
            (do let m1 ← mmrLeft blY (ptrsTrue huv) 0 0
                let m2 ← mmrLeft blY (ptrsTrue huv) 1 0
                pure (mmrNarrow m1 m2))
      = applyRefBlock true proc blY elY blU blV elU elV huv 0 := by
  have hb : ∀ r c, r < 2 * hUV → c < 2 * wUV → blY.px r c ≤ 65535 := by
    intro r c hr hc
    have := h16 r c (by omega) (by omega)
    omega
  have hl := apply_luma_block_true proc blY elY hUV wUV h1 h2 h3 h4 huv 0 hh (by omega)
  simp only [Nat.cast_zero] at hl
  rw [hl]
  simp only [applyRefBlock, if_true, lumaProxy, applyChromaStores, mmrLeft, ptrsTrue]
  congr 1
  simp
  simp (disch := omega) [Plane.get_eq_some, toNat_two_mul, toNat_two_mul_add_one]
  rw [mmrNarrow_eq _ _ (by have := hb (2 * huv) 0 (by omega) (by omega)
                           have := hb (2 * huv) 1 (by omega) (by omega)
                           omega)
        (by have := hb (2 * huv + 1) 0 (by omega) (by omega)
            have := hb (2 * huv + 1) 1 (by omega) (by omega)
            omega)]
  simp

theorem apply_centre_block (proc : DoViProcessor) (blY elY blU blV elU elV : Plane)
    (hUV wUV : Nat)
    (h1 : blY.height = 2 * hUV) (h2 : blY.width = 2 * wUV)
    (h3 : elY.height = 2 * hUV) (h4 : elY.width = 2 * wUV)
    (h7 : blU.height = hUV) (h8 : blU.width = wUV) (h9 : blV.height = hUV) (h10 : blV.width = wUV)
    (h11 : elU.height = hUV) (h12 : elU.width = wUV) (h13 : elV.height = hUV)
    (h14 : elV.width = wUV) (h16 : blY.Is16) (huv : Nat) (hh : huv < hUV)
    (j : Nat) (hj1 : 1 ≤ j) (hj2 : j + 1 < wUV) :
    applyLumaBlock proc blY elY (ptrsTrue huv) 2 (j : Int)
        ++ applyChromaStores proc blU blV elU elV (ptrsTrue huv) (j : Int)
            (do let m1 ← mmrCentre blY (ptrsTrue huv) 0 (j : Int)
                let m2 ← mmrCentre blY (ptrsTrue huv) 1 (j : Int)
                pure (mmrNarrow m1 m2))
      = applyRefBlock true proc blY elY blU blV elU elV huv j := by
  have hb : ∀ r c, r < 2 * hUV → c < 2 * wUV → blY.px r c ≤ 65535 := by
    intro r c hr hc
    have := h16 r c (by omega) (by omega)
    omega
  rw [apply_luma_block_true proc blY elY hUV wUV h1 h2 h3 h4 huv j hh (by omega)]
  have c1 : ¬ j = 0 := by omega
  have c2 : ¬ j = blU.width - 1 := by omega
  simp only [applyRefBlock, if_true, lumaProxy, applyChromaStores, mmrCentre, ptrsTrue, c1, c2,
    if_false]
  congr 1
  simp
  simp (disch := omega) [Plane.get_eq_some, toNat_two_mul, toNat_two_mul_add_one,
    toNat_two_mul_sub_one]
  rw [mmrNarrow_eq _ _ (by have := hb (2 * huv) (2 * j - 1) (by omega) (by omega)
                           have := hb (2 * huv) (2 * j) (by omega) (by omega)
                           have := hb (2 * huv) (2 * j + 1) (by omega) (by omega)
                           omega)
        (by have := hb (2 * huv + 1) (2 * j - 1) (by omega) (by omega)
            have := hb (2 * huv + 1) (2 * j) (by omega) (by omega)
            have := hb (2 * huv + 1) (2 * j + 1) (by omega) (by omega)
            omega)]
  simp

theorem apply_right_block (proc : DoViProcessor) (blY elY blU blV elU elV : Plane)
    (hUV wUV : Nat)
    (h1 : blY.height = 2 * hUV) (h2 : blY.width = 2 * wUV)
    (h3 : elY.height = 2 * hUV) (h4 : elY.width = 2 * wUV)
    (h7 : blU.height = hUV) (h8 : blU.width = wUV) (h9 : blV.height = hUV) (h10 : blV.width = wUV)
    (h11 : elU.height = hUV) (h12 : elU.width = wUV) (h13 : elV.height = hUV)
    (h14 : elV.width = wUV) (h16 : blY.Is16) (huv : Nat) (hh : huv < hUV)
    (j : Nat) (hj1 : 1 ≤ j) (hj2 : j + 1 = wUV) :
    applyLumaBlock proc blY elY (ptrsTrue huv) 2 (j : Int)
        ++ applyChromaStores proc blU blV elU elV (ptrsTrue huv) (j : Int)
            (do let m1 ← mmrRight blY (ptrsTrue huv) 0 (j : Int)
                let m2 ← mmrRight blY (ptrsTrue huv) 1 (j : Int)
                pure (mmrNarrow m1 m2))
      = applyRefBlock true proc blY elY blU blV elU elV huv j := by
  have hb : ∀ r c, r < 2 * hUV → c < 2 * wUV → blY.px r c ≤ 65535 := by
    intro r c hr hc
    have := h16 r c (by omega) (by omega)
    omega
  rw [apply_luma_block_true proc blY elY hUV wUV h1 h2 h3 h4 huv j hh (by omega)]
  have c1 : ¬ j = 0 := by omega
  have c2 : j = blU.width - 1 := by omega
  simp only [applyRefBlock, if_true, lumaProxy, applyChromaStores, mmrRight, ptrsTrue, c1,
    if_false]
  rw [if_pos c2, if_pos c2]
  congr 1
  simp
  simp (disch := omega) [Plane.get_eq_some, toNat_two_mul, toNat_two_mul_add_one,
    toNat_two_mul_sub_one]
  rw [mmrNarrow_eq _ _ (by have := hb (2 * huv) (2 * j - 1) (by omega) (by omega)
                           have := hb (2 * huv) (2 * j) (by omega) (by omega)
                           omega)
        (by have := hb (2 * huv + 1) (2 * j - 1) (by omega) (by omega)
            have := hb (2 * huv + 1) (2 * j) (by omega) (by omega)
            omega)]
  simp

theorem applyDoviRow_true (proc : DoViProcessor) (blSrcY blSrcUV elSrcY elSrcUV dst : Frame)
    (hUV wUV : Nat) (hs : ApplyShapes true dst blSrcY blSrcUV elSrcY elSrcUV hUV wUV)
    (hW : 2 ≤ wUV) (h16 : (blSrcY.planes 0).Is16)
    (huv : Nat) (hh : huv < hUV) :
    applyDoviRow true proc blSrcY blSrcUV elSrcY elSrcUV huv (ptrsTrue huv)
      = (applyColumns true (blSrcUV.planes 1).width).flatMap fun wuv =>
          applyRefBlock true proc (blSrcY.planes 0) (elSrcY.planes 0)
            (blSrcUV.planes 1) (blSrcUV.planes 2) (elSrcUV.planes 1) (elSrcUV.planes 2)
            huv wuv.toNat := by
  obtain ⟨h1, h2, h3, h4, -, -, h7, h8, h9, h10, h11, h12, h13, h14, -, -, -, -⟩ := hs
  simp only [if_true] at h1 h2 h3 h4
  unfold applyDoviRow applyColumns
  simp only [if_true, List.flatMap_append, List.flatMap_cons, List.flatMap_nil, List.append_nil]
  congr 1
  congr 1
  · exact apply_left_block proc _ _ _ _ _ _ hUV wUV h1 h2 h3 h4 h7 h8 h9 h10 h11 h12 h13 h14
      hW h16 huv hh
  · apply List.flatMap_congr
    intro wuv hw
    rw [mem_forRange] at hw
    obtain ⟨j, rfl⟩ : ∃ j : Nat, wuv = (j : Int) := ⟨wuv.toNat, by omega⟩
    rw [Int.toNat_natCast]
    exact apply_centre_block proc _ _ _ _ _ _ hUV wUV h1 h2 h3 h4 h7 h8 h9 h10 h11 h12 h13 h14
      h16 huv hh j (by omega) (by omega)
  · obtain ⟨j, hj⟩ : ∃ j : Nat, ((blSrcUV.planes 1).width : Int) - 1 = (j : Int) :=
      ⟨(blSrcUV.planes 1).width - 1, by omega⟩
    simp only [hj, Int.toNat_natCast]
    exact apply_right_block proc _ _ _ _ _ _ hUV wUV h1 h2 h3 h4 h7 h8 h9 h10 h11 h12 h13 h14
      h16 huv hh j (by omega) (by omega)

/-- For a destination, sources and a 16-bit BL luma plane of the sizes
`applyDovi` is called with, its stores are those of the reference. -/
theorem applyDoviStores_eq (cs : Bool) (proc : DoViProcessor)
    (blSrcY blSrcUV elSrcY elSrcUV dst : Frame) (hUV wUV : Nat)
    (hs : ApplyShapes cs dst blSrcY blSrcUV elSrcY elSrcUV hUV wUV)
    (hW : cs = true → 2 ≤ wUV) (h16 : cs = true → (blSrcY.planes 0).Is16) :
    applyDoviStores cs proc blSrcY blSrcUV elSrcY elSrcUV
      = applyDoviRefStores cs proc blSrcY blSrcUV elSrcY elSrcUV := by
  unfold applyDoviStores applyDoviRefStores
  rw [rowLoop_eq_flatMap]
  apply List.flatMap_congr
  intro huv hh
  rw [List.mem_range, hs.blU_h] at hh
  rw [applyPtrs_iterate_advance, Nat.zero_add]
  cases cs
  · simp only [Bool.false_eq_true, if_false]
    exact applyDoviRow_false proc blSrcY blSrcUV elSrcY elSrcUV dst hUV wUV hs huv hh
  · simp only [if_true]
    exact applyDoviRow_true proc blSrcY blSrcUV elSrcY elSrcUV dst hUV wUV hs (hW rfl)
      (h16 rfl) huv hh

theorem mem_applyColumns {cs : Bool} {widthUV : Nat} {w : Int} (hW : cs = true → 2 ≤ widthUV) :
    w ∈ applyColumns cs widthUV ↔ 0 ≤ w ∧ w < widthUV := by
  cases cs
  · simp [applyColumns, mem_forRange]
  · have := hW rfl
    simp only [applyColumns, if_true, List.mem_append, List.mem_singleton, mem_forRange]
    omega

theorem mem_applyRefBlock {cs : Bool} {proc : DoViProcessor} {blY elY blU blV elU elV : Plane}
    {huv wuv : Nat} {s : Store} :
    some s ∈ applyRefBlock cs proc blY elY blU blV elU elV huv wuv ↔
      (∃ jj i, jj < (if cs then 2 else 1) ∧ i < (if cs then 2 else 1) ∧
        s = ⟨0, (((if cs then 2 else 1) * huv + jj : Nat) : Int),
              (((if cs then 2 else 1) * wuv + i : Nat) : Int),
              some (proc.processSampleY
                (blY.px ((if cs then 2 else 1) * huv + jj) ((if cs then 2 else 1) * wuv + i))
                (elY.px ((if cs then 2 else 1) * huv + jj) ((if cs then 2 else 1) * wuv + i)))⟩) ∨
      s = ⟨1, (huv : Int), (wuv : Int),
          some (proc.processSampleU (blU.px huv wuv) (elU.px huv wuv)
            (lumaProxy cs blY blU.width huv wuv) (blU.px huv wuv) (blV.px huv wuv))⟩ ∨
      s = ⟨2, (huv : Int), (wuv : Int),
          some (proc.processSampleV (blV.px huv wuv) (elV.px huv wuv)
            (lumaProxy cs blY blU.width huv wuv) (blU.px huv wuv) (blV.px huv wuv))⟩ := by
  simp only [applyRefBlock, List.mem_append, List.mem_flatMap, List.mem_map, List.mem_range,
    List.mem_cons, List.mem_singleton, List.not_mem_nil, or_false, Option.some.injEq]
  constructor
  · rintro (⟨jj, hjj, i, hi, rfl⟩ | h | h)
    · exact Or.inl ⟨jj, i, hjj, hi, rfl⟩
    · exact Or.inr (Or.inl h)
    · exact Or.inr (Or.inr h)
  · rintro (⟨jj, i, hjj, hi, rfl⟩ | h | h)
    · exact Or.inl ⟨jj, hjj, i, hi, rfl⟩
    · exact Or.inr (Or.inl h)
    · exact Or.inr (Or.inr h)

theorem mem_applyDoviRefStores {cs : Bool} {proc : DoViProcessor}
    {blSrcY blSrcUV elSrcY elSrcUV : Frame} {s : Store}
    (hW : cs = true → 2 ≤ (blSrcUV.planes 1).width) :
    some s ∈ applyDoviRefStores cs proc blSrcY blSrcUV elSrcY elSrcUV ↔
      ∃ huv wuv : Nat, huv < (blSrcUV.planes 1).height ∧ wuv < (blSrcUV.planes 1).width ∧
        some s ∈ applyRefBlock cs proc (blSrcY.planes 0) (elSrcY.planes 0)
          (blSrcUV.planes 1) (blSrcUV.planes 2) (elSrcUV.planes 1) (elSrcUV.planes 2) huv wuv := by
  simp only [applyDoviRefStores, List.mem_flatMap, List.mem_range, mem_applyColumns hW]
  constructor
  · rintro ⟨huv, hh, w, ⟨hw0, hw1⟩, hs⟩
    exact ⟨huv, w.toNat, hh, by omega, hs⟩
  · rintro ⟨huv, wuv, hh, hw, hs⟩
    exact ⟨huv, hh, (wuv : Int), ⟨by omega, by omega⟩, by simpa using hs⟩

theorem applyDoviRefStores_some {cs : Bool} {proc : DoViProcessor}
    {blSrcY blSrcUV elSrcY elSrcUV : Frame} {e : Option Store}
    (he : e ∈ applyDoviRefStores cs proc blSrcY blSrcUV elSrcY elSrcUV) : ∃ s, e = some s := by
  simp only [applyDoviRefStores, applyRefBlock, List.mem_flatMap, List.mem_append, List.mem_map,
    List.mem_cons, List.mem_singleton, List.not_mem_nil, or_false] at he
  obtain ⟨_, _, _, _, (⟨_, _, _, _, h⟩ | h | h)⟩ := he
  · exact ⟨_, h.symm⟩
  · exact ⟨_, h⟩
  · exact ⟨_, h⟩

/-- Replaying the reference stores of the combination on a destination of the
right shape. -/
theorem exec_applyDoviRefStores (cs : Bool) (proc : DoViProcessor)
    (blSrcY blSrcUV elSrcY elSrcUV dst : Frame) (hUV wUV : Nat)
    (hs : ApplyShapes cs dst blSrcY blSrcUV elSrcY elSrcUV hUV wUV)
    (hW : cs = true → 2 ≤ wUV) :
    ∃ out, dst.exec (applyDoviRefStores cs proc blSrcY blSrcUV elSrcY elSrcUV) = some out ∧
      out.format = dst.format ∧
      (∀ p, (out.planes p).height = (dst.planes p).height ∧
        (out.planes p).width = (dst.planes p).width) ∧
      (∀ h w, h < (if cs then 2 else 1) * hUV → w < (if cs then 2 else 1) * wUV →
        (out.planes 0).px h w
          = proc.processSampleY ((blSrcY.planes 0).px h w) ((elSrcY.planes 0).px h w)) ∧
      (∀ i j, i < hUV → j < wUV →
        (out.planes 1).px i j
          = proc.processSampleU ((blSrcUV.planes 1).px i j) ((elSrcUV.planes 1).px i j)
              (lumaProxy cs (blSrcY.planes 0) wUV i j) ((blSrcUV.planes 1).px i j)
              ((blSrcUV.planes 2).px i j) ∧
        (out.planes 2).px i j
          = proc.processSampleV ((blSrcUV.planes 2).px i j) ((elSrcUV.planes 2).px i j)
              (lumaProxy cs (blSrcY.planes 0) wUV i j) ((blSrcUV.planes 1).px i j)
              ((blSrcUV.planes 2).px i j)) := by
  have hW1 : cs = true → 2 ≤ (blSrcUV.planes 1).width := by rw [hs.blU_w]; exact hW
  have hbh := hs.blU_h
  have hbw := hs.blU_w
  have hsafe : ∀ e ∈ applyDoviRefStores cs proc blSrcY blSrcUV elSrcY elSrcUV,
      ∃ s v, e = some s ∧ s.val = some v ∧ dst.InBounds s := by
    intro e he
    obtain ⟨s, rfl⟩ := applyDoviRefStores_some he
    rw [mem_applyDoviRefStores hW1] at he
    obtain ⟨huv, wuv, hh, hw, hb⟩ := he
    rw [mem_applyRefBlock] at hb
    have d1 := hs.dstY_h
    have d2 := hs.dstY_w
    have d3 := hs.dstU_h
    have d4 := hs.dstU_w
    have d5 := hs.dstV_h
    have d6 := hs.dstV_w
    rcases hb with ⟨jj, i, hjj, hi, rfl⟩ | rfl | rfl
    · refine ⟨_, _, rfl, rfl, ?_⟩
      simp only [Frame.InBounds]
      cases cs <;> simp only [Bool.false_eq_true, if_false, if_true] at hjj hi d1 d2 ⊢ <;> omega
    · exact ⟨_, _, rfl, rfl, by simp only [Frame.InBounds]; omega⟩
    · exact ⟨_, _, rfl, rfl, by simp only [Frame.InBounds]; omega⟩
  obtain ⟨out, hex, hfmt, hd, hw, hu⟩ := Frame.exec_spec _ dst hsafe
  refine ⟨out, hex, hfmt, hd, ?_, ?_⟩
  · intro h w hh hw1
    apply hw
    · refine ⟨_, (mem_applyDoviRefStores hW1).2
        ⟨h / (if cs then 2 else 1), w / (if cs then 2 else 1), ?_, ?_,
          mem_applyRefBlock.2 (Or.inl ⟨h % (if cs then 2 else 1), w % (if cs then 2 else 1),
            ?_, ?_, rfl⟩)⟩, rfl, ?_, ?_⟩
      all_goals cases cs <;> simp only [Bool.false_eq_true, if_false, if_true] at hh hw1 ⊢ <;> omega
    · intro s hs1 hat
      rw [mem_applyDoviRefStores hW1] at hs1
      obtain ⟨huv, wuv, _, _, hb⟩ := hs1
      rw [mem_applyRefBlock] at hb
      rcases hb with ⟨jj, i, hjj, hi, rfl⟩ | rfl | rfl
      · obtain ⟨_, h2, h3⟩ := hat
        simp only at h2 h3
        have e1 : (if cs then 2 else 1) * huv + jj = h := by omega
        have e2 : (if cs then 2 else 1) * wuv + i = w := by omega
        simp only [e1, e2]
      · exact absurd hat.1 (by simp)
      · exact absurd hat.1 (by simp)
  · intro i j hi hj
    constructor
    · apply hw
      · exact ⟨_, (mem_applyDoviRefStores hW1).2 ⟨i, j, by omega, by omega,
          mem_applyRefBlock.2 (Or.inr (Or.inl rfl))⟩, rfl, rfl, rfl⟩
      · intro s hs1 hat
        rw [mem_applyDoviRefStores hW1] at hs1
        obtain ⟨huv, wuv, _, _, hb⟩ := hs1
        rw [mem_applyRefBlock] at hb
        rcases hb with ⟨jj, i, hjj, hi, rfl⟩ | rfl | rfl
        · exact absurd hat.1 (by simp)
        · obtain ⟨_, h2, h3⟩ := hat
          simp only at h2 h3
          have e1 : huv = i := by omega
          have e2 : wuv = j := by omega
          subst e1 e2
          rw [hbw]
        · exact absurd hat.1 (by simp)
    · apply hw
      · exact ⟨_, (mem_applyDoviRefStores hW1).2 ⟨i, j, by omega, by omega,
          mem_applyRefBlock.2 (Or.inr (Or.inr rfl))⟩, rfl, rfl, rfl⟩
      · intro s hs1 hat
        rw [mem_applyDoviRefStores hW1] at hs1
        obtain ⟨huv, wuv, _, _, hb⟩ := hs1
        rw [mem_applyRefBlock] at hb
        rcases hb with ⟨jj, i, hjj, hi, rfl⟩ | rfl | rfl
        · exact absurd hat.1 (by simp)
        · exact absurd hat.1 (by simp)
        · obtain ⟨_, h2, h3⟩ := hat
          simp only at h2 h3
          have e1 : huv = i := by omega
          have e2 : wuv = j := by omega
          subst e1 e2
          rw [hbw]

/-! ## doAllQuickAndDirty: lemmas -/

theorem qndPtrs_iterate_advance (blCs elCs qEl : Bool) (k : Nat) :
    QndPtrs.advance^[k] (QndPtrs.init blCs elCs qEl) = qndPtrsAt blCs elCs qEl k := by
  induction k with
  | zero => simp [QndPtrs.init, initRows, qndPtrsAt, rowsFrom]
  | succ k ih =>
    rw [Function.iterate_succ_apply', ih]
    simp only [QndPtrs.advance, qndPtrsAt, rowsFrom, List.map_map, List.length_map,
      List.length_range, QndPtrs.mk.injEq, List.map_inj_left, Function.comp_apply]
    refine ⟨?_, ?_, ?_, ?_, ?_, ?_, ?_, ?_, ?_⟩ <;> intro i _ <;> push_cast <;> ring

theorem getElem?_rowsFrom (n m i : Nat) (hi : i < n) :
    (rowsFrom n m)[i]? = some (((i + m : Nat) : Int)) := by
  simp [rowsFrom, List.getElem?_map, List.getElem?_range hi]

theorem readAt_rowsFrom (p : Plane) (n m i col : Nat) (hi : i < n)
    (hr : i + m < p.height) (hcol : col < p.width) :
    readAt p (rowsFrom n m) i col = some (p.px (i + m) col) := by
  unfold readAt
  rw [getElem?_rowsFrom n m i hi]
  simp only [Option.bind_eq_bind, Option.some_bind]
  exact Plane.get_natCast hr hcol

theorem storeAt_rowsFrom (plane n m i col : Nat) (rgb : Option (Nat × Nat × Nat))
    (pick : Nat × Nat × Nat → Nat) (hi : i < n) :
    storeAt plane (rowsFrom n m) i col rgb pick
      = some ⟨plane, ((i + m : Nat) : Int), (col : Int), rgb.map pick⟩ := by
  unfold storeAt
  rw [getElem?_rowsFrom n m i hi]
  rfl

/-- One EL chroma sample of `doAllQuickAndDirty` whose accesses are all valid
performs the stores `qndIterStores`. -/
theorem qndSample_eq (blCs elCs qEl : Bool) (proc : DoViProcessor) (blSrc elSrc : Frame)
    (k weluv : Nat)
    (hok : ∀ hDbluv wDbluv hDbly wDbly,
      hDbluv < 1 <<< blUVvsElUVshifts blCs elCs qEl →
      wDbluv < 1 <<< blUVvsElUVshifts blCs elCs qEl →
      hDbly < (if blCs then 2 else 1) → wDbly < (if blCs then 2 else 1) →
      QndIterOk blCs elCs qEl blSrc elSrc k weluv hDbluv wDbluv hDbly wDbly) :
    qndSample blCs elCs qEl proc blSrc elSrc (qndPtrsAt blCs elCs qEl k) weluv
      = (List.range (1 <<< blUVvsElUVshifts blCs elCs qEl)).flatMap fun hDbluv =>
        (List.range (1 <<< blUVvsElUVshifts blCs elCs qEl)).flatMap fun wDbluv =>
          (List.range (if blCs then 2 else 1)).flatMap fun hDbly =>
            (List.range (if blCs then 2 else 1)).flatMap fun wDbly =>
              qndIterStores blCs elCs qEl proc blSrc elSrc k weluv hDbluv wDbluv hDbly wDbly := by
  unfold qndSample
  apply List.flatMap_congr
  intro hD hhD
  apply List.flatMap_congr
  intro wD hwD
  apply List.flatMap_congr
  intro hDb hhDb
  apply List.flatMap_congr
  intro wDb hwDb
  rw [List.mem_range] at hhD hwD hhDb hwDb
  obtain ⟨i1, i2, i3, i4, a1, a2, a3, a4, a5, a6, a7, a8, a9, a10, a11, a12, a13, a14⟩ :=
    hok hD wD hDb wDb hhD hwD hhDb hwDb
  simp only [qndPtrsAt, qndIterStores]
  rw [readAt_rowsFrom _ _ _ _ _ (by omega) a1 a2, readAt_rowsFrom _ _ _ _ _ (by omega) a3 a4,
    readAt_rowsFrom _ _ _ _ _ i1 a5 a6, readAt_rowsFrom _ _ _ _ _ i1 a7 a8,
    readAt_rowsFrom _ _ _ _ _ i2 a9 a10, readAt_rowsFrom _ _ _ _ _ i3 a11 a12,
    readAt_rowsFrom _ _ _ _ _ i4 a13 a14,
    storeAt_rowsFrom _ _ _ _ _ _ _ i3, storeAt_rowsFrom _ _ _ _ _ _ _ i3,
    storeAt_rowsFrom _ _ _ _ _ _ _ i3]
  rfl

theorem qndValue_congr (proc : DoViProcessor) (blSrc elSrc : Frame)
    {r1 c1 r2 c2 r3 c3 r4 c4 r5 c5 r1' c1' r2' c2' r3' c3' r4' c4' r5' c5' : Nat}
    (h1 : r1 = r1') (h2 : c1 = c1') (h3 : r2 = r2') (h4 : c2 = c2') (h5 : r3 = r3')
    (h6 : c3 = c3') (h7 : r4 = r4') (h8 : c4 = c4') (h9 : r5 = r5') (h10 : c5 = c5') :
    qndValue proc blSrc elSrc r1 c1 r2 c2 r3 c3 r4 c4 r5 c5
      = qndValue proc blSrc elSrc r1' c1' r2' c2' r3' c3' r4' c4' r5' c5' := by
  subst h1 h2 h3 h4 h5 h6 h7 h8 h9 h10
  rfl

/-- In a geometry whose EL chroma grid is no finer than the BL chroma grid,
with planes of the implied sizes, every access of every iteration is valid. -/
theorem qndIterOk_of_shapes (self : DoViBakerVS) (blCs elCs qEl : Bool)
    (hgeo : b2n blCs ≤ b2n elCs + b2n qEl) (dst blSrc elSrc : Frame) (hUV wUV : Nat)
    (hs : QndShapes self blCs elCs qEl dst blSrc elSrc hUV wUV)
    (k weluv hDbluv wDbluv hDbly wDbly : Nat) (hk : k < hUV) (hw : weluv < wUV)
    (hhD : hDbluv < 1 <<< blUVvsElUVshifts blCs elCs qEl)
    (hwD : wDbluv < 1 <<< blUVvsElUVshifts blCs elCs qEl)
    (hhDb : hDbly < (if blCs then 2 else 1)) (hwDb : wDbly < (if blCs then 2 else 1)) :
    QndIterOk blCs elCs qEl blSrc elSrc k weluv hDbluv wDbluv hDbly wDbly := by
  obtain ⟨-, h1, h2, h3, h4, h5, h6, h7, h8, h9, h10, h11, h12, -, -⟩ := hs
  cases blCs <;> cases elCs <;> cases qEl <;>
    simp [blYvsElUVshifts, blUVvsElUVshifts, b2n, Nat.shiftLeft_eq,
      Nat.shiftRight_eq_div_pow] at hgeo h5 h6 h7 h8 h9 h10 h11 h12 hhD hwD hhDb hwDb <;>
    constructor <;>
    (try simp [blYvsElUVshifts, blUVvsElUVshifts, b2n, Nat.shiftLeft_eq,
      Nat.shiftRight_eq_div_pow]) <;>
    omega

theorem qndIterStores_eq_ref (blCs elCs qEl : Bool) (hgeo : b2n blCs ≤ b2n elCs + b2n qEl)
    (proc : DoViProcessor) (blSrc elSrc : Frame) (k weluv hDbluv wDbluv hDbly wDbly : Nat)
    (hhD : hDbluv < 1 <<< blUVvsElUVshifts blCs elCs qEl)
    (hwD : wDbluv < 1 <<< blUVvsElUVshifts blCs elCs qEl)
    (hhDb : hDbly < (if blCs then 2 else 1)) (hwDb : wDbly < (if blCs then 2 else 1)) :
    qndIterStores blCs elCs qEl proc blSrc elSrc k weluv hDbluv wDbluv hDbly wDbly
      = qndRefPixelStores blCs elCs qEl proc blSrc elSrc
          ((k <<< blYvsElUVshifts elCs qEl) + (hDbluv <<< b2n blCs) + hDbly)
          ((weluv <<< blYvsElUVshifts elCs qEl) + (wDbluv <<< b2n blCs) + wDbly) := by
  have e1 : (hDbluv <<< b2n blCs) + hDbly + k * (1 <<< blYvsElUVshifts elCs qEl)
      = (k <<< blYvsElUVshifts elCs qEl) + (hDbluv <<< b2n blCs) + hDbly := by
    rw [Nat.shiftLeft_eq k, Nat.one_shiftLeft]
    omega
  have e2 : (((weluv <<< blUVvsElUVshifts blCs elCs qEl) + wDbluv) <<< b2n blCs) + wDbly
      = (weluv <<< blYvsElUVshifts elCs qEl) + (wDbluv <<< b2n blCs) + wDbly := by
    cases blCs <;> cases elCs <;> cases qEl <;>
      simp [blYvsElUVshifts, blUVvsElUVshifts, b2n, Nat.shiftLeft_eq] at hgeo ⊢ <;> omega
  have e3 : qndValue proc blSrc elSrc
      ((hDbluv <<< b2n blCs) + hDbly + k * (1 <<< blYvsElUVshifts elCs qEl))
      ((((weluv <<< blUVvsElUVshifts blCs elCs qEl) + wDbluv) <<< b2n blCs) + wDbly)
      ((((hDbluv <<< b2n blCs) + hDbly) >>> b2n qEl) + k * (1 <<< b2n elCs))
      (((((weluv <<< blUVvsElUVshifts blCs elCs qEl) + wDbluv) <<< b2n blCs) + wDbly)
        >>> b2n qEl)
      (hDbluv + k * (1 <<< blUVvsElUVshifts blCs elCs qEl))
      ((weluv <<< blUVvsElUVshifts blCs elCs qEl) + wDbluv) (0 + k) weluv
      ((hDbluv <<< b2n blCs) + k * (1 <<< blYvsElUVshifts elCs qEl))
      (((weluv <<< blUVvsElUVshifts blCs elCs qEl) + wDbluv) <<< b2n blCs)
      = qndPixel blCs elCs qEl proc blSrc elSrc
          ((k <<< blYvsElUVshifts elCs qEl) + (hDbluv <<< b2n blCs) + hDbly)
          ((weluv <<< blYvsElUVshifts elCs qEl) + (wDbluv <<< b2n blCs) + wDbly) := by
    unfold qndPixel
    apply qndValue_congr <;>
      cases blCs <;> cases elCs <;> cases qEl <;>
      simp [blYvsElUVshifts, blUVvsElUVshifts, b2n, Nat.shiftLeft_eq,
        Nat.shiftRight_eq_div_pow] at hgeo hhD hwD hhDb hwDb ⊢ <;>
      omega
  simp only [qndIterStores, qndRefPixelStores]
  rw [e3, e1, e2]

theorem inner_count (blCs : Bool) : (if blCs then 2 else 1) = 1 <<< b2n blCs := by
  cases blCs <;> rfl

/-- In a geometry whose EL chroma grid is no finer than the BL chroma grid,
with planes of the implied sizes, the stores of `doAllQuickAndDirty` are
those of the specified triples. -/
theorem doAllQuickAndDirtyStores_eq (self : DoViBakerVS) (blCs elCs qEl : Bool)
    (hgeo : b2n blCs ≤ b2n elCs + b2n qEl) (proc : DoViProcessor) (dst blSrc elSrc : Frame)
    (hUV wUV : Nat) (hs : QndShapes self blCs elCs qEl dst blSrc elSrc hUV wUV) :
    doAllQuickAndDirtyStores self blCs elCs qEl proc blSrc elSrc
      = qndRefStores blCs elCs qEl proc blSrc elSrc hUV wUV := by
  unfold doAllQuickAndDirtyStores qndRefStores
  rw [rowLoop_eq_flatMap, hs.elU_h, hs.widthUV]
  apply List.flatMap_congr
  intro k hk
  apply List.flatMap_congr
  intro weluv hw
  rw [List.mem_range] at hk hw
  rw [qndPtrs_iterate_advance, qndSample_eq blCs elCs qEl proc blSrc elSrc k weluv
    (fun hD wD hDb wDb h1 h2 h3 h4 =>
      qndIterOk_of_shapes self blCs elCs qEl hgeo dst blSrc elSrc hUV wUV hs k weluv hD wD hDb
        wDb hk hw h1 h2 h3 h4)]
  rw [inner_count]
  apply List.flatMap_congr
  intro hD hhD
  apply List.flatMap_congr
  intro wD hwD
  apply List.flatMap_congr
  intro hDb hhDb
  apply List.flatMap_congr
  intro wDb hwDb
  rw [List.mem_range] at hhD hwD hhDb hwDb
  rw [← inner_count] at hhDb hwDb
  exact qndIterStores_eq_ref blCs elCs qEl hgeo proc blSrc elSrc k weluv hD wD hDb wDb hhD hwD
    hhDb hwDb

theorem qnd_decompose (blCs elCs qEl : Bool) (hgeo : b2n blCs ≤ b2n elCs + b2n qEl)
    (n h : Nat) (hh : h < n <<< blYvsElUVshifts elCs qEl) :
    ∃ k hD hDb, k < n ∧ hD < 1 <<< blUVvsElUVshifts blCs elCs qEl ∧ hDb < 1 <<< b2n blCs ∧
      (k <<< blYvsElUVshifts elCs qEl) + (hD <<< b2n blCs) + hDb = h := by
  refine ⟨h >>> blYvsElUVshifts elCs qEl,
    (h % (1 <<< blYvsElUVshifts elCs qEl)) >>> b2n blCs, h % (1 <<< b2n blCs), ?_, ?_, ?_, ?_⟩ <;>
    cases blCs <;> cases elCs <;> cases qEl <;>
    simp [blYvsElUVshifts, blUVvsElUVshifts, b2n, Nat.shiftLeft_eq,
      Nat.shiftRight_eq_div_pow] at hgeo hh ⊢ <;>
    omega

theorem qnd_compose_lt (blCs elCs qEl : Bool) (hgeo : b2n blCs ≤ b2n elCs + b2n qEl)
    (n k hD hDb : Nat) (hk : k < n) (hhD : hD < 1 <<< blUVvsElUVshifts blCs elCs qEl)
    (hhDb : hDb < 1 <<< b2n blCs) :
    (k <<< blYvsElUVshifts elCs qEl) + (hD <<< b2n blCs) + hDb
      < n <<< blYvsElUVshifts elCs qEl := by
  cases blCs <;> cases elCs <;> cases qEl <;>
    simp [blYvsElUVshifts, blUVvsElUVshifts, b2n, Nat.shiftLeft_eq] at hgeo hhD hhDb ⊢ <;>
    omega

theorem mem_qndRefStores {blCs elCs qEl : Bool} (hgeo : b2n blCs ≤ b2n elCs + b2n qEl)
    {proc : DoViProcessor} {blSrc elSrc : Frame} {hUV wUV : Nat} {e : Option Store} :
    e ∈ qndRefStores blCs elCs qEl proc blSrc elSrc hUV wUV ↔
      ∃ h w, h < hUV <<< blYvsElUVshifts elCs qEl ∧ w < wUV <<< blYvsElUVshifts elCs qEl ∧
        e ∈ qndRefPixelStores blCs elCs qEl proc blSrc elSrc h w := by
  simp only [qndRefStores, List.mem_flatMap, List.mem_range]
  constructor
  · rintro ⟨k, hk, weluv, hw, hD, hhD, wD, hwD, hDb, hhDb, wDb, hwDb, hmem⟩
    exact ⟨_, _, qnd_compose_lt blCs elCs qEl hgeo hUV k hD hDb hk hhD hhDb,
      qnd_compose_lt blCs elCs qEl hgeo wUV weluv wD wDb hw hwD hwDb, hmem⟩
  · rintro ⟨h, w, hh, hw, hmem⟩
    obtain ⟨k, hD, hDb, h1, h2, h3, rfl⟩ := qnd_decompose blCs elCs qEl hgeo hUV h hh
    obtain ⟨weluv, wD, wDb, h4, h5, h6, rfl⟩ := qnd_decompose blCs elCs qEl hgeo wUV w hw
    exact ⟨k, h1, weluv, h4, hD, h2, wD, h5, hDb, h3, wDb, h6, hmem⟩

theorem mem_qndRefPixelStores {blCs elCs qEl : Bool} {proc : DoViProcessor}
    {blSrc elSrc : Frame} {h w : Nat} {e : Option Store} :
    e ∈ qndRefPixelStores blCs elCs qEl proc blSrc elSrc h w ↔
      e = some ⟨0, (h : Int), (w : Int), some (qndPixel blCs elCs qEl proc blSrc elSrc h w).1⟩ ∨
      e = some ⟨1, (h : Int), (w : Int),
        some (qndPixel blCs elCs qEl proc blSrc elSrc h w).2.1⟩ ∨
      e = some ⟨2, (h : Int), (w : Int),
        some (qndPixel blCs elCs qEl proc blSrc elSrc h w).2.2⟩ := by
  simp [qndRefPixelStores]

/-- Replaying the specified triples on a destination of the BL size. -/
theorem exec_qndRefStores (blCs elCs qEl : Bool) (hgeo : b2n blCs ≤ b2n elCs + b2n qEl)
    (proc : DoViProcessor) (dst blSrc elSrc : Frame) (hUV wUV : Nat)
    (hdh : ∀ p, p < 3 → (dst.planes p).height = hUV <<< blYvsElUVshifts elCs qEl)
    (hdw : ∀ p, p < 3 → (dst.planes p).width = wUV <<< blYvsElUVshifts elCs qEl) :
    ∃ out, dst.exec (qndRefStores blCs elCs qEl proc blSrc elSrc hUV wUV) = some out ∧
      out.format = dst.format ∧
      (∀ p, (out.planes p).height = (dst.planes p).height ∧
        (out.planes p).width = (dst.planes p).width) ∧
      ∀ h w, h < hUV <<< blYvsElUVshifts elCs qEl → w < wUV <<< blYvsElUVshifts elCs qEl →
        (out.planes 0).px h w = (qndPixel blCs elCs qEl proc blSrc elSrc h w).1 ∧
        (out.planes 1).px h w = (qndPixel blCs elCs qEl proc blSrc elSrc h w).2.1 ∧
        (out.planes 2).px h w = (qndPixel blCs elCs qEl proc blSrc elSrc h w).2.2 := by
  have hsafe : ∀ e ∈ qndRefStores blCs elCs qEl proc blSrc elSrc hUV wUV,
      ∃ s v, e = some s ∧ s.val = some v ∧ dst.InBounds s := by
    intro e he
    rw [mem_qndRefStores hgeo] at he
    obtain ⟨h, w, hh, hw, hm⟩ := he
    rw [mem_qndRefPixelStores] at hm
    have d0 := hdh 0 (by omega)
    have d1 := hdh 1 (by omega)
    have d2 := hdh 2 (by omega)
    have e0 := hdw 0 (by omega)
    have e1 := hdw 1 (by omega)
    have e2 := hdw 2 (by omega)
    rcases hm with rfl | rfl | rfl
    · exact ⟨_, _, rfl, rfl, by simp only [Frame.InBounds]; omega⟩
    · exact ⟨_, _, rfl, rfl, by simp only [Frame.InBounds]; omega⟩
    · exact ⟨_, _, rfl, rfl, by simp only [Frame.InBounds]; omega⟩
  obtain ⟨out, hex, hfmt, hd, hwr, _⟩ := Frame.exec_spec _ dst hsafe
  refine ⟨out, hex, hfmt, hd, ?_⟩
  intro h w hh hw
  have key : ∀ p v, p < 3 →
      some (⟨p, (h : Int), (w : Int), some v⟩ : Store)
        ∈ qndRefPixelStores blCs elCs qEl proc blSrc elSrc h w →
      (∀ h1 w1 s, some s ∈ qndRefPixelStores blCs elCs qEl proc blSrc elSrc h1 w1 →
        s.At p h w → s.val = some v) →
      (out.planes p).px h w = v := by
    intro p v _ hm hall
    apply hwr
    · exact ⟨_, (mem_qndRefStores hgeo).2 ⟨h, w, hh, hw, hm⟩, rfl, rfl, rfl⟩
    · intro s hs hat
      rw [mem_qndRefStores hgeo] at hs
      obtain ⟨h1, w1, _, _, hm1⟩ := hs
      exact hall h1 w1 s hm1 hat
  refine ⟨key 0 _ (by omega) (mem_qndRefPixelStores.2 (Or.inl rfl)) ?_,
    key 1 _ (by omega) (mem_qndRefPixelStores.2 (Or.inr (Or.inl rfl))) ?_,
    key 2 _ (by omega) (mem_qndRefPixelStores.2 (Or.inr (Or.inr rfl))) ?_⟩
  all_goals
    intro h1 w1 s hm1 hat
    rw [mem_qndRefPixelStores] at hm1
    obtain ⟨hp, hr, hc⟩ := hat
    rcases hm1 with h0 | h0 | h0 <;> cases h0 <;> simp only at hp hr hc <;>
      first
        | omega
        | (have e1 : h1 = h := by omega
           have e2 : w1 = w := by omega
           subst e1 e2
           rfl)

theorem nodup_flatMap_key {α : Type} (n : Nat) (f : Nat → List α) (key : α → Nat)
    (h1 : ∀ i, i < n → (f i).Nodup) (hk : ∀ i, i < n → ∀ x, x ∈ f i → key x = i) :
    ((List.range n).flatMap f).Nodup := by
  apply nodup_flatMap_range n f h1
  intro i j hi hj hne x hxi hxj
  exact hne ((hk i hi x hxi).symm.trans (hk j hj x hxj))

theorem positions_qndRefStores (blCs elCs qEl : Bool) (proc : DoViProcessor)
    (blSrc elSrc : Frame) (hUV wUV : Nat) :
    positions (qndRefStores blCs elCs qEl proc blSrc elSrc hUV wUV)
      = (List.range hUV).flatMap fun heluv =>
          (List.range wUV).flatMap fun weluv =>
            (List.range (1 <<< blUVvsElUVshifts blCs elCs qEl)).flatMap fun hDbluv =>
              (List.range (1 <<< blUVvsElUVshifts blCs elCs qEl)).flatMap fun wDbluv =>
                (List.range (1 <<< b2n blCs)).flatMap fun hDbly =>
                  (List.range (1 <<< b2n blCs)).flatMap fun wDbly =>
                    pixelPositions
                      ((heluv <<< blYvsElUVshifts elCs qEl) + (hDbluv <<< b2n blCs) + hDbly)
                      ((weluv <<< blYvsElUVshifts elCs qEl) + (wDbluv <<< b2n blCs) + wDbly) := by
  simp [positions, qndRefStores, List.map_flatMap, qndRefPixelStores, pixelPositions]

theorem mem_pixelPositions {h w : Nat} {x : Option (Nat × Int × Int)} :
    x ∈ pixelPositions h w ↔ ∃ p, p < 3 ∧ x = some (p, (h : Int), (w : Int)) := by
  simp only [pixelPositions, List.mem_cons, List.mem_singleton, List.not_mem_nil, or_false]
  constructor
  · rintro (rfl | rfl | rfl)
    · exact ⟨0, by omega, rfl⟩
    · exact ⟨1, by omega, rfl⟩
    · exact ⟨2, by omega, rfl⟩
  · rintro ⟨p, hp, rfl⟩
    interval_cases p <;> simp

theorem qnd_index_unique (blCs elCs qEl : Bool) (hgeo : b2n blCs ≤ b2n elCs + b2n qEl)
    (k hD hDb : Nat) (hhD : hD < 1 <<< blUVvsElUVshifts blCs elCs qEl)
    (hhDb : hDb < 1 <<< b2n blCs) :
    ((k <<< blYvsElUVshifts elCs qEl) + (hD <<< b2n blCs) + hDb) >>> blYvsElUVshifts elCs qEl = k ∧
    (((k <<< blYvsElUVshifts elCs qEl) + (hD <<< b2n blCs) + hDb)
        % (1 <<< blYvsElUVshifts elCs qEl)) >>> b2n blCs = hD ∧
    ((k <<< blYvsElUVshifts elCs qEl) + (hD <<< b2n blCs) + hDb) % (1 <<< b2n blCs) = hDb := by
  cases blCs <;> cases elCs <;> cases qEl <;>
    simp [blYvsElUVshifts, blUVvsElUVshifts, b2n, Nat.shiftLeft_eq,
      Nat.shiftRight_eq_div_pow] at hgeo hhD hhDb ⊢ <;>
    omega

theorem qndPositions_nodup (blCs elCs qEl : Bool) (hgeo : b2n blCs ≤ b2n elCs + b2n qEl)
    (proc : DoViProcessor) (blSrc elSrc : Frame) (hUV wUV : Nat) :
    (positions (qndRefStores blCs elCs qEl proc blSrc elSrc hUV wUV)).Nodup := by
  rw [positions_qndRefStores]
  apply nodup_flatMap_key _ _ (fun x => posRow x >>> blYvsElUVshifts elCs qEl)
  · intro heluv _
    apply nodup_flatMap_key _ _ (fun x => posCol x >>> blYvsElUVshifts elCs qEl)
    · intro weluv _
      apply nodup_flatMap_key _ _
        (fun x => (posRow x % (1 <<< blYvsElUVshifts elCs qEl)) >>> b2n blCs)
      · intro hD _
        apply nodup_flatMap_key _ _
          (fun x => (posCol x % (1 <<< blYvsElUVshifts elCs qEl)) >>> b2n blCs)
        · intro wD _
          apply nodup_flatMap_key _ _ (fun x => posRow x % (1 <<< b2n blCs))
          · intro hDb _
            apply nodup_flatMap_key _ _ (fun x => posCol x % (1 <<< b2n blCs))
            · intro wDb _
              simp [pixelPositions]
            · intro wDb hwDb x hx
              obtain ⟨p, _, rfl⟩ := mem_pixelPositions.1 hx
              simp only [posCol, Int.toNat_ofNat]
              exact (qnd_index_unique blCs elCs qEl hgeo weluv wD wDb (by assumption) hwDb).2.2
          · intro hDb hhDb x hx
            simp only [List.mem_flatMap, List.mem_range] at hx
            obtain ⟨wDb, hwDb, hx⟩ := hx
            obtain ⟨p, _, rfl⟩ := mem_pixelPositions.1 hx
            simp only [posRow, Int.toNat_ofNat]
            exact (qnd_index_unique blCs elCs qEl hgeo heluv hD hDb (by assumption) hhDb).2.2
        · intro wD hwD x hx
          simp only [List.mem_flatMap, List.mem_range] at hx
          obtain ⟨hDb, hhDb, wDb, hwDb, hx⟩ := hx
          obtain ⟨p, _, rfl⟩ := mem_pixelPositions.1 hx
          simp only [posCol, Int.toNat_ofNat]
          exact (qnd_index_unique blCs elCs qEl hgeo weluv wD wDb hwD hwDb).2.1
      · intro hD hhD x hx
        simp only [List.mem_flatMap, List.mem_range] at hx
        obtain ⟨wD, hwD, hDb, hhDb, wDb, hwDb, hx⟩ := hx
        obtain ⟨p, _, rfl⟩ := mem_pixelPositions.1 hx
        simp only [posRow, Int.toNat_ofNat]
        exact (qnd_index_unique blCs elCs qEl hgeo heluv hD hDb hhD hhDb).2.1
    · intro weluv _ x hx
      simp only [List.mem_flatMap, List.mem_range] at hx
      obtain ⟨hD, hhD, wD, hwD, hDb, hhDb, wDb, hwDb, hx⟩ := hx
      obtain ⟨p, _, rfl⟩ := mem_pixelPositions.1 hx
      simp only [posCol, Int.toNat_ofNat]
      exact (qnd_index_unique blCs elCs qEl hgeo weluv wD wDb hwD hwDb).1
  · intro heluv _ x hx
    simp only [List.mem_flatMap, List.mem_range] at hx
    obtain ⟨weluv, _, hD, hhD, wD, hwD, hDb, hhDb, wDb, hwDb, hx⟩ := hx
    obtain ⟨p, _, rfl⟩ := mem_pixelPositions.1 hx
    simp only [posRow, Int.toNat_ofNat]
    exact (qnd_index_unique blCs elCs qEl hgeo heluv hD hDb hhD hhDb).1

theorem mem_qndPositions (blCs elCs qEl : Bool) (hgeo : b2n blCs ≤ b2n elCs + b2n qEl)
    (proc : DoViProcessor) (blSrc elSrc : Frame) (hUV wUV : Nat)
    (q : Option (Nat × Int × Int)) :
    q ∈ positions (qndRefStores blCs elCs qEl proc blSrc elSrc hUV wUV) ↔
      ∃ p h w : Nat, p < 3 ∧ h < hUV <<< blYvsElUVshifts elCs qEl ∧
        w < wUV <<< blYvsElUVshifts elCs qEl ∧ q = some (p, (h : Int), (w : Int)) := by
  simp only [positions, List.mem_map]
  constructor
  · rintro ⟨e, he, rfl⟩
    obtain ⟨h, w, hh, hw, hm⟩ := (mem_qndRefStores hgeo).1 he
    rw [mem_qndRefPixelStores] at hm
    rcases hm with rfl | rfl | rfl
    · exact ⟨0, h, w, by omega, hh, hw, rfl⟩
    · exact ⟨1, h, w, by omega, hh, hw, rfl⟩
    · exact ⟨2, h, w, by omega, hh, hw, rfl⟩
  · rintro ⟨p, h, w, hp, hh, hw, rfl⟩
    interval_cases p
    · exact ⟨_, (mem_qndRefStores hgeo).2 ⟨h, w, hh, hw, mem_qndRefPixelStores.2 (Or.inl rfl)⟩,
        rfl⟩
    · exact ⟨_, (mem_qndRefStores hgeo).2
        ⟨h, w, hh, hw, mem_qndRefPixelStores.2 (Or.inr (Or.inl rfl))⟩, rfl⟩
    · exact ⟨_, (mem_qndRefStores hgeo).2
        ⟨h, w, hh, hw, mem_qndRefPixelStores.2 (Or.inr (Or.inr rfl))⟩, rfl⟩

/-! ## Pipeline: lemmas -/

theorem Frame.exec_props (tr : List (Option Store)) (f f1 : Frame) (h : f.exec tr = some f1) :
    f1.props = f.props := by
  induction tr generalizing f with
  | nil => simp only [Frame.exec, Option.some.injEq] at h; rw [← h]
  | cons e rest ih =>
    cases e with
    | none => simp [Frame.exec] at h
    | some s =>
      simp only [Frame.exec] at h
      cases hs : f.store s with
      | none => simp [hs] at h
      | some f0 =>
        rw [hs] at h
        rw [ih f0 h]
        unfold Frame.store at hs
        cases hv : s.val with
        | none => simp [hv] at hs
        | some v =>
          simp only [hv] at hs
          cases hp : (f.planes s.plane).set s.row s.col v with
          | none => simp [hp] at hs
          | some p =>
            simp only [hp, Option.some.injEq] at hs
            rw [← hs]

theorem Plane.Same.refl (p : Plane) : p.Same p := ⟨rfl, rfl, fun _ _ _ _ => rfl⟩

theorem Plane.Same.symm {p q : Plane} (h : p.Same q) : q.Same p :=
  ⟨h.1.symm, h.2.1.symm, fun r c hr hc => (h.2.2 r c (h.1 ▸ hr) (h.2.1 ▸ hc)).symm⟩

theorem Plane.Same.trans {p q r : Plane} (h1 : p.Same q) (h2 : q.Same r) : p.Same r :=
  ⟨h1.1.trans h2.1, h1.2.1.trans h2.2.1, fun a b ha hb =>
    (h1.2.2 a b ha hb).trans (h2.2.2 a b (h1.1 ▸ ha) (h1.2.1 ▸ hb))⟩

theorem vertNeighbors_congr (Dn0p : List Int) {p q : Plane} (hpq : p.Same q) (h w : Nat)
    (hh : h < p.height) (hw : w < p.width) :
    vertNeighbors Dn0p p h w = vertNeighbors Dn0p q h w := by
  unfold vertNeighbors
  apply List.map_congr_left
  intro d _
  rw [← hpq.1]
  apply hpq.2.2 _ _ _ hw
  unfold clamp
  omega

theorem horzNeighbors_congr (Dn0p : List Int) {p q : Plane} (hpq : p.Same q) (h w : Nat)
    (hh : h < p.height) (hw : w < p.width) :
    horzNeighbors Dn0p p h w = horzNeighbors Dn0p q h w := by
  unfold horzNeighbors
  apply List.map_congr_left
  intro d _
  rw [← hpq.2.1]
  apply hpq.2.2 _ _ hh
  unfold clamp
  omega

theorem vertRefPlane_congr (nD : Nat) (Dn0p : List Int) (e o : upscaler_t) {p q : Plane}
    (hpq : p.Same q) : (vertRefPlane nD Dn0p e o p).Same (vertRefPlane nD Dn0p e o q) := by
  refine ⟨by simp [vertRefPlane, hpq.1], by simp [vertRefPlane, hpq.2.1], ?_⟩
  intro r c hr hc
  simp only [vertRefPlane] at hr hc ⊢
  rw [vertNeighbors_congr Dn0p hpq (r / 2) c (by omega) hc]

theorem horzRefPlane_congr (nD : Nat) (Dn0p : List Int) (e o : upscaler_t) {p q : Plane}
    (hpq : p.Same q) : (horzRefPlane nD Dn0p e o p).Same (horzRefPlane nD Dn0p e o q) := by
  refine ⟨by simp [horzRefPlane, hpq.1], by simp [horzRefPlane, hpq.2.1], ?_⟩
  intro r c hr hc
  simp only [horzRefPlane] at hr hc ⊢
  rw [horzNeighbors_congr Dn0p hpq r (c / 2) hr (by omega)]

/-- The routine `upsampleVert` on a destination plane of twice the height
produces the reference plane and leaves the other planes alone. -/
theorem upsampleVert_spec (nD : Nat) (Dn0p : List Int)
    (hinst : (nD = 2 ∧ Dn0p = lumaTaps) ∨ (nD = 1 ∧ Dn0p = chromaTaps))
    (e o : upscaler_t) (dst src : Frame) (plane : Nat)
    (hdh : (dst.planes plane).height = 2 * (src.planes plane).height)
    (hdw : (dst.planes plane).width = (src.planes plane).width) :
    ∃ out, upsampleVert nD Dn0p e o dst src plane = some out ∧
      out.format = dst.format ∧ out.props = dst.props ∧
      (∀ p, p ≠ plane → out.planes p = dst.planes p) ∧
      (out.planes plane).Same (vertRefPlane nD Dn0p e o (src.planes plane)) := by
  unfold upsampleVert
  rw [upsampleVertStores_eq nD Dn0p hinst]
  obtain ⟨out, hex, hfmt, hh, hw, hoth, hpx⟩ :=
    exec_vertRefStores nD Dn0p e o dst (src.planes plane) plane hdh hdw
  refine ⟨out, hex, hfmt, Frame.exec_props _ _ _ hex, hoth, hh, hw, ?_⟩
  intro r c hr hc
  rw [hh] at hr
  rw [hw] at hc
  simp only [vertRefPlane]
  rcases Nat.mod_two_eq_zero_or_one r with h0 | h1
  · rw [if_pos h0]
    have := (hpx (r / 2) c (by omega) hc).1
    rwa [show 2 * (r / 2) = r by omega] at this
  · rw [if_neg (by omega)]
    have := (hpx (r / 2) c (by omega) hc).2
    rwa [show 2 * (r / 2) + 1 = r by omega] at this

/-- The routine `upsampleHorz` on a source plane that is not narrower than
`vertLen - 1` and a destination plane of twice the width produces the
reference plane and leaves the other planes alone. -/
theorem upsampleHorz_spec (nD : Nat) (Dn0p : List Int)
    (hinst : (nD = 2 ∧ Dn0p = lumaTaps) ∨ (nD = 1 ∧ Dn0p = chromaTaps))
    (e o : upscaler_t) (dst src : Frame) (plane : Nat)
    (hW : Dn0p.length - 1 ≤ (src.planes plane).width)
    (hdh : (dst.planes plane).height = (src.planes plane).height)
    (hdw : (dst.planes plane).width = 2 * (src.planes plane).width) :
    ∃ out, upsampleHorz nD Dn0p e o dst src plane = some out ∧
      out.format = dst.format ∧ out.props = dst.props ∧
      (∀ p, p ≠ plane → out.planes p = dst.planes p) ∧
      (out.planes plane).Same (horzRefPlane nD Dn0p e o (src.planes plane)) := by
  unfold upsampleHorz
  rw [upsampleHorzStores_eq nD Dn0p hinst e o _ _ hW]
  have hnD : (nD : Int) + 1 ≤ Dn0p.length := by
    rcases hinst with ⟨rfl, rfl⟩ | ⟨rfl, rfl⟩ <;> simp [lumaTaps, chromaTaps]
  have hW1 : (Dn0p.length : Int) - 1 ≤ (src.planes plane).width := by omega
  obtain ⟨out, hex, hfmt, hh, hw, hoth, hpx⟩ :=
    exec_horzRefStores nD Dn0p e o dst (src.planes plane) plane hnD hW1 hdh hdw
  refine ⟨out, hex, hfmt, Frame.exec_props _ _ _ hex, hoth, hh, hw, ?_⟩
  intro r c hr hc
  rw [hh] at hr
  rw [hw] at hc
  simp only [horzRefPlane]
  rcases Nat.mod_two_eq_zero_or_one c with h0 | h1
  · rw [if_pos h0]
    have := (hpx r (c / 2) hr (by omega)).1
    rwa [show 2 * (c / 2) = c by omega] at this
  · rw [if_neg (by omega)]
    have := (hpx r (c / 2) hr (by omega)).2
    rwa [show 2 * (c / 2) + 1 = c by omega] at this

theorem copyLumaStores_eq (src : Plane) (width height : Nat) (hh : height ≤ src.height)
    (hw : width ≤ src.width) :
    copyLumaStores src width height = copyLumaRefStores src width height := by
  unfold copyLumaStores copyLumaRefStores
  rw [rowLoop_eq_flatMap]
  apply List.flatMap_congr
  intro h hh1
  rw [List.mem_range] at hh1
  rw [iterate_add_pair]
  apply List.map_congr_left
  intro w hw1
  rw [List.mem_range] at hw1
  simp only [zero_add, one_mul]
  rw [Plane.get_natCast (by omega) (by omega)]

theorem mem_copyLumaRefStores {src : Plane} {width height : Nat} {e : Option Store} :
    e ∈ copyLumaRefStores src width height ↔
      ∃ h w, h < height ∧ w < width ∧ e = some ⟨0, (h : Int), (w : Int), some (src.px h w)⟩ := by
  simp only [copyLumaRefStores, List.mem_flatMap, List.mem_range, List.mem_map]
  constructor
  · rintro ⟨h, hh1, w, hw1, rfl⟩
    exact ⟨h, w, hh1, hw1, rfl⟩
  · rintro ⟨h, w, hh1, hw1, rfl⟩
    exact ⟨h, hh1, w, hw1, rfl⟩

/-- The loop "Copy luma directly" copies the luma plane and leaves the other
planes alone. -/
theorem exec_copyLumaStores (dst : Frame) (src : Plane) (width height : Nat)
    (hh : height ≤ src.height) (hw : width ≤ src.width)
    (hdh : (dst.planes 0).height = height) (hdw : (dst.planes 0).width = width) :
    ∃ out, dst.exec (copyLumaStores src width height) = some out ∧
      out.format = dst.format ∧ out.props = dst.props ∧
      (∀ p, p ≠ 0 → out.planes p = dst.planes p) ∧
      (out.planes 0).height = height ∧ (out.planes 0).width = width ∧
      ∀ h w, h < height → w < width → (out.planes 0).px h w = src.px h w := by
  rw [copyLumaStores_eq src width height hh hw]
  have hsafe : ∀ e ∈ copyLumaRefStores src width height,
      ∃ s v, e = some s ∧ s.val = some v ∧ dst.InBounds s := by
    intro e he
    rw [mem_copyLumaRefStores] at he
    obtain ⟨h, w, hh1, hw1, rfl⟩ := he
    exact ⟨_, _, rfl, rfl, by simp only [Frame.InBounds]; omega⟩
  obtain ⟨out, hex, hfmt, hd, hwr, hu⟩ := Frame.exec_spec _ dst hsafe
  refine ⟨out, hex, hfmt, Frame.exec_props _ _ _ hex, ?_, by rw [(hd 0).1, hdh],
    by rw [(hd 0).2, hdw], ?_⟩
  · intro p hp
    apply Plane.ext_px (hd p).1 (hd p).2
    intro r c
    apply hu
    intro s hs hat
    rw [mem_copyLumaRefStores] at hs
    obtain ⟨h, w, _, _, h0⟩ := hs
    cases h0
    exact hp hat.1.symm
  · intro h w hh1 hw1
    apply hwr
    · exact ⟨_, mem_copyLumaRefStores.2 ⟨h, w, hh1, hw1, rfl⟩, rfl, rfl, rfl⟩
    · intro s hs hat
      rw [mem_copyLumaRefStores] at hs
      obtain ⟨h2, w2, _, _, h0⟩ := hs
      cases h0
      obtain ⟨_, h3, h4⟩ := hat
      simp only at h3 h4
      have e1 : h2 = h := by omega
      have e2 : w2 = w := by omega
      subst e1 e2
      rfl

theorem iterate_rgbPtrs (k : Nat) :
    (fun (st : RgbPtrs) =>
      (⟨st.srcYp + 1, st.srcUp + 1, st.srcVp + 1, st.dstRp + 1, st.dstGp + 1, st.dstBp + 1⟩ :
        RgbPtrs))^[k] ⟨0, 0, 0, 0, 0, 0⟩ = ⟨k, k, k, k, k, k⟩ := by
  induction k with
  | zero => simp
  | succ k ih =>
    rw [Function.iterate_succ_apply', ih]
    simp

theorem convert2rgbStores_eq (proc : DoViProcessor) (srcY srcUV : Frame) (height width : Nat)
    (h0h : height ≤ (srcY.planes 0).height) (h0w : width ≤ (srcY.planes 0).width)
    (h1h : (srcUV.planes 1).height = height) (h1w : (srcUV.planes 1).width = width)
    (h2h : (srcUV.planes 2).height = height) (h2w : (srcUV.planes 2).width = width) :
    convert2rgbStores proc srcY srcUV = rgbRefStores proc srcY srcUV height width := by
  unfold convert2rgbStores rgbRefStores
  rw [rowLoop_eq_flatMap, h1h, h1w]
  apply List.flatMap_congr
  intro h hh1
  rw [List.mem_range] at hh1
  rw [iterate_rgbPtrs]
  apply List.flatMap_congr
  intro w hw1
  rw [List.mem_range] at hw1
  simp only
  rw [Plane.get_natCast (by omega) (by omega), Plane.get_natCast (by omega) (by omega),
    Plane.get_natCast (by omega) (by omega)]
  rfl

theorem mem_rgbRefStores {proc : DoViProcessor} {srcY srcUV : Frame} {height width : Nat}
    {e : Option Store} :
    e ∈ rgbRefStores proc srcY srcUV height width ↔
      ∃ h w, h < height ∧ w < width ∧ e ∈ rgbRefPixelStores proc srcY srcUV h w := by
  simp only [rgbRefStores, List.mem_flatMap, List.mem_range]
  constructor
  · rintro ⟨h, hh1, w, hw1, hs⟩
    exact ⟨h, w, hh1, hw1, hs⟩
  · rintro ⟨h, w, hh1, hw1, hs⟩
    exact ⟨h, hh1, w, hw1, hs⟩

theorem mem_rgbRefPixelStores {proc : DoViProcessor} {srcY srcUV : Frame} {h w : Nat}
    {e : Option Store} :
    e ∈ rgbRefPixelStores proc srcY srcUV h w ↔
      e = some ⟨0, (h : Int), (w : Int), some (proc.sample2rgb ((srcY.planes 0).px h w)
        ((srcUV.planes 1).px h w) ((srcUV.planes 2).px h w)).1⟩ ∨
      e = some ⟨1, (h : Int), (w : Int), some (proc.sample2rgb ((srcY.planes 0).px h w)
        ((srcUV.planes 1).px h w) ((srcUV.planes 2).px h w)).2.1⟩ ∨
      e = some ⟨2, (h : Int), (w : Int), some (proc.sample2rgb ((srcY.planes 0).px h w)
        ((srcUV.planes 1).px h w) ((srcUV.planes 2).px h w)).2.2⟩ := by
  simp [rgbRefPixelStores]

/-- The routine `convert2rgb` on full-resolution chroma of `height` rows and
`width` columns and a destination of that size. -/
theorem convert2rgb_spec (proc : DoViProcessor) (dst srcY srcUV : Frame) (height width : Nat)
    (h0h : height ≤ (srcY.planes 0).height) (h0w : width ≤ (srcY.planes 0).width)
    (h1h : (srcUV.planes 1).height = height) (h1w : (srcUV.planes 1).width = width)
    (h2h : (srcUV.planes 2).height = height) (h2w : (srcUV.planes 2).width = width)
    (hdh : ∀ p, p < 3 → (dst.planes p).height = height)
    (hdw : ∀ p, p < 3 → (dst.planes p).width = width) :
    ∃ out, convert2rgb proc dst srcY srcUV = some out ∧
      out.format = dst.format ∧ out.props = dst.props ∧
      (∀ p, (out.planes p).height = (dst.planes p).height ∧
        (out.planes p).width = (dst.planes p).width) ∧
      ∀ h w, h < height → w < width →
        ((out.planes 0).px h w, (out.planes 1).px h w, (out.planes 2).px h w)
          = proc.sample2rgb ((srcY.planes 0).px h w) ((srcUV.planes 1).px h w)
              ((srcUV.planes 2).px h w) := by
  unfold convert2rgb
  rw [convert2rgbStores_eq proc srcY srcUV height width h0h h0w h1h h1w h2h h2w]
  have d0 := hdh 0 (by omega)
  have d1 := hdh 1 (by omega)
  have d2 := hdh 2 (by omega)
  have e0 := hdw 0 (by omega)
  have e1 := hdw 1 (by omega)
  have e2 := hdw 2 (by omega)
  have hsafe : ∀ e ∈ rgbRefStores proc srcY srcUV height width,
      ∃ s v, e = some s ∧ s.val = some v ∧ dst.InBounds s := by
    intro e he
    rw [mem_rgbRefStores] at he
    obtain ⟨h, w, hh1, hw1, hm⟩ := he
    rw [mem_rgbRefPixelStores] at hm
    rcases hm with rfl | rfl | rfl
    · exact ⟨_, _, rfl, rfl, by simp only [Frame.InBounds]; omega⟩
    · exact ⟨_, _, rfl, rfl, by simp only [Frame.InBounds]; omega⟩
    · exact ⟨_, _, rfl, rfl, by simp only [Frame.InBounds]; omega⟩
  obtain ⟨out, hex, hfmt, hd, hwr, _⟩ := Frame.exec_spec _ dst hsafe
  refine ⟨out, hex, hfmt, Frame.exec_props _ _ _ hex, hd, ?_⟩
  intro h w hh1 hw1
  have key : ∀ p v,
      some (⟨p, (h : Int), (w : Int), some v⟩ : Store) ∈ rgbRefPixelStores proc srcY srcUV h w →
      (∀ h1 w1 s, some s ∈ rgbRefPixelStores proc srcY srcUV h1 w1 →
        s.At p h w → s.val = some v) →
      (out.planes p).px h w = v := by
    intro p v hm hall
    apply hwr
    · exact ⟨_, mem_rgbRefStores.2 ⟨h, w, hh1, hw1, hm⟩, rfl, rfl, rfl⟩
    · intro s hs hat
      rw [mem_rgbRefStores] at hs
      obtain ⟨h1, w1, _, _, hm1⟩ := hs
      exact hall h1 w1 s hm1 hat
  have hall : ∀ p v,
      some (⟨p, (h : Int), (w : Int), some v⟩ : Store) ∈ rgbRefPixelStores proc srcY srcUV h w →
      ∀ h1 w1 s, some s ∈ rgbRefPixelStores proc srcY srcUV h1 w1 →
        s.At p h w → s.val = some v := by
    intro p v hm h1 w1 s hm1 hat
    rw [mem_rgbRefPixelStores] at hm hm1
    obtain ⟨hp, hr, hc⟩ := hat
    rcases hm1 with h0 | h0 | h0 <;>
      (cases h0
       simp only at hp hr hc
       subst hp
       have e1 : h1 = h := by omega
       have e2 : w1 = w := by omega
       subst e1 e2
       rcases hm with h0 | h0 | h0 <;> simp at h0
       rw [h0])
  have m0 := (@mem_rgbRefPixelStores proc srcY srcUV h w _).2 (Or.inl rfl)
  have m1 := (@mem_rgbRefPixelStores proc srcY srcUV h w _).2 (Or.inr (Or.inl rfl))
  have m2 := (@mem_rgbRefPixelStores proc srcY srcUV h w _).2 (Or.inr (Or.inr rfl))
  rw [key 0 _ m0 (hall 0 _ m0), key 1 _ m1 (hall 1 _ m1), key 2 _ m2 (hall 2 _ m2)]

theorem new_video_frame_plane0 (fmt : VSVideoFormat) (w h : Nat) (ps : Option Frame) :
    ((new_video_frame fmt w h ps).planes 0).height = h ∧
    ((new_video_frame fmt w h ps).planes 0).width = w := by
  simp [new_video_frame]

theorem new_video_frame_chroma (fmt : VSVideoFormat) (w h : Nat) (ps : Option Frame) (p : Nat)
    (hp : p ≠ 0) :
    ((new_video_frame fmt w h ps).planes p).height = h >>> fmt.subSamplingH ∧
    ((new_video_frame fmt w h ps).planes p).width = w >>> fmt.subSamplingW := by
  simp [new_video_frame, hp]

/-- The routine `upsampleChroma` on a 4:2:0 frame with chroma planes of `hC`
rows and `wC >= 3` columns: the result is 4:4:4, its luma is the luma of the
source and its chroma planes are the 4-tap upsampling of the source's. -/
theorem upsampleChroma_spec (k : Kernels) (src : Frame) (dstVi : VSVideoInfo) (hC wC : Nat)
    (hW : dstVi.width = 2 * wC) (hH : dstVi.height = 2 * hC) (hwC : 3 ≤ wC)
    (h0h : 2 * hC ≤ (src.planes 0).height) (h0w : 2 * wC ≤ (src.planes 0).width)
    (h1h : (src.planes 1).height = hC) (h1w : (src.planes 1).width = wC)
    (h2h : (src.planes 2).height = hC) (h2w : (src.planes 2).width = wC) :
    ∃ out, upsampleChroma k src dstVi = some out ∧
      out.format = query_video_format ColorFamily.cfYUV 16 0 0 ∧ out.props = src.props ∧
      (∀ p, p < 3 → (out.planes p).height = 2 * hC ∧ (out.planes p).width = 2 * wC) ∧
      (∀ h w, h < 2 * hC → w < 2 * wC → (out.planes 0).px h w = (src.planes 0).px h w) ∧
      (out.planes 1).Same (chromaUp k (src.planes 1)) ∧
      (out.planes 2).Same (chromaUp k (src.planes 2)) := by
  unfold upsampleChroma
  simp only [hW, hH]
  -- intermediate frame: luma copy
  obtain ⟨mez1, x1, f1, p1, o1, d1h, d1w, c1⟩ :=
    exec_copyLumaStores
      (new_video_frame (query_video_format ColorFamily.cfYUV 16 1 0) (2 * wC) (2 * hC) (some src))
      (src.planes 0) (2 * wC) (2 * hC) h0h h0w (new_video_frame_plane0 _ _ _ _).1
      (new_video_frame_plane0 _ _ _ _).2
  have m1 := o1 1 (by omega)
  have m2 := o1 2 (by omega)
  have n1 : ∀ p, p ≠ 0 →
      ((new_video_frame (query_video_format ColorFamily.cfYUV 16 1 0) (2 * wC) (2 * hC)
        (some src)).planes p).height = 2 * hC ∧
      ((new_video_frame (query_video_format ColorFamily.cfYUV 16 1 0) (2 * wC) (2 * hC)
        (some src)).planes p).width = wC := by
    intro p hp
    have := new_video_frame_chroma (query_video_format ColorFamily.cfYUV 16 1 0) (2 * wC)
      (2 * hC) (some src) p hp
    rw [this.1, this.2]
    simp [query_video_format, Nat.shiftRight_eq_div_pow]
  -- vertical passes
  obtain ⟨mez2, x2, f2, p2, o2, s2⟩ :=
    upsampleVert_spec 1 chromaTaps (Or.inr ⟨rfl, rfl⟩) k.upsampleChromaEven k.upsampleChromaOdd
      mez1 src 1 (by rw [m1, (n1 1 (by omega)).1, h1h]) (by rw [m1, (n1 1 (by omega)).2, h1w])
  obtain ⟨mez3, x3, f3, p3, o3, s3⟩ :=
    upsampleVert_spec 1 chromaTaps (Or.inr ⟨rfl, rfl⟩) k.upsampleChromaEven k.upsampleChromaOdd
      mez2 src 2 (by rw [o2 2 (by omega), m2, (n1 2 (by omega)).1, h2h]) (by rw [o2 2 (by omega), m2, (n1 2 (by omega)).2, h2w])
  have q0 : mez3.planes 0 = mez1.planes 0 := by rw [o3 0 (by omega), o2 0 (by omega)]
  have q1 : mez3.planes 1 = mez2.planes 1 := o3 1 (by omega)
  -- output frame: luma copy
  obtain ⟨dst1, y1, g1, r1, u1, e1h, e1w, c2⟩ :=
    exec_copyLumaStores
      (new_video_frame (query_video_format ColorFamily.cfYUV 16 0 0) (2 * wC) (2 * hC) (some src))
      (mez3.planes 0) (2 * wC) (2 * hC) (by rw [q0, d1h]) (by rw [q0, d1w])
      (new_video_frame_plane0 _ _ _ _).1 (new_video_frame_plane0 _ _ _ _).2
  have t1 : ∀ p, p ≠ 0 →
      ((new_video_frame (query_video_format ColorFamily.cfYUV 16 0 0) (2 * wC) (2 * hC)
        (some src)).planes p).height = 2 * hC ∧
      ((new_video_frame (query_video_format ColorFamily.cfYUV 16 0 0) (2 * wC) (2 * hC)
        (some src)).planes p).width = 2 * wC := by
    intro p hp
    have := new_video_frame_chroma (query_video_format ColorFamily.cfYUV 16 0 0) (2 * wC)
      (2 * hC) (some src) p hp
    rw [this.1, this.2]
    simp [query_video_format, Nat.shiftRight_eq_div_pow]
  -- horizontal passes
  have w1h : (mez3.planes 1).height = 2 * hC := by rw [q1, s2.1]; simp [vertRefPlane, h1h]
  have w1w : (mez3.planes 1).width = wC := by rw [q1, s2.2.1]; simp [vertRefPlane, h1w]
  have w2h : (mez3.planes 2).height = 2 * hC := by rw [s3.1]; simp [vertRefPlane, h2h]
  have w2w : (mez3.planes 2).width = wC := by rw [s3.2.1]; simp [vertRefPlane, h2w]
  obtain ⟨dst2, y2, g2, r2, u2, v2⟩ :=
    upsampleHorz_spec 1 chromaTaps (Or.inr ⟨rfl, rfl⟩) k.upsampleChromaEven k.upsampleChromaOdd
      dst1 mez3 1 (by rw [w1w]; simp [chromaTaps]; omega) (by rw [u1 1 (by omega), (t1 1 (by omega)).1, w1h])
      (by rw [u1 1 (by omega), (t1 1 (by omega)).2, w1w])
  obtain ⟨dst3, y3, g3, r3, u3, v3⟩ :=
    upsampleHorz_spec 1 chromaTaps (Or.inr ⟨rfl, rfl⟩) k.upsampleChromaEven k.upsampleChromaOdd
      dst2 mez3 2 (by rw [w2w]; simp [chromaTaps]; omega)
      (by rw [u2 2 (by omega), u1 2 (by omega), (t1 2 (by omega)).1, w2h])
      (by rw [u2 2 (by omega), u1 2 (by omega), (t1 2 (by omega)).2, w2w])
  refine ⟨dst3, ?_, ?_, ?_, ?_, ?_, ?_, ?_⟩
  · simp only [Option.bind_eq_bind, x1, Option.some_bind, x2, x3, y1, y2, y3, Option.pure_def]
  · rw [g3, g2, g1]; rfl
  · rw [r3, r2, r1]; rfl
  · intro p hp
    interval_cases p
    · rw [u3 0 (by omega), u2 0 (by omega)]
      exact ⟨e1h, e1w⟩
    · rw [u3 1 (by omega), v2.1, v2.2.1]
      simp [horzRefPlane, w1h, w1w]
    · rw [v3.1, v3.2.1]
      simp [horzRefPlane, w2h, w2w]
  · intro h w hh hw
    rw [u3 0 (by omega), u2 0 (by omega), c2 h w hh hw, q0, c1 h w hh hw]
  · rw [u3 1 (by omega)]
    refine v2.trans (horzRefPlane_congr _ _ _ _ ?_)
    rw [q1]
    exact s2
  · exact v3.trans (horzRefPlane_congr _ _ _ _ s3)

/-- The routine `upscaleEl` on a 4:2:0 EL frame with chroma planes of `hC` rows
and `wC >= 3` columns and a target of `4 wC x 4 hC`: the result is a 4:2:0
frame of the target size whose planes are the 5-tap (luma) and 4-tap (chroma)
upsampling of the planes of the EL frame, vertical pass first. -/
theorem upscaleEl_spec (self : DoViBakerVS) (k : Kernels) (src : Frame) (dstVi : VSVideoInfo)
    (hC wC : Nat) (hcs : self.m_elChromaSubSampled = true)
    (hW : dstVi.width = 4 * wC) (hH : dstVi.height = 4 * hC) (hwC : 3 ≤ wC)
    (h0h : (src.planes 0).height = 2 * hC) (h0w : (src.planes 0).width = 2 * wC)
    (h1h : (src.planes 1).height = hC) (h1w : (src.planes 1).width = wC)
    (h2h : (src.planes 2).height = hC) (h2w : (src.planes 2).width = wC) :
    ∃ out, upscaleEl self k src dstVi = some out ∧
      out.format = query_video_format ColorFamily.cfYUV 16 1 1 ∧ out.props = src.props ∧
      ((out.planes 0).height = 4 * hC ∧ (out.planes 0).width = 4 * wC) ∧
      ((out.planes 1).height = 2 * hC ∧ (out.planes 1).width = 2 * wC) ∧
      ((out.planes 2).height = 2 * hC ∧ (out.planes 2).width = 2 * wC) ∧
      (out.planes 0).Same (lumaUp k (src.planes 0)) ∧
      (out.planes 1).Same (chromaUp k (src.planes 1)) ∧
      (out.planes 2).Same (chromaUp k (src.planes 2)) := by
  unfold upscaleEl
  have e2 : 4 * wC / 2 = 2 * wC := by omega
  simp only [hW, hH, hcs, if_true, e2]
  have n0 := new_video_frame_plane0 (query_video_format ColorFamily.cfYUV 16 1 1) (2 * wC)
    (4 * hC) (some src)
  have n1 : ∀ p, p ≠ 0 →
      ((new_video_frame (query_video_format ColorFamily.cfYUV 16 1 1) (2 * wC) (4 * hC)
        (some src)).planes p).height = 2 * hC ∧
      ((new_video_frame (query_video_format ColorFamily.cfYUV 16 1 1) (2 * wC) (4 * hC)
        (some src)).planes p).width = wC := by
    intro p hp
    have := new_video_frame_chroma (query_video_format ColorFamily.cfYUV 16 1 1) (2 * wC)
      (4 * hC) (some src) p hp
    rw [this.1, this.2]
    simp only [query_video_format, Nat.shiftRight_eq_div_pow]
    omega
  have t0 := new_video_frame_plane0 (query_video_format ColorFamily.cfYUV 16 1 1) (4 * wC)
    (4 * hC) (some src)
  have t1 : ∀ p, p ≠ 0 →
      ((new_video_frame (query_video_format ColorFamily.cfYUV 16 1 1) (4 * wC) (4 * hC)
        (some src)).planes p).height = 2 * hC ∧
      ((new_video_frame (query_video_format ColorFamily.cfYUV 16 1 1) (4 * wC) (4 * hC)
        (some src)).planes p).width = 2 * wC := by
    intro p hp
    have := new_video_frame_chroma (query_video_format ColorFamily.cfYUV 16 1 1) (4 * wC)
      (4 * hC) (some src) p hp
    rw [this.1, this.2]
    simp only [query_video_format, Nat.shiftRight_eq_div_pow]
    omega
  -- vertical passes
  obtain ⟨mez1, x1, f1, p1, o1, s1⟩ :=
    upsampleVert_spec 2 lumaTaps (Or.inl ⟨rfl, rfl⟩) k.upsampleLumaEven k.upsampleLumaOdd
      (new_video_frame (query_video_format ColorFamily.cfYUV 16 1 1) (2 * wC) (4 * hC) (some src))
      src 0 (by rw [n0.1, h0h]; omega) (by rw [n0.2, h0w])
  obtain ⟨mez2, x2, f2, p2, o2, s2⟩ :=
    upsampleVert_spec 1 chromaTaps (Or.inr ⟨rfl, rfl⟩) k.upsampleChromaEven k.upsampleChromaOdd
      mez1 src 1 (by rw [o1 1 (by omega), (n1 1 (by omega)).1, h1h])
      (by rw [o1 1 (by omega), (n1 1 (by omega)).2, h1w])
  obtain ⟨mez3, x3, f3, p3, o3, s3⟩ :=
    upsampleVert_spec 1 chromaTaps (Or.inr ⟨rfl, rfl⟩) k.upsampleChromaEven k.upsampleChromaOdd
      mez2 src 2 (by rw [o2 2 (by omega), o1 2 (by omega), (n1 2 (by omega)).1, h2h])
      (by rw [o2 2 (by omega), o1 2 (by omega), (n1 2 (by omega)).2, h2w])
  have q0 : mez3.planes 0 = mez1.planes 0 := by rw [o3 0 (by omega), o2 0 (by omega)]
  have q1 : mez3.planes 1 = mez2.planes 1 := o3 1 (by omega)
  have w0h : (mez3.planes 0).height = 4 * hC := by
    rw [q0, s1.1]; simp only [vertRefPlane, h0h]; omega
  have w0w : (mez3.planes 0).width = 2 * wC := by rw [q0, s1.2.1]; simp [vertRefPlane, h0w]
  have w1h : (mez3.planes 1).height = 2 * hC := by rw [q1, s2.1]; simp [vertRefPlane, h1h]
  have w1w : (mez3.planes 1).width = wC := by rw [q1, s2.2.1]; simp [vertRefPlane, h1w]
  have w2h : (mez3.planes 2).height = 2 * hC := by rw [s3.1]; simp [vertRefPlane, h2h]
  have w2w : (mez3.planes 2).width = wC := by rw [s3.2.1]; simp [vertRefPlane, h2w]
  -- horizontal passes
  obtain ⟨dst1, y1, g1, r1, u1, v1⟩ :=
    upsampleHorz_spec 2 lumaTaps (Or.inl ⟨rfl, rfl⟩) k.upsampleLumaEven k.upsampleLumaOdd
      (new_video_frame (query_video_format ColorFamily.cfYUV 16 1 1) (4 * wC) (4 * hC) (some src))
      mez3 0 (by rw [w0w]; simp [lumaTaps]; omega) (by rw [t0.1, w0h])
      (by rw [t0.2, w0w]; omega)
  obtain ⟨dst2, y2, g2, r2, u2, v2⟩ :=
    upsampleHorz_spec 1 chromaTaps (Or.inr ⟨rfl, rfl⟩) k.upsampleChromaEven k.upsampleChromaOdd
      dst1 mez3 1 (by rw [w1w]; simp [chromaTaps]; omega)
      (by rw [u1 1 (by omega), (t1 1 (by omega)).1, w1h])
      (by rw [u1 1 (by omega), (t1 1 (by omega)).2, w1w])
  obtain ⟨dst3, y3, g3, r3, u3, v3⟩ :=
    upsampleHorz_spec 1 chromaTaps (Or.inr ⟨rfl, rfl⟩) k.upsampleChromaEven k.upsampleChromaOdd
      dst2 mez3 2 (by rw [w2w]; simp [chromaTaps]; omega)
      (by rw [u2 2 (by omega), u1 2 (by omega), (t1 2 (by omega)).1, w2h])
      (by rw [u2 2 (by omega), u1 2 (by omega), (t1 2 (by omega)).2, w2w])
  have L : (dst3.planes 0).Same (lumaUp k (src.planes 0)) := by
    rw [u3 0 (by omega), u2 0 (by omega)]
    refine v1.trans (horzRefPlane_congr _ _ _ _ ?_)
    rw [q0]
    exact s1
  have C1 : (dst3.planes 1).Same (chromaUp k (src.planes 1)) := by
    rw [u3 1 (by omega)]
    refine v2.trans (horzRefPlane_congr _ _ _ _ ?_)
    rw [q1]
    exact s2
  have C2 : (dst3.planes 2).Same (chromaUp k (src.planes 2)) :=
    v3.trans (horzRefPlane_congr _ _ _ _ s3)
  refine ⟨dst3, ?_, ?_, ?_, ?_, ?_, ?_, L, C1, C2⟩
  · simp only [Option.bind_eq_bind, x1, Option.some_bind, x2, x3, y1, y2, y3]
  · rw [g3, g2, g1]; rfl
  · rw [r3, r2, r1]; rfl
  · exact ⟨by rw [L.1]; simp only [lumaUp, horzRefPlane, vertRefPlane, h0h]; omega,
      by rw [L.2.1]; simp only [lumaUp, horzRefPlane, vertRefPlane, h0w]; omega⟩
  · exact ⟨by rw [C1.1]; simp only [chromaUp, horzRefPlane, vertRefPlane, h1h],
      by rw [C1.2.1]; simp only [chromaUp, horzRefPlane, vertRefPlane, h1w]⟩
  · exact ⟨by rw [C2.1]; simp only [chromaUp, horzRefPlane, vertRefPlane, h2h],
      by rw [C2.2.1]; simp only [chromaUp, horzRefPlane, vertRefPlane, h2w]⟩

theorem ite_error_eq_ok {α : Type} {c : Prop} [Decidable c] {e : String} {x : Except String α}
    {r : α} (h : (if c then Except.error e else x) = Except.ok r) : ¬c ∧ x = Except.ok r := by
  by_cases hc : c
  · rw [if_pos hc] at h
    cases h
  · rw [if_neg hc] at h
    exact ⟨hc, h⟩

/-- What `init` leaves in the members of the filter when it returns. -/
theorem init_members (cls : DoViProcessorClass) (hwThreads : Int) (args : InitArgs)
    (r : InitResult) (h : init cls hwThreads args = Except.ok r) :
    isConstantVideoFormat args.bl = true ∧
    r.filter.m_blVi = args.bl ∧
    r.filter.m_hasEl = args.el.isSome ∧
    r.filter.m_elVi = args.el.getD VSVideoInfo.zero ∧
    r.filter.m_qnd = decide (args.qnd.getD 0 ≠ 0) ∧
    r.filter.m_outYUV = decide (args.outYUV.getD 0 ≠ 0) ∧
    r.filter.m_rgbProof = decide (args.rgbProof.getD 0 ≠ 0) ∧
    r.filter.m_blChromaSubSampled
      = (decide (args.bl.format.subSamplingW = 1) && decide (args.bl.format.subSamplingH = 1)) ∧
    r.filter.m_elChromaSubSampled
      = (match args.el with
        | some el => decide (el.format.subSamplingW = 1) && decide (el.format.subSamplingH = 1)
        | none =>
          decide (args.bl.format.subSamplingW = 1) && decide (args.bl.format.subSamplingH = 1)) ∧
    r.filter.m_quarterResolutionEl
      = (match args.el with
        | some el =>
          decide (el.width = args.bl.width / 2) && decide (el.height = args.bl.height / 2)
        | none => false) ∧
    r.filter.m_vi.width = args.bl.width ∧ r.filter.m_vi.height = args.bl.height ∧
    r.filter.m_vi.numFrames = args.bl.numFrames ∧
    r.filter.m_vi.format
      = (if decide (args.outYUV.getD 0 ≠ 0) then
          query_video_format ColorFamily.cfYUV 16
            (if (decide (args.bl.format.subSamplingW = 1)
              && decide (args.bl.format.subSamplingH = 1)) then 1 else 0)
            (if (decide (args.bl.format.subSamplingW = 1)
              && decide (args.bl.format.subSamplingH = 1)) then 1 else 0)
        else query_video_format ColorFamily.cfRGB 16 0 0) := by
  unfold init at h
  cases hel : args.el with
  | none =>
    simp only [hel, bind, Except.bind, pure, Except.pure, throw, throwThe, MonadExceptOf.throw] at h
    obtain ⟨c1, h⟩ := ite_error_eq_ok h
    obtain ⟨c2, h⟩ := ite_error_eq_ok h
    obtain ⟨c3, h⟩ := ite_error_eq_ok h
    have hbl : isConstantVideoFormat args.bl = true := by simpa using c1
    by_cases c4 : decide (args.outYUV.getD 0 ≠ 0) = true
    · rw [if_pos c4] at h
      obtain ⟨c5, h⟩ := ite_error_eq_ok h
      obtain ⟨c6, h⟩ := ite_error_eq_ok h
      obtain ⟨c7, h⟩ := ite_error_eq_ok h
      obtain ⟨c8, h⟩ := ite_error_eq_ok h
      obtain ⟨c9, h⟩ := ite_error_eq_ok h
      split at h
      · cases h
      · cases h
        refine ⟨hbl, ?_, ?_, ?_, ?_, ?_, ?_, ?_, ?_, ?_, ?_, ?_, ?_, ?_⟩ <;> simp
    · rw [if_neg c4] at h
      obtain ⟨c8, h⟩ := ite_error_eq_ok h
      obtain ⟨c9, h⟩ := ite_error_eq_ok h
      split at h
      · cases h
      · cases h
        refine ⟨hbl, ?_, ?_, ?_, ?_, ?_, ?_, ?_, ?_, ?_, ?_, ?_, ?_, ?_⟩ <;> simp
  | some el =>
    simp only [hel, bind, Except.bind, pure, Except.pure, throw, throwThe, MonadExceptOf.throw] at h
    obtain ⟨c1, h⟩ := ite_error_eq_ok h
    obtain ⟨c2, h⟩ := ite_error_eq_ok h
    obtain ⟨d1, h⟩ := ite_error_eq_ok h
    obtain ⟨d2, h⟩ := ite_error_eq_ok h
    obtain ⟨d3, h⟩ := ite_error_eq_ok h
    obtain ⟨c3, h⟩ := ite_error_eq_ok h
    have hbl : isConstantVideoFormat args.bl = true := by simpa using c1
    by_cases c4 : decide (args.outYUV.getD 0 ≠ 0) = true
    · rw [if_pos c4] at h
      obtain ⟨c5, h⟩ := ite_error_eq_ok h
      obtain ⟨c6, h⟩ := ite_error_eq_ok h
      obtain ⟨c7, h⟩ := ite_error_eq_ok h
      obtain ⟨c8, h⟩ := ite_error_eq_ok h
      obtain ⟨c9, h⟩ := ite_error_eq_ok h
      split at h
      · cases h
      · cases h
        refine ⟨hbl, ?_, ?_, ?_, ?_, ?_, ?_, ?_, ?_, ?_, ?_, ?_, ?_, ?_⟩ <;> simp
    · rw [if_neg c4] at h
      obtain ⟨c8, h⟩ := ite_error_eq_ok h
      obtain ⟨c9, h⟩ := ite_error_eq_ok h
      split at h
      · cases h
      · cases h
        refine ⟨hbl, ?_, ?_, ?_, ?_, ?_, ?_, ?_, ?_, ?_, ?_, ?_, ?_, ?_⟩ <;> simp

theorem get_frame_el_default (s1 s2 : DoViBakerVS) (k : Kernels) (lease : PoolProcessor)
    (n : Int) (blFrame elFrame : Frame)
    (hvi : s1.m_vi = s2.m_vi) (hbl : s1.m_blVi = s2.m_blVi) (hqnd : s1.m_qnd = s2.m_qnd)
    (hyuv : s1.m_outYUV = s2.m_outYUV)
    (hcs : s1.m_blChromaSubSampled = s2.m_blChromaSubSampled)
    (he1 : s1.m_elChromaSubSampled = s1.m_blChromaSubSampled)
    (he2 : s2.m_elChromaSubSampled = s2.m_blChromaSubSampled)
    (hq1 : s1.m_quarterResolutionEl = false) (hq2 : s2.m_quarterResolutionEl = false)
    (hh1 : s1.m_hasEl = false) (hh2 : s2.m_hasEl = true) (hel : s2.m_elVi = s2.m_blVi) :
    get_frame s1 k lease n blFrame elFrame = get_frame s2 k lease n blFrame blFrame := by
  have hx : extractRpu s1 lease blFrame blFrame = extractRpu s2 lease blFrame blFrame := by
    simp only [extractRpu, hh1, hh2]
    cases lease.isIntegratedRpu <;> cases (blFrame.prop "DolbyVisionRPU").isSome <;> simp
  have hs : ∀ proc dst, setFrameProps s1 proc dst = setFrameProps s2 proc dst := by
    intro proc dst
    simp only [setFrameProps, hyuv]
  have hqp : ∀ proc dst, quickPath s1 proc dst blFrame blFrame
      = quickPath s2 proc dst blFrame blFrame := by
    intro proc dst
    simp only [quickPath, doAllQuickAndDirty, doAllQuickAndDirtyStores, elSrcWidthUV, he1, he2,
      hq1, hq2, hh1, hh2, hel, hcs, hbl]
    cases s2.m_blChromaSubSampled <;> simp
  have hfq : ∀ proc dst, fullQualityPath s1 k proc dst blFrame blFrame
      = fullQualityPath s2 k proc dst blFrame blFrame := by
    intro proc dst
    simp only [fullQualityPath, prepareLayers, mezFormatOf, he1, he2, hq1, hq2, hcs, hbl, hyuv,
      Bool.false_eq_true, if_false]
  have ht : ∀ proc dst, applyTrim s1 proc dst = applyTrim s2 proc dst := by
    intro proc dst
    simp only [applyTrim, hvi]
  simp only [get_frame, hh1, hh2, hx, hs, hqp, hfq, ht, hvi, hqnd, hyuv, Bool.false_eq_true,
    if_false, if_true]

/-- The routine `applyDovi` on planes of matching sizes: it succeeds, keeps
format, properties and plane sizes of `dst`, and writes the combined samples. -/
theorem applyDovi_spec (cs : Bool) (proc : DoViProcessor)
    (dst blSrcY blSrcUV elSrcY elSrcUV : Frame) (hUV wUV : Nat)
    (hs : ApplyShapes cs dst blSrcY blSrcUV elSrcY elSrcUV hUV wUV)
    (hW : cs = true → 2 ≤ wUV) (h16 : cs = true → (blSrcY.planes 0).Is16) :
    ∃ out, applyDovi cs proc dst blSrcY blSrcUV elSrcY elSrcUV = some out ∧
      out.format = dst.format ∧ out.props = dst.props ∧
      (∀ p, (out.planes p).height = (dst.planes p).height ∧
        (out.planes p).width = (dst.planes p).width) ∧
      (∀ h w, h < (if cs then 2 else 1) * hUV → w < (if cs then 2 else 1) * wUV →
        (out.planes 0).px h w
          = proc.processSampleY ((blSrcY.planes 0).px h w) ((elSrcY.planes 0).px h w)) ∧
      (∀ i j, i < hUV → j < wUV →
        (out.planes 1).px i j
          = proc.processSampleU ((blSrcUV.planes 1).px i j) ((elSrcUV.planes 1).px i j)
              (lumaProxy cs (blSrcY.planes 0) wUV i j) ((blSrcUV.planes 1).px i j)
              ((blSrcUV.planes 2).px i j) ∧
        (out.planes 2).px i j
          = proc.processSampleV ((blSrcUV.planes 2).px i j) ((elSrcUV.planes 2).px i j)
              (lumaProxy cs (blSrcY.planes 0) wUV i j) ((blSrcUV.planes 1).px i j)
              ((blSrcUV.planes 2).px i j)) := by
  unfold applyDovi
  rw [applyDoviStores_eq cs proc blSrcY blSrcUV elSrcY elSrcUV dst hUV wUV hs hW h16]
  obtain ⟨out, hex, hf, hd, hy, huv⟩ :=
    exec_applyDoviRefStores cs proc blSrcY blSrcUV elSrcY elSrcUV dst hUV wUV hs hW
  exact ⟨out, hex, hf, Frame.exec_props _ _ _ hex, hd, hy, huv⟩

/-- The full-quality RGB path for a 4:2:0 BL frame that is its own EL frame:
combination into a 4:2:0 intermediate frame, chroma upsampling, conversion. -/
theorem fullQualityPath_bl_only (self : DoViBakerVS) (k : Kernels) (proc : DoViProcessor)
    (dst bl : Frame) (hC wC : Nat)
    (hyuv : self.m_outYUV = false) (hcs : self.m_blChromaSubSampled = true)
    (hecs : self.m_elChromaSubSampled = true) (hq : self.m_quarterResolutionEl = false)
    (hW : self.m_blVi.width = 2 * wC) (hH : self.m_blVi.height = 2 * hC) (hwC : 3 ≤ wC)
    (hdh : ∀ p, p < 3 → (dst.planes p).height = 2 * hC)
    (hdw : ∀ p, p < 3 → (dst.planes p).width = 2 * wC)
    (b0h : (bl.planes 0).height = 2 * hC) (b0w : (bl.planes 0).width = 2 * wC)
    (b1h : (bl.planes 1).height = hC) (b1w : (bl.planes 1).width = wC)
    (b2h : (bl.planes 2).height = hC) (b2w : (bl.planes 2).width = wC)
    (h16 : (bl.planes 0).Is16) :
    ∃ mez up out,
      applyDovi true proc
          (new_video_frame (query_video_format ColorFamily.cfYUV 16 1 1) (2 * wC) (2 * hC)
            (some bl)) bl bl bl bl = some mez ∧
      upsampleChroma k mez self.m_blVi = some up ∧
      convert2rgb proc dst up up = some out ∧
      fullQualityPath self k proc dst bl bl = some out ∧
      out.format = dst.format ∧ out.props = dst.props ∧
      (∀ p, (out.planes p).height = (dst.planes p).height ∧
        (out.planes p).width = (dst.planes p).width) ∧
      (∀ h w, h < 2 * hC → w < 2 * wC → (up.planes 0).px h w = (mez.planes 0).px h w) ∧
      ∀ h w, h < 2 * hC → w < 2 * wC →
        ((out.planes 0).px h w, (out.planes 1).px h w, (out.planes 2).px h w)
          = proc.sample2rgb (proc.processSampleY ((bl.planes 0).px h w) ((bl.planes 0).px h w))
              ((chromaUp k (combinedU proc bl)).px h w)
              ((chromaUp k (combinedV proc bl)).px h w) := by
  have n0 := new_video_frame_plane0 (query_video_format ColorFamily.cfYUV 16 1 1) (2 * wC)
    (2 * hC) (some bl)
  have n1 : ∀ p, p ≠ 0 →
      ((new_video_frame (query_video_format ColorFamily.cfYUV 16 1 1) (2 * wC) (2 * hC)
        (some bl)).planes p).height = hC ∧
      ((new_video_frame (query_video_format ColorFamily.cfYUV 16 1 1) (2 * wC) (2 * hC)
        (some bl)).planes p).width = wC := by
    intro p hp
    have := new_video_frame_chroma (query_video_format ColorFamily.cfYUV 16 1 1) (2 * wC)
      (2 * hC) (some bl) p hp
    rw [this.1, this.2]
    simp only [query_video_format, Nat.shiftRight_eq_div_pow]
    omega
  have hs : ApplyShapes true
      (new_video_frame (query_video_format ColorFamily.cfYUV 16 1 1) (2 * wC) (2 * hC) (some bl))
      bl bl bl bl hC wC :=
    ⟨b0h, b0w, b0h, b0w, n0.1, n0.2, b1h, b1w, b2h, b2w, b1h, b1w, b2h, b2w,
      (n1 1 (by omega)).1, (n1 1 (by omega)).2, (n1 2 (by omega)).1, (n1 2 (by omega)).2⟩
  obtain ⟨mez, xm, fm, pm, dm, ym, cm⟩ :=
    applyDovi_spec true proc _ bl bl bl bl hC wC hs (fun _ => by omega) (fun _ => h16)
  simp only [if_true] at ym
  have m0h : (mez.planes 0).height = 2 * hC := by rw [(dm 0).1, n0.1]
  have m0w : (mez.planes 0).width = 2 * wC := by rw [(dm 0).2, n0.2]
  have m1h : (mez.planes 1).height = hC := by rw [(dm 1).1, (n1 1 (by omega)).1]
  have m1w : (mez.planes 1).width = wC := by rw [(dm 1).2, (n1 1 (by omega)).2]
  have m2h : (mez.planes 2).height = hC := by rw [(dm 2).1, (n1 2 (by omega)).1]
  have m2w : (mez.planes 2).width = wC := by rw [(dm 2).2, (n1 2 (by omega)).2]
  obtain ⟨up, xu, fu, pu, du, yu, cu1, cu2⟩ :=
    upsampleChroma_spec k mez self.m_blVi hC wC hW hH hwC (by omega) (by omega) m1h m1w m2h m2w
  obtain ⟨out, xo, fo, po, dO, co⟩ :=
    convert2rgb_spec proc dst up up (2 * hC) (2 * wC) (by rw [(du 0 (by omega)).1])
      (by rw [(du 0 (by omega)).2]) (du 1 (by omega)).1 (du 1 (by omega)).2 (du 2 (by omega)).1
      (du 2 (by omega)).2 hdh hdw
  have sU : (mez.planes 1).Same (combinedU proc bl) := by
    refine ⟨by rw [m1h]; simp [combinedU, b1h], by rw [m1w]; simp [combinedU, b1w], ?_⟩
    intro r c hr hc
    rw [m1h] at hr
    rw [m1w] at hc
    rw [(cm r c hr hc).1]
    simp only [combinedU, b1w]
  have sV : (mez.planes 2).Same (combinedV proc bl) := by
    refine ⟨by rw [m2h]; simp [combinedV, b2h], by rw [m2w]; simp [combinedV, b2w], ?_⟩
    intro r c hr hc
    rw [m2h] at hr
    rw [m2w] at hc
    rw [(cm r c hr hc).2]
    simp only [combinedV, b1w]
  have uU : (up.planes 1).Same (chromaUp k (combinedU proc bl)) :=
    cu1.trans (horzRefPlane_congr _ _ _ _ (vertRefPlane_congr _ _ _ _ sU))
  have uV : (up.planes 2).Same (chromaUp k (combinedV proc bl)) :=
    cu2.trans (horzRefPlane_congr _ _ _ _ (vertRefPlane_congr _ _ _ _ sV))
  refine ⟨mez, up, out, xm, xu, xo, ?_, fo, po, dO, ?_, ?_⟩
  · have hp : prepareLayers self k proc bl bl = some ⟨bl, none, none, true⟩ := by
      simp only [prepareLayers, hyuv, hcs, hecs, hq]
      cases proc.elProcessingEnabled <;> simp
    simp only [fullQualityPath, hp, Option.bind_eq_bind, Option.some_bind, hyuv, hcs, hecs,
      mezFormatOf, hW, hH, Bool.false_eq_true, if_false, if_true, Option.getD_none, Bool.not_true,
      Bool.and_false, xm]
    simp only [xu, Option.some_bind, xo]
  · intro h w hh hw
    rw [yu h w hh hw]
  · intro h w hh hw
    rw [co h w hh hw, yu h w hh hw, ym h w hh hw,
      uU.2.2 h w (by rw [(du 1 (by omega)).1]; exact hh) (by rw [(du 1 (by omega)).2]; exact hw),
      uV.2.2 h w (by rw [(du 2 (by omega)).1]; exact hh) (by rw [(du 2 (by omega)).2]; exact hw)]

theorem setFrameProps_planes (self : DoViBakerVS) (proc : DoViProcessor) (dst : Frame) :
    (setFrameProps self proc dst).planes = dst.planes ∧
    (setFrameProps self proc dst).format = dst.format := by
  unfold setFrameProps
  cases self.m_outYUV <;> simp [Frame.set_prop]

/-! ## Positions written by the horizontal pass: lemmas -/

theorem nodup_forRange (lo hi : Int) : (forRange lo hi).Nodup := by
  unfold forRange
  refine (List.nodup_range _).map ?_
  intro a b h
  simp only at h
  omega

theorem nodup_horzColumns {nD : Nat} {Dn0p : List Int} {srcWidth : Int}
    (hW : (Dn0p.length : Int) - 1 ≤ srcWidth) :
    (horzColumns nD Dn0p srcWidth).Nodup := by
  unfold horzColumns
  rw [List.nodup_append, List.nodup_append]
  refine ⟨⟨nodup_forRange _ _, nodup_forRange _ _, ?_⟩, nodup_forRange _ _, ?_⟩
  · intro a h1 h2
    rw [mem_forRange] at h1 h2
    omega
  · intro a h1 h2
    rw [List.mem_append, mem_forRange, mem_forRange] at h1
    rw [mem_forRange] at h2
    omega

theorem nodup_flatMap_of_key {α β : Type} (l : List β) (f : β → List α) (key : α → β)
    (hl : l.Nodup) (h1 : ∀ b, b ∈ l → (f b).Nodup)
    (hk : ∀ b, b ∈ l → ∀ x, x ∈ f b → key x = b) : (l.flatMap f).Nodup := by
  rw [List.nodup_flatMap]
  refine ⟨h1, List.Pairwise.imp_of_mem ?_ hl⟩
  intro a b ha hb hne x hxa hxb
  exact hne ((hk a ha x hxa).symm.trans (hk b hb x hxb))

theorem positions_horzRefStores (nD : Nat) (Dn0p : List Int) (evenUpscaler oddUpscaler : upscaler_t)
    (src : Plane) (plane : Nat) :
    positions (horzRefStores nD Dn0p evenUpscaler oddUpscaler src plane)
      = (List.range src.height).flatMap fun h =>
          (horzColumns nD Dn0p src.width).flatMap fun w =>
            [some (plane, (h : Int), 2 * w), some (plane, (h : Int), 2 * w + 1)] := by
  simp [positions, horzRefStores, List.map_flatMap, horzPair]

theorem horzRef_positions (nD : Nat) (Dn0p : List Int) (evenUpscaler oddUpscaler : upscaler_t)
    (src : Plane) (plane : Nat)
    (hnD : (nD : Int) + 1 ≤ Dn0p.length) (hW : (Dn0p.length : Int) - 1 ≤ src.width) :
    (positions (horzRefStores nD Dn0p evenUpscaler oddUpscaler src plane)).Nodup ∧
    ∀ q, q ∈ positions (horzRefStores nD Dn0p evenUpscaler oddUpscaler src plane) ↔
      ∃ r c : Nat, r < src.height ∧ c < 2 * src.width ∧ q = some (plane, (r : Int), (c : Int)) := by
  rw [positions_horzRefStores]
  constructor
  · apply nodup_flatMap_key _ _ posRow
    · intro h _
      apply nodup_flatMap_of_key _ _ (fun x => ((posCol x / 2 : Nat) : Int))
        (nodup_horzColumns hW)
      · intro w _
        simp
      · intro w hw x hx
        rw [mem_horzColumns hnD hW] at hw
        simp only [List.mem_cons, List.mem_singleton, List.not_mem_nil, or_false] at hx
        rcases hx with rfl | rfl <;> simp only [posCol] <;> omega
    · intro h _ x hx
      simp only [List.mem_flatMap, List.mem_cons, List.mem_singleton, List.not_mem_nil,
        or_false] at hx
      obtain ⟨w, _, rfl | rfl⟩ := hx <;> simp [posRow]
  · intro q
    simp only [List.mem_flatMap, List.mem_range, mem_horzColumns hnD hW, List.mem_cons,
      List.mem_singleton, List.not_mem_nil, or_false]
    constructor
    · rintro ⟨h, hh, w, ⟨hw0, hw1⟩, rfl | rfl⟩
      · exact ⟨h, (2 * w).toNat, hh, by omega, by rw [Int.toNat_of_nonneg (by omega)]⟩
      · exact ⟨h, (2 * w + 1).toNat, hh, by omega, by rw [Int.toNat_of_nonneg (by omega)]⟩
    · rintro ⟨r, c, hr, hc, rfl⟩
      refine ⟨r, hr, ((c / 2 : Nat) : Int), ⟨by omega, by omega⟩, ?_⟩
      rcases Nat.mod_two_eq_zero_or_one c with h0 | h1
      · left
        congr 3
        omega
      · right
        congr 3
        omega

/-! ## Trim pass, RGB positions, pool: lemmas -/

theorem positions_rgbRefStores (proc : DoViProcessor) (srcY srcUV : Frame) (height width : Nat) :
    positions (rgbRefStores proc srcY srcUV height width)
      = (List.range height).flatMap fun h =>
          (List.range width).flatMap fun w => pixelPositions h w := by
  simp [positions, rgbRefStores, List.map_flatMap, rgbRefPixelStores, pixelPositions]

theorem rgbRef_positions (proc : DoViProcessor) (srcY srcUV : Frame) (height width : Nat) :
    (positions (rgbRefStores proc srcY srcUV height width)).Nodup ∧
    ∀ q, q ∈ positions (rgbRefStores proc srcY srcUV height width) ↔
      ∃ p h w : Nat, p < 3 ∧ h < height ∧ w < width ∧ q = some (p, (h : Int), (w : Int)) := by
  rw [positions_rgbRefStores]
  constructor
  · apply nodup_flatMap_key _ _ posRow
    · intro h _
      apply nodup_flatMap_key _ _ posCol
      · intro w _
        simp [pixelPositions]
      · intro w _ x hx
        obtain ⟨p, _, rfl⟩ := mem_pixelPositions.1 hx
        simp [posCol]
    · intro h _ x hx
      simp only [List.mem_flatMap, List.mem_range] at hx
      obtain ⟨w, _, hx⟩ := hx
      obtain ⟨p, _, rfl⟩ := mem_pixelPositions.1 hx
      simp [posRow]
  · intro q
    simp only [List.mem_flatMap, List.mem_range, mem_pixelPositions]
    constructor
    · rintro ⟨h, hh, w, hw, p, hp, rfl⟩
      exact ⟨p, h, w, hp, hh, hw, rfl⟩
    · rintro ⟨p, h, w, hp, hh, hw, rfl⟩
      exact ⟨h, hh, w, hw, p, hp, rfl⟩

theorem Frame.stored_dims (f : Frame) (s : Store) (v : Nat) (k : Nat) :
    ((f.stored s v).planes k).height = (f.planes k).height ∧
    ((f.stored s v).planes k).width = (f.planes k).width := by
  by_cases hk : k = s.plane
  · subst hk
    simp [Frame.stored]
  · simp [Frame.stored, hk]

theorem Frame.stored_px (f : Frame) (s : Store) (v : Nat) (k r c : Nat) :
    ((f.stored s v).planes k).px r c
      = if k = s.plane ∧ r = s.row.toNat ∧ c = s.col.toNat then v else (f.planes k).px r c := by
  by_cases hk : k = s.plane
  · subst hk
    simp [Frame.stored]
  · simp [Frame.stored, hk]

theorem Frame.stored_inBounds (f : Frame) (s t : Store) (v : Nat) :
    (f.stored s v).InBounds t ↔ f.InBounds t := by
  simp only [Frame.InBounds, (Frame.stored_dims f s v t.plane).1,
    (Frame.stored_dims f s v t.plane).2]

theorem applyTrimPixel_spec (proc : DoViProcessor) (orig f : Frame) (done : Nat → Nat → Prop)
    (r w : Nat) (hinv : TrimInv proc orig f done)
    (hr : ∀ p, p < 3 → r < (orig.planes p).height) (hw : ∀ p, p < 3 → w < (orig.planes p).width)
    (hnd : ¬ done r w) :
    ∃ f1, applyTrimPixel proc (r : Int) f w = some f1 ∧
      TrimInv proc orig f1 (fun r1 c1 => done r1 c1 ∨ (r1 = r ∧ c1 = w)) := by
  have g0 : (f.planes 0).get (r : Int) (w : Int) = some ((orig.planes 0).px r w) := by
    rw [Plane.get_natCast (by rw [hinv.height_eq]; exact hr 0 (by omega))
      (by rw [hinv.width_eq]; exact hw 0 (by omega)), hinv.px_todo r w hnd 0]
  have g1 : (f.planes 1).get (r : Int) (w : Int) = some ((orig.planes 1).px r w) := by
    rw [Plane.get_natCast (by rw [hinv.height_eq]; exact hr 1 (by omega))
      (by rw [hinv.width_eq]; exact hw 1 (by omega)), hinv.px_todo r w hnd 1]
  have g2 : (f.planes 2).get (r : Int) (w : Int) = some ((orig.planes 2).px r w) := by
    rw [Plane.get_natCast (by rw [hinv.height_eq]; exact hr 2 (by omega))
      (by rw [hinv.width_eq]; exact hw 2 (by omega)), hinv.px_todo r w hnd 2]
  have b0 : f.InBounds ⟨0, (r : Int), (w : Int),
      some (proc.processTrim ((orig.planes 0).px r w) ((orig.planes 1).px r w)
        ((orig.planes 2).px r w)).1⟩ := by
    have := hr 0 (by omega)
    have := hw 0 (by omega)
    simp only [Frame.InBounds, hinv.height_eq, hinv.width_eq]
    omega
  have b1 : f.InBounds ⟨1, (r : Int), (w : Int),
      some (proc.processTrim ((orig.planes 0).px r w) ((orig.planes 1).px r w)
        ((orig.planes 2).px r w)).2.1⟩ := by
    have := hr 1 (by omega)
    have := hw 1 (by omega)
    simp only [Frame.InBounds, hinv.height_eq, hinv.width_eq]
    omega
  have b2 : f.InBounds ⟨2, (r : Int), (w : Int),
      some (proc.processTrim ((orig.planes 0).px r w) ((orig.planes 1).px r w)
        ((orig.planes 2).px r w)).2.2⟩ := by
    have := hr 2 (by omega)
    have := hw 2 (by omega)
    simp only [Frame.InBounds, hinv.height_eq, hinv.width_eq]
    omega
  simp only [applyTrimPixel, g0, g1, g2, Option.bind_eq_bind, Option.some_bind]
  rw [Frame.store_eq_some rfl b0]
  simp only [Option.some_bind]
  rw [Frame.store_eq_some rfl ((Frame.stored_inBounds _ _ _ _).2 b1)]
  simp only [Option.some_bind]
  rw [Frame.store_eq_some rfl
    ((Frame.stored_inBounds _ _ _ _).2 ((Frame.stored_inBounds _ _ _ _).2 b2))]
  refine ⟨_, rfl, ?_⟩
  constructor
  · exact hinv.format_eq
  · exact hinv.props_eq
  · intro p
    rw [(Frame.stored_dims _ _ _ p).1, (Frame.stored_dims _ _ _ p).1,
      (Frame.stored_dims _ _ _ p).1, hinv.height_eq]
  · intro p
    rw [(Frame.stored_dims _ _ _ p).2, (Frame.stored_dims _ _ _ p).2,
      (Frame.stored_dims _ _ _ p).2, hinv.width_eq]
  · intro r1 c1 hd
    simp only [Frame.triple, Frame.stored_px, Int.toNat_ofNat]
    rcases hd with hd | ⟨rfl, rfl⟩
    · have hne : ¬ (r1 = r ∧ c1 = w) := by
        rintro ⟨rfl, rfl⟩
        exact hnd hd
      have := hinv.px_done r1 c1 hd
      simp only [Frame.triple] at this
      simp [hne, this]
    · simp
  · intro r1 c1 hd p
    have hne : ¬ (r1 = r ∧ c1 = w) := fun h => hd (Or.inr h)
    have hd1 : ¬ done r1 c1 := fun h => hd (Or.inl h)
    simp only [Frame.stored_px, Int.toNat_ofNat]
    simp [hne, hinv.px_todo r1 c1 hd1 p]

theorem TrimInv.congr {proc : DoViProcessor} {orig f : Frame} {d1 d2 : Nat → Nat → Prop}
    (h : TrimInv proc orig f d1) (hd : ∀ r c, d1 r c ↔ d2 r c) : TrimInv proc orig f d2 :=
  ⟨h.format_eq, h.props_eq, h.height_eq, h.width_eq,
    fun r c hdone => h.px_done r c ((hd r c).2 hdone),
    fun r c hn p => h.px_todo r c (fun hdone => hn ((hd r c).1 hdone)) p⟩

theorem applyTrimRow_spec (proc : DoViProcessor) (orig : Frame) (r : Nat)
    (hr : ∀ p, p < 3 → r < (orig.planes p).height) (n : Nat)
    (hn : ∀ p, p < 3 → n ≤ (orig.planes p).width) (f : Frame) (done : Nat → Nat → Prop)
    (hinv : TrimInv proc orig f done) (hnd : ∀ c, c < n → ¬ done r c) :
    ∃ f1, (List.range n).foldlM (applyTrimPixel proc (r : Int)) f = some f1 ∧
      TrimInv proc orig f1 (fun r1 c1 => done r1 c1 ∨ (r1 = r ∧ c1 < n)) := by
  induction n with
  | zero =>
    refine ⟨f, rfl, hinv.congr ?_⟩
    intro r1 c1
    simp
  | succ n ih =>
    obtain ⟨f1, hf1, hinv1⟩ := ih (fun p hp => by have := hn p hp; omega)
      (fun c hc => hnd c (by omega))
    have hnd1 : ¬ (done r n ∨ (r = r ∧ n < n)) := by
      rintro (h | ⟨_, h⟩)
      · exact hnd n (by omega) h
      · omega
    obtain ⟨f2, hf2, hinv2⟩ := applyTrimPixel_spec proc orig f1 _ r n hinv1 hr
      (fun p hp => by have := hn p hp; omega) hnd1
    refine ⟨f2, ?_, hinv2.congr ?_⟩
    · rw [List.range_succ, List.foldlM_append, hf1]
      simp only [Option.bind_eq_bind, Option.some_bind, List.foldlM_cons, List.foldlM_nil, hf2,
        Option.pure_def]
    · intro r1 c1
      constructor
      · rintro ((h | ⟨h1, h2⟩) | ⟨h1, h2⟩)
        · exact Or.inl h
        · exact Or.inr ⟨h1, by omega⟩
        · exact Or.inr ⟨h1, by omega⟩
      · rintro (h | ⟨h1, h2⟩)
        · exact Or.inl (Or.inl h)
        · by_cases hc : c1 = n
          · exact Or.inr ⟨h1, hc⟩
          · exact Or.inl (Or.inr ⟨h1, by omega⟩)

theorem applyTrimRows_spec (proc : DoViProcessor) (orig : Frame) (width : Nat)
    (hw : ∀ p, p < 3 → width ≤ (orig.planes p).width) (n : Nat) (r0 : Nat)
    (hh : ∀ p, p < 3 → r0 + n ≤ (orig.planes p).height) (f : Frame) (done : Nat → Nat → Prop)
    (hinv : TrimInv proc orig f done) (hnd : ∀ r c, r0 ≤ r → ¬ done r c) :
    ∃ f1, applyTrimRows proc width n (r0 : Int) f = some f1 ∧
      TrimInv proc orig f1
        (fun r1 c1 => done r1 c1 ∨ (r0 ≤ r1 ∧ r1 < r0 + n ∧ c1 < width)) := by
  induction n generalizing r0 f done with
  | zero =>
    refine ⟨f, rfl, hinv.congr ?_⟩
    intro r1 c1
    constructor
    · exact fun h => Or.inl h
    · rintro (h | ⟨h1, h2, _⟩)
      · exact h
      · omega
  | succ n ih =>
    obtain ⟨f1, hf1, hinv1⟩ := applyTrimRow_spec proc orig r0
      (fun p hp => by have := hh p hp; omega) width hw f done hinv
      (fun c _ => hnd r0 c (le_refl _))
    obtain ⟨f2, hf2, hinv2⟩ := ih (r0 + 1) (fun p hp => by have := hh p hp; omega) f1 _ hinv1
      (by
        rintro r c hr (h | ⟨h1, _⟩)
        · exact hnd r c (by omega) h
        · omega)
    refine ⟨f2, ?_, hinv2.congr ?_⟩
    · simp only [applyTrimRows, hf1]
      rw [← hf2]
      congr 1
    · intro r1 c1
      constructor
      · rintro ((h | ⟨h1, h2⟩) | ⟨h1, h2, h3⟩)
        · exact Or.inl h
        · exact Or.inr ⟨by omega, by omega, h2⟩
        · exact Or.inr ⟨by omega, by omega, h3⟩
      · rintro (h | ⟨h1, h2, h3⟩)
        · exact Or.inl (Or.inl h)
        · by_cases hc : r1 = r0
          · exact Or.inl (Or.inr ⟨hc, h3⟩)
          · exact Or.inr ⟨by omega, by omega, h3⟩

/-- The routine `applyTrim (dst, dst)` on a frame whose three planes have at
least `m_vi.height` rows and `m_vi.width` columns. -/
theorem applyTrim_spec (self : DoViBakerVS) (proc : DoViProcessor) (dst : Frame)
    (hh : ∀ p, p < 3 → self.m_vi.height ≤ (dst.planes p).height)
    (hw : ∀ p, p < 3 → self.m_vi.width ≤ (dst.planes p).width) :
    ∃ out, applyTrim self proc dst = some out ∧
      TrimInv proc dst out (fun r c => r < self.m_vi.height ∧ c < self.m_vi.width) := by
  have h0 : TrimInv proc dst dst (fun _ _ => False) :=
    ⟨rfl, rfl, fun _ => rfl, fun _ => rfl, fun _ _ h => h.elim, fun _ _ _ _ => rfl⟩
  obtain ⟨out, hout, hinv⟩ := applyTrimRows_spec proc dst self.m_vi.width hw self.m_vi.height 0
    (fun p hp => by have := hh p hp; omega) dst _ h0 (fun _ _ _ h => h)
  refine ⟨out, hout, hinv.congr ?_⟩
  intro r c
  constructor
  · rintro (h | ⟨_, h2, h3⟩)
    · exact h.elim
    · exact ⟨by omega, h3⟩
  · rintro ⟨h1, h2⟩
    exact Or.inr ⟨by omega, by omega, h2⟩

theorem createPool_length (cls : DoViProcessorClass) (blBits elBits : Nat) (sourceProfile : Int)
    (rgbProof nlqProof : Bool) (trimPq : Nat) (count : Nat) (l : List PoolProcessor)
    (h : createPool cls blBits elBits sourceProfile rgbProof nlqProof trimPq count = Except.ok l) :
    l.length = count := by
  induction count generalizing l with
  | zero =>
    simp only [createPool, pure, Except.pure, Except.ok.injEq] at h
    rw [← h]
    rfl
  | succ count ih =>
    simp only [createPool, bind, Except.bind, pure, Except.pure, throw, throwThe,
      MonadExceptOf.throw] at h
    obtain ⟨_, h⟩ := ite_error_eq_ok h
    cases hr : createPool cls blBits elBits sourceProfile rgbProof nlqProof trimPq count with
    | error e => rw [hr] at h; cases h
    | ok rest =>
      rw [hr] at h
      simp only [Except.ok.injEq] at h
      rw [← h, List.length_cons, ih rest hr]

theorem init_processors (cls : DoViProcessorClass) (hwThreads : Int) (args : InitArgs)
    (r : InitResult) (h : init cls hwThreads args = Except.ok r) :
    ∃ first pool, r.processors = first :: pool ∧
      pool.length = (getPoolSize hwThreads - 1).toNat := by
  unfold init at h
  cases hel : args.el with
  | none =>
    simp only [hel, bind, Except.bind, pure, Except.pure, throw, throwThe, MonadExceptOf.throw] at h
    obtain ⟨c1, h⟩ := ite_error_eq_ok h
    obtain ⟨c2, h⟩ := ite_error_eq_ok h
    obtain ⟨c3, h⟩ := ite_error_eq_ok h
    by_cases c4 : decide (args.outYUV.getD 0 ≠ 0) = true
    · rw [if_pos c4] at h
      obtain ⟨c5, h⟩ := ite_error_eq_ok h
      obtain ⟨c6, h⟩ := ite_error_eq_ok h
      obtain ⟨c7, h⟩ := ite_error_eq_ok h
      obtain ⟨c8, h⟩ := ite_error_eq_ok h
      obtain ⟨c9, h⟩ := ite_error_eq_ok h
      split at h
      · cases h
      · rename_i v hv
        cases h
        exact ⟨_, v, rfl, createPool_length _ _ _ _ _ _ _ _ v hv⟩
    · rw [if_neg c4] at h
      obtain ⟨c8, h⟩ := ite_error_eq_ok h
      obtain ⟨c9, h⟩ := ite_error_eq_ok h
      split at h
      · cases h
      · rename_i v hv
        cases h
        exact ⟨_, v, rfl, createPool_length _ _ _ _ _ _ _ _ v hv⟩
  | some el =>
    simp only [hel, bind, Except.bind, pure, Except.pure, throw, throwThe, MonadExceptOf.throw] at h
    obtain ⟨c1, h⟩ := ite_error_eq_ok h
    obtain ⟨c2, h⟩ := ite_error_eq_ok h
    obtain ⟨d1, h⟩ := ite_error_eq_ok h
    obtain ⟨d2, h⟩ := ite_error_eq_ok h
    obtain ⟨d3, h⟩ := ite_error_eq_ok h
    obtain ⟨c3, h⟩ := ite_error_eq_ok h
    by_cases c4 : decide (args.outYUV.getD 0 ≠ 0) = true
    · rw [if_pos c4] at h
      obtain ⟨c5, h⟩ := ite_error_eq_ok h
      obtain ⟨c6, h⟩ := ite_error_eq_ok h
      obtain ⟨c7, h⟩ := ite_error_eq_ok h
      obtain ⟨c8, h⟩ := ite_error_eq_ok h
      obtain ⟨c9, h⟩ := ite_error_eq_ok h
      split at h
      · cases h
      · rename_i v hv
        cases h
        exact ⟨_, v, rfl, createPool_length _ _ _ _ _ _ _ _ v hv⟩
    · rw [if_neg c4] at h
      obtain ⟨c8, h⟩ := ite_error_eq_ok h
      obtain ⟨c9, h⟩ := ite_error_eq_ok h
      split at h
      · cases h
      · rename_i v hv
        cases h
        exact ⟨_, v, rfl, createPool_length _ _ _ _ _ _ _ _ v hv⟩

theorem getPoolSize_bounds (hwThreads : Int) :
    4 ≤ getPoolSize hwThreads ∧ getPoolSize hwThreads ≤ 32 := by
  unfold getPoolSize
  simp only
  split <;> omega

/-- The engines of the pool are, up to order, the available ones followed by
the leased ones. -/
theorem pool_step_perm (n : Nat) (s s1 : PoolSystem) (a : PoolAction)
    (hinv : (s.m_availableProcessors ++ s.leases).Perm (List.range n))
    (hstep : s.step a = some s1) :
    (s1.m_availableProcessors ++ s1.leases).Perm (List.range n) := by
  cases a with
  | acquire =>
    simp only [PoolSystem.step, acquireProcessor] at hstep
    cases hq : s.m_availableProcessors with
    | nil => rw [hq] at hstep; simp at hstep
    | cons p rest =>
      rw [hq] at hstep hinv
      simp only [Option.some.injEq] at hstep
      rw [← hstep]
      exact List.perm_middle.trans hinv
  | release p =>
    simp only [PoolSystem.step] at hstep
    by_cases hp : p ∈ s.leases
    · rw [if_pos hp] at hstep
      simp only [Option.some.injEq] at hstep
      rw [← hstep]
      simp only [releaseProcessor, List.append_assoc, List.singleton_append]
      exact (List.Perm.append_left _ (List.perm_cons_erase hp).symm).trans hinv
    · rw [if_neg hp] at hstep
      cases hstep

theorem pool_run_perm (n : Nat) (acts : List PoolAction) (s0 s : PoolSystem)
    (hinv : (s0.m_availableProcessors ++ s0.leases).Perm (List.range n))
    (hrun : s0.run acts = some s) :
    (s.m_availableProcessors ++ s.leases).Perm (List.range n) := by
  induction acts generalizing s0 with
  | nil =>
    simp only [PoolSystem.run, Option.some.injEq] at hrun
    rw [← hrun]
    exact hinv
  | cons a rest ih =>
    simp only [PoolSystem.run] at hrun
    cases hs : s0.step a with
    | none => rw [hs] at hrun; cases hrun
    | some s1 =>
      rw [hs] at hrun
      exact ih s1 (pool_step_perm n s0 s1 a hinv hs) hrun

/-! ## Late lemmas: averages, initialisation guards, scene cursor -/

theorem shift2_between (lo hi s : Nat) (h1 : 4 * lo ≤ s) (h2 : s ≤ 4 * hi + 3) :
    lo ≤ s >>> 2 ∧ s >>> 2 ≤ hi := by
  rw [Nat.shiftRight_eq_div_pow]
  constructor <;> omega

theorem mmrNarrow_between (lo hi r1 r2 : Nat) (hhi : hi ≤ 65535)
    (h1 : lo ≤ r1 ∧ r1 ≤ hi) (h2 : lo ≤ r2 ∧ r2 ≤ hi) :
    ((r1 + r2 + 1) >>> 1) % 65536 = (r1 + r2 + 1) >>> 1 ∧
    lo ≤ (r1 + r2 + 1) >>> 1 ∧ (r1 + r2 + 1) >>> 1 ≤ hi := by
  rw [Nat.shiftRight_eq_div_pow]
  refine ⟨?_, ?_, ?_⟩ <;> omega

theorem nodup_applyColumns {widthUV : Nat} (hW : 2 ≤ widthUV) :
    (applyColumns true widthUV).Nodup := by
  simp only [applyColumns, if_true]
  rw [List.nodup_append, List.nodup_append]
  refine ⟨⟨List.nodup_singleton _, nodup_forRange _ _, ?_⟩, List.nodup_singleton _, ?_⟩
  · intro a h1 h2
    rw [List.mem_singleton] at h1
    rw [mem_forRange] at h2
    omega
  · intro a h1 h2
    rw [List.mem_append, List.mem_singleton, mem_forRange] at h1
    rw [List.mem_singleton] at h2
    omega

theorem positions_applyRefBlock (proc : DoViProcessor) (blY elY blU blV elU elV : Plane)
    (huv wuv : Nat) :
    positions (applyRefBlock true proc blY elY blU blV elU elV huv wuv)
      = [some (0, ((2 * huv + 0 : Nat) : Int), ((2 * wuv + 0 : Nat) : Int)),
         some (0, ((2 * huv + 0 : Nat) : Int), ((2 * wuv + 1 : Nat) : Int)),
         some (0, ((2 * huv + 1 : Nat) : Int), ((2 * wuv + 0 : Nat) : Int)),
         some (0, ((2 * huv + 1 : Nat) : Int), ((2 * wuv + 1 : Nat) : Int)),
         some (1, (huv : Int), (wuv : Int)), some (2, (huv : Int), (wuv : Int))] := by
  simp [positions, applyRefBlock, List.range_succ, List.flatMap]

theorem applyRef_positions_nodup (proc : DoViProcessor) (blSrcY blSrcUV elSrcY elSrcUV : Frame)
    (hW : 2 ≤ (blSrcUV.planes 1).width) :
    (positions (applyDoviRefStores true proc blSrcY blSrcUV elSrcY elSrcUV)).Nodup := by
  have e : positions (applyDoviRefStores true proc blSrcY blSrcUV elSrcY elSrcUV)
      = (List.range (blSrcUV.planes 1).height).flatMap fun huv =>
          (applyColumns true (blSrcUV.planes 1).width).flatMap fun wuv =>
            positions (applyRefBlock true proc (blSrcY.planes 0) (elSrcY.planes 0)
              (blSrcUV.planes 1) (blSrcUV.planes 2) (elSrcUV.planes 1) (elSrcUV.planes 2)
              huv wuv.toNat) := by
    simp only [positions, applyDoviRefStores, List.map_flatMap]
  rw [e]
  apply nodup_flatMap_key _ _ applyRowKey
  · intro huv _
    apply nodup_flatMap_of_key _ _ applyColKey (nodup_applyColumns hW)
    · intro w _
      rw [positions_applyRefBlock]
      simp
    · intro w hw x hx
      rw [mem_applyColumns (fun _ => hW)] at hw
      rw [positions_applyRefBlock] at hx
      simp only [List.mem_cons, List.mem_singleton, List.not_mem_nil, or_false] at hx
      rcases hx with rfl | rfl | rfl | rfl | rfl | rfl <;> simp only [applyColKey] <;> omega
  · intro huv _ x hx
    simp only [List.mem_flatMap] at hx
    obtain ⟨w, _, hx⟩ := hx
    rw [positions_applyRefBlock] at hx
    simp only [List.mem_cons, List.mem_singleton, List.not_mem_nil, or_false] at hx
    rcases hx with rfl | rfl | rfl | rfl | rfl | rfl <;> simp only [applyRowKey] <;> omega

theorem createPool_ok (cls : DoViProcessorClass) (blBits elBits : Nat) (sourceProfile : Int)
    (rgbProof nlqProof : Bool) (trimPq : Nat)
    (hs : ∀ b e p, (cls.createShared b e p).wasCreationSuccessful = true) (count : Nat) :
    ∃ pool, createPool cls blBits elBits sourceProfile rgbProof nlqProof trimPq count
      = Except.ok pool := by
  induction count with
  | zero => exact ⟨[], rfl⟩
  | succ n ih =>
    obtain ⟨pool, hp⟩ := ih
    refine ⟨(cls.createShared blBits elBits sourceProfile).configure rgbProof nlqProof trimPq
      :: pool, ?_⟩
    simp only [createPool, hs, hp, bind, Except.bind, pure, Except.pure, Bool.not_true,
      Bool.false_eq_true, if_false]

/-- What `init` has checked and built when it returns: every guard was passed,
the first engine was constructed from the RPU path with the container depths
of the clips (an EL depth of 0 without EL), and the pool holds it followed by
the engines constructed from the shared list. -/
theorem init_result (cls : DoViProcessorClass) (hwThreads : Int) (args : InitArgs)
    (r : InitResult) (h : init cls hwThreads args = Except.ok r) :
    isConstantVideoFormat args.bl = true ∧
    args.bl.format.colorFamily = ColorFamily.cfYUV ∧
    (∀ el, args.el = some el → isConstantVideoFormat el = true ∧
      el.format.colorFamily = ColorFamily.cfYUV ∧ args.bl.numFrames = el.numFrames) ∧
    (toInt32 (args.sourceProfile.getD 0) = 0 ∨ toInt32 (args.sourceProfile.getD 0) = 7 ∨
      toInt32 (args.sourceProfile.getD 0) = 8) ∧
    (args.outYUV.getD 0 ≠ 0 →
      args.qnd.getD 0 = 0 ∧ args.rgbProof.getD 0 = 0 ∧
      ∀ el, args.el = some el →
        (decide (args.bl.format.subSamplingW = 1) && decide (args.bl.format.subSamplingH = 1))
          = (decide (el.format.subSamplingW = 1) && decide (el.format.subSamplingH = 1))) ∧
    (cls.create args.rpu args.bl.format.bitsPerSample
        ((args.el.map (fun el => el.format.bitsPerSample)).getD 0)
        (toInt32 (args.sourceProfile.getD 0))).wasCreationSuccessful = true ∧
    ((cls.create args.rpu args.bl.format.bitsPerSample
        ((args.el.map (fun el => el.format.bitsPerSample)).getD 0)
        (toInt32 (args.sourceProfile.getD 0))).isIntegratedRpu = true ∨
      args.bl.numFrames = (cls.create args.rpu args.bl.format.bitsPerSample
        ((args.el.map (fun el => el.format.bitsPerSample)).getD 0)
        (toInt32 (args.sourceProfile.getD 0))).getClipLength) ∧
    ∃ pool, createPool cls args.bl.format.bitsPerSample
        ((args.el.map (fun el => el.format.bitsPerSample)).getD 0)
        (toInt32 (args.sourceProfile.getD 0)) (decide (args.rgbProof.getD 0 ≠ 0))
        (decide (args.nlqProof.getD 0 ≠ 0)) (args.trimPq.getD 0 % 65536).toNat
        (getPoolSize hwThreads - 1).toNat = Except.ok pool ∧
      r.processors
        = (cls.create args.rpu args.bl.format.bitsPerSample
            ((args.el.map (fun el => el.format.bitsPerSample)).getD 0)
            (toInt32 (args.sourceProfile.getD 0))).configure (decide (args.rgbProof.getD 0 ≠ 0))
            (decide (args.nlqProof.getD 0 ≠ 0)) (args.trimPq.getD 0 % 65536).toNat :: pool := by
  have prof : ∀ x : Int, ¬ (x ≠ 0 ∧ x ≠ 7 ∧ x ≠ 8) → x = 0 ∨ x = 7 ∨ x = 8 := by
    intro x hx
    omega
  have clip : ∀ (a : Bool) (x y : Nat), ¬ ((!a && decide (x ≠ y)) = true) →
      a = true ∨ x = y := by
    intro a x y hxy
    cases a
    · right
      simpa using hxy
    · left
      rfl
  unfold init at h
  cases hel : args.el with
  | none =>
    simp only [hel, bind, Except.bind, pure, Except.pure, throw, throwThe, MonadExceptOf.throw] at h
    obtain ⟨c1, h⟩ := ite_error_eq_ok h
    obtain ⟨c2, h⟩ := ite_error_eq_ok h
    obtain ⟨c3, h⟩ := ite_error_eq_ok h
    have g1 : isConstantVideoFormat args.bl = true := by simpa using c1
    have g2 : args.bl.format.colorFamily = ColorFamily.cfYUV := by simpa using c2
    have g3 : ∀ el, (none : Option VSVideoInfo) = some el → isConstantVideoFormat el = true ∧
        el.format.colorFamily = ColorFamily.cfYUV ∧ args.bl.numFrames = el.numFrames := by
      intro el he
      cases he
    by_cases c4 : decide (args.outYUV.getD 0 ≠ 0) = true
    · rw [if_pos c4] at h
      obtain ⟨c5, h⟩ := ite_error_eq_ok h
      obtain ⟨c6, h⟩ := ite_error_eq_ok h
      obtain ⟨c7, h⟩ := ite_error_eq_ok h
      obtain ⟨c8, h⟩ := ite_error_eq_ok h
      obtain ⟨c9, h⟩ := ite_error_eq_ok h
      split at h
      · cases h
      · rename_i v hv
        cases h
        refine ⟨g1, g2, g3, prof _ c3, ?_, by simpa using c8, clip _ _ _ c9, v, hv, rfl⟩
        intro _
        refine ⟨by simpa using c6, by simpa using c7, ?_⟩
        intro el he
        cases he
    · rw [if_neg c4] at h
      obtain ⟨c8, h⟩ := ite_error_eq_ok h
      obtain ⟨c9, h⟩ := ite_error_eq_ok h
      split at h
      · cases h
      · rename_i v hv
        cases h
        refine ⟨g1, g2, g3, prof _ c3, ?_, by simpa using c8, clip _ _ _ c9, v, hv, rfl⟩
        intro hy
        exact absurd (decide_eq_true hy) c4
  | some el =>
    simp only [hel, bind, Except.bind, pure, Except.pure, throw, throwThe, MonadExceptOf.throw] at h
    obtain ⟨c1, h⟩ := ite_error_eq_ok h
    obtain ⟨c2, h⟩ := ite_error_eq_ok h
    obtain ⟨d1, h⟩ := ite_error_eq_ok h
    obtain ⟨d2, h⟩ := ite_error_eq_ok h
    obtain ⟨d3, h⟩ := ite_error_eq_ok h
    obtain ⟨c3, h⟩ := ite_error_eq_ok h
    have g1 : isConstantVideoFormat args.bl = true := by simpa using c1
    have g2 : args.bl.format.colorFamily = ColorFamily.cfYUV := by simpa using c2
    have g3 : ∀ el1, some el = some el1 → isConstantVideoFormat el1 = true ∧
        el1.format.colorFamily = ColorFamily.cfYUV ∧ args.bl.numFrames = el1.numFrames := by
      intro el1 he
      cases he
      exact ⟨by simpa using d1, by simpa using d2, by simpa using d3⟩
    by_cases c4 : decide (args.outYUV.getD 0 ≠ 0) = true
    · rw [if_pos c4] at h
      obtain ⟨c5, h⟩ := ite_error_eq_ok h
      obtain ⟨c6, h⟩ := ite_error_eq_ok h
      obtain ⟨c7, h⟩ := ite_error_eq_ok h
      obtain ⟨c8, h⟩ := ite_error_eq_ok h
      obtain ⟨c9, h⟩ := ite_error_eq_ok h
      split at h
      · cases h
      · rename_i v hv
        cases h
        refine ⟨g1, g2, g3, prof _ c3, ?_, by simpa using c8, clip _ _ _ c9, v, hv, rfl⟩
        intro _
        refine ⟨by simpa using c6, by simpa using c7, ?_⟩
        intro el1 he
        cases he
        simp only [Option.isSome_some, Bool.true_and, if_true, bne_iff_ne, ne_eq, not_not] at c5
        exact c5
    · rw [if_neg c4] at h
      obtain ⟨c8, h⟩ := ite_error_eq_ok h
      obtain ⟨c9, h⟩ := ite_error_eq_ok h
      split at h
      · cases h
      · rename_i v hv
        cases h
        refine ⟨g1, g2, g3, prof _ c3, ?_, by simpa using c8, clip _ _ _ c9, v, hv, rfl⟩
        intro hy
        exact absurd (decide_eq_true hy) c4

theorem clip_guard_false {a : Bool} {x y : Nat} (h : a = true ∨ x = y) :
    ¬ ((!a && decide (x ≠ y)) = true) := by
  rcases h with h | h <;> simp [h]

/-- When every guard of `init` is passed, `init` returns. -/
theorem init_ok_of_guards (cls : DoViProcessorClass) (hwThreads : Int) (args : InitArgs)
    (g1 : isConstantVideoFormat args.bl = true)
    (g2 : args.bl.format.colorFamily = ColorFamily.cfYUV)
    (g3 : ∀ el, args.el = some el → isConstantVideoFormat el = true ∧
      el.format.colorFamily = ColorFamily.cfYUV ∧ args.bl.numFrames = el.numFrames)
    (g4 : toInt32 (args.sourceProfile.getD 0) = 0 ∨ toInt32 (args.sourceProfile.getD 0) = 7 ∨
      toInt32 (args.sourceProfile.getD 0) = 8)
    (g5 : args.outYUV.getD 0 ≠ 0 →
      args.qnd.getD 0 = 0 ∧ args.rgbProof.getD 0 = 0 ∧
      ∀ el, args.el = some el →
        (decide (args.bl.format.subSamplingW = 1) && decide (args.bl.format.subSamplingH = 1))
          = (decide (el.format.subSamplingW = 1) && decide (el.format.subSamplingH = 1)))
    (g6 : (cls.create args.rpu args.bl.format.bitsPerSample
        ((args.el.map (fun el => el.format.bitsPerSample)).getD 0)
        (toInt32 (args.sourceProfile.getD 0))).wasCreationSuccessful = true)
    (g7 : (cls.create args.rpu args.bl.format.bitsPerSample
        ((args.el.map (fun el => el.format.bitsPerSample)).getD 0)
        (toInt32 (args.sourceProfile.getD 0))).isIntegratedRpu = true ∨
      args.bl.numFrames = (cls.create args.rpu args.bl.format.bitsPerSample
        ((args.el.map (fun el => el.format.bitsPerSample)).getD 0)
        (toInt32 (args.sourceProfile.getD 0))).getClipLength)
    (g8 : ∃ pool, createPool cls args.bl.format.bitsPerSample
        ((args.el.map (fun el => el.format.bitsPerSample)).getD 0)
        (toInt32 (args.sourceProfile.getD 0)) (decide (args.rgbProof.getD 0 ≠ 0))
        (decide (args.nlqProof.getD 0 ≠ 0)) (args.trimPq.getD 0 % 65536).toNat
        (getPoolSize hwThreads - 1).toNat = Except.ok pool) :
    ∃ r, init cls hwThreads args = Except.ok r := by
  have hp : ¬ (toInt32 (args.sourceProfile.getD 0) ≠ 0 ∧
      toInt32 (args.sourceProfile.getD 0) ≠ 7 ∧ toInt32 (args.sourceProfile.getD 0) ≠ 8) := by
    intro h
    rcases g4 with h0 | h0 | h0
    · exact h.1 h0
    · exact h.2.1 h0
    · exact h.2.2 h0
  obtain ⟨pool, hpool⟩ := g8
  cases hel1 : args.el with
  | none =>
    rw [hel1] at g6 g7 hpool
    simp only [Option.map_none', Option.getD_none] at g6 g7 hpool
    unfold init
    simp only [hel1, bind, Except.bind, pure, Except.pure, throw, throwThe, MonadExceptOf.throw,
      Option.isSome_none, Bool.false_eq_true, if_false]
    rw [if_neg (by simp [g1]), if_neg (by simp [g2]), if_neg hp]
    by_cases hy : args.outYUV.getD 0 ≠ 0
    · obtain ⟨q1, q2, _⟩ := g5 hy
      rw [if_pos (decide_eq_true hy), if_neg (by simp), if_neg (by simp [q1]),
        if_neg (by simp [q2]), if_neg (by simp [g6]), if_neg (clip_guard_false g7), hpool]
      exact ⟨_, rfl⟩
    · rw [if_neg (by simpa using hy), if_neg (by simp [g6]), if_neg (clip_guard_false g7),
        hpool]
      exact ⟨_, rfl⟩
  | some el =>
    obtain ⟨e1, e2, e3⟩ := g3 el hel1
    rw [hel1] at g6 g7 hpool
    simp only [Option.map_some', Option.getD_some] at g6 g7 hpool
    unfold init
    simp only [hel1, bind, Except.bind, pure, Except.pure, throw, throwThe, MonadExceptOf.throw,
      Option.isSome_some, if_true]
    rw [if_neg (by simp [g1]), if_neg (by simp [g2]), if_neg (by simp [e1]),
      if_neg (by simp [e2]), if_neg (by simp [e3]), if_neg hp]
    by_cases hy : args.outYUV.getD 0 ≠ 0
    · obtain ⟨q1, q2, q3⟩ := g5 hy
      rw [if_pos (decide_eq_true hy), if_neg (by simp [q3 el hel1]), if_neg (by simp [q1]),
        if_neg (by simp [q2]), if_neg (by simp [g6]), if_neg (clip_guard_false g7), hpool]
      exact ⟨_, rfl⟩
    · rw [if_neg (by simpa using hy), if_neg (by simp [g6]), if_neg (clip_guard_false g7),
        hpool]
      exact ⟨_, rfl⟩

/-- The source profile is narrowed to 32 bits before it is tested: `2^32 + 7`
is accepted as profile 7, and 5 is rejected. -/
theorem init_sourceProfile_narrowed :
    toInt32 4294967303 = 7 ∧
    (∃ r, init sampleClass 4
      ⟨⟨yuv420, 8, 4, 1⟩, none, none, none, none, none, none, none, some 4294967303⟩
        = Except.ok r) ∧
    init sampleClass 4 ⟨⟨yuv420, 8, 4, 1⟩, none, none, none, none, none, none, none, some 5⟩
      = Except.error "DoViBaker: sourceProfile must be 0 (auto), 7, or 8" := by
  refine ⟨by decide, ⟨_, rfl⟩, rfl⟩

theorem createPool_congr (cls : DoViProcessorClass) (blBits e1 e2 : Nat) (sourceProfile : Int)
    (rgbProof nlqProof : Bool) (trimPq : Nat)
    (hs : ∀ b e e0 p, cls.createShared b e p = cls.createShared b e0 p) (count : Nat) :
    createPool cls blBits e1 sourceProfile rgbProof nlqProof trimPq count
      = createPool cls blBits e2 sourceProfile rgbProof nlqProof trimPq count := by
  induction count with
  | zero => rfl
  | succ n ih =>
    simp only [createPool, ih, hs blBits e1 e2 sourceProfile]

/-- Without EL `get_frame` hands the BL frame to the pixel routines in the
place of the EL frame. -/
theorem get_frame_without_el (self : DoViBakerVS) (k : Kernels) (lease : PoolProcessor)
    (n : Int) (blFrame elFrame : Frame) (hh : self.m_hasEl = false) :
    get_frame self k lease n blFrame elFrame
      = match lease.intializeFrame n (extractRpu self lease blFrame blFrame) with
        | none =>
          some (new_video_frame self.m_vi.format self.m_vi.width self.m_vi.height
            (some blFrame))
        | some proc =>
          (if self.m_qnd then
              quickPath self proc
                (setFrameProps self proc
                  (new_video_frame self.m_vi.format self.m_vi.width self.m_vi.height
                    (some blFrame)))
                blFrame blFrame
            else
              fullQualityPath self k proc
                (setFrameProps self proc
                  (new_video_frame self.m_vi.format self.m_vi.width self.m_vi.height
                    (some blFrame)))
                blFrame blFrame).bind
            fun dst =>
              if (!self.m_outYUV && proc.trimProcessingEnabled) = true then
                applyTrim self proc dst
              else some dst := by
  simp only [get_frame, hh, Bool.false_eq_true, if_false]
  cases lease.intializeFrame n (extractRpu self lease blFrame blFrame) with
  | none => rfl
  | some proc =>
    simp only
    cases (if self.m_qnd then
        quickPath self proc
          (setFrameProps self proc
            (new_video_frame self.m_vi.format self.m_vi.width self.m_vi.height (some blFrame)))
          blFrame blFrame
      else
        fullQualityPath self k proc
          (setFrameProps self proc
            (new_video_frame self.m_vi.format self.m_vi.width self.m_vi.height (some blFrame)))
          blFrame blFrame) <;> rfl

theorem findScene_spec (l : List (Nat × Nat × Nat)) (n c0 : Nat)
    (h : ∃ e, e ∈ l ∧ n < e.1) :
    ∃ k e, findScene l n c0 = some (c0 + k) ∧ l[k]? = some e ∧ n < e.1 ∧
      ∀ j, j < k → ∃ e1, l[j]? = some e1 ∧ e1.1 ≤ n := by
  induction l generalizing c0 with
  | nil =>
    obtain ⟨e, he, _⟩ := h
    cases he
  | cons a rest ih =>
    by_cases ha : a.1 ≤ n
    · have h1 : ∃ e, e ∈ rest ∧ n < e.1 := by
        obtain ⟨e, he, hn⟩ := h
        rcases List.mem_cons.1 he with rfl | he1
        · omega
        · exact ⟨e, he1, hn⟩
      obtain ⟨k, e, hf, hk, hn, hall⟩ := ih (c0 + 1) h1
      refine ⟨k + 1, e, ?_, ?_, hn, ?_⟩
      · simp only [findScene, if_pos ha, hf]
        congr 1
        omega
      · simpa using hk
      · intro j hj
        cases j with
        | zero => exact ⟨a, by simp, ha⟩
        | succ j =>
          obtain ⟨e1, h1, h2⟩ := hall j (by omega)
          exact ⟨e1, by simpa using h1, h2⟩
    · refine ⟨0, a, ?_, by simp, by omega, ?_⟩
      · simp only [findScene, if_neg ha, Nat.add_zero]
      · intro j hj
        omega

theorem table_last (table : List (Nat × Nat × Nat)) (numFrames : Nat)
    (hlast : (table.map (fun e => e.1)).getLast? = some numFrames) :
    ∃ L e, table[L]? = some e ∧ e.1 = numFrames ∧ L + 1 = table.length := by
  rw [List.getLast?_eq_getElem?, List.getElem?_map, List.length_map] at hlast
  cases hL : table[table.length - 1]? with
  | none => rw [hL] at hlast; cases hlast
  | some e =>
    rw [hL] at hlast
    simp only [Option.map_some', Option.some.injEq] at hlast
    have hlt : table.length - 1 < table.length := (List.getElem?_eq_some_iff.1 hL).1
    exact ⟨table.length - 1, e, hL, hlast, by omega⟩

theorem statsGetFrame_step (table : List (Nat × Nat × Nat)) (numFrames : Nat)
    (hlast : (table.map (fun e => e.1)).getLast? = some numFrames)
    (st : SceneCursor) (hinv : SceneInv table numFrames st) (n : Nat) (hn : n < numFrames) :
    ∃ c props, statsGetFrame table st n = some (⟨c, n⟩, props) ∧ FirstAfter table c n := by
  obtain ⟨L, eL, hL, heL, hLen⟩ := table_last table numFrames hlast
  have hA : ∀ j, j < (if st.m_previousFrame > n then 0 else st.m_currentScene) →
      ∃ e, table[j]? = some e ∧ e.1 ≤ n := by
    intro j hj
    by_cases hp : st.m_previousFrame > n
    · rw [if_pos hp] at hj
      omega
    · rw [if_neg hp] at hj
      obtain ⟨e, h1, h2, _⟩ := hinv j hj
      exact ⟨e, h1, by omega⟩
  obtain ⟨c0, hc0⟩ : ∃ c0, (if st.m_previousFrame > n then 0 else st.m_currentScene) = c0 :=
    ⟨_, rfl⟩
  rw [hc0] at hA
  have hB : c0 ≤ L := by
    by_contra hc
    obtain ⟨e, h1, h2⟩ := hA L (by omega)
    rw [hL] at h1
    cases h1
    omega
  have hsuf : ∃ e, e ∈ table.drop c0 ∧ n < e.1 := by
    refine ⟨eL, ?_, by omega⟩
    rw [List.mem_iff_getElem?]
    refine ⟨L - c0, ?_⟩
    rw [List.getElem?_drop]
    have : c0 + (L - c0) = L := by omega
    rw [this]
    exact hL
  obtain ⟨k, e, hf, hk, hne, hall⟩ := findScene_spec (table.drop c0) n c0 hsuf
  rw [List.getElem?_drop] at hk
  have hfirst : FirstAfter table (c0 + k) n := by
    refine ⟨⟨e, hk, hne⟩, ?_⟩
    intro j hj
    by_cases hj0 : j < c0
    · exact hA j hj0
    · obtain ⟨e1, h1, h2⟩ := hall (j - c0) (by omega)
      rw [List.getElem?_drop] at h1
      have : c0 + (j - c0) = j := by omega
      rw [this] at h1
      exact ⟨e1, h1, h2⟩
  have hprev : ∃ v : Int,
      (if c0 + k > 0 then
        (table[c0 + k - 1]?).map (fun p => if p.1 = n then (1 : Int) else 0)
      else some 0) = some v := by
    by_cases hc : c0 + k > 0
    · rw [if_pos hc]
      obtain ⟨e1, h1, _⟩ := hfirst.2 (c0 + k - 1) (by omega)
      rw [h1]
      exact ⟨_, rfl⟩
    · rw [if_neg hc]
      exact ⟨0, rfl⟩
  obtain ⟨v, hv⟩ := hprev
  refine ⟨c0 + k,
    [("_dovi_dynamic_min_pq", (e.2.2 : Int)), ("_dovi_dynamic_max_pq", (e.2.1 : Int)),
      ("_SceneChangeNext", if e.1 = n + 1 then 1 else 0), ("_SceneChangePrev", v)], ?_, hfirst⟩
  unfold statsGetFrame
  simp only [hc0, hf, hk, bind, Option.bind, pure]
  by_cases hc : c0 + k > 0
  · rw [if_pos hc] at hv ⊢
    rw [hv]
  · rw [if_neg hc] at hv ⊢
    cases hv
    rfl

theorem firstAfter_inv {table : List (Nat × Nat × Nat)} {numFrames c n : Nat}
    (h : FirstAfter table c n) (hn : n < numFrames) : SceneInv table numFrames ⟨c, n⟩ := by
  intro j hj
  obtain ⟨e, h1, h2⟩ := h.2 j hj
  exact ⟨e, h1, h2, hn⟩

theorem statsServe_inv (table : List (Nat × Nat × Nat)) (numFrames : Nat)
    (hlast : (table.map (fun e => e.1)).getLast? = some numFrames)
    (reqs : List Nat) (hreq : ∀ m, m ∈ reqs → m < numFrames)
    (st : SceneCursor) (hinv : SceneInv table numFrames st) :
    ∃ st1, statsServe table st reqs = some st1 ∧ SceneInv table numFrames st1 := by
  induction reqs generalizing st with
  | nil => exact ⟨st, rfl, hinv⟩
  | cons n rest ih =>
    obtain ⟨c, props, hstep, hfirst⟩ :=
      statsGetFrame_step table numFrames hlast st hinv n (hreq n (List.mem_cons_self _ _))
    obtain ⟨st1, h1, h2⟩ := ih (fun m hm => hreq m (List.mem_cons_of_mem _ hm)) ⟨c, n⟩
      (firstAfter_inv hfirst (hreq n (List.mem_cons_self _ _)))
    refine ⟨st1, ?_, h2⟩
    simp only [statsServe, hstep, h1]

theorem firstAfter_inScene {table : List (Nat × Nat × Nat)} {c n : Nat}
    (h : FirstAfter table c n) : InScene table c n := by
  obtain ⟨⟨e, h1, h2⟩, h3⟩ := h
  by_cases hc : c = 0
  · exact ⟨0, e.1, by simp [sceneStart, hc], by simp [sceneEnd, h1], by omega, h2⟩
  · obtain ⟨e1, h4, h5⟩ := h3 (c - 1) (by omega)
    exact ⟨e1.1, e.1, by simp [sceneStart, hc, sceneEnd, h4], by simp [sceneEnd, h1], h5, h2⟩

theorem table_mono (table : List (Nat × Nat × Nat))
    (hinc : (table.map (fun e => e.1)).Pairwise (fun a b => a < b))
    (i j : Nat) (a b : Nat × Nat × Nat) (hi : table[i]? = some a) (hj : table[j]? = some b)
    (hij : i ≤ j) : a.1 ≤ b.1 := by
  rcases Nat.lt_or_ge i j with hlt | hge
  · rw [List.pairwise_iff_getElem] at hinc
    obtain ⟨hi1, hi2⟩ := List.getElem?_eq_some_iff.1 hi
    obtain ⟨hj1, hj2⟩ := List.getElem?_eq_some_iff.1 hj
    have := hinc i j (by simpa using hi1) (by simpa using hj1) hlt
    simp only [List.getElem_map, hi2, hj2] at this
    omega
  · have : i = j := by omega
    subst this
    rw [hi] at hj
    cases hj
    exact le_refl _

theorem firstAfter_unique {table : List (Nat × Nat × Nat)} {c n : Nat}
    (hinc : (table.map (fun e => e.1)).Pairwise (fun a b => a < b))
    (h : FirstAfter table c n) (i : Nat) (hi : InScene table i n) : i = c := by
  obtain ⟨⟨e, h1, h2⟩, h3⟩ := h
  obtain ⟨lo, hi0, hs, he, hlo, hhi⟩ := hi
  simp only [sceneEnd, Option.map_eq_some'] at he
  obtain ⟨ei, hei, rfl⟩ := he
  rcases Nat.lt_trichotomy i c with hlt | heq | hgt
  · obtain ⟨e1, h4, h5⟩ := h3 i hlt
    rw [hei] at h4
    cases h4
    omega
  · exact heq
  · exfalso
    have hi0 : i ≠ 0 := by omega
    simp only [sceneStart, hi0, if_false, sceneEnd, Option.map_eq_some'] at hs
    obtain ⟨ep, hep, rfl⟩ := hs
    have := table_mono table hinc c (i - 1) e ep h1 hep (by omega)
    omega

theorem table_ge_index (table : List (Nat × Nat × Nat))
    (hinc : (table.map (fun e => e.1)).Pairwise (fun a b => a < b))
    (j : Nat) (e : Nat × Nat × Nat) (hj : table[j]? = some e) : j ≤ e.1 := by
  induction j generalizing e with
  | zero => omega
  | succ j ih =>
    have hlen : j + 1 < table.length := (List.getElem?_eq_some_iff.1 hj).1
    have hj0 : table[j]? = some (table[j]) := List.getElem?_eq_getElem (by omega)
    have h1 := ih _ hj0
    rw [List.pairwise_iff_getElem] at hinc
    have h2 := hinc j (j + 1) (by simpa using (by omega : j < table.length))
      (by simpa using hlen) (by omega)
    obtain ⟨_, hj2⟩ := List.getElem?_eq_some_iff.1 hj
    simp only [List.getElem_map, hj2] at h2
    omega

theorem count_destroyed_one (a j : Nat) :
    (destroyProcessor a).count (TeardownEvent.engineDestroyed j) = if a = j then 1 else 0 := by
  unfold destroyProcessor
  by_cases ha : a = 0
  · subst ha
    rw [if_pos rfl]
    by_cases hj : 0 = j
    · subst hj
      rw [if_pos rfl]
      decide
    · rw [if_neg hj]
      have : ¬ (j = 0) := fun h => hj h.symm
      simp [List.count_cons, this]
  · rw [if_neg ha]
    by_cases hj : a = j
    · subst hj
      rw [if_pos rfl]
      simp [List.count_cons]
    · rw [if_neg hj]
      simp [List.count_cons, hj]

theorem count_freed_one (a : Nat) :
    (destroyProcessor a).count (TeardownEvent.rpuListFreed (Releaser.engine 0))
      = if a = 0 then 1 else 0 := by
  unfold destroyProcessor
  by_cases ha : a = 0
  · subst ha
    rw [if_pos rfl, if_pos rfl]
    decide
  · rw [if_neg ha, if_neg ha]
    simp [List.count_cons]

theorem clearProcessors_cons (a : Nat) (rest : List Nat) :
    clearProcessors (a :: rest) = destroyProcessor a ++ clearProcessors rest := by
  simp [clearProcessors]

theorem count_cons_nat (a j : Nat) (rest : List Nat) :
    (a :: rest).count j = rest.count j + if a = j then 1 else 0 := by
  rw [List.count_cons]
  by_cases h : a = j
  · simp [h]
  · simp [h]

theorem count_destroyed_clearProcessors (order : List Nat) (j : Nat) :
    (clearProcessors order).count (TeardownEvent.engineDestroyed j) = order.count j := by
  induction order with
  | nil => rfl
  | cons a rest ih =>
    rw [clearProcessors_cons, List.count_append, ih, count_destroyed_one, count_cons_nat]
    omega

theorem count_freed_clearProcessors (order : List Nat) :
    (clearProcessors order).count (TeardownEvent.rpuListFreed (Releaser.engine 0))
      = order.count 0 := by
  induction order with
  | nil => rfl
  | cons a rest ih =>
    rw [clearProcessors_cons, List.count_append, ih, count_freed_one, count_cons_nat]
    omega

theorem mem_freed_clearProcessors (order : List Nat) (who : Releaser)
    (h : TeardownEvent.rpuListFreed who ∈ clearProcessors order) : who = Releaser.engine 0 := by
  simp only [clearProcessors, List.mem_flatMap, destroyProcessor] at h
  obtain ⟨a, _, ha⟩ := h
  by_cases h0 : a = 0
  · simp [h0] at ha
    exact ha
  · simp [h0] at ha

theorem count_range_self (n j : Nat) (hj : j < n) : (List.range n).count j = 1 :=
  List.count_eq_one_of_mem (List.nodup_range n) (List.mem_range.2 hj)

/-! ## Separable upsampler: main results -/

/-- C5: `upsampleVert` implements replicate-edge interpolation at both
boundaries.  For both instantiations (`<5, 2>` with offsets -2..2 and `<4, 1>`
with offsets -1..2), any kernels and any source plane, on a destination plane
of twice the height: every row pointer the routine reads through lies in
`[0, H-1]`, the routine succeeds, and for all `h < H`, `w < W` the samples
`dst[2h][w]` and `dst[2h+1][w]` are `even (n, nD)` and `odd (n, nD)` with
`n[i] = src[clamp (h + D[i], 0, H-1)][w]`. -/
theorem upsampleVert_replicate_edge (nD : Nat) (Dn0p : List Int)
    (hinst : (nD = 2 ∧ Dn0p = lumaTaps) ∨ (nD = 1 ∧ Dn0p = chromaTaps))
    (evenUpscaler oddUpscaler : upscaler_t) (dst src : Frame) (plane : Nat)
    (hdh : (dst.planes plane).height = 2 * (src.planes plane).height)
    (hdw : (dst.planes plane).width = (src.planes plane).width) :
    (∀ h0 : Nat, h0 < (src.planes plane).height →
        ∀ r ∈ vertRows nD Dn0p (src.planes plane).height h0,
          0 ≤ r ∧ r ≤ ((src.planes plane).height : Int) - 1) ∧
    ∃ out, upsampleVert nD Dn0p evenUpscaler oddUpscaler dst src plane = some out ∧
      ∀ h w, h < (src.planes plane).height → w < (src.planes plane).width →
        (out.planes plane).px (2 * h) w
            = evenUpscaler (vertNeighbors Dn0p (src.planes plane) h w) nD ∧
        (out.planes plane).px (2 * h + 1) w
            = oddUpscaler (vertNeighbors Dn0p (src.planes plane) h w) nD := by
  constructor
  · intro h0 hh0 r hr
    rcases hinst with ⟨rfl, rfl⟩ | ⟨rfl, rfl⟩
    · simp [vertRows, lumaTaps, List.range_succ, List.range'] at hr
      omega
    · simp [vertRows, chromaTaps, List.range_succ, List.range'] at hr
      omega
  · unfold upsampleVert
    rw [upsampleVertStores_eq nD Dn0p hinst]
    obtain ⟨out, hex, _, _, _, _, hpx⟩ :=
      exec_vertRefStores nD Dn0p evenUpscaler oddUpscaler dst (src.planes plane) plane hdh hdw
    exact ⟨out, hex, hpx⟩

/-- C5, instance: the 5-tap pass on a 2 x 2 ramp plane. -/
theorem upsampleVert_replicate_edge_witness :
    (∀ h0 : Nat, h0 < ((rampFrame yuv444 2 2).planes 0).height →
        ∀ r ∈ vertRows 2 lumaTaps ((rampFrame yuv444 2 2).planes 0).height h0,
          0 ≤ r ∧ r ≤ (((rampFrame yuv444 2 2).planes 0).height : Int) - 1) ∧
    ∃ out, upsampleVert 2 lumaTaps centreKernel centreKernel (new_video_frame yuv444 2 4 none)
        (rampFrame yuv444 2 2) 0 = some out ∧
      ∀ h w, h < ((rampFrame yuv444 2 2).planes 0).height →
        w < ((rampFrame yuv444 2 2).planes 0).width →
        (out.planes 0).px (2 * h) w
            = centreKernel (vertNeighbors lumaTaps ((rampFrame yuv444 2 2).planes 0) h w) 2 ∧
        (out.planes 0).px (2 * h + 1) w
            = centreKernel (vertNeighbors lumaTaps ((rampFrame yuv444 2 2).planes 0) h w) 2 :=
  upsampleVert_replicate_edge 2 lumaTaps (Or.inl ⟨rfl, rfl⟩) centreKernel centreKernel
    (new_video_frame yuv444 2 4 none) (rampFrame yuv444 2 2) 0 rfl rfl

/-- C6, evaluated on a narrow plane: for the 4-tap instantiation and a source
plane of one row and two columns, both stores to `dst[0][0]` and `dst[0][1]`
(left edge, then right edge) need a sample outside the source row, so the
routine has no defined result; the replicate-edge reference of the same
plane is defined.  Such planes occur: for a BL clip of 4 x 2 in 4:2:0 without
EL on the full-quality RGB path the combination succeeds, the chroma
upsampling of its result has no defined result, and neither has `get_frame`. -/
theorem upsampleHorz_narrow_plane_reads_outside :
    upsampleHorzStores 1 chromaTaps centreKernel centreKernel (rampPlane 1 2) 1
      = [some ⟨1, 0, 0, none⟩, some ⟨1, 0, 1, none⟩, some ⟨1, 0, 0, none⟩, some ⟨1, 0, 1, none⟩,
         some ⟨1, 0, 2, some 2⟩, some ⟨1, 0, 3, some 2⟩] ∧
    upsampleHorz 1 chromaTaps centreKernel centreKernel (new_video_frame yuv444 4 1 none)
      (rampFrame yuv444 2 1) 1 = none ∧
    horzNeighbors chromaTaps (rampPlane 1 2) 0 0 = [1, 1, 2, 2] ∧
    (applyDovi true sampleEngine (new_video_frame yuv420 4 2 (some (rampFrame yuv420 4 2)))
      (rampFrame yuv420 4 2) (rampFrame yuv420 4 2) (rampFrame yuv420 4 2)
      (rampFrame yuv420 4 2)).isSome = true ∧
    ((applyDovi true sampleEngine (new_video_frame yuv420 4 2 (some (rampFrame yuv420 4 2)))
      (rampFrame yuv420 4 2) (rampFrame yuv420 4 2) (rampFrame yuv420 4 2)
      (rampFrame yuv420 4 2)).bind
        fun mez => upsampleChroma sampleKernels mez (blOnlyFilter 4 2).m_blVi) = none ∧
    get_frame (blOnlyFilter 4 2) sampleKernels sampleLease 0 (rampFrame yuv420 4 2)
      (rampFrame yuv420 4 2) = none :=
  ⟨by decide, rfl, by decide, rfl, rfl, rfl⟩

/-- C7, evaluated on a narrow plane: for the 4-tap instantiation and a source
plane of one row and one column, `upsampleHorz` stores to the columns
`0, 1, -2, -1, 0, 1` of the destination row: two stores fall before the row
and the two valid positions are written twice. -/
theorem upsampleHorz_narrow_plane_positions :
    positions (upsampleHorzStores 1 chromaTaps centreKernel centreKernel (rampPlane 1 1) 1)
      = [some (1, 0, 0), some (1, 0, 1), some (1, 0, -2), some (1, 0, -1),
         some (1, 0, 0), some (1, 0, 1)] ∧
    ¬ (positions
        (upsampleHorzStores 1 chromaTaps centreKernel centreKernel (rampPlane 1 1) 1)).Nodup := by
  constructor
  · decide
  · decide

/-- The vertical pass writes exactly the positions `[0, 2H) x [0, W)` of the
destination plane, each once (the half of C7 that holds for every plane). -/
theorem upsampleVert_positions (nD : Nat) (Dn0p : List Int)
    (hinst : (nD = 2 ∧ Dn0p = lumaTaps) ∨ (nD = 1 ∧ Dn0p = chromaTaps))
    (evenUpscaler oddUpscaler : upscaler_t) (src : Plane) (plane : Nat) :
    (positions (upsampleVertStores nD Dn0p evenUpscaler oddUpscaler src plane)).Nodup ∧
    ∀ q, q ∈ positions (upsampleVertStores nD Dn0p evenUpscaler oddUpscaler src plane) ↔
      ∃ r c : Nat, r < 2 * src.height ∧ c < src.width ∧
        q = some (plane, (r : Int), (c : Int)) := by
  rw [upsampleVertStores_eq nD Dn0p hinst]
  exact vertRef_positions nD Dn0p evenUpscaler oddUpscaler src plane

/-- For a source plane at least `vertLen - 1` columns wide, the horizontal
pass writes exactly the positions `[0, H) x [0, 2W)` of the destination
plane, each once. -/
theorem upsampleHorz_positions (nD : Nat) (Dn0p : List Int)
    (hinst : (nD = 2 ∧ Dn0p = lumaTaps) ∨ (nD = 1 ∧ Dn0p = chromaTaps))
    (evenUpscaler oddUpscaler : upscaler_t) (src : Plane) (plane : Nat)
    (hW : Dn0p.length - 1 ≤ src.width) :
    (positions (upsampleHorzStores nD Dn0p evenUpscaler oddUpscaler src plane)).Nodup ∧
    ∀ q, q ∈ positions (upsampleHorzStores nD Dn0p evenUpscaler oddUpscaler src plane) ↔
      ∃ r c : Nat, r < src.height ∧ c < 2 * src.width ∧ q = some (plane, (r : Int), (c : Int)) := by
  rw [upsampleHorzStores_eq nD Dn0p hinst evenUpscaler oddUpscaler src plane hW]
  have hnD : (nD : Int) + 1 ≤ Dn0p.length := by
    rcases hinst with ⟨rfl, rfl⟩ | ⟨rfl, rfl⟩ <;> simp [lumaTaps, chromaTaps]
  exact horzRef_positions nD Dn0p evenUpscaler oddUpscaler src plane hnD (by omega)

/-! ## applyDovi: main results -/

/-- C3: `applyDovi` combines the layers sample by sample.  For both
instantiations (`n = 2` luma samples per chroma sample and direction with
`chromaSubsampling`, else `n = 1`), chroma planes of `hUV` rows and `wUV`
columns (`wUV >= 2` with subsampling) and planes of the matching sizes, the
routine succeeds; every luma position `(h, w)` of `[0, n*hUV) x [0, n*wUV)`
receives `processSampleY (blY[h][w], elY[h][w])`, and every chroma position
`(i, j)` receives `processSampleU (blU[i][j], elU[i][j], proxy, blU[i][j],
blV[i][j])` and `processSampleV (blV[i][j], elV[i][j], proxy, blU[i][j],
blV[i][j])` with one luma proxy, which without subsampling is the co-located
luma sample `blY[i][j]`. -/
theorem applyDovi_combines_sample_by_sample (chromaSubsampling : Bool) (proc : DoViProcessor)
    (dst blSrcY blSrcUV elSrcY elSrcUV : Frame) (hUV wUV : Nat)
    (hs : ApplyShapes chromaSubsampling dst blSrcY blSrcUV elSrcY elSrcUV hUV wUV)
    (hW : chromaSubsampling = true → 2 ≤ wUV)
    (h16 : chromaSubsampling = true → (blSrcY.planes 0).Is16) :
    ∃ out, applyDovi chromaSubsampling proc dst blSrcY blSrcUV elSrcY elSrcUV = some out ∧
      (∀ h w, h < (if chromaSubsampling then 2 else 1) * hUV →
        w < (if chromaSubsampling then 2 else 1) * wUV →
        (out.planes 0).px h w
          = proc.processSampleY ((blSrcY.planes 0).px h w) ((elSrcY.planes 0).px h w)) ∧
      (∀ i j, i < hUV → j < wUV → ∃ proxy,
        (out.planes 1).px i j
          = proc.processSampleU ((blSrcUV.planes 1).px i j) ((elSrcUV.planes 1).px i j)
              proxy ((blSrcUV.planes 1).px i j) ((blSrcUV.planes 2).px i j) ∧
        (out.planes 2).px i j
          = proc.processSampleV ((blSrcUV.planes 2).px i j) ((elSrcUV.planes 2).px i j)
              proxy ((blSrcUV.planes 1).px i j) ((blSrcUV.planes 2).px i j) ∧
        (chromaSubsampling = false → proxy = (blSrcY.planes 0).px i j)) := by
  unfold applyDovi
  rw [applyDoviStores_eq chromaSubsampling proc blSrcY blSrcUV elSrcY elSrcUV dst hUV wUV hs hW
    h16]
  obtain ⟨out, hex, _, _, hy, huv⟩ :=
    exec_applyDoviRefStores chromaSubsampling proc blSrcY blSrcUV elSrcY elSrcUV dst hUV wUV hs hW
  refine ⟨out, hex, hy, ?_⟩
  intro i j hi hj
  refine ⟨lumaProxy chromaSubsampling (blSrcY.planes 0) wUV i j, (huv i j hi hj).1,
    (huv i j hi hj).2, ?_⟩
  intro hc
  subst hc
  simp [lumaProxy]

/-- The shapes of a 4 x 2 frame in 4:2:0 with chroma planes of 1 x 2. -/
theorem rampShapes420 :
    ApplyShapes true (new_video_frame yuv420 4 2 none) (rampFrame yuv420 4 2) (rampFrame yuv420 4 2)
      (rampFrame yuv420 4 2) (rampFrame yuv420 4 2) 1 2 :=
  ⟨rfl, rfl, rfl, rfl, rfl, rfl, rfl, rfl, rfl, rfl, rfl, rfl, rfl, rfl, rfl, rfl, rfl, rfl⟩

theorem rampFrame_is16 : ((rampFrame yuv420 4 2).planes 0).Is16 := by
  intro r c hr hc
  simp only [rampFrame, rampPlane, if_true] at hr hc ⊢
  omega

/-- C3, instance: a 4 x 2 frame in 4:2:0 combined with itself. -/
theorem applyDovi_combines_sample_by_sample_witness :
    ∃ out, applyDovi true sampleEngine (new_video_frame yuv420 4 2 none) (rampFrame yuv420 4 2)
        (rampFrame yuv420 4 2) (rampFrame yuv420 4 2) (rampFrame yuv420 4 2) = some out ∧
      (∀ h w, h < (if true = true then 2 else 1) * 1 → w < (if true = true then 2 else 1) * 2 →
        (out.planes 0).px h w
          = sampleEngine.processSampleY (((rampFrame yuv420 4 2).planes 0).px h w)
              (((rampFrame yuv420 4 2).planes 0).px h w)) ∧
      (∀ i j, i < 1 → j < 2 → ∃ proxy,
        (out.planes 1).px i j
          = sampleEngine.processSampleU (((rampFrame yuv420 4 2).planes 1).px i j)
              (((rampFrame yuv420 4 2).planes 1).px i j) proxy
              (((rampFrame yuv420 4 2).planes 1).px i j)
              (((rampFrame yuv420 4 2).planes 2).px i j) ∧
        (out.planes 2).px i j
          = sampleEngine.processSampleV (((rampFrame yuv420 4 2).planes 2).px i j)
              (((rampFrame yuv420 4 2).planes 2).px i j) proxy
              (((rampFrame yuv420 4 2).planes 1).px i j)
              (((rampFrame yuv420 4 2).planes 2).px i j) ∧
        (true = false → proxy = ((rampFrame yuv420 4 2).planes 0).px i j)) :=
  applyDovi_combines_sample_by_sample true sampleEngine (new_video_frame yuv420 4 2 none)
    (rampFrame yuv420 4 2) (rampFrame yuv420 4 2) (rampFrame yuv420 4 2) (rampFrame yuv420 4 2)
    1 2 rampShapes420 (fun _ => le_refl 2) (fun _ => rampFrame_is16)

/-- C4: the luma proxy of `applyDovi<true>`.  For chroma planes of `hUV` rows
and `wUV >= 2` columns, planes of the matching sizes and 16-bit BL luma, the
proxy handed to `processSampleU` and `processSampleV` for chroma sample
`(i, j)` is `(ra + rb + 1) >> 1`, where `ra`, `rb` are the terms of the luma
rows `a = blY[2i]`, `b = blY[2i+1]`: `(3 r[0] + r[1] + 2) >> 2` at the first
column, `(r[2j-1] + 3 r[2j] + 2) >> 2` at the last column and
`(r[2j-1] + 2 r[2j] + r[2j+1] + 2) >> 2` at every interior column. -/
theorem applyDovi_luma_proxy_weights (proc : DoViProcessor)
    (dst blSrcY blSrcUV elSrcY elSrcUV : Frame) (hUV wUV : Nat)
    (hs : ApplyShapes true dst blSrcY blSrcUV elSrcY elSrcUV hUV wUV)
    (hW : 2 ≤ wUV) (h16 : (blSrcY.planes 0).Is16) :
    ∃ out, applyDovi true proc dst blSrcY blSrcUV elSrcY elSrcUV = some out ∧
      ∀ i j, i < hUV → j < wUV → ∃ ra rb : Nat,
        (out.planes 1).px i j
          = proc.processSampleU ((blSrcUV.planes 1).px i j) ((elSrcUV.planes 1).px i j)
              ((ra + rb + 1) >>> 1) ((blSrcUV.planes 1).px i j) ((blSrcUV.planes 2).px i j) ∧
        (out.planes 2).px i j
          = proc.processSampleV ((blSrcUV.planes 2).px i j) ((elSrcUV.planes 2).px i j)
              ((ra + rb + 1) >>> 1) ((blSrcUV.planes 1).px i j) ((blSrcUV.planes 2).px i j) ∧
        (j = 0 →
          ra = (3 * (blSrcY.planes 0).px (2 * i) 0 + (blSrcY.planes 0).px (2 * i) 1 + 2) >>> 2 ∧
          rb = (3 * (blSrcY.planes 0).px (2 * i + 1) 0
                  + (blSrcY.planes 0).px (2 * i + 1) 1 + 2) >>> 2) ∧
        (j = wUV - 1 →
          ra = ((blSrcY.planes 0).px (2 * i) (2 * j - 1)
                  + 3 * (blSrcY.planes 0).px (2 * i) (2 * j) + 2) >>> 2 ∧
          rb = ((blSrcY.planes 0).px (2 * i + 1) (2 * j - 1)
                  + 3 * (blSrcY.planes 0).px (2 * i + 1) (2 * j) + 2) >>> 2) ∧
        (0 < j → j < wUV - 1 →
          ra = ((blSrcY.planes 0).px (2 * i) (2 * j - 1)
                  + 2 * (blSrcY.planes 0).px (2 * i) (2 * j)
                  + (blSrcY.planes 0).px (2 * i) (2 * j + 1) + 2) >>> 2 ∧
          rb = ((blSrcY.planes 0).px (2 * i + 1) (2 * j - 1)
                  + 2 * (blSrcY.planes 0).px (2 * i + 1) (2 * j)
                  + (blSrcY.planes 0).px (2 * i + 1) (2 * j + 1) + 2) >>> 2) := by
  unfold applyDovi
  rw [applyDoviStores_eq true proc blSrcY blSrcUV elSrcY elSrcUV dst hUV wUV hs (fun _ => hW)
    (fun _ => h16)]
  obtain ⟨out, hex, _, _, _, huv⟩ :=
    exec_applyDoviRefStores true proc blSrcY blSrcUV elSrcY elSrcUV dst hUV wUV hs (fun _ => hW)
  refine ⟨out, hex, ?_⟩
  intro i j hi hj
  obtain ⟨hu, hv⟩ := huv i j hi hj
  simp only [lumaProxy, if_true] at hu hv
  by_cases c1 : j = 0
  · subst c1
    simp only [if_true] at hu hv
    exact ⟨_, _, hu, hv, fun _ => ⟨rfl, rfl⟩, fun h => by omega, fun h => by omega⟩
  · by_cases c2 : j = wUV - 1
    · simp only [c1, if_false] at hu hv
      rw [if_pos c2, if_pos c2] at hu hv
      exact ⟨_, _, hu, hv, fun h => absurd h c1, fun _ => ⟨rfl, rfl⟩, fun _ h => by omega⟩
    · simp only [c1, c2, if_false] at hu hv
      exact ⟨_, _, hu, hv, fun h => absurd h c1, fun h => absurd h c2, fun _ _ => ⟨rfl, rfl⟩⟩

/-- C4, instance: a 4 x 2 frame in 4:2:0 combined with itself. -/
theorem applyDovi_luma_proxy_weights_witness :
    ∃ out, applyDovi true sampleEngine (new_video_frame yuv420 4 2 none) (rampFrame yuv420 4 2) (rampFrame yuv420 4 2) (rampFrame yuv420 4 2) (rampFrame yuv420 4 2) = some out ∧
      ∀ i j, i < 1 → j < 2 → ∃ ra rb : Nat,
        (out.planes 1).px i j
          = sampleEngine.processSampleU (((rampFrame yuv420 4 2).planes 1).px i j) (((rampFrame yuv420 4 2).planes 1).px i j)
              ((ra + rb + 1) >>> 1) (((rampFrame yuv420 4 2).planes 1).px i j) (((rampFrame yuv420 4 2).planes 2).px i j) ∧
        (out.planes 2).px i j
          = sampleEngine.processSampleV (((rampFrame yuv420 4 2).planes 2).px i j) (((rampFrame yuv420 4 2).planes 2).px i j)
              ((ra + rb + 1) >>> 1) (((rampFrame yuv420 4 2).planes 1).px i j) (((rampFrame yuv420 4 2).planes 2).px i j) ∧
        (j = 0 →
          ra = (3 * ((rampFrame yuv420 4 2).planes 0).px (2 * i) 0 + ((rampFrame yuv420 4 2).planes 0).px (2 * i) 1 + 2) >>> 2 ∧
          rb = (3 * ((rampFrame yuv420 4 2).planes 0).px (2 * i + 1) 0
                  + ((rampFrame yuv420 4 2).planes 0).px (2 * i + 1) 1 + 2) >>> 2) ∧
        (j = 2 - 1 →
          ra = (((rampFrame yuv420 4 2).planes 0).px (2 * i) (2 * j - 1)
                  + 3 * ((rampFrame yuv420 4 2).planes 0).px (2 * i) (2 * j) + 2) >>> 2 ∧
          rb = (((rampFrame yuv420 4 2).planes 0).px (2 * i + 1) (2 * j - 1)
                  + 3 * ((rampFrame yuv420 4 2).planes 0).px (2 * i + 1) (2 * j) + 2) >>> 2) ∧
        (0 < j → j < 2 - 1 →
          ra = (((rampFrame yuv420 4 2).planes 0).px (2 * i) (2 * j - 1)
                  + 2 * ((rampFrame yuv420 4 2).planes 0).px (2 * i) (2 * j)
                  + ((rampFrame yuv420 4 2).planes 0).px (2 * i) (2 * j + 1) + 2) >>> 2 ∧
          rb = (((rampFrame yuv420 4 2).planes 0).px (2 * i + 1) (2 * j - 1)
                  + 2 * ((rampFrame yuv420 4 2).planes 0).px (2 * i + 1) (2 * j)
                  + ((rampFrame yuv420 4 2).planes 0).px (2 * i + 1) (2 * j + 1) + 2) >>> 2) :=
  applyDovi_luma_proxy_weights sampleEngine (new_video_frame yuv420 4 2 none)
    (rampFrame yuv420 4 2) (rampFrame yuv420 4 2) (rampFrame yuv420 4 2) (rampFrame yuv420 4 2)
    1 2 rampShapes420 (le_refl 2) rampFrame_is16

/-! ## doAllQuickAndDirty: main results -/

/-- C1, evaluated in the geometry BL 4:2:0, EL 4:4:4 of equal size (flags
`true, false, false`) on a 2 x 2 frame: the arrays `blSrcYp` and `dstRp` have
one element, the loop over `hDbly` indexes them with 0 and 1, so the seventh
store (and 23 further ones) has no address inside the arrays, stores of the
first EL row already reach columns 2 and 3 of the two columns wide
destination, and the routine has no defined result. -/
theorem doAllQuickAndDirty_bl420_el444_out_of_bounds :
    (QndPtrs.init true false false).blSrcYp.length = 1 ∧
    (QndPtrs.init true false false).dstRp.length = 1 ∧
    (doAllQuickAndDirtyStores (qndFilter yuv420 yuv444 2 2 2 2) true false false sampleEngine
        (rampFrame yuv420 2 2) (rampFrame yuv444 2 2)).take 13
      = [some ⟨0, 0, 0, some 4⟩, some ⟨1, 0, 0, some 1⟩, some ⟨2, 0, 0, some 3⟩,
         some ⟨0, 0, 1, some 4⟩, some ⟨1, 0, 1, some 2⟩, some ⟨2, 0, 1, some 3⟩,
         none, none, none, none, none, none,
         some ⟨0, 0, 2, none⟩] ∧
    doAllQuickAndDirty (qndFilter yuv420 yuv444 2 2 2 2) true false false sampleEngine
        (new_video_frame rgb48 2 2 none) (rampFrame yuv420 2 2) (rampFrame yuv444 2 2) = none :=
  ⟨by decide, by decide, by decide, rfl⟩

/-- C2: in every geometry in which the EL chroma grid is no finer than the
BL chroma grid (`el + q >= bl`), with planes of the sizes the geometry
implies, `doAllQuickAndDirty` succeeds and the destination holds at every
pixel `(h, w)` the triple `sample2rgb (y, u, v)` with
`y = processSampleY (blY[h][w], elY[h >> q][w >> q])`,
`u = processSampleU (blU[h >> bl][w >> bl], elU[h >> (el+q)][w >> (el+q)], p,
blU[..], blV[..])`, `v = processSampleV (blV[..], elV[..], p, blU[..],
blV[..])` and the luma proxy `p = blY[(h >> bl) << bl][(w >> bl) << bl]`, a
single BL luma sample. -/
theorem doAllQuickAndDirty_pixels (self : DoViBakerVS) (blCs elCs qEl : Bool)
    (hgeo : b2n blCs ≤ b2n elCs + b2n qEl) (proc : DoViProcessor) (dst blSrc elSrc : Frame)
    (hUV wUV : Nat) (hs : QndShapes self blCs elCs qEl dst blSrc elSrc hUV wUV) :
    ∃ out, doAllQuickAndDirty self blCs elCs qEl proc dst blSrc elSrc = some out ∧
      ∀ h w, h < hUV <<< (b2n elCs + b2n qEl) → w < wUV <<< (b2n elCs + b2n qEl) →
        ((out.planes 0).px h w, (out.planes 1).px h w, (out.planes 2).px h w)
          = proc.sample2rgb
              (proc.processSampleY ((blSrc.planes 0).px h w)
                ((elSrc.planes 0).px (h >>> b2n qEl) (w >>> b2n qEl)))
              (proc.processSampleU
                ((blSrc.planes 1).px (h >>> b2n blCs) (w >>> b2n blCs))
                ((elSrc.planes 1).px (h >>> (b2n elCs + b2n qEl)) (w >>> (b2n elCs + b2n qEl)))
                ((blSrc.planes 0).px ((h >>> b2n blCs) <<< b2n blCs)
                  ((w >>> b2n blCs) <<< b2n blCs))
                ((blSrc.planes 1).px (h >>> b2n blCs) (w >>> b2n blCs))
                ((blSrc.planes 2).px (h >>> b2n blCs) (w >>> b2n blCs)))
              (proc.processSampleV
                ((blSrc.planes 2).px (h >>> b2n blCs) (w >>> b2n blCs))
                ((elSrc.planes 2).px (h >>> (b2n elCs + b2n qEl)) (w >>> (b2n elCs + b2n qEl)))
                ((blSrc.planes 0).px ((h >>> b2n blCs) <<< b2n blCs)
                  ((w >>> b2n blCs) <<< b2n blCs))
                ((blSrc.planes 1).px (h >>> b2n blCs) (w >>> b2n blCs))
                ((blSrc.planes 2).px (h >>> b2n blCs) (w >>> b2n blCs))) := by
  unfold doAllQuickAndDirty
  rw [doAllQuickAndDirtyStores_eq self blCs elCs qEl hgeo proc dst blSrc elSrc hUV wUV hs]
  obtain ⟨out, hex, _, _, hpx⟩ :=
    exec_qndRefStores blCs elCs qEl hgeo proc dst blSrc elSrc hUV wUV hs.dst_h hs.dst_w
  refine ⟨out, hex, ?_⟩
  intro h w hh hw
  obtain ⟨h0, h1, h2⟩ := hpx h w hh hw
  rw [h0, h1, h2]
  rfl

/-- The shapes of a 4 x 4 BL in 4:2:0 with a quarter-resolution EL in 4:2:0. -/
theorem rampShapesQnd :
    QndShapes (qndFilter yuv420 yuv420 4 4 2 2) true true true (new_video_frame rgb48 4 4 none)
      (rampFrame yuv420 4 4) (rampFrame yuv420 2 2) 1 1 :=
  ⟨rfl, rfl, rfl, rfl, rfl, rfl, rfl, rfl, rfl, rfl, rfl, rfl, rfl,
    by intro p hp; interval_cases p <;> rfl, by intro p hp; interval_cases p <;> rfl⟩

/-- C2, instance: a 4 x 4 BL in 4:2:0 with a quarter-resolution EL in 4:2:0. -/
theorem doAllQuickAndDirty_pixels_witness :
    ∃ out, doAllQuickAndDirty (qndFilter yuv420 yuv420 4 4 2 2) true true true sampleEngine
        (new_video_frame rgb48 4 4 none) (rampFrame yuv420 4 4) (rampFrame yuv420 2 2) = some out ∧
      ∀ h w, h < 1 <<< (b2n true + b2n true) → w < 1 <<< (b2n true + b2n true) →
        ((out.planes 0).px h w, (out.planes 1).px h w, (out.planes 2).px h w)
          = sampleEngine.sample2rgb
              (sampleEngine.processSampleY (((rampFrame yuv420 4 4).planes 0).px h w)
                (((rampFrame yuv420 2 2).planes 0).px (h >>> b2n true) (w >>> b2n true)))
              (sampleEngine.processSampleU
                (((rampFrame yuv420 4 4).planes 1).px (h >>> b2n true) (w >>> b2n true))
                (((rampFrame yuv420 2 2).planes 1).px (h >>> (b2n true + b2n true)) (w >>> (b2n true + b2n true)))
                (((rampFrame yuv420 4 4).planes 0).px ((h >>> b2n true) <<< b2n true)
                  ((w >>> b2n true) <<< b2n true))
                (((rampFrame yuv420 4 4).planes 1).px (h >>> b2n true) (w >>> b2n true))
                (((rampFrame yuv420 4 4).planes 2).px (h >>> b2n true) (w >>> b2n true)))
              (sampleEngine.processSampleV
                (((rampFrame yuv420 4 4).planes 2).px (h >>> b2n true) (w >>> b2n true))
                (((rampFrame yuv420 2 2).planes 2).px (h >>> (b2n true + b2n true)) (w >>> (b2n true + b2n true)))
                (((rampFrame yuv420 4 4).planes 0).px ((h >>> b2n true) <<< b2n true)
                  ((w >>> b2n true) <<< b2n true))
                (((rampFrame yuv420 4 4).planes 1).px (h >>> b2n true) (w >>> b2n true))
                (((rampFrame yuv420 4 4).planes 2).px (h >>> b2n true) (w >>> b2n true))) :=
  doAllQuickAndDirty_pixels (qndFilter yuv420 yuv420 4 4 2 2) true true true (by decide)
    sampleEngine (new_video_frame rgb48 4 4 none) (rampFrame yuv420 4 4) (rampFrame yuv420 2 2) 1 1
    rampShapesQnd

/-- In every geometry with `bl <= el + q` and planes of the sizes the geometry
implies, `doAllQuickAndDirty` writes exactly the positions of the three planes
of the BL-sized destination, each once. -/
theorem doAllQuickAndDirty_positions (self : DoViBakerVS) (blCs elCs qEl : Bool)
    (hgeo : b2n blCs ≤ b2n elCs + b2n qEl) (proc : DoViProcessor) (dst blSrc elSrc : Frame)
    (hUV wUV : Nat) (hs : QndShapes self blCs elCs qEl dst blSrc elSrc hUV wUV) :
    (positions (doAllQuickAndDirtyStores self blCs elCs qEl proc blSrc elSrc)).Nodup ∧
    ∀ q, q ∈ positions (doAllQuickAndDirtyStores self blCs elCs qEl proc blSrc elSrc) ↔
      ∃ p h w : Nat, p < 3 ∧ h < hUV <<< blYvsElUVshifts elCs qEl ∧
        w < wUV <<< blYvsElUVshifts elCs qEl ∧ q = some (p, (h : Int), (w : Int)) := by
  rw [doAllQuickAndDirtyStores_eq self blCs elCs qEl hgeo proc dst blSrc elSrc hUV wUV hs]
  exact ⟨qndPositions_nodup blCs elCs qEl hgeo proc blSrc elSrc hUV wUV,
    mem_qndPositions blCs elCs qEl hgeo proc blSrc elSrc hUV wUV⟩

/-! ## get_frame and init: main results -/

/-- C8, evaluated at a BL of 8 x 4 with an EL of 4 x 2, both 4:2:0: `init`
accepts the clips and sets the quarter-resolution flag; the vertical passes of
`upscaleEl` give an intermediate frame whose chroma planes are two columns
wide, and on such a plane the first four stores of the 4-tap horizontal pass
(left edge, then right edge) need a sample outside the source row; `upscaleEl`
and with it `get_frame` have no defined result.  At a BL of 12 x 4 with an EL
of 6 x 2 both are defined. -/
theorem upscaleEl_narrow_el_reads_outside :
    init sampleClass 4 { sampleArgs yuv420 8 4 with el := some ⟨yuv420, 4, 2, 1⟩ }
      = Except.ok ⟨quarterElFilter 8 4, [sampleLease, sampleLease, sampleLease, sampleLease]⟩ ∧
    (((upsampleVert 2 lumaTaps centreKernel centreKernel
          (new_video_frame yuv420 4 4 (some (rampFrame yuv420 4 2))) (rampFrame yuv420 4 2) 0).bind
        fun mez => (upsampleVert 1 chromaTaps centreKernel centreKernel mez
          (rampFrame yuv420 4 2) 1).bind
        fun mez => upsampleVert 1 chromaTaps centreKernel centreKernel mez
          (rampFrame yuv420 4 2) 2).map
      fun mez => ((mez.planes 1).width,
        (upsampleHorzStores 1 chromaTaps centreKernel centreKernel (mez.planes 1) 1).take 4))
      = some (2, [some ⟨1, 0, 0, none⟩, some ⟨1, 0, 1, none⟩, some ⟨1, 0, 0, none⟩,
          some ⟨1, 0, 1, none⟩]) ∧
    upscaleEl (quarterElFilter 8 4) sampleKernels (rampFrame yuv420 4 2)
      (quarterElFilter 8 4).m_blVi = none ∧
    get_frame (quarterElFilter 8 4) sampleKernels sampleLease 0 (rampFrame yuv420 8 4)
      (rampFrame yuv420 4 2) = none ∧
    (upscaleEl (quarterElFilter 12 4) sampleKernels (rampFrame yuv420 6 2)
      (quarterElFilter 12 4).m_blVi).isSome = true ∧
    (get_frame (quarterElFilter 12 4) sampleKernels sampleLease 0 (rampFrame yuv420 12 4)
      (rampFrame yuv420 6 2)).isSome = true :=
  ⟨rfl, by decide, rfl, rfl, rfl, rfl⟩

/-- C9 fails with trim processing enabled.  A 4:2:0 BL of 6 x 2, no EL, quick
path disabled, RGB output, an engine whose metadata initialises and that has
trim processing enabled: `get_frame` returns a frame whose pixel `(0, 0)` is
`(10, 2, 9)`, the trim pass applied to `(9, 1, 8)`, so it is not the frame
whose pixels are `sample2rgb (processSampleY (blY, blY), U, V)`. -/
theorem get_frame_bl_only_trim_enabled :
    init trimClass 4 (sampleArgs yuv420 6 2)
      = Except.ok ⟨blOnlyFilter 6 2, [trimLease, trimLease, trimLease, trimLease]⟩ ∧
    trimLease.intializeFrame 0
        (extractRpu (blOnlyFilter 6 2) trimLease (rampFrame yuv420 6 2) (rampFrame yuv420 6 2))
      = some trimEngine ∧
    ¬ ∃ out, get_frame (blOnlyFilter 6 2) sampleKernels trimLease 0 (rampFrame yuv420 6 2)
          (rampFrame yuv420 6 2) = some out ∧
        ∀ h w, h < 2 → w < 6 →
          ((out.planes 0).px h w, (out.planes 1).px h w, (out.planes 2).px h w)
            = trimEngine.sample2rgb
                (trimEngine.processSampleY (((rampFrame yuv420 6 2).planes 0).px h w)
                  (((rampFrame yuv420 6 2).planes 0).px h w))
                ((chromaUp sampleKernels (combinedU trimEngine (rampFrame yuv420 6 2))).px h w)
                ((chromaUp sampleKernels (combinedV trimEngine (rampFrame yuv420 6 2))).px h w) := by
  refine ⟨rfl, rfl, ?_⟩
  rintro ⟨out, hout, hpx⟩
  have h00 := hpx 0 0 (by decide) (by decide)
  have hv : (get_frame (blOnlyFilter 6 2) sampleKernels trimLease 0 (rampFrame yuv420 6 2)
      (rampFrame yuv420 6 2)).map
        (fun out => ((out.planes 0).px 0 0, (out.planes 1).px 0 0, (out.planes 2).px 0 0))
      = some (10, 2, 9) := by decide
  rw [hout, Option.map_some', h00] at hv
  revert hv
  decide

/-- C9, amended: a 4:2:0 BL of size `2 wC x 2 hC` with `wC >= 3`, no EL,
quick path disabled, RGB output, 16-bit BL luma samples, a frame whose
metadata initialises successfully and an engine that has trim processing not
enabled.  Then `get_frame` returns `convert2rgb (upsampleChroma (applyDovi<true>
(BL, BL, BL, BL)))`: the destination is `2 wC x 2 hC` RGB, `upsampleChroma`
leaves the luma plane unchanged, and every pixel `(h, w)` is `sample2rgb
(processSampleY (blY[h][w], blY[h][w]), U[h][w], V[h][w])` with `U`, `V` the
4-tap vertical-then-horizontal upsampling of the planes `processSampleU (blU,
blU, proxy, blU, blV)` and `processSampleV (blV, blV, proxy, blU, blV)`. -/
theorem get_frame_bl_only_rgb (cls : DoViProcessorClass) (hwThreads : Int) (args : InitArgs)
    (r : InitResult) (k : Kernels) (lease : PoolProcessor) (n : Int) (proc : DoViProcessor)
    (blFrame elFrame : Frame) (hC wC : Nat)
    (hinit : init cls hwThreads args = Except.ok r) (hno : args.el = none)
    (hqnd : args.qnd.getD 0 = 0) (hyuv : args.outYUV.getD 0 = 0)
    (hsw : args.bl.format.subSamplingW = 1) (hsh : args.bl.format.subSamplingH = 1)
    (hW : args.bl.width = 2 * wC) (hH : args.bl.height = 2 * hC) (hwC : 3 ≤ wC)
    (b0h : (blFrame.planes 0).height = 2 * hC) (b0w : (blFrame.planes 0).width = 2 * wC)
    (b1h : (blFrame.planes 1).height = hC) (b1w : (blFrame.planes 1).width = wC)
    (b2h : (blFrame.planes 2).height = hC) (b2w : (blFrame.planes 2).width = wC)
    (h16 : (blFrame.planes 0).Is16)
    (hl : lease.intializeFrame n (extractRpu r.filter lease blFrame blFrame) = some proc)
    (htrim : proc.trimProcessingEnabled = false) :
    ∃ mez up out,
      applyDovi true proc
          (new_video_frame (query_video_format ColorFamily.cfYUV 16 1 1) (2 * wC) (2 * hC)
            (some blFrame)) blFrame blFrame blFrame blFrame = some mez ∧
      upsampleChroma k mez r.filter.m_blVi = some up ∧
      convert2rgb proc
          (setFrameProps r.filter proc
            (new_video_frame (query_video_format ColorFamily.cfRGB 16 0 0) (2 * wC) (2 * hC)
              (some blFrame))) up up = some out ∧
      get_frame r.filter k lease n blFrame elFrame = some out ∧
      out.format = query_video_format ColorFamily.cfRGB 16 0 0 ∧
      (∀ p, p < 3 → (out.planes p).height = 2 * hC ∧ (out.planes p).width = 2 * wC) ∧
      (∀ h w, h < 2 * hC → w < 2 * wC → (up.planes 0).px h w = (mez.planes 0).px h w) ∧
      ∀ h w, h < 2 * hC → w < 2 * wC →
        ((out.planes 0).px h w, (out.planes 1).px h w, (out.planes 2).px h w)
          = proc.sample2rgb
              (proc.processSampleY ((blFrame.planes 0).px h w) ((blFrame.planes 0).px h w))
              ((chromaUp k (combinedU proc blFrame)).px h w)
              ((chromaUp k (combinedV proc blFrame)).px h w) := by
  obtain ⟨_, a1, a2, a3, a4, a5, a6, a7, a8, a9, a10, a11, a12, a13⟩ :=
    init_members cls hwThreads args r hinit
  simp only [hno, hsw, hsh, decide_True, Bool.and_self, Option.isSome_none] at a2 a7 a8 a9
  simp only [hqnd, hyuv, ne_eq, not_true_eq_false, decide_False, Bool.false_eq_true,
    if_false] at a4 a5 a13
  have hbw : r.filter.m_blVi.width = 2 * wC := by rw [a1, hW]
  have hbh : r.filter.m_blVi.height = 2 * hC := by rw [a1, hH]
  have hdims : ∀ p, p < 3 →
      ((setFrameProps r.filter proc
        (new_video_frame (query_video_format ColorFamily.cfRGB 16 0 0) (2 * wC) (2 * hC)
          (some blFrame))).planes p).height = 2 * hC ∧
      ((setFrameProps r.filter proc
        (new_video_frame (query_video_format ColorFamily.cfRGB 16 0 0) (2 * wC) (2 * hC)
          (some blFrame))).planes p).width = 2 * wC := by
    intro p _
    rw [(setFrameProps_planes _ _ _).1]
    by_cases hp : p = 0
    · subst hp
      exact new_video_frame_plane0 _ _ _ _
    · have := new_video_frame_chroma (query_video_format ColorFamily.cfRGB 16 0 0) (2 * wC)
        (2 * hC) (some blFrame) p hp
      rw [this.1, this.2]
      simp [query_video_format]
  obtain ⟨mez, up, out, xm, xu, xo, xf, fo, po, dO, yu, co⟩ :=
    fullQualityPath_bl_only r.filter k proc
      (setFrameProps r.filter proc
        (new_video_frame (query_video_format ColorFamily.cfRGB 16 0 0) (2 * wC) (2 * hC)
          (some blFrame)))
      blFrame hC wC a5 a7 a8 a9 hbw hbh hwC (fun p hp => (hdims p hp).1)
      (fun p hp => (hdims p hp).2) b0h b0w b1h b1w b2h b2w h16
  refine ⟨mez, up, out, xm, xu, xo, ?_, ?_, ?_, yu, co⟩
  · simp only [get_frame, a2, Bool.false_eq_true, if_false, hl, a4, a13, a10, a11, hW, hH, xf, a5,
      htrim, Bool.not_false, Bool.and_false]
  · rw [fo, (setFrameProps_planes _ _ _).2]
    rfl
  · intro p hp
    rw [(dO p).1, (dO p).2]
    exact hdims p hp

theorem rampFrame62_is16 : ((rampFrame yuv420 6 2).planes 0).Is16 := by
  intro r c hr hc
  simp only [rampFrame, rampPlane, if_true] at hr hc ⊢
  omega

/-- C9, amended, instance: a 6 x 2 clip in 4:2:0 with the default options. -/
theorem get_frame_bl_only_rgb_witness :
    ∃ mez up out,
      applyDovi true sampleEngine
          (new_video_frame (query_video_format ColorFamily.cfYUV 16 1 1) (2 * 3) (2 * 1)
            (some (rampFrame yuv420 6 2))) (rampFrame yuv420 6 2) (rampFrame yuv420 6 2)
          (rampFrame yuv420 6 2) (rampFrame yuv420 6 2) = some mez ∧
      upsampleChroma sampleKernels mez (blOnlyFilter 6 2).m_blVi = some up ∧
      convert2rgb sampleEngine
          (setFrameProps (blOnlyFilter 6 2) sampleEngine
            (new_video_frame (query_video_format ColorFamily.cfRGB 16 0 0) (2 * 3) (2 * 1)
              (some (rampFrame yuv420 6 2)))) up up = some out ∧
      get_frame (blOnlyFilter 6 2) sampleKernels sampleLease 0 (rampFrame yuv420 6 2)
        (rampFrame yuv420 6 2) = some out ∧
      out.format = query_video_format ColorFamily.cfRGB 16 0 0 ∧
      (∀ p, p < 3 → (out.planes p).height = 2 * 1 ∧ (out.planes p).width = 2 * 3) ∧
      (∀ h w, h < 2 * 1 → w < 2 * 3 → (up.planes 0).px h w = (mez.planes 0).px h w) ∧
      ∀ h w, h < 2 * 1 → w < 2 * 3 →
        ((out.planes 0).px h w, (out.planes 1).px h w, (out.planes 2).px h w)
          = sampleEngine.sample2rgb
              (sampleEngine.processSampleY (((rampFrame yuv420 6 2).planes 0).px h w)
                (((rampFrame yuv420 6 2).planes 0).px h w))
              ((chromaUp sampleKernels (combinedU sampleEngine (rampFrame yuv420 6 2))).px h w)
              ((chromaUp sampleKernels (combinedV sampleEngine (rampFrame yuv420 6 2))).px h w) :=
  get_frame_bl_only_rgb sampleClass 4 (sampleArgs yuv420 6 2)
    ⟨blOnlyFilter 6 2, [sampleLease, sampleLease, sampleLease, sampleLease]⟩ sampleKernels
    sampleLease 0 sampleEngine (rampFrame yuv420 6 2) (rampFrame yuv420 6 2) 1 3 rfl rfl rfl rfl
    rfl rfl rfl rfl (by decide) rfl rfl rfl rfl rfl rfl rampFrame62_is16 rfl rfl

/-- C10, counterexample: an engine class whose luma mapping adds the EL
container depth it was constructed with.  For a 6 x 2 clip in 4:2:0 `init`
returns without EL and with the BL clip given as EL; without EL the first
engine is constructed with `m_elContainerBits = 0`, with the EL with the BL
depth 16, and on the same BL frame the destination pixel `(0, 0)` is
`(9, 1, 8)` in the first pipeline and `(9, 17, 8)` in the second. -/
theorem init_without_el_engine_depth :
    init depthClass 4 (sampleArgs yuv420 6 2)
      = Except.ok ⟨blOnlyFilter 6 2, [depthLease 0, depthLease 0, depthLease 0, depthLease 0]⟩ ∧
    init depthClass 4 { sampleArgs yuv420 6 2 with el := some (sampleArgs yuv420 6 2).bl }
      = Except.ok
          ⟨blAsElFilter 6 2, [depthLease 16, depthLease 16, depthLease 16, depthLease 16]⟩ ∧
    (get_frame (blOnlyFilter 6 2) sampleKernels (depthLease 0) 0 (rampFrame yuv420 6 2)
        (rampFrame yuv420 6 2)).map (fun out => out.triple 0 0) = some (9, 1, 8) ∧
    (get_frame (blAsElFilter 6 2) sampleKernels (depthLease 16) 0 (rampFrame yuv420 6 2)
        (rampFrame yuv420 6 2)).map (fun out => out.triple 0 0) = some (9, 17, 8) ∧
    get_frame (blOnlyFilter 6 2) sampleKernels (depthLease 0) 0 (rampFrame yuv420 6 2)
        (rampFrame yuv420 6 2)
      ≠ get_frame (blAsElFilter 6 2) sampleKernels (depthLease 16) 0 (rampFrame yuv420 6 2)
        (rampFrame yuv420 6 2) := by
  refine ⟨rfl, rfl, rfl, rfl, ?_⟩
  intro h
  have h1 := congrArg (fun (o : Option Frame) => o.map (fun out => out.triple 0 0)) h
  revert h1
  decide

/-- C10, amended: EL defaults to BL.  When `init` returns for arguments without
an EL clip, it has set `m_elChromaSubSampled = m_blChromaSubSampled` and
`m_quarterResolutionEl = false`, and `get_frame` does not look at the frame of
an EL clip: on the quick path and on the full-quality path the pixel routines
get the BL frame in the place of the EL frame.  For every leased engine the
result is the one of the filter that `init` returns for the same arguments
with the BL clip given as the EL clip.  The engines of the two filters are
constructed with different EL container depths, 0 and the depth of the BL;
the two pools are equal when the engine class does not depend on that
depth. -/
theorem init_without_el_defaults_to_bl (cls : DoViProcessorClass) (hwThreads : Int)
    (args : InitArgs) (r1 : InitResult) (hno : args.el = none)
    (h1 : init cls hwThreads args = Except.ok r1) :
    r1.filter.m_elChromaSubSampled = r1.filter.m_blChromaSubSampled ∧
    r1.filter.m_quarterResolutionEl = false ∧
    (∀ (k : Kernels) (lease : PoolProcessor) (n : Int) (blFrame elFrame : Frame),
      get_frame r1.filter k lease n blFrame elFrame
        = match lease.intializeFrame n (extractRpu r1.filter lease blFrame blFrame) with
          | none =>
            some (new_video_frame r1.filter.m_vi.format r1.filter.m_vi.width
              r1.filter.m_vi.height (some blFrame))
          | some proc =>
            (if r1.filter.m_qnd then
                quickPath r1.filter proc
                  (setFrameProps r1.filter proc
                    (new_video_frame r1.filter.m_vi.format r1.filter.m_vi.width
                      r1.filter.m_vi.height (some blFrame)))
                  blFrame blFrame
              else
                fullQualityPath r1.filter k proc
                  (setFrameProps r1.filter proc
                    (new_video_frame r1.filter.m_vi.format r1.filter.m_vi.width
                      r1.filter.m_vi.height (some blFrame)))
                  blFrame blFrame).bind
              fun dst =>
                if (!r1.filter.m_outYUV && proc.trimProcessingEnabled) = true then
                  applyTrim r1.filter proc dst
                else some dst) ∧
    (∃ pool1, r1.processors
      = (cls.create args.rpu args.bl.format.bitsPerSample 0
          (toInt32 (args.sourceProfile.getD 0))).configure (decide (args.rgbProof.getD 0 ≠ 0))
          (decide (args.nlqProof.getD 0 ≠ 0)) (args.trimPq.getD 0 % 65536).toNat :: pool1) ∧
    ∀ r2, init cls hwThreads { args with el := some args.bl } = Except.ok r2 →
      (∀ (k : Kernels) (lease : PoolProcessor) (n : Int) (blFrame elFrame : Frame),
        get_frame r1.filter k lease n blFrame elFrame
          = get_frame r2.filter k lease n blFrame blFrame) ∧
      (∃ pool2, r2.processors
        = (cls.create args.rpu args.bl.format.bitsPerSample args.bl.format.bitsPerSample
            (toInt32 (args.sourceProfile.getD 0))).configure
            (decide (args.rgbProof.getD 0 ≠ 0)) (decide (args.nlqProof.getD 0 ≠ 0))
            (args.trimPq.getD 0 % 65536).toNat :: pool2) ∧
      ((∀ rpu b e e0 p, cls.create rpu b e p = cls.create rpu b e0 p) →
        (∀ b e e0 p, cls.createShared b e p = cls.createShared b e0 p) →
        r1.processors = r2.processors) := by
  obtain ⟨hc, a1, a2, a3, a4, a5, a6, a7, a8, a9, a10, a11, a12, a13⟩ :=
    init_members cls hwThreads args r1 h1
  simp only [hno] at a2 a3 a8 a9
  have hh1 : r1.filter.m_hasEl = false := by simpa using a2
  obtain ⟨_, _, _, _, _, _, _, pool1, hp1, hr1⟩ := init_result cls hwThreads args r1 h1
  rw [hno] at hp1 hr1
  simp only [Option.map_none', Option.getD_none] at hp1 hr1
  refine ⟨by rw [a8, a7], a9,
    fun k lease n blFrame elFrame => get_frame_without_el r1.filter k lease n blFrame elFrame hh1,
    ⟨pool1, hr1⟩, ?_⟩
  intro r2 h2
  obtain ⟨_, b1, b2, b3, b4, b5, b6, b7, b8, b9, b10, b11, b12, b13⟩ :=
    init_members cls hwThreads { args with el := some args.bl } r2 h2
  simp only [Option.isSome_some, Option.getD_some] at b2 b3 b8 b9
  obtain ⟨_, _, _, _, _, _, _, pool2, hp2, hr2⟩ :=
    init_result cls hwThreads { args with el := some args.bl } r2 h2
  simp only [Option.map_some', Option.getD_some] at hp2 hr2
  have hpos : 0 < args.bl.height ∧ 0 < args.bl.width := by
    simp only [isConstantVideoFormat, Bool.and_eq_true, decide_eq_true_eq] at hc
    exact ⟨hc.1.1, hc.1.2⟩
  have hq2 : r2.filter.m_quarterResolutionEl = false := by
    rw [b9]
    have : ¬ (args.bl.width = args.bl.width / 2) := by omega
    simp [this]
  have hvi : r1.filter.m_vi = r2.filter.m_vi := by
    cases hv1 : r1.filter.m_vi
    cases hv2 : r2.filter.m_vi
    rw [hv1] at a10 a11 a12 a13
    rw [hv2] at b10 b11 b12 b13
    simp only at a10 a11 a12 a13 b10 b11 b12 b13
    rw [a10, a11, a12, a13, b10, b11, b12, b13]
  refine ⟨?_, ⟨pool2, hr2⟩, ?_⟩
  · intro k lease n blFrame elFrame
    exact get_frame_el_default r1.filter r2.filter k lease n blFrame elFrame hvi (by rw [a1, b1])
      (by rw [a4, b4]) (by rw [a5, b5]) (by rw [a7, b7]) (by rw [a8, a7]) (by rw [b8, b7]) a9 hq2
      hh1 b2 (by rw [b3, b1])
  · intro hcreate hshared
    rw [hr1, hr2, hcreate args.rpu args.bl.format.bitsPerSample 0 args.bl.format.bitsPerSample]
    rw [createPool_congr cls args.bl.format.bitsPerSample 0 args.bl.format.bitsPerSample _ _ _ _
      hshared] at hp1
    rw [hp1] at hp2
    cases hp2
    rfl

/-- C10, instance: an 8 x 4 clip in 4:2:0 with the default options. -/
theorem init_without_el_defaults_to_bl_witness :
    (sampleArgs yuv420 8 4).el = none ∧
    (blOnlyFilter 8 4).m_elChromaSubSampled = (blOnlyFilter 8 4).m_blChromaSubSampled ∧
    (blOnlyFilter 8 4).m_quarterResolutionEl = false ∧
    ∀ (k : Kernels) (lease : PoolProcessor) (n : Int) (blFrame elFrame : Frame),
      get_frame (blOnlyFilter 8 4) k lease n blFrame elFrame
        = get_frame (blAsElFilter 8 4) k lease n blFrame blFrame :=
  ⟨rfl,
    (init_without_el_defaults_to_bl sampleClass 4 (sampleArgs yuv420 8 4)
      ⟨blOnlyFilter 8 4, [sampleLease, sampleLease, sampleLease, sampleLease]⟩ rfl rfl).1,
    (init_without_el_defaults_to_bl sampleClass 4 (sampleArgs yuv420 8 4)
      ⟨blOnlyFilter 8 4, [sampleLease, sampleLease, sampleLease, sampleLease]⟩ rfl rfl).2.1,
    ((init_without_el_defaults_to_bl sampleClass 4 (sampleArgs yuv420 8 4)
      ⟨blOnlyFilter 8 4, [sampleLease, sampleLease, sampleLease, sampleLease]⟩ rfl
      rfl).2.2.2.2
      ⟨blAsElFilter 8 4, [sampleLease, sampleLease, sampleLease, sampleLease]⟩ rfl).1⟩

/-! ## Dispatch, conversion, trim pass and pool: main results -/

/-- C11: the dispatch of the quick path is a total selection.  For every
filter object the branch `if (m_qnd)` of `get_frame` calls one specialization
`doAllQuickAndDirty<b, e, q>`, its template arguments are `(b, e, q) =
(m_blChromaSubSampled, m_elChromaSubSampled, m_quarterResolutionEl)`, the
result of the branch is the result of that specialization, and filter objects
with different flag triples are dispatched to different specializations (the
eight triples are mapped to eight distinct ones). -/
theorem quickPath_dispatch :
    (∀ self : DoViBakerVS, quickPathFlags self
      = (self.m_blChromaSubSampled, self.m_elChromaSubSampled, self.m_quarterResolutionEl)) ∧
    (∀ (self : DoViBakerVS) (proc : DoViProcessor) (dst blSrc elSrc : Frame),
      quickPath self proc dst blSrc elSrc
        = doAllQuickAndDirty self (quickPathFlags self).1 (quickPathFlags self).2.1
            (quickPathFlags self).2.2 proc dst blSrc elSrc) ∧
    (∀ s1 s2 : DoViBakerVS, quickPathFlags s1 = quickPathFlags s2 →
      s1.m_blChromaSubSampled = s2.m_blChromaSubSampled ∧
      s1.m_elChromaSubSampled = s2.m_elChromaSubSampled ∧
      s1.m_quarterResolutionEl = s2.m_quarterResolutionEl) ∧
    ((List.map (fun t : Bool × Bool × Bool =>
        quickPathFlags { blOnlyFilter 2 2 with
          m_blChromaSubSampled := t.1, m_elChromaSubSampled := t.2.1,
          m_quarterResolutionEl := t.2.2 })
      [(false, false, false), (false, false, true), (false, true, false), (false, true, true),
       (true, false, false), (true, false, true), (true, true, false), (true, true, true)]).Nodup
      ∧ (List.map (fun t : Bool × Bool × Bool =>
        quickPathFlags { blOnlyFilter 2 2 with
          m_blChromaSubSampled := t.1, m_elChromaSubSampled := t.2.1,
          m_quarterResolutionEl := t.2.2 })
      [(false, false, false), (false, false, true), (false, true, false), (false, true, true),
       (true, false, false), (true, false, true), (true, true, false), (true, true, true)]).length
        = 8) := by
  have hflags : ∀ self : DoViBakerVS, quickPathFlags self
      = (self.m_blChromaSubSampled, self.m_elChromaSubSampled, self.m_quarterResolutionEl) := by
    intro self
    unfold quickPathFlags
    cases self.m_blChromaSubSampled <;> cases self.m_elChromaSubSampled <;>
      cases self.m_quarterResolutionEl <;> rfl
  refine ⟨hflags, ?_, ?_, ?_⟩
  · intro self proc dst blSrc elSrc
    rw [hflags]
    unfold quickPath
    cases self.m_blChromaSubSampled <;> cases self.m_elChromaSubSampled <;>
      cases self.m_quarterResolutionEl <;> rfl
  · intro s1 s2 h
    rw [hflags, hflags] at h
    simp only [Prod.mk.injEq] at h
    exact h
  · decide

/-- C13: `convert2rgb` is a per-sample conversion without resampling.  For a
full-chroma source of `height` rows and `width` columns (luma from `srcY`,
chroma from `srcUV`) and a destination of the same size the routine succeeds,
every destination triple `(R, G, B)[h][w]` is `sample2rgb (Y[h][w], U[h][w],
V[h][w])`, and the routine writes exactly the samples `[0, height) x [0,
width)` of the three destination planes, each once. -/
theorem convert2rgb_per_sample (proc : DoViProcessor) (dst srcY srcUV : Frame)
    (height width : Nat)
    (h0h : (srcY.planes 0).height = height) (h0w : (srcY.planes 0).width = width)
    (h1h : (srcUV.planes 1).height = height) (h1w : (srcUV.planes 1).width = width)
    (h2h : (srcUV.planes 2).height = height) (h2w : (srcUV.planes 2).width = width)
    (hdh : ∀ p, p < 3 → (dst.planes p).height = height)
    (hdw : ∀ p, p < 3 → (dst.planes p).width = width) :
    (∃ out, convert2rgb proc dst srcY srcUV = some out ∧
      ∀ h w, h < height → w < width →
        ((out.planes 0).px h w, (out.planes 1).px h w, (out.planes 2).px h w)
          = proc.sample2rgb ((srcY.planes 0).px h w) ((srcUV.planes 1).px h w)
              ((srcUV.planes 2).px h w)) ∧
    (positions (convert2rgbStores proc srcY srcUV)).Nodup ∧
    ∀ q, q ∈ positions (convert2rgbStores proc srcY srcUV) ↔
      ∃ p h w : Nat, p < 3 ∧ h < height ∧ w < width ∧ q = some (p, (h : Int), (w : Int)) := by
  obtain ⟨out, hex, _, _, _, hpx⟩ :=
    convert2rgb_spec proc dst srcY srcUV height width (by omega) (by omega) h1h h1w h2h h2w hdh
      hdw
  refine ⟨⟨out, hex, hpx⟩, ?_⟩
  rw [convert2rgbStores_eq proc srcY srcUV height width (by omega) (by omega) h1h h1w h2h h2w]
  exact rgbRef_positions proc srcY srcUV height width

/-- C13, instance: a 2 x 2 frame in 4:4:4. -/
theorem convert2rgb_per_sample_witness :
    (∃ out, convert2rgb sampleEngine (new_video_frame rgb48 2 2 none) (rampFrame yuv444 2 2)
        (rampFrame yuv444 2 2) = some out ∧
      ∀ h w, h < 2 → w < 2 →
        ((out.planes 0).px h w, (out.planes 1).px h w, (out.planes 2).px h w)
          = sampleEngine.sample2rgb (((rampFrame yuv444 2 2).planes 0).px h w)
              (((rampFrame yuv444 2 2).planes 1).px h w)
              (((rampFrame yuv444 2 2).planes 2).px h w)) ∧
    (positions (convert2rgbStores sampleEngine (rampFrame yuv444 2 2)
      (rampFrame yuv444 2 2))).Nodup ∧
    ∀ q, q ∈ positions (convert2rgbStores sampleEngine (rampFrame yuv444 2 2)
        (rampFrame yuv444 2 2)) ↔
      ∃ p h w : Nat, p < 3 ∧ h < 2 ∧ w < 2 ∧ q = some (p, (h : Int), (w : Int)) :=
  convert2rgb_per_sample sampleEngine (new_video_frame rgb48 2 2 none) (rampFrame yuv444 2 2)
    (rampFrame yuv444 2 2) 2 2 rfl rfl rfl rfl rfl rfl
    (by intro p hp; interval_cases p <;> rfl) (by intro p hp; interval_cases p <;> rfl)

/-- C14: the trim pass runs exactly when RGB output is selected and the engine
reports trim processing enabled.  For a frame whose metadata initialises with
the engine `proc`, let `assembled` be the destination the quick path (when
`m_qnd`) or the full-quality path assembles.  If `!m_outYUV &&
trimProcessingEnabled ()` holds, `get_frame` returns `applyTrim` of the
assembled destination; if not, it returns the assembled destination itself;
in particular with YUV output the result never goes through `applyTrim`. -/
theorem get_frame_trim_gate (self : DoViBakerVS) (k : Kernels) (lease : PoolProcessor) (n : Int)
    (blFrame elFrame : Frame) (proc : DoViProcessor)
    (hl : lease.intializeFrame n
      (extractRpu self lease blFrame (if self.m_hasEl then elFrame else blFrame)) = some proc) :
    ((!self.m_outYUV && proc.trimProcessingEnabled) = true →
      get_frame self k lease n blFrame elFrame
        = ((if self.m_qnd then
              quickPath self proc
                (setFrameProps self proc
                  (new_video_frame self.m_vi.format self.m_vi.width self.m_vi.height
                    (some blFrame)))
                blFrame (if self.m_hasEl then elFrame else blFrame)
            else
              fullQualityPath self k proc
                (setFrameProps self proc
                  (new_video_frame self.m_vi.format self.m_vi.width self.m_vi.height
                    (some blFrame)))
                blFrame (if self.m_hasEl then elFrame else blFrame)).bind
            fun dst => applyTrim self proc dst)) ∧
    ((!self.m_outYUV && proc.trimProcessingEnabled) = false →
      get_frame self k lease n blFrame elFrame
        = (if self.m_qnd then
              quickPath self proc
                (setFrameProps self proc
                  (new_video_frame self.m_vi.format self.m_vi.width self.m_vi.height
                    (some blFrame)))
                blFrame (if self.m_hasEl then elFrame else blFrame)
            else
              fullQualityPath self k proc
                (setFrameProps self proc
                  (new_video_frame self.m_vi.format self.m_vi.width self.m_vi.height
                    (some blFrame)))
                blFrame (if self.m_hasEl then elFrame else blFrame))) ∧
    ((!self.m_outYUV && proc.trimProcessingEnabled) = true ↔
      (self.m_outYUV = false ∧ proc.trimProcessingEnabled = true)) ∧
    (self.m_outYUV = true → (!self.m_outYUV && proc.trimProcessingEnabled) = false) := by
  refine ⟨?_, ?_, ?_, ?_⟩
  · intro hc
    simp only [get_frame, hl, hc, if_true]
    cases (if self.m_qnd then
        quickPath self proc
          (setFrameProps self proc
            (new_video_frame self.m_vi.format self.m_vi.width self.m_vi.height (some blFrame)))
          blFrame (if self.m_hasEl then elFrame else blFrame)
      else
        fullQualityPath self k proc
          (setFrameProps self proc
            (new_video_frame self.m_vi.format self.m_vi.width self.m_vi.height (some blFrame)))
          blFrame (if self.m_hasEl then elFrame else blFrame)) <;> rfl
  · intro hc
    simp only [get_frame, hl, hc, Bool.false_eq_true, if_false]
    cases (if self.m_qnd then
        quickPath self proc
          (setFrameProps self proc
            (new_video_frame self.m_vi.format self.m_vi.width self.m_vi.height (some blFrame)))
          blFrame (if self.m_hasEl then elFrame else blFrame)
      else
        fullQualityPath self k proc
          (setFrameProps self proc
            (new_video_frame self.m_vi.format self.m_vi.width self.m_vi.height (some blFrame)))
          blFrame (if self.m_hasEl then elFrame else blFrame)) <;> rfl
  · cases self.m_outYUV <;> cases proc.trimProcessingEnabled <;> simp
  · intro h
    simp [h]

/-- C14, instance: a 6 x 2 clip in 4:2:0 and an engine with trim processing
enabled; the result goes through `applyTrim`. -/
theorem get_frame_trim_gate_witness :
    trimLease.intializeFrame 0
        (extractRpu (blOnlyFilter 6 2) trimLease (rampFrame yuv420 6 2)
          (if (blOnlyFilter 6 2).m_hasEl then rampFrame yuv420 6 2 else rampFrame yuv420 6 2))
      = some trimEngine ∧
    (!(blOnlyFilter 6 2).m_outYUV && trimEngine.trimProcessingEnabled) = true ∧
    get_frame (blOnlyFilter 6 2) sampleKernels trimLease 0 (rampFrame yuv420 6 2)
        (rampFrame yuv420 6 2)
      = ((if (blOnlyFilter 6 2).m_qnd then
            quickPath (blOnlyFilter 6 2) trimEngine
              (setFrameProps (blOnlyFilter 6 2) trimEngine
                (new_video_frame (blOnlyFilter 6 2).m_vi.format (blOnlyFilter 6 2).m_vi.width
                  (blOnlyFilter 6 2).m_vi.height (some (rampFrame yuv420 6 2))))
              (rampFrame yuv420 6 2)
              (if (blOnlyFilter 6 2).m_hasEl then rampFrame yuv420 6 2 else rampFrame yuv420 6 2)
          else
            fullQualityPath (blOnlyFilter 6 2) sampleKernels trimEngine
              (setFrameProps (blOnlyFilter 6 2) trimEngine
                (new_video_frame (blOnlyFilter 6 2).m_vi.format (blOnlyFilter 6 2).m_vi.width
                  (blOnlyFilter 6 2).m_vi.height (some (rampFrame yuv420 6 2))))
              (rampFrame yuv420 6 2)
              (if (blOnlyFilter 6 2).m_hasEl then rampFrame yuv420 6 2
                else rampFrame yuv420 6 2)).bind
          fun dst => applyTrim (blOnlyFilter 6 2) trimEngine dst) :=
  ⟨rfl, rfl,
    (get_frame_trim_gate (blOnlyFilter 6 2) sampleKernels trimLease 0 (rampFrame yuv420 6 2)
      (rampFrame yuv420 6 2) trimEngine rfl).1 rfl⟩

/-- C15: `applyTrim` is pointwise and in place.  On a frame whose three planes
hold at least `m_vi.height` rows and `m_vi.width` columns the pass succeeds
and keeps format, properties and plane sizes; for every `(h, w)` in `[0,
height) x [0, width)` the triple after the pass is `processTrim` of the triple
that was at `(h, w)` before it, so it is the same for any other frame with
that triple at `(h, w)`; a pixel whose triple is a fixed point of
`processTrim` is unchanged, and when `processTrim` is the identity every
sample of the three planes is the one before the pass. -/
theorem applyTrim_pointwise (self : DoViBakerVS) (proc : DoViProcessor) (dst : Frame)
    (hh : ∀ p, p < 3 → self.m_vi.height ≤ (dst.planes p).height)
    (hw : ∀ p, p < 3 → self.m_vi.width ≤ (dst.planes p).width) :
    ∃ out, applyTrim self proc dst = some out ∧
      out.format = dst.format ∧ out.props = dst.props ∧
      (∀ p, (out.planes p).height = (dst.planes p).height ∧
        (out.planes p).width = (dst.planes p).width) ∧
      (∀ h w, h < self.m_vi.height → w < self.m_vi.width →
        out.triple h w = proc.processTrim ((dst.planes 0).px h w) ((dst.planes 1).px h w)
          ((dst.planes 2).px h w)) ∧
      (∀ (other : Frame), (∀ p, p < 3 → self.m_vi.height ≤ (other.planes p).height) →
        (∀ p, p < 3 → self.m_vi.width ≤ (other.planes p).width) →
        ∃ out1, applyTrim self proc other = some out1 ∧
          ∀ h w, h < self.m_vi.height → w < self.m_vi.width →
            other.triple h w = dst.triple h w → out1.triple h w = out.triple h w) ∧
      (∀ h w, h < self.m_vi.height → w < self.m_vi.width →
        proc.processTrim ((dst.planes 0).px h w) ((dst.planes 1).px h w)
          ((dst.planes 2).px h w) = dst.triple h w →
        out.triple h w = dst.triple h w) ∧
      ((∀ r g b, proc.processTrim r g b = (r, g, b)) →
        ∀ p, p < 3 → ∀ h w, (out.planes p).px h w = (dst.planes p).px h w) := by
  obtain ⟨out, hout, hinv⟩ := applyTrim_spec self proc dst hh hw
  refine ⟨out, hout, hinv.format_eq, hinv.props_eq,
    fun p => ⟨hinv.height_eq p, hinv.width_eq p⟩, ?_, ?_, ?_, ?_⟩
  · intro h w h1 h2
    exact hinv.px_done h w ⟨h1, h2⟩
  · intro other oh ow
    obtain ⟨out1, hout1, hinv1⟩ := applyTrim_spec self proc other oh ow
    refine ⟨out1, hout1, ?_⟩
    intro h w h1 h2 he
    rw [hinv1.px_done h w ⟨h1, h2⟩, hinv.px_done h w ⟨h1, h2⟩]
    simp only [Frame.triple, Prod.mk.injEq] at he
    rw [he.1, he.2.1, he.2.2]
  · intro h w h1 h2 hfix
    rw [hinv.px_done h w ⟨h1, h2⟩, hfix]
  · intro hid p hp h w
    by_cases hd : h < self.m_vi.height ∧ w < self.m_vi.width
    · have := hinv.px_done h w hd
      rw [hid] at this
      simp only [Frame.triple, Prod.mk.injEq] at this
      interval_cases p
      · exact this.1
      · exact this.2.1
      · exact this.2.2
    · exact hinv.px_todo h w hd p

/-- C15, instance: a 2 x 2 RGB frame and an engine whose `processTrim` adds
one to every component. -/
theorem applyTrim_pointwise_witness :
    ∃ out, applyTrim (blOnlyFilter 2 2) trimEngine (rampFrame rgb48 2 2) = some out ∧
      out.format = (rampFrame rgb48 2 2).format ∧ out.props = (rampFrame rgb48 2 2).props ∧
      (∀ p, (out.planes p).height = ((rampFrame rgb48 2 2).planes p).height ∧
        (out.planes p).width = ((rampFrame rgb48 2 2).planes p).width) ∧
      (∀ h w, h < (blOnlyFilter 2 2).m_vi.height → w < (blOnlyFilter 2 2).m_vi.width →
        out.triple h w = trimEngine.processTrim (((rampFrame rgb48 2 2).planes 0).px h w)
          (((rampFrame rgb48 2 2).planes 1).px h w) (((rampFrame rgb48 2 2).planes 2).px h w)) ∧
      (∀ (other : Frame),
        (∀ p, p < 3 → (blOnlyFilter 2 2).m_vi.height ≤ (other.planes p).height) →
        (∀ p, p < 3 → (blOnlyFilter 2 2).m_vi.width ≤ (other.planes p).width) →
        ∃ out1, applyTrim (blOnlyFilter 2 2) trimEngine other = some out1 ∧
          ∀ h w, h < (blOnlyFilter 2 2).m_vi.height → w < (blOnlyFilter 2 2).m_vi.width →
            other.triple h w = (rampFrame rgb48 2 2).triple h w →
            out1.triple h w = out.triple h w) ∧
      (∀ h w, h < (blOnlyFilter 2 2).m_vi.height → w < (blOnlyFilter 2 2).m_vi.width →
        trimEngine.processTrim (((rampFrame rgb48 2 2).planes 0).px h w)
          (((rampFrame rgb48 2 2).planes 1).px h w) (((rampFrame rgb48 2 2).planes 2).px h w)
            = (rampFrame rgb48 2 2).triple h w →
        out.triple h w = (rampFrame rgb48 2 2).triple h w) ∧
      ((∀ r g b, trimEngine.processTrim r g b = (r, g, b)) →
        ∀ p, p < 3 → ∀ h w, (out.planes p).px h w = ((rampFrame rgb48 2 2).planes p).px h w) :=
  applyTrim_pointwise (blOnlyFilter 2 2) trimEngine (rampFrame rgb48 2 2)
    (by intro p hp; interval_cases p <;> decide) (by intro p hp; interval_cases p <;> decide)

/-- C16: `getPoolSize` clamps the detected hardware parallelism to `[4, 32]`
with default 8.  For every integer `hw` (the value of `static_cast<int>
(hardware_concurrency ())`) the pool size is `min (32, max (4, hw))` when
`hw > 0` and 8 when `hw <= 0`; it lies in `[4, 32]`, equals `hw` whenever
`4 <= hw <= 32`, and when `init` returns it has created exactly that many
engines. -/
theorem getPoolSize_clamps (hwThreads : Int) :
    (0 < hwThreads → getPoolSize hwThreads = min 32 (max 4 hwThreads)) ∧
    (hwThreads ≤ 0 → getPoolSize hwThreads = 8) ∧
    (4 ≤ getPoolSize hwThreads ∧ getPoolSize hwThreads ≤ 32) ∧
    (4 ≤ hwThreads → hwThreads ≤ 32 → getPoolSize hwThreads = hwThreads) ∧
    (∀ (cls : DoViProcessorClass) (args : InitArgs) (r : InitResult),
      init cls hwThreads args = Except.ok r →
        (r.processors.length : Int) = getPoolSize hwThreads) := by
  refine ⟨?_, ?_, getPoolSize_bounds hwThreads, ?_, ?_⟩
  · intro h
    unfold getPoolSize
    simp only
    rw [if_neg (by omega)]
  · intro h
    unfold getPoolSize
    simp only
    rw [if_pos h]
    decide
  · intro h1 h2
    unfold getPoolSize
    simp only
    rw [if_neg (by omega)]
    omega
  · intro cls args r h
    obtain ⟨first, pool, hp, hl⟩ := init_processors cls hwThreads args r h
    have := getPoolSize_bounds hwThreads
    rw [hp, List.length_cons, hl]
    omega

/-- C16, instances: 6 hardware threads, none detected, and the pool `init`
creates for 4 hardware threads. -/
theorem getPoolSize_clamps_witness :
    getPoolSize 6 = min 32 (max 4 6) ∧ getPoolSize 0 = 8 ∧ getPoolSize 6 = 6 ∧
    init sampleClass 4 (sampleArgs yuv420 8 4)
      = Except.ok ⟨blOnlyFilter 8 4, [sampleLease, sampleLease, sampleLease, sampleLease]⟩ ∧
    (([sampleLease, sampleLease, sampleLease, sampleLease].length : Nat) : Int)
      = getPoolSize 4 :=
  ⟨(getPoolSize_clamps 6).1 (by decide), (getPoolSize_clamps 0).2.1 (by decide),
    (getPoolSize_clamps 6).2.2.2.1 (by decide) (by decide), rfl,
    (getPoolSize_clamps 4).2.2.2.2 sampleClass (sampleArgs yuv420 8 4)
      ⟨blOnlyFilter 8 4, [sampleLease, sampleLease, sampleLease, sampleLease]⟩ rfl⟩

/-- C17: pool exclusivity as an invariant of the reachable states.  Start from
the state `init` leaves for a pool of `n` engines (all engines in the queue
`m_availableProcessors`, no lease) and take any sequence of steps, each the
construction of a lease (`acquireProcessor`) or the destruction of an existing
lease (`releaseProcessor` of the engine it holds).  In the state reached no
engine occurs twice among the available and the leased ones (so none is both
available and leased, none is twice in the queue, none is held by two
leases), every engine of the pool is available or leased, the number
available plus the number leased is `n`, and the engine `acquireProcessor`
would return next is not leased. -/
theorem pool_exclusive (n : Nat) (acts : List PoolAction) (s : PoolSystem)
    (hrun : PoolSystem.run ⟨availableAfterInit n, []⟩ acts = some s) :
    (s.m_availableProcessors ++ s.leases).Nodup ∧
    (∀ e, e < n ↔ (e ∈ s.m_availableProcessors ∨ e ∈ s.leases)) ∧
    (∀ e, e ∈ s.m_availableProcessors → e ∉ s.leases) ∧
    (∀ e, e < n → s.m_availableProcessors.count e + s.leases.count e = 1) ∧
    s.m_availableProcessors.length + s.leases.length = n ∧
    (∀ proc rest, acquireProcessor s.m_availableProcessors = some (proc, rest) →
      proc ∉ s.leases) := by
  have hperm := pool_run_perm n acts ⟨availableAfterInit n, []⟩ s
    (by simp [availableAfterInit]) hrun
  have hnd : (s.m_availableProcessors ++ s.leases).Nodup :=
    hperm.nodup_iff.2 (List.nodup_range n)
  have hdisj : ∀ e, e ∈ s.m_availableProcessors → e ∉ s.leases := by
    intro e h1 h2
    exact (List.nodup_append.1 hnd).2.2 h1 h2
  refine ⟨hnd, ?_, hdisj, ?_, ?_, ?_⟩
  · intro e
    rw [← List.mem_append, hperm.mem_iff, List.mem_range]
  · intro e he
    rw [← List.count_append, hperm.count_eq]
    exact List.count_eq_one_of_mem (List.nodup_range n) (List.mem_range.2 he)
  · rw [← List.length_append, hperm.length_eq, List.length_range]
  · intro proc rest h
    apply hdisj
    cases hq : s.m_availableProcessors with
    | nil => rw [hq] at h; simp [acquireProcessor] at h
    | cons p r =>
      rw [hq] at h
      simp only [acquireProcessor, Option.some.injEq, Prod.mk.injEq] at h
      rw [← h.1]
      exact List.mem_cons_self _ _

/-- C17, instance: a pool of four engines after two acquisitions and the
release of engine 0. -/
theorem pool_exclusive_witness :
    PoolSystem.run ⟨availableAfterInit 4, []⟩
        [PoolAction.acquire, PoolAction.acquire, PoolAction.release 0]
      = some ⟨[2, 3, 0], [1]⟩ ∧
    ([2, 3, 0] ++ [1]).Nodup ∧
    (∀ e, e < 4 ↔ (e ∈ [2, 3, 0] ∨ e ∈ [1])) ∧
    (∀ e, e ∈ [2, 3, 0] → e ∉ [1]) ∧
    (∀ e, e < 4 → [2, 3, 0].count e + [1].count e = 1) ∧
    [2, 3, 0].length + [1].length = 4 ∧
    (∀ proc rest, acquireProcessor [2, 3, 0] = some (proc, rest) → proc ∉ [1]) :=
  ⟨rfl, pool_exclusive 4 [PoolAction.acquire, PoolAction.acquire, PoolAction.release 0]
    ⟨[2, 3, 0], [1]⟩ rfl⟩

/-- The sequential content of the blocking behaviour of the pool: when all
`n` engines are leased, a further lease cannot be constructed; the destruction
of one lease makes the construction of exactly one lease possible. -/
theorem pool_exhausted (n : Nat) (acts : List PoolAction) (s : PoolSystem)
    (hrun : PoolSystem.run ⟨availableAfterInit n, []⟩ acts = some s)
    (hall : s.leases.length = n) :
    s.step PoolAction.acquire = none ∧
    ∀ proc, proc ∈ s.leases → ∃ s1 s2, s.step (PoolAction.release proc) = some s1 ∧
      s1.step PoolAction.acquire = some s2 ∧ s2.leases.length = n ∧
      s2.step PoolAction.acquire = none := by
  obtain ⟨_, _, _, _, hlen, _⟩ := pool_exclusive n acts s hrun
  have hq : s.m_availableProcessors = [] := by
    apply List.eq_nil_of_length_eq_zero
    omega
  refine ⟨by simp [PoolSystem.step, acquireProcessor, hq], ?_⟩
  intro proc hp
  refine ⟨⟨[proc], s.leases.erase proc⟩, ⟨[], proc :: s.leases.erase proc⟩, ?_, rfl, ?_, rfl⟩
  · simp [PoolSystem.step, hp, releaseProcessor, hq]
  · simp only [List.length_cons, List.length_erase_of_mem hp]
    have : 0 < s.leases.length := List.length_pos_of_mem hp
    omega

/-- C19: the lease is returned on every exit path of `get_frame`.  When the
queue of available engines is `proc :: rest`, `get_frame` acquires `proc`,
returns the frame `get_frame` computes with `proc` (on the early return after
a metadata failure this is the newly allocated destination), and leaves the
queue `rest ++ [proc]`: the engine was pushed back once, on the early return
and on the normal return alike, and the available engines after the call are
those before it. -/
theorem get_frame_returns_lease (self : DoViBakerVS) (k : Kernels)
    (m_availableProcessors rest : List PoolProcessor) (proc : PoolProcessor) (n : Int)
    (blFrame elFrame : Frame)
    (hacq : acquireProcessor m_availableProcessors = some (proc, rest)) :
    get_frame_leased self k m_availableProcessors n blFrame elFrame
      = some (get_frame self k proc n blFrame elFrame, rest ++ [proc]) ∧
    (proc.intializeFrame n
        (extractRpu self proc blFrame (if self.m_hasEl then elFrame else blFrame)) = none →
      get_frame_leased self k m_availableProcessors n blFrame elFrame
        = some (some (new_video_frame self.m_vi.format self.m_vi.width self.m_vi.height
            (some blFrame)), rest ++ [proc])) ∧
    (rest ++ [proc]).Perm m_availableProcessors ∧
    (rest ++ [proc]).length = m_availableProcessors.length := by
  have hq : m_availableProcessors = proc :: rest := by
    cases m_availableProcessors with
    | nil => simp [acquireProcessor] at hacq
    | cons p r =>
      simp only [acquireProcessor, Option.some.injEq, Prod.mk.injEq] at hacq
      rw [hacq.1, hacq.2]
  have hperm : (rest ++ [proc]).Perm m_availableProcessors := by
    rw [hq]
    exact List.perm_append_singleton proc rest
  have hmain : get_frame_leased self k m_availableProcessors n blFrame elFrame
      = some (get_frame self k proc n blFrame elFrame, rest ++ [proc]) := by
    simp only [get_frame_leased, hacq, releaseProcessor]
    cases hi : proc.intializeFrame n
        (extractRpu self proc blFrame (if self.m_hasEl then elFrame else blFrame)) with
    | none => simp only [get_frame, hi]
    | some p => rfl
  refine ⟨hmain, ?_, hperm, hperm.length_eq⟩
  intro hi
  rw [hmain]
  simp only [get_frame, hi]

/-- C19, instance: a queue of two engines the first of which fails to
initialise the frame. -/
theorem get_frame_returns_lease_witness :
    acquireProcessor [failingLease, sampleLease] = some (failingLease, [sampleLease]) ∧
    get_frame_leased (blOnlyFilter 6 2) sampleKernels [failingLease, sampleLease] 0
        (rampFrame yuv420 6 2) (rampFrame yuv420 6 2)
      = some (get_frame (blOnlyFilter 6 2) sampleKernels failingLease 0 (rampFrame yuv420 6 2)
          (rampFrame yuv420 6 2), [sampleLease] ++ [failingLease]) ∧
    (failingLease.intializeFrame 0
        (extractRpu (blOnlyFilter 6 2) failingLease (rampFrame yuv420 6 2)
          (if (blOnlyFilter 6 2).m_hasEl then rampFrame yuv420 6 2 else rampFrame yuv420 6 2))
        = none →
      get_frame_leased (blOnlyFilter 6 2) sampleKernels [failingLease, sampleLease] 0
          (rampFrame yuv420 6 2) (rampFrame yuv420 6 2)
        = some (some (new_video_frame (blOnlyFilter 6 2).m_vi.format
            (blOnlyFilter 6 2).m_vi.width (blOnlyFilter 6 2).m_vi.height
            (some (rampFrame yuv420 6 2))), [sampleLease] ++ [failingLease])) ∧
    ([sampleLease] ++ [failingLease]).Perm [failingLease, sampleLease] ∧
    ([sampleLease] ++ [failingLease]).length = [failingLease, sampleLease].length :=
  ⟨rfl, get_frame_returns_lease (blOnlyFilter 6 2) sampleKernels [failingLease, sampleLease]
    [sampleLease] failingLease 0 (rampFrame yuv420 6 2) (rampFrame yuv420 6 2) rfl⟩

/-- C20: a per-frame metadata error skips only that frame.  For a filter that
`init` returned and a leased engine whose `intializeFrame` fails for frame
`n`, `get_frame` returns (it has a result) the newly allocated destination
frame: it has the output format and the BL dimensions, its properties are
those `new_video_frame` copied from the BL frame (none was set), and its
planes are as allocated (no routine has written to them); the result does not
depend on the kernels or on the EL frame. -/
theorem get_frame_metadata_failure (cls : DoViProcessorClass) (hwThreads : Int)
    (args : InitArgs) (r : InitResult) (k : Kernels) (lease : PoolProcessor) (n : Int)
    (blFrame elFrame : Frame)
    (hinit : init cls hwThreads args = Except.ok r)
    (hl : lease.intializeFrame n
      (extractRpu r.filter lease blFrame (if r.filter.m_hasEl then elFrame else blFrame))
        = none) :
    get_frame r.filter k lease n blFrame elFrame
      = some (new_video_frame r.filter.m_vi.format args.bl.width args.bl.height
          (some blFrame)) ∧
    r.filter.m_vi.format
      = (if decide (args.outYUV.getD 0 ≠ 0) then
          query_video_format ColorFamily.cfYUV 16
            (if (decide (args.bl.format.subSamplingW = 1)
              && decide (args.bl.format.subSamplingH = 1)) then 1 else 0)
            (if (decide (args.bl.format.subSamplingW = 1)
              && decide (args.bl.format.subSamplingH = 1)) then 1 else 0)
        else query_video_format ColorFamily.cfRGB 16 0 0) ∧
    ∃ out, get_frame r.filter k lease n blFrame elFrame = some out ∧
      out.format = r.filter.m_vi.format ∧
      (out.planes 0).height = args.bl.height ∧ (out.planes 0).width = args.bl.width ∧
      out.props = blFrame.props ∧
      (∀ p, out.planes p
        = (new_video_frame r.filter.m_vi.format args.bl.width args.bl.height none).planes p) := by
  obtain ⟨_, a1, a2, a3, a4, a5, a6, a7, a8, a9, a10, a11, a12, a13⟩ :=
    init_members cls hwThreads args r hinit
  have hg : get_frame r.filter k lease n blFrame elFrame
      = some (new_video_frame r.filter.m_vi.format args.bl.width args.bl.height
          (some blFrame)) := by
    simp only [get_frame, hl, a10, a11]
  refine ⟨hg, a13, _, hg, rfl, ?_, ?_, rfl, fun p => rfl⟩
  · exact (new_video_frame_plane0 _ _ _ _).1
  · exact (new_video_frame_plane0 _ _ _ _).2

/-- C20, instance: a 6 x 2 clip in 4:2:0 and an engine whose per-frame
metadata does not initialise. -/
theorem get_frame_metadata_failure_witness :
    init sampleClass 4 (sampleArgs yuv420 6 2)
      = Except.ok ⟨blOnlyFilter 6 2, [sampleLease, sampleLease, sampleLease, sampleLease]⟩ ∧
    failingLease.intializeFrame 0
        (extractRpu (blOnlyFilter 6 2) failingLease (rampFrame yuv420 6 2)
          (if (blOnlyFilter 6 2).m_hasEl then rampFrame yuv420 6 2 else rampFrame yuv420 6 2))
      = none ∧
    get_frame (blOnlyFilter 6 2) sampleKernels failingLease 0 (rampFrame yuv420 6 2)
        (rampFrame yuv420 6 2)
      = some (new_video_frame (blOnlyFilter 6 2).m_vi.format 6 2 (some (rampFrame yuv420 6 2))) ∧
    (blOnlyFilter 6 2).m_vi.format = query_video_format ColorFamily.cfRGB 16 0 0 ∧
    ∃ out, get_frame (blOnlyFilter 6 2) sampleKernels failingLease 0 (rampFrame yuv420 6 2)
        (rampFrame yuv420 6 2) = some out ∧
      out.format = (blOnlyFilter 6 2).m_vi.format ∧
      (out.planes 0).height = 2 ∧ (out.planes 0).width = 6 ∧
      out.props = (rampFrame yuv420 6 2).props ∧
      (∀ p, out.planes p = (new_video_frame (blOnlyFilter 6 2).m_vi.format 6 2 none).planes p) :=
  ⟨rfl, rfl,
    get_frame_metadata_failure sampleClass 4 (sampleArgs yuv420 6 2)
      ⟨blOnlyFilter 6 2, [sampleLease, sampleLease, sampleLease, sampleLease]⟩ sampleKernels
      failingLease 0 (rampFrame yuv420 6 2) (rampFrame yuv420 6 2) rfl rfl⟩

/-! ## Geometry, initialisation and teardown: main results -/

/-- C21: the teardown of a pool of four engines that `m_processors.clear()`
destroys from the first element to the last, as the loop of libstdc++ does.
The owner, element 0 of `m_processors`, is destroyed first: the shared RPU
list is freed before any of the non-owning engines 1, 2, 3 is destroyed.
Only cleared from the last element to the first, the list is freed after
them. -/
theorem teardown_front_to_back :
    [0, 1, 2, 3] = List.range 4 ∧
    teardown ownsRpusAtTeardown true [0, 1, 2, 3]
      = [TeardownEvent.rpuListFreed (Releaser.engine 0), TeardownEvent.engineDestroyed 0,
         TeardownEvent.engineDestroyed 1, TeardownEvent.engineDestroyed 2,
         TeardownEvent.engineDestroyed 3] ∧
    releasedAfterBorrowers 4 (teardown ownsRpusAtTeardown true [0, 1, 2, 3]) = false ∧
    releasedAfterBorrowers 4 (teardown ownsRpusAtTeardown true [3, 2, 1, 0]) = true := by
  refine ⟨by decide, by decide, by decide, by decide⟩

/-- The part of C21 that holds: on teardown the shared RPU list is freed
exactly once, by the owning engine only.  For a pool of `n >= 1` engines and every order in
which `m_processors.clear()` destroys them, the trace of the destructor
holds the event "freed by engine 0" exactly once and no other release: none
by the filter object, whose `m_ownsRpus` is false, and none in the
destruction of a non-owning engine; every engine is destroyed exactly
once. -/
theorem teardown_releases_once (n : Nat) (order : List Nat) (m_sharedRpus : Bool)
    (hn : 0 < n) (hperm : order.Perm (List.range n)) :
    (teardown ownsRpusAtTeardown m_sharedRpus order).count
        (TeardownEvent.rpuListFreed (Releaser.engine 0)) = 1 ∧
    (∀ who, TeardownEvent.rpuListFreed who ∈ teardown ownsRpusAtTeardown m_sharedRpus order →
      who = Releaser.engine 0) ∧
    TeardownEvent.rpuListFreed Releaser.filterObject
      ∉ teardown ownsRpusAtTeardown m_sharedRpus order ∧
    (∀ j who, j ≠ 0 → TeardownEvent.rpuListFreed who ∉ destroyProcessor j) ∧
    (∀ j, j < n →
      (teardown ownsRpusAtTeardown m_sharedRpus order).count (TeardownEvent.engineDestroyed j)
        = 1) := by
  have ht : teardown ownsRpusAtTeardown m_sharedRpus order = clearProcessors order := by
    simp [teardown, ownsRpusAtTeardown]
  rw [ht]
  have hmem : ∀ who, TeardownEvent.rpuListFreed who ∈ clearProcessors order →
      who = Releaser.engine 0 := fun who h => mem_freed_clearProcessors order who h
  refine ⟨?_, hmem, ?_, ?_, ?_⟩
  · rw [count_freed_clearProcessors, hperm.count_eq, count_range_self n 0 hn]
  · intro h
    have := hmem _ h
    cases this
  · intro j who hj h
    simp [destroyProcessor, hj] at h
  · intro j hj
    rw [count_destroyed_clearProcessors, hperm.count_eq, count_range_self n j hj]

/-- An instance of `teardown_releases_once`: four engines destroyed in the
order 2, 0, 3, 1. -/
theorem teardown_releases_once_witness :
    (0 < 4 ∧ [2, 0, 3, 1].Perm (List.range 4)) ∧
    (teardown ownsRpusAtTeardown true [2, 0, 3, 1]).count
        (TeardownEvent.rpuListFreed (Releaser.engine 0)) = 1 ∧
    TeardownEvent.rpuListFreed Releaser.filterObject
      ∉ teardown ownsRpusAtTeardown true [2, 0, 3, 1] :=
  ⟨⟨by decide, by decide⟩,
    (teardown_releases_once 4 [2, 0, 3, 1] true (by decide) (by decide)).1,
    (teardown_releases_once 4 [2, 0, 3, 1] true (by decide) (by decide)).2.2.1⟩

/-- C22, counterexample: unsupported geometry is accepted.  For a BL of 8 x 4
in 4:2:0 with an EL of 2 x 2 (neither the BL size nor half of it) `init`
returns, with `m_quarterResolutionEl = false`; for a BL in 4:2:2 (chroma of
half width and full height) `init` returns, with `m_blChromaSubSampled =
false`, and so it does for an EL in 4:2:2. -/
theorem init_accepts_unsupported_geometry :
    (∃ r, init sampleClass 4 (elArgs yuv420 yuv420 8 4 2 2) = Except.ok r ∧
      r.filter.m_quarterResolutionEl = false ∧ r.filter.m_elVi.width = 2 ∧
      r.filter.m_elVi.height = 2 ∧ r.filter.m_blVi.width = 8 ∧ r.filter.m_blVi.height = 4) ∧
    ¬ ((2 : Nat) = 8 ∧ (2 : Nat) = 4) ∧ ¬ (2 * 2 = 8 ∧ 2 * 2 = 4) ∧
    (yuv422.subSamplingW = 1 ∧ yuv422.subSamplingH = 0) ∧
    (∃ r, init sampleClass 4 (sampleArgs yuv422 8 4) = Except.ok r ∧
      r.filter.m_blChromaSubSampled = false ∧ r.filter.m_blVi.format = yuv422) ∧
    (∃ r, init sampleClass 4 (elArgs yuv420 yuv422 8 4 8 4) = Except.ok r ∧
      r.filter.m_elChromaSubSampled = false ∧ r.filter.m_elVi.format = yuv422) := by
  refine ⟨⟨_, rfl, rfl, rfl, rfl, rfl, rfl⟩, by decide, by decide, ⟨rfl, rfl⟩,
    ⟨_, rfl, rfl, rfl⟩, ⟨_, rfl, rfl, rfl⟩⟩

/-- C22, amended: `init` does not validate the geometry.  `init` returns
exactly when its guards are passed: constant YUV formats, equal frame counts
of BL and EL, a source profile of 0, 7 or 8, with YUV output no `qnd`, no
`rgbProof` and equal 4:2:0 flags of BL and EL, a first engine that constructs
and whose RPU is integrated or has the clip length, and pool engines that
construct.  No guard compares the EL size with the BL size or asks whether a
chroma format is 4:4:4 or 4:2:0: with RGB output, arguments that `init`
accepts are accepted with any other positive EL size and any other chroma
subsampling of BL and EL, with an EL clip and without. -/
theorem init_does_not_validate_geometry (cls : DoViProcessorClass) (hwThreads : Int)
    (args : InitArgs) :
    ((∃ r, init cls hwThreads args = Except.ok r) ↔
      (isConstantVideoFormat args.bl = true ∧
        args.bl.format.colorFamily = ColorFamily.cfYUV ∧
        (∀ el, args.el = some el → isConstantVideoFormat el = true ∧
          el.format.colorFamily = ColorFamily.cfYUV ∧ args.bl.numFrames = el.numFrames) ∧
        (toInt32 (args.sourceProfile.getD 0) = 0 ∨ toInt32 (args.sourceProfile.getD 0) = 7 ∨
          toInt32 (args.sourceProfile.getD 0) = 8) ∧
        (args.outYUV.getD 0 ≠ 0 →
          args.qnd.getD 0 = 0 ∧ args.rgbProof.getD 0 = 0 ∧
          ∀ el, args.el = some el →
            (decide (args.bl.format.subSamplingW = 1)
                && decide (args.bl.format.subSamplingH = 1))
              = (decide (el.format.subSamplingW = 1) && decide (el.format.subSamplingH = 1))) ∧
        (cls.create args.rpu args.bl.format.bitsPerSample
            ((args.el.map (fun el => el.format.bitsPerSample)).getD 0)
            (toInt32 (args.sourceProfile.getD 0))).wasCreationSuccessful = true ∧
        ((cls.create args.rpu args.bl.format.bitsPerSample
            ((args.el.map (fun el => el.format.bitsPerSample)).getD 0)
            (toInt32 (args.sourceProfile.getD 0))).isIntegratedRpu = true ∨
          args.bl.numFrames = (cls.create args.rpu args.bl.format.bitsPerSample
            ((args.el.map (fun el => el.format.bitsPerSample)).getD 0)
            (toInt32 (args.sourceProfile.getD 0))).getClipLength) ∧
        ∃ pool, createPool cls args.bl.format.bitsPerSample
            ((args.el.map (fun el => el.format.bitsPerSample)).getD 0)
            (toInt32 (args.sourceProfile.getD 0)) (decide (args.rgbProof.getD 0 ≠ 0))
            (decide (args.nlqProof.getD 0 ≠ 0)) (args.trimPq.getD 0 % 65536).toNat
            (getPoolSize hwThreads - 1).toNat = Except.ok pool)) ∧
    ∀ (elW elH blSsW blSsH elSsW elSsH : Nat), 0 < elW → 0 < elH →
      args.outYUV.getD 0 = 0 → (∃ r, init cls hwThreads args = Except.ok r) →
      ∃ r, init cls hwThreads (withGeometry args elW elH blSsW blSsH elSsW elSsH)
        = Except.ok r := by
  have fwd : ∀ a : InitArgs, (∃ r, init cls hwThreads a = Except.ok r) →
      (isConstantVideoFormat a.bl = true ∧
        a.bl.format.colorFamily = ColorFamily.cfYUV ∧
        (∀ el, a.el = some el → isConstantVideoFormat el = true ∧
          el.format.colorFamily = ColorFamily.cfYUV ∧ a.bl.numFrames = el.numFrames) ∧
        (toInt32 (a.sourceProfile.getD 0) = 0 ∨ toInt32 (a.sourceProfile.getD 0) = 7 ∨
          toInt32 (a.sourceProfile.getD 0) = 8) ∧
        (a.outYUV.getD 0 ≠ 0 →
          a.qnd.getD 0 = 0 ∧ a.rgbProof.getD 0 = 0 ∧
          ∀ el, a.el = some el →
            (decide (a.bl.format.subSamplingW = 1) && decide (a.bl.format.subSamplingH = 1))
              = (decide (el.format.subSamplingW = 1) && decide (el.format.subSamplingH = 1))) ∧
        (cls.create a.rpu a.bl.format.bitsPerSample
            ((a.el.map (fun el => el.format.bitsPerSample)).getD 0)
            (toInt32 (a.sourceProfile.getD 0))).wasCreationSuccessful = true ∧
        ((cls.create a.rpu a.bl.format.bitsPerSample
            ((a.el.map (fun el => el.format.bitsPerSample)).getD 0)
            (toInt32 (a.sourceProfile.getD 0))).isIntegratedRpu = true ∨
          a.bl.numFrames = (cls.create a.rpu a.bl.format.bitsPerSample
            ((a.el.map (fun el => el.format.bitsPerSample)).getD 0)
            (toInt32 (a.sourceProfile.getD 0))).getClipLength) ∧
        ∃ pool, createPool cls a.bl.format.bitsPerSample
            ((a.el.map (fun el => el.format.bitsPerSample)).getD 0)
            (toInt32 (a.sourceProfile.getD 0)) (decide (a.rgbProof.getD 0 ≠ 0))
            (decide (a.nlqProof.getD 0 ≠ 0)) (a.trimPq.getD 0 % 65536).toNat
            (getPoolSize hwThreads - 1).toNat = Except.ok pool) := by
    rintro a ⟨r, hr⟩
    obtain ⟨g1, g2, g3, g4, g5, g6, g7, pool, hp, _⟩ := init_result cls hwThreads a r hr
    exact ⟨g1, g2, g3, g4, g5, g6, g7, pool, hp⟩
  refine ⟨⟨fwd args, ?_⟩, ?_⟩
  · rintro ⟨g1, g2, g3, g4, g5, g6, g7, g8⟩
    exact init_ok_of_guards cls hwThreads args g1 g2 g3 g4 g5 g6 g7 g8
  · intro elW elH blSsW blSsH elSsW elSsH hW hH hy hok
    obtain ⟨g1, g2, g3, g4, g5, g6, g7, g8⟩ := fwd args hok
    have hbits : ((withGeometry args elW elH blSsW blSsH elSsW elSsH).el.map
        (fun el => el.format.bitsPerSample)).getD 0
        = (args.el.map (fun el => el.format.bitsPerSample)).getD 0 := by
      simp only [withGeometry]
      cases args.el <;> rfl
    apply init_ok_of_guards
    · simpa [withGeometry, isConstantVideoFormat] using g1
    · exact g2
    · intro el hel
      simp only [withGeometry, Option.map_eq_some'] at hel
      obtain ⟨el0, hel0, rfl⟩ := hel
      obtain ⟨e1, e2, e3⟩ := g3 el0 hel0
      refine ⟨?_, e2, e3⟩
      simp only [isConstantVideoFormat, Bool.and_eq_true, decide_eq_true_eq] at e1 ⊢
      exact ⟨⟨hH, hW⟩, e1.2⟩
    · exact g4
    · intro hy1
      exact absurd hy hy1
    · rw [hbits]
      exact g6
    · rw [hbits]
      exact g7
    · rw [hbits]
      exact g8

/-- C22, instance: arguments that `init` accepts, an 8 x 4 BL in 4:2:0 with an
EL of 4 x 2, are accepted with an EL of 2 x 2 and both clips in 4:2:2, and
the BL alone is accepted in 4:2:2. -/
theorem init_does_not_validate_geometry_witness :
    ((0 < 2 ∧ (elArgs yuv420 yuv420 8 4 4 2).outYUV.getD 0 = 0) ∧
      (∃ r, init sampleClass 4 (elArgs yuv420 yuv420 8 4 4 2) = Except.ok r)) ∧
    (∃ r, init sampleClass 4 (withGeometry (elArgs yuv420 yuv420 8 4 4 2) 2 2 1 0 1 0)
      = Except.ok r) ∧
    (withGeometry (elArgs yuv420 yuv420 8 4 4 2) 2 2 1 0 1 0).el = some ⟨yuv422, 2, 2, 1⟩ ∧
    (withGeometry (elArgs yuv420 yuv420 8 4 4 2) 2 2 1 0 1 0).bl = ⟨yuv422, 8, 4, 1⟩ ∧
    (∃ r, init sampleClass 4 (withGeometry (sampleArgs yuv420 8 4) 2 2 1 0 1 0) = Except.ok r) ∧
    (withGeometry (sampleArgs yuv420 8 4) 2 2 1 0 1 0).el = none :=
  ⟨⟨⟨by decide, rfl⟩, ⟨_, rfl⟩⟩,
    (init_does_not_validate_geometry sampleClass 4 (elArgs yuv420 yuv420 8 4 4 2)).2
      2 2 1 0 1 0 (by decide) (by decide) rfl ⟨_, rfl⟩,
    rfl, rfl,
    (init_does_not_validate_geometry sampleClass 4 (sampleArgs yuv420 8 4)).2
      2 2 1 0 1 0 (by decide) (by decide) rfl ⟨_, rfl⟩,
    rfl⟩

/-- C23: the quarter-resolution flag for a BL of odd size.  For a BL of 9 x 5
in 4:4:4 and an EL of 4 x 2 `init` returns with `m_quarterResolutionEl =
true`, because `m_blVi.width / 2` and `m_blVi.height / 2` are integer
divisions (`9 / 2 = 4`, `5 / 2 = 2`), although the EL is not half the BL
(`2 * 4 = 8`, `2 * 2 = 4`).  `get_frame` then upscales the EL to 9 x 5: the
vertical pass writes the rows 0 to 3 and never row 4 of its intermediate
frame, the horizontal pass writes the columns 0 to 7 and never column 8. -/
theorem init_quarter_flag_odd_bl :
    (∃ r, init sampleClass 4 (elArgs yuv444 yuv444 9 5 4 2) = Except.ok r ∧
      r.filter.m_quarterResolutionEl = true ∧ r.filter.m_blVi.width = 9 ∧
      r.filter.m_blVi.height = 5 ∧ r.filter.m_elVi.width = 4 ∧ r.filter.m_elVi.height = 2) ∧
    ¬ (2 * 4 = 9 ∧ 2 * 2 = 5) ∧
    (∀ c : Nat, c < 4 → some (0, (4 : Int), (c : Int)) ∉ positions (upsampleVertStores 2
      lumaTaps centreKernel centreKernel ((rampFrame yuv444 4 2).planes 0) 0)) ∧
    (∀ r : Nat, r < 5 → some (0, (r : Int), (8 : Int)) ∉ positions (upsampleHorzStores 2
      lumaTaps centreKernel centreKernel ((new_video_frame yuv444 4 5 none).planes 0) 0)) ∧
    (upscaleEl (fullFilter yuv444 yuv444 9 5 4 2) sampleKernels (rampFrame yuv444 4 2)
      ⟨yuv444, 9, 5, 1⟩).isSome = true := by
  refine ⟨⟨_, rfl, rfl, rfl, rfl, rfl, rfl⟩, by decide, by decide, by decide, rfl⟩

/-- The part of C23 that holds: when `init` returns, the flag is false without
an EL; with an EL it is true exactly when the EL width and height are the
integer halves `blW / 2` and `blH / 2`, which for a BL of even width and
height is `2 * elW = blW` and `2 * elH = blH`. -/
theorem init_quarter_flag (cls : DoViProcessorClass) (hwThreads : Int) (args : InitArgs)
    (r : InitResult) (h : init cls hwThreads args = Except.ok r) :
    (args.el = none → r.filter.m_quarterResolutionEl = false) ∧
    (∀ el, args.el = some el →
      (r.filter.m_quarterResolutionEl = true ↔
        el.width = args.bl.width / 2 ∧ el.height = args.bl.height / 2) ∧
      (args.bl.width % 2 = 0 → args.bl.height % 2 = 0 →
        (r.filter.m_quarterResolutionEl = true ↔
          2 * el.width = args.bl.width ∧ 2 * el.height = args.bl.height))) := by
  have hq := (init_members cls hwThreads args r h).2.2.2.2.2.2.2.2.2.1
  constructor
  · intro hel
    rw [hq, hel]
  · intro el hel
    rw [hq, hel]
    simp only [Bool.and_eq_true, decide_eq_true_eq]
    refine ⟨trivial, ?_⟩
    intro h1 h2
    constructor <;> intro h3 <;> omega

/-- C24: a BL/EL frame-count mismatch is fatal at initialisation.  When an EL
clip is supplied whose number of frames differs from the BL's, `init` throws,
and the error is the same for every engine class and every thread count: it
is raised before `DoViProcessor` is constructed, and so before the filter is
registered at the end of `init`. -/
theorem init_frame_count_mismatch (args : InitArgs) (el : VSVideoInfo)
    (hel : args.el = some el) (hn : el.numFrames ≠ args.bl.numFrames) :
    ∃ e, ∀ (cls : DoViProcessorClass) (hwThreads : Int),
      init cls hwThreads args = Except.error e := by
  have hn1 : args.bl.numFrames ≠ el.numFrames := fun h => hn h.symm
  by_cases c1 : (!isConstantVideoFormat args.bl) = true
  · refine ⟨"DoViBaker: base layer must have constant format",
      fun cls hwThreads => ?_⟩
    unfold init
    simp only [hel, bind, Except.bind, pure, Except.pure, throw, throwThe, MonadExceptOf.throw]
    rw [if_pos c1]
  by_cases c2 : args.bl.format.colorFamily ≠ ColorFamily.cfYUV
  · refine ⟨"DoViBaker: base layer must be YUV",
      fun cls hwThreads => ?_⟩
    unfold init
    simp only [hel, bind, Except.bind, pure, Except.pure, throw, throwThe, MonadExceptOf.throw]
    rw [if_neg c1, if_pos c2]
  by_cases d1 : (!isConstantVideoFormat el) = true
  · refine ⟨"DoViBaker: enhancement layer must have constant format",
      fun cls hwThreads => ?_⟩
    unfold init
    simp only [hel, bind, Except.bind, pure, Except.pure, throw, throwThe, MonadExceptOf.throw]
    rw [if_neg c1, if_neg c2, if_pos d1]
  by_cases d2 : el.format.colorFamily ≠ ColorFamily.cfYUV
  · refine ⟨"DoViBaker: enhancement layer must be YUV",
      fun cls hwThreads => ?_⟩
    unfold init
    simp only [hel, bind, Except.bind, pure, Except.pure, throw, throwThe, MonadExceptOf.throw]
    rw [if_neg c1, if_neg c2, if_neg d1, if_pos d2]
  · refine ⟨"DoViBaker: base layer and enhancement layer must have the same number of frames",
      fun cls hwThreads => ?_⟩
    unfold init
    simp only [hel, bind, Except.bind, pure, Except.pure, throw, throwThe, MonadExceptOf.throw]
    rw [if_neg c1, if_neg c2, if_neg d1, if_neg d2, if_pos hn1]

/-- C24, instance: a BL of one frame with an EL of two frames. -/
theorem init_frame_count_mismatch_witness :
    (⟨yuv420, 4, 2, 2⟩ : VSVideoInfo).numFrames
      ≠ (⟨yuv420, 4, 2, 1⟩ : VSVideoInfo).numFrames ∧
    ∃ e, ∀ (cls : DoViProcessorClass) (hwThreads : Int),
      init cls hwThreads
          ⟨⟨yuv420, 4, 2, 1⟩, some ⟨yuv420, 4, 2, 2⟩, none, none, none, none, none, none, none⟩
        = Except.error e :=
  ⟨by decide,
    init_frame_count_mismatch
      ⟨⟨yuv420, 4, 2, 1⟩, some ⟨yuv420, 4, 2, 2⟩, none, none, none, none, none, none, none⟩
      ⟨yuv420, 4, 2, 2⟩ rfl (by decide)⟩

/-- C25: for a source plane at least `vertLen - 1` columns wide (4 for the
5-tap luma instantiation, 3 for the 4-tap chroma instantiation) the centre,
left-edge and right-edge column ranges of `upsampleHorz` partition `[0, W)`,
every read is inside the source plane (every store carries a value), the
destination positions written are exactly `[0, H) x [0, 2W)`, each once, and
the routine returns the fully clamped reference: `dst[h][2w] = even(n, nD)`,
`dst[h][2w+1] = odd(n, nD)` with `n[i] = src[h][clamp(w + D[i], 0, W-1)]`. -/
theorem upsampleHorz_wide_plane (nD : Nat) (Dn0p : List Int)
    (hinst : (nD = 2 ∧ Dn0p = lumaTaps) ∨ (nD = 1 ∧ Dn0p = chromaTaps))
    (evenUpscaler oddUpscaler : upscaler_t) (dst src : Frame) (plane : Nat)
    (hW : Dn0p.length - 1 ≤ (src.planes plane).width)
    (hdh : (dst.planes plane).height = (src.planes plane).height)
    (hdw : (dst.planes plane).width = 2 * (src.planes plane).width) :
    ((horzColumns nD Dn0p (src.planes plane).width).Nodup ∧
      ∀ w : Int, w ∈ horzColumns nD Dn0p (src.planes plane).width ↔
        0 ≤ w ∧ w < (src.planes plane).width) ∧
    (∀ e ∈ upsampleHorzStores nD Dn0p evenUpscaler oddUpscaler (src.planes plane) plane,
      ∃ s v, e = some s ∧ s.val = some v) ∧
    ((positions (upsampleHorzStores nD Dn0p evenUpscaler oddUpscaler
        (src.planes plane) plane)).Nodup ∧
      ∀ q, q ∈ positions (upsampleHorzStores nD Dn0p evenUpscaler oddUpscaler
          (src.planes plane) plane) ↔
        ∃ r c : Nat, r < (src.planes plane).height ∧ c < 2 * (src.planes plane).width ∧
          q = some (plane, (r : Int), (c : Int))) ∧
    ∃ out, upsampleHorz nD Dn0p evenUpscaler oddUpscaler dst src plane = some out ∧
      (out.planes plane).height = (src.planes plane).height ∧
      (out.planes plane).width = 2 * (src.planes plane).width ∧
      ∀ h w, h < (src.planes plane).height → w < (src.planes plane).width →
        (out.planes plane).px h (2 * w)
          = evenUpscaler (horzNeighbors Dn0p (src.planes plane) h w) nD ∧
        (out.planes plane).px h (2 * w + 1)
          = oddUpscaler (horzNeighbors Dn0p (src.planes plane) h w) nD := by
  have hnD : (nD : Int) + 1 ≤ Dn0p.length := by
    rcases hinst with ⟨rfl, rfl⟩ | ⟨rfl, rfl⟩ <;> simp [lumaTaps, chromaTaps]
  have hW1 : (Dn0p.length : Int) - 1 ≤ (src.planes plane).width := by omega
  refine ⟨⟨nodup_horzColumns hW1, fun w => mem_horzColumns hnD hW1⟩, ?_,
    upsampleHorz_positions nD Dn0p hinst evenUpscaler oddUpscaler _ plane hW, ?_⟩
  · rw [upsampleHorzStores_eq nD Dn0p hinst evenUpscaler oddUpscaler _ plane hW]
    intro e he
    simp only [horzRefStores, List.mem_flatMap, horzPair, List.mem_cons, List.mem_singleton,
      List.not_mem_nil, or_false, Option.map_some'] at he
    obtain ⟨h, _, w, _, rfl | rfl⟩ := he
    · exact ⟨_, _, rfl, rfl⟩
    · exact ⟨_, _, rfl, rfl⟩
  · obtain ⟨out, hout, _, _, _, hh, hw, hpx⟩ :=
      upsampleHorz_spec nD Dn0p hinst evenUpscaler oddUpscaler dst src plane hW hdh hdw
    refine ⟨out, hout, hh, hw, ?_⟩
    intro h w h1 h2
    have e1 := hpx h (2 * w) (by rw [hh]; exact h1) (by rw [hw]; simp only [horzRefPlane]; omega)
    have e2 := hpx h (2 * w + 1) (by rw [hh]; exact h1)
      (by rw [hw]; simp only [horzRefPlane]; omega)
    simp only [horzRefPlane] at e1 e2
    have a1 : (2 * w) % 2 = 0 := by omega
    have a2 : (2 * w) / 2 = w := by omega
    have a3 : ¬ (2 * w + 1) % 2 = 0 := by omega
    have a4 : (2 * w + 1) / 2 = w := by omega
    rw [if_pos a1, a2] at e1
    rw [if_neg a3, a4] at e2
    exact ⟨e1, e2⟩

/-- C25, instance: the 4-tap chroma instantiation on a plane three columns
wide. -/
theorem upsampleHorz_wide_plane_witness :
    chromaTaps.length - 1 ≤ ((rampFrame yuv444 3 1).planes 1).width ∧
    ((new_video_frame yuv444 6 1 none).planes 1).width
      = 2 * ((rampFrame yuv444 3 1).planes 1).width ∧
    (positions (upsampleHorzStores 1 chromaTaps centreKernel centreKernel
      ((rampFrame yuv444 3 1).planes 1) 1)).Nodup :=
  ⟨by decide, rfl,
    (upsampleHorz_wide_plane 1 chromaTaps (Or.inr ⟨rfl, rfl⟩) centreKernel centreKernel
      (new_video_frame yuv444 6 1 none) (rampFrame yuv444 3 1) 1 (by decide) rfl rfl).2.2.1.1⟩

/-- C26: `applyDovi<true>` on a 2 x 2 frame in 4:2:0, whose chroma planes
have the single column `Wuv = 1`.  The centre region is empty, and the left
edge and the right edge both run on chroma column 0: the luma block and the
chroma samples `(1, 0, 0)`, `(2, 0, 0)` are written twice, the right edge
reads the luma column `2 * 0 - 1 = -1`, outside the plane, so that its luma
sums and the values of its two chroma stores are undefined, and the routine
has no result. -/
theorem applyDovi_single_chroma_column :
    ((rampFrame yuv420 2 2).planes 1).width = 1 ∧
    positions (applyDoviStores true sampleEngine (rampFrame yuv420 2 2) (rampFrame yuv420 2 2)
        (rampFrame yuv420 2 2) (rampFrame yuv420 2 2))
      = [some (0, 0, 0), some (0, 0, 1), some (0, 1, 0), some (0, 1, 1), some (1, 0, 0),
         some (2, 0, 0),
         some (0, 0, 0), some (0, 0, 1), some (0, 1, 0), some (0, 1, 1), some (1, 0, 0),
         some (2, 0, 0)] ∧
    ¬ (positions (applyDoviStores true sampleEngine (rampFrame yuv420 2 2)
        (rampFrame yuv420 2 2) (rampFrame yuv420 2 2) (rampFrame yuv420 2 2))).Nodup ∧
    ((rampFrame yuv420 2 2).planes 0).get 0 (2 * (1 - 1) - 1) = none ∧
    mmrRight ((rampFrame yuv420 2 2).planes 0) (ApplyPtrs.init true) 0 (1 - 1) = none ∧
    mmrRight ((rampFrame yuv420 2 2).planes 0) (ApplyPtrs.init true) 1 (1 - 1) = none ∧
    (applyDoviStores true sampleEngine (rampFrame yuv420 2 2) (rampFrame yuv420 2 2)
        (rampFrame yuv420 2 2) (rampFrame yuv420 2 2)).map (fun e => e.map (fun s => s.val))
      = [some (some 1), some (some 2), some (some 11), some (some 12), some (some 8),
         some (some 9),
         some (some 1), some (some 2), some (some 11), some (some 12), some none, some none] ∧
    applyDovi true sampleEngine (new_video_frame yuv420 2 2 none) (rampFrame yuv420 2 2)
      (rampFrame yuv420 2 2) (rampFrame yuv420 2 2) (rampFrame yuv420 2 2) = none := by
  refine ⟨rfl, by decide, by decide, rfl, rfl, rfl, by decide, rfl⟩

/-- For chroma planes at least two columns wide (the part of C26 that holds)
every read of `applyDovi<true>` is inside its plane (every store carries a
value) and no luma or chroma position is written twice. -/
theorem applyDovi_wide_positions (proc : DoViProcessor)
    (dst blSrcY blSrcUV elSrcY elSrcUV : Frame) (hUV wUV : Nat)
    (hs : ApplyShapes true dst blSrcY blSrcUV elSrcY elSrcUV hUV wUV)
    (hW : 2 ≤ wUV) (h16 : (blSrcY.planes 0).Is16) :
    (∀ e ∈ applyDoviStores true proc blSrcY blSrcUV elSrcY elSrcUV,
      ∃ s v, e = some s ∧ s.val = some v) ∧
    (positions (applyDoviStores true proc blSrcY blSrcUV elSrcY elSrcUV)).Nodup := by
  rw [applyDoviStores_eq true proc blSrcY blSrcUV elSrcY elSrcUV dst hUV wUV hs (fun _ => hW)
    (fun _ => h16)]
  have hW1 : 2 ≤ (blSrcUV.planes 1).width := by rw [hs.blU_w]; exact hW
  refine ⟨?_, applyRef_positions_nodup proc blSrcY blSrcUV elSrcY elSrcUV hW1⟩
  intro e he
  obtain ⟨s, rfl⟩ := applyDoviRefStores_some he
  rw [mem_applyDoviRefStores (fun _ => hW1)] at he
  obtain ⟨huv, wuv, _, _, hb⟩ := he
  rw [mem_applyRefBlock] at hb
  rcases hb with ⟨_, _, _, _, rfl⟩ | rfl | rfl
  · exact ⟨_, _, rfl, rfl⟩
  · exact ⟨_, _, rfl, rfl⟩
  · exact ⟨_, _, rfl, rfl⟩

/-- C27: the full-quality RGB path for a BL in 4:2:0 with an EL in 4:4:4 and
an engine that reports `elProcessingEnabled = false`.  `init` accepts the
clips; the intermediate frame is allocated in 4:4:4 (chroma planes of 4 x 2
for a 4 x 2 clip), but `frameChromaSubSampled` is cleared only inside `if
(proc->elProcessingEnabled())` and stays `true`, so that `applyDovi<true>` is
instantiated: it fills only the chroma samples of a 2 x 1 plane, and the
later `upsampleChroma` takes the 4 x 2 chroma planes of the intermediate
frame as its source and doubles their 2 rows into the 2 x 2 chroma planes of
its own intermediate frame, where the store at row 3, column 3 lies outside;
`get_frame` has no defined result. -/
theorem get_frame_rgb_intermediate_mismatch :
    (∃ r, init passClass 4 (elArgs yuv420 yuv444 4 2 4 2) = Except.ok r ∧
      r.filter = fullFilter yuv420 yuv444 4 2 4 2 ∧
      r.processors = [passLease, passLease, passLease, passLease]) ∧
    (fullFilter yuv420 yuv444 4 2 4 2).m_blChromaSubSampled = true ∧
    (fullFilter yuv420 yuv444 4 2 4 2).m_elChromaSubSampled = false ∧
    passEngine.elProcessingEnabled = false ∧
    mezFormatOf (fullFilter yuv420 yuv444 4 2 4 2) = yuv444 ∧
    (prepareLayers (fullFilter yuv420 yuv444 4 2 4 2) sampleKernels passEngine
        (rampFrame yuv420 4 2) (rampFrame yuv444 4 2)).map (fun p => p.frameChromaSubSampled)
      = some true ∧
    (((new_video_frame yuv444 4 2 (some (rampFrame yuv420 4 2))).planes 1).width = 4 ∧
      ((new_video_frame yuv444 4 2 (some (rampFrame yuv420 4 2))).planes 1).height = 2 ∧
      ((rampFrame yuv420 4 2).planes 1).width = 2 ∧
      ((rampFrame yuv420 4 2).planes 1).height = 1) ∧
    (applyDovi true passEngine (new_video_frame yuv444 4 2 (some (rampFrame yuv420 4 2)))
        (rampFrame yuv420 4 2) (rampFrame yuv420 4 2) (rampFrame yuv420 4 2)
        (rampFrame yuv420 4 2)).isSome = true ∧
    (applyDovi true passEngine (new_video_frame yuv444 4 2 (some (rampFrame yuv420 4 2)))
        (rampFrame yuv420 4 2) (rampFrame yuv420 4 2) (rampFrame yuv420 4 2)
        (rampFrame yuv420 4 2)).bind
      (fun mez => upsampleChroma sampleKernels mez (fullFilter yuv420 yuv444 4 2 4 2).m_blVi)
      = none ∧
    (some (1, (3 : Int), (3 : Int)) ∈ positions (upsampleVertStores 1 chromaTaps centreKernel
        centreKernel ((new_video_frame yuv444 4 2 none).planes 1) 1) ∧
      ((new_video_frame (query_video_format ColorFamily.cfYUV 16 1 0) 4 2 none).planes 1).height
        = 2 ∧
      ((new_video_frame (query_video_format ColorFamily.cfYUV 16 1 0) 4 2 none).planes 1).width
        = 2) ∧
    get_frame (fullFilter yuv420 yuv444 4 2 4 2) sampleKernels passLease 0
      (rampFrame yuv420 4 2) (rampFrame yuv444 4 2) = none := by
  refine ⟨⟨_, rfl, rfl, rfl⟩, rfl, rfl, rfl, rfl, rfl, ⟨rfl, rfl, rfl, rfl⟩, rfl, rfl,
    ⟨by decide, rfl, rfl⟩, rfl⟩

/-- The part of C27 that holds: on the RGB path the intermediate frame has
the chroma format of the instantiation of `applyDovi` (4:2:0 for `true`,
4:4:4 for `false`) whenever the engine processes the EL, the BL is 4:4:4 or
the EL is 4:2:0. -/
theorem mezFormatOf_matches_instantiation (self : DoViBakerVS) (k : Kernels)
    (proc : DoViProcessor) (blSrc elSrc : Frame) (p : Prepared)
    (h : prepareLayers self k proc blSrc elSrc = some p) (hout : self.m_outYUV = false)
    (hc : proc.elProcessingEnabled = true ∨ self.m_blChromaSubSampled = false ∨
      self.m_elChromaSubSampled = true) :
    mezFormatOf self
      = query_video_format ColorFamily.cfYUV 16 (if p.frameChromaSubSampled then 1 else 0)
          (if p.frameChromaSubSampled then 1 else 0) := by
  have hp : p.frameChromaSubSampled
      = (self.m_blChromaSubSampled &&
          (self.m_elChromaSubSampled || !proc.elProcessingEnabled)) := by
    unfold prepareLayers at h
    rw [hout] at h
    cases he : proc.elProcessingEnabled <;> cases hb : self.m_blChromaSubSampled <;>
      cases hl : self.m_elChromaSubSampled <;> rw [he, hb, hl] at h <;>
      simp only [Bool.false_eq_true, if_false, if_true, Bool.not_false, Bool.not_true,
        Bool.and_false, Bool.and_true, Bool.false_and, Bool.true_and, Bool.or_false,
        Bool.or_true, Bool.false_or, Bool.true_or, bind, pure] at h ⊢
    all_goals (try split at h)
    all_goals simp only [Option.bind_eq_some, Option.some.injEq] at h
    all_goals first
      | (obtain ⟨_, _, _, rfl, _, _, rfl⟩ := h; rfl)
      | (obtain ⟨_, _, _, _, _, rfl, rfl⟩ := h; rfl)
  rw [hp]
  unfold mezFormatOf
  rcases hc with hc | hc | hc
  · rw [hc]
    cases self.m_blChromaSubSampled <;> cases self.m_elChromaSubSampled <;> rfl
  · rw [hc]
    cases self.m_elChromaSubSampled <;> rfl
  · rw [hc]
    cases self.m_blChromaSubSampled <;> rfl

/-- C28: the luma proxy of `applyDovi<true>` does not overflow 16 bits and is
an average.  Let `a, b, c` be the luma samples a row term reads in the first
luma row and `a2, b2, c2` those in the second, all 16-bit values inside
`[lo, hi]`.  For the left edge (`3a + b + 2`), the centre (`a + 2b + c + 2`)
and the right edge (`a + 3b + 2`) the sums fit an `int`, each row term `sum >>
2` lies in `[lo, hi]`, the proxy `((sum1 >> 2) + (sum2 >> 2) + 1) >> 1` lies in
`[lo, hi]` and is stored into `uint16_t` without truncation.  With `lo` the
minimum and `hi` the maximum of the samples read, every term lies between the
two; with `lo = hi = c` the proxy of equal samples `c` is `c`; and the proxy
is at most 65535. -/
theorem luma_proxy_is_average (lo hi a b c a2 b2 c2 : Nat) (hhi : hi ≤ 65535)
    (ha : lo ≤ a ∧ a ≤ hi) (hb : lo ≤ b ∧ b ≤ hi) (hc : lo ≤ c ∧ c ≤ hi)
    (ha2 : lo ≤ a2 ∧ a2 ≤ hi) (hb2 : lo ≤ b2 ∧ b2 ≤ hi) (hc2 : lo ≤ c2 ∧ c2 ≤ hi) :
    (3 * a + b + 2 < 2 ^ 31 ∧ a + 2 * b + c + 2 < 2 ^ 31 ∧ a + 3 * b + 2 < 2 ^ 31) ∧
    (lo ≤ (3 * a + b + 2) >>> 2 ∧ (3 * a + b + 2) >>> 2 ≤ hi) ∧
    (lo ≤ (a + 2 * b + c + 2) >>> 2 ∧ (a + 2 * b + c + 2) >>> 2 ≤ hi) ∧
    (lo ≤ (a + 3 * b + 2) >>> 2 ∧ (a + 3 * b + 2) >>> 2 ≤ hi) ∧
    (mmrNarrow (3 * a + b + 2) (3 * a2 + b2 + 2)
        = (((3 * a + b + 2) >>> 2) + ((3 * a2 + b2 + 2) >>> 2) + 1) >>> 1 ∧
      lo ≤ mmrNarrow (3 * a + b + 2) (3 * a2 + b2 + 2) ∧
      mmrNarrow (3 * a + b + 2) (3 * a2 + b2 + 2) ≤ hi) ∧
    (mmrNarrow (a + 2 * b + c + 2) (a2 + 2 * b2 + c2 + 2)
        = (((a + 2 * b + c + 2) >>> 2) + ((a2 + 2 * b2 + c2 + 2) >>> 2) + 1) >>> 1 ∧
      lo ≤ mmrNarrow (a + 2 * b + c + 2) (a2 + 2 * b2 + c2 + 2) ∧
      mmrNarrow (a + 2 * b + c + 2) (a2 + 2 * b2 + c2 + 2) ≤ hi) ∧
    (mmrNarrow (a + 3 * b + 2) (a2 + 3 * b2 + 2)
        = (((a + 3 * b + 2) >>> 2) + ((a2 + 3 * b2 + 2) >>> 2) + 1) >>> 1 ∧
      lo ≤ mmrNarrow (a + 3 * b + 2) (a2 + 3 * b2 + 2) ∧
      mmrNarrow (a + 3 * b + 2) (a2 + 3 * b2 + 2) ≤ hi) ∧
    (mmrNarrow (3 * a + b + 2) (3 * a2 + b2 + 2) ≤ 65535 ∧
      mmrNarrow (a + 2 * b + c + 2) (a2 + 2 * b2 + c2 + 2) ≤ 65535 ∧
      mmrNarrow (a + 3 * b + 2) (a2 + 3 * b2 + 2) ≤ 65535) ∧
    (lo = hi →
      mmrNarrow (3 * a + b + 2) (3 * a2 + b2 + 2) = lo ∧
      mmrNarrow (a + 2 * b + c + 2) (a2 + 2 * b2 + c2 + 2) = lo ∧
      mmrNarrow (a + 3 * b + 2) (a2 + 3 * b2 + 2) = lo) := by
  have l1 := shift2_between lo hi (3 * a + b + 2) (by omega) (by omega)
  have l2 := shift2_between lo hi (3 * a2 + b2 + 2) (by omega) (by omega)
  have m1 := shift2_between lo hi (a + 2 * b + c + 2) (by omega) (by omega)
  have m2 := shift2_between lo hi (a2 + 2 * b2 + c2 + 2) (by omega) (by omega)
  have r1 := shift2_between lo hi (a + 3 * b + 2) (by omega) (by omega)
  have r2 := shift2_between lo hi (a2 + 3 * b2 + 2) (by omega) (by omega)
  have nl := mmrNarrow_between lo hi _ _ hhi l1 l2
  have nc := mmrNarrow_between lo hi _ _ hhi m1 m2
  have nr := mmrNarrow_between lo hi _ _ hhi r1 r2
  have el : mmrNarrow (3 * a + b + 2) (3 * a2 + b2 + 2)
      = (((3 * a + b + 2) >>> 2) + ((3 * a2 + b2 + 2) >>> 2) + 1) >>> 1 := nl.1
  have ec : mmrNarrow (a + 2 * b + c + 2) (a2 + 2 * b2 + c2 + 2)
      = (((a + 2 * b + c + 2) >>> 2) + ((a2 + 2 * b2 + c2 + 2) >>> 2) + 1) >>> 1 := nc.1
  have er : mmrNarrow (a + 3 * b + 2) (a2 + 3 * b2 + 2)
      = (((a + 3 * b + 2) >>> 2) + ((a2 + 3 * b2 + 2) >>> 2) + 1) >>> 1 := nr.1
  refine ⟨⟨by omega, by omega, by omega⟩, l1, m1, r1, ⟨el, ?_, ?_⟩, ⟨ec, ?_, ?_⟩, ⟨er, ?_, ?_⟩,
    ⟨?_, ?_, ?_⟩, ?_⟩
  · rw [el]; exact nl.2.1
  · rw [el]; exact nl.2.2
  · rw [ec]; exact nc.2.1
  · rw [ec]; exact nc.2.2
  · rw [er]; exact nr.2.1
  · rw [er]; exact nr.2.2
  · rw [el]; exact le_trans nl.2.2 hhi
  · rw [ec]; exact le_trans nc.2.2 hhi
  · rw [er]; exact le_trans nr.2.2 hhi
  · intro h
    refine ⟨?_, ?_, ?_⟩
    · rw [el]; exact le_antisymm (h ▸ nl.2.2) nl.2.1
    · rw [ec]; exact le_antisymm (h ▸ nc.2.2) nc.2.1
    · rw [er]; exact le_antisymm (h ▸ nr.2.2) nr.2.1

/-- C28, instance: the samples 1000, 2000, 3000 and 65535, 65535, 65535 within
`[1000, 65535]`. -/
theorem luma_proxy_is_average_witness :
    (1000 ≤ 1000 ∧ 1000 ≤ 65535) ∧ (1000 ≤ 2000 ∧ 2000 ≤ 65535) ∧
    mmrNarrow (3 * 1000 + 2000 + 2) (3 * 65535 + 65535 + 2)
        = (((3 * 1000 + 2000 + 2) >>> 2) + ((3 * 65535 + 65535 + 2) >>> 2) + 1) >>> 1 ∧
    mmrNarrow (3 * 1000 + 2000 + 2) (3 * 65535 + 65535 + 2) ≤ 65535 :=
  ⟨by decide, by decide,
    (luma_proxy_is_average 1000 65535 1000 2000 3000 65535 65535 65535 (by decide) (by decide)
      (by decide) (by decide) (by decide) (by decide) (by decide)).2.2.2.2.1.1,
    (luma_proxy_is_average 1000 65535 1000 2000 3000 65535 65535 65535 (by decide) (by decide)
      (by decide) (by decide) (by decide) (by decide) (by decide)).2.2.2.2.2.2.2.1.1⟩

/-- The luma proxy of chroma sample `(i, j)` as `applyDovi<true>` hands it to
the engine (C4) lies between any two bounds of the luma samples of the plane:
it is an average of samples and needs no truncation. -/
theorem lumaProxy_between (blY : Plane) (widthUV i j lo hi : Nat) (hhi : hi ≤ 65535)
    (hpx : ∀ r c, lo ≤ blY.px r c ∧ blY.px r c ≤ hi) :
    lo ≤ lumaProxy true blY widthUV i j ∧ lumaProxy true blY widthUV i j ≤ hi ∧
    lumaProxy true blY widthUV i j ≤ 65535 := by
  have key : ∀ r1 r2 : Nat, (lo ≤ r1 ∧ r1 ≤ hi) → (lo ≤ r2 ∧ r2 ≤ hi) →
      lo ≤ (r1 + r2 + 1) >>> 1 ∧ (r1 + r2 + 1) >>> 1 ≤ hi ∧ (r1 + r2 + 1) >>> 1 ≤ 65535 := by
    intro r1 r2 h1 h2
    have := mmrNarrow_between lo hi r1 r2 hhi h1 h2
    exact ⟨this.2.1, this.2.2, le_trans this.2.2 hhi⟩
  simp only [lumaProxy, if_true]
  apply key
  · split
    · exact shift2_between lo hi _ (by have := hpx (2 * i) 0; have := hpx (2 * i) 1; omega)
        (by have := hpx (2 * i) 0; have := hpx (2 * i) 1; omega)
    · split
      · exact shift2_between lo hi _
          (by have := hpx (2 * i) (2 * j - 1); have := hpx (2 * i) (2 * j); omega)
          (by have := hpx (2 * i) (2 * j - 1); have := hpx (2 * i) (2 * j); omega)
      · exact shift2_between lo hi _
          (by have := hpx (2 * i) (2 * j - 1); have := hpx (2 * i) (2 * j)
              have := hpx (2 * i) (2 * j + 1); omega)
          (by have := hpx (2 * i) (2 * j - 1); have := hpx (2 * i) (2 * j)
              have := hpx (2 * i) (2 * j + 1); omega)
  · split
    · exact shift2_between lo hi _
        (by have := hpx (2 * i + 1) 0; have := hpx (2 * i + 1) 1; omega)
        (by have := hpx (2 * i + 1) 0; have := hpx (2 * i + 1) 1; omega)
    · split
      · exact shift2_between lo hi _
          (by have := hpx (2 * i + 1) (2 * j - 1); have := hpx (2 * i + 1) (2 * j); omega)
          (by have := hpx (2 * i + 1) (2 * j - 1); have := hpx (2 * i + 1) (2 * j); omega)
      · exact shift2_between lo hi _
          (by have := hpx (2 * i + 1) (2 * j - 1); have := hpx (2 * i + 1) (2 * j)
              have := hpx (2 * i + 1) (2 * j + 1); omega)
          (by have := hpx (2 * i + 1) (2 * j - 1); have := hpx (2 * i + 1) (2 * j)
              have := hpx (2 * i + 1) (2 * j + 1); omega)

/-- C30: scene lookup in `DoViStatsFileLoaderVS::get_frame` for any request
order.  For a scene table whose end-frame entries are strictly increasing
with the last one equal to the clip length, after any sequence `reqs` of
requests in `[0, numFrames)` served one after the other from the initial
cursor, a further request `n` in `[0, numFrames)` returns (the scan ends and
no access `.at(...)` throws): the cursor it leaves is an index `c` of the
table with `end(c-1) <= n < end(c)` (`end(-1) = 0`), it is the only such
index, and `c <= n + 1`, so that the 32-bit cursor does not wrap. -/
theorem scene_lookup_any_order (table : List (Nat × Nat × Nat)) (numFrames : Nat)
    (hinc : (table.map (fun e => e.1)).Pairwise (fun a b => a < b))
    (hlast : (table.map (fun e => e.1)).getLast? = some numFrames)
    (reqs : List Nat) (hreq : ∀ m, m ∈ reqs → m < numFrames) (n : Nat) (hn : n < numFrames) :
    ∃ st c props, statsServe table ⟨0, 0⟩ reqs = some st ∧
      statsGetFrame table st n = some (⟨c, n⟩, props) ∧
      c < table.length ∧ InScene table c n ∧ (∀ i, InScene table i n → i = c) ∧
      c ≤ n + 1 := by
  have h0 : SceneInv table numFrames ⟨0, 0⟩ := by
    intro j hj
    simp only at hj
    omega
  obtain ⟨st, hst, hinv⟩ := statsServe_inv table numFrames hlast reqs hreq ⟨0, 0⟩ h0
  obtain ⟨c, props, hstep, hfirst⟩ := statsGetFrame_step table numFrames hlast st hinv n hn
  refine ⟨st, c, props, hst, hstep, ?_, firstAfter_inScene hfirst,
    fun i hi => firstAfter_unique hinc hfirst i hi, ?_⟩
  · obtain ⟨⟨e, h1, _⟩, _⟩ := hfirst
    exact (List.getElem?_eq_some_iff.1 h1).1
  · by_cases hc : c = 0
    · omega
    · obtain ⟨e1, h4, h5⟩ := hfirst.2 (c - 1) (by omega)
      have := table_ge_index table hinc (c - 1) e1 h4
      omega

/-- C30, instance: the requests 0, 4, 1, 5, 3 on a table of three scenes,
followed by a request for frame 2. -/
theorem scene_lookup_any_order_witness :
    (sampleScenes.map (fun e => e.1)).Pairwise (fun a b => a < b) ∧
    (sampleScenes.map (fun e => e.1)).getLast? = some 6 ∧
    (∀ m, m ∈ [0, 4, 1, 5, 3] → m < 6) ∧
    statsServe sampleScenes ⟨0, 0⟩ [0, 4, 1, 5, 3] = some ⟨1, 3⟩ ∧
    ∃ st c props, statsServe sampleScenes ⟨0, 0⟩ [0, 4, 1, 5, 3] = some st ∧
      statsGetFrame sampleScenes st 2 = some (⟨c, 2⟩, props) ∧
      c < sampleScenes.length ∧ InScene sampleScenes c 2 ∧
      (∀ i, InScene sampleScenes i 2 → i = c) ∧ c ≤ 2 + 1 :=
  ⟨by decide, rfl, by decide, rfl,
    scene_lookup_any_order sampleScenes 6 (by decide) rfl [0, 4, 1, 5, 3] (by decide) 2
      (by decide)⟩

end DoViBaker
